import Mathlib

/-!
# netstack: a shallow embedding of the IP/RIP/TCP core

Conventions of the embedding.

* Go's fixed-width unsigned integers are natural numbers; every operation that can
  wrap carries its modulus explicitly (`% 256`, `% 65536`, `% 4294967296`).
* A `[]byte` is a `List Nat` whose elements are meant to be below 256.  The capacity of
  a slice is taken equal to its length, so a slice expression that reaches past the
  length is a run-time fault; where the room that `append` leaves behind a slice matters,
  the definition takes the contents of that room as an argument (`spare`).
* A run-time fault (index or slice out of range, nil dereference, division by zero) is
  the `none` of `Option`; an `error` value returned by the Go code is a separate
  component of the result.
* A Go `map` is an association list, listed in the order in which `range` visits it.
* Pointers to interfaces are indices into `Node.LocalInterfaces`; `nil` is `none`.
-/

namespace Netstack

/-! ## Definitions -/

/-- Go slice expression `s[lo:hi]`; the capacity of `s` is taken to be its length. -/
def slice (s : List Nat) (lo hi : Nat) : Option (List Nat) :=
  if lo ≤ hi ∧ hi ≤ s.length then some ((s.drop lo).take (hi - lo)) else none

/-- Go slice expression `s[lo:]`. -/
def sliceFrom (s : List Nat) (lo : Nat) : Option (List Nat) :=
  if lo ≤ s.length then some (s.drop lo) else none

/-- All elements are byte values. -/
def isBytes (s : List Nat) : Prop := ∀ b ∈ s, b < 256

instance (s : List Nat) : Decidable (isBytes s) := by
  unfold isBytes
  infer_instance

/-- An IPv4 `net.IP`: four bytes, or the 16-byte form that `net.ParseIP` returns. -/
def isIPv4 (ip : List Nat) : Prop :=
  (ip.length = 4 ∨ ip.length = 16) ∧ isBytes ip

instance (ip : List Nat) : Decidable (isIPv4 ip) := by
  unfold isIPv4
  infer_instance

namespace util

/-- Constant `MAX_RIP_ENTRIES` of constants.go. -/
def MAX_RIP_ENTRIES : Nat := 64

/-- Constant `INFINITY` of constants.go. -/
def INFINITY : Nat := 16

/-- Constant `DEFAULT_TTL` of constants.go, `uint8(INFINITY)`. -/
def DEFAULT_TTL : Nat := INFINITY % 256

/-- Function `Htons`: the two big-endian bytes of a uint16. -/
def Htons (data : Nat) : List Nat :=
  [data / 256 % 256, data % 256]

/-- Function `Htonl`: the four big-endian bytes of a uint32. -/
def Htonl (data : Nat) : List Nat :=
  [data / 16777216 % 256, data / 65536 % 256, data / 256 % 256, data % 256]

/-- Function `Ntohs`: 0 on fewer than two bytes, else the big-endian uint16
(`b1 | b0 << 8`, which on bytes is `b0 * 256 + b1`). -/
def Ntohs : List Nat → Nat
  | b0 :: b1 :: _ => b0 * 256 + b1
  | _ => 0

/-- Function `Ntohl`: 0 on fewer than four bytes, else the big-endian uint32. -/
def Ntohl : List Nat → Nat
  | b0 :: b1 :: b2 :: b3 :: _ => b0 * 16777216 + b1 * 65536 + b2 * 256 + b3
  | _ => 0

/-- Library call `binary.BigEndian.Uint32`: faults on fewer than four bytes. -/
def Uint32 : List Nat → Option Nat
  | b0 :: b1 :: b2 :: b3 :: _ => some (b0 * 16777216 + b1 * 65536 + b2 * 256 + b3)
  | _ => none

/-- Function `IP2int`: a 16-byte `net.IP` contributes its last four bytes, any other its
first four. -/
def IP2int (ip : List Nat) : Option Nat :=
  if ip.length = 16 then Uint32 (ip.drop 12) else Uint32 ip

/-- Function `Int2IP`: the 4-byte `net.IP` of a uint32. -/
def Int2IP (u : Nat) : List Nat :=
  Htonl u

/-- One iteration of the loop of `util.IPChecksum`, `w` being `Ntohs(data[i:i+2])`:
`checksum += w; if checksum < lastChecksum then checksum += 1`, in uint16. -/
def IPChecksumStep (checksum w : Nat) : Nat :=
  let c := (checksum + w) % 65536
  if c < checksum then (c + 1) % 65536 else c

/-- The loop of `util.IPChecksum` over `data[i:]`.  With one byte left, `data[i:i+2]`
reaches past the length of `data`. -/
def IPChecksumLoop : List Nat → Nat → Option Nat
  | [], checksum => some checksum
  | [_], _ => none
  | b0 :: b1 :: rest, checksum => IPChecksumLoop rest (IPChecksumStep checksum (Ntohs [b0, b1]))

/-- Function `util.IPChecksum`: `^checksum` after the loop. -/
def IPChecksum (data : List Nat) : Option Nat :=
  (IPChecksumLoop data 0).map (fun checksum => checksum ^^^ 0xFFFF)

/-- The loop of `util.IPChecksum` on a slice whose backing array holds `spare` past the
length of the slice.  With one byte left, `data[i:i+2]` is within the capacity exactly
when `spare` is not empty, and its second byte is then the first byte of `spare`. -/
def IPChecksumLoopCap : List Nat → List Nat → Nat → Option Nat
  | [], _, checksum => some checksum
  | [b0], spare, checksum =>
    match spare with
    | [] => none
    | s :: _ => some (IPChecksumStep checksum (Ntohs [b0, s]))
  | b0 :: b1 :: rest, spare, checksum =>
    IPChecksumLoopCap rest spare (IPChecksumStep checksum (Ntohs [b0, b1]))

/-- Function `util.IPChecksum` on a slice with the spare capacity `spare`. -/
def IPChecksumCap (data spare : List Nat) : Option Nat :=
  (IPChecksumLoopCap data spare 0).map (fun checksum => checksum ^^^ 0xFFFF)

/-- Position of the highest set bit of `x`, by halving at most `fuel` times. -/
def floorLog2Fuel : Nat → Nat → Nat
  | 0, _ => 0
  | fuel + 1, x => if x ≥ 2 then floorLog2Fuel fuel (x / 2) + 1 else 0

/-- Position of the highest set bit of a nonzero uint32. -/
def floorLog2 (x : Nat) : Nat :=
  floorLog2Fuel 32 x

/-- Conversion `int(math.Log2(float64(x)))` of a uint32 `x`.  Every uint32 is exact in
float64 and the logarithm is truncated, giving the position of the highest set bit;
`x = 0` gives `-Inf`, whose conversion to `int` is `math.MinInt64` on amd64 and arm64. -/
def intLog2 (x : Nat) : Int :=
  if x = 0 then -9223372036854775808 else (floorLog2 x : Int)

/-- Wrap-around of 64-bit signed arithmetic. -/
def wrapInt64 (z : Int) : Int :=
  (z + 9223372036854775808) % 18446744073709551616 - 9223372036854775808

/-- Function `MaskLen`: `32 - int(math.Log2(float64((^IP2int(mask)) + 1)))`. -/
def MaskLen (mask : List Nat) : Option Int :=
  (IP2int mask).map (fun m => wrapInt64 (32 - intLog2 (((m ^^^ 0xFFFFFFFF) + 1) % 4294967296)))

end util

namespace ip

open util

/-- Struct `IPHeader`. -/
structure IPHeader where
  Version : Nat
  HeaderLength : Nat
  Tos : Nat
  TotalLength : Nat
  Identification : Nat
  Offset : Nat
  Ttl : Nat
  Proto : Nat
  Checksum : Nat
  Src : List Nat
  Dst : List Nat
  Options : List Nat
deriving DecidableEq, Repr

/-- Struct `IPPacket`. -/
structure IPPacket where
  Header : IPHeader
  Data : List Nat
deriving DecidableEq, Repr

/-- Method `IPPacket.Serialize`; faults when `IP2int` does. -/
def Serialize (packet : IPPacket) : Option (List Nat) := do
  let header := packet.Header
  let firstByte := ((header.Version <<< 4) % 256 + header.HeaderLength) % 256
  let buf := [firstByte, header.Tos]
  let buf := buf ++ Htons header.TotalLength
  let buf := buf ++ Htons header.Identification
  let buf := buf ++ Htons header.Offset
  let buf := buf ++ [header.Ttl, header.Proto]
  let buf := buf ++ Htons header.Checksum
  let src ← IP2int header.Src
  let buf := buf ++ Htonl src
  let dst ← IP2int header.Dst
  let buf := buf ++ Htonl dst
  let buf := buf ++ packet.Data
  pure buf

/-- Method `IPPacket.Deserialize`: the packet it stores; `buf[20:]` faults on fewer than
20 bytes. -/
def Deserialize : List Nat → Option IPPacket
  | b0 :: b1 :: b2 :: b3 :: b4 :: b5 :: b6 :: b7 :: b8 :: b9 :: b10 :: b11 :: b12 :: b13 ::
      b14 :: b15 :: b16 :: b17 :: b18 :: b19 :: rest =>
    some
      { Header :=
          { Version := b0 >>> 4
            HeaderLength := b0 &&& 0xF
            Tos := b1
            TotalLength := Ntohs [b2, b3]
            Identification := Ntohs [b4, b5]
            Offset := Ntohs [b6, b7]
            Ttl := b8
            Proto := b9
            Checksum := Ntohs [b10, b11]
            Src := Int2IP (Ntohl [b12, b13, b14, b15])
            Dst := Int2IP (Ntohl [b16, b17, b18, b19])
            Options := [] }
        Data := rest }
  | _ => none

/-- Function `ip.IPChecksum`: `util.IPChecksum(packet.Serialize()[:HeaderLength*4])`, the
product being a uint8. -/
def IPChecksum (packet : IPPacket) : Option Nat := do
  let buf ← Serialize packet
  let data ← slice buf 0 ((packet.Header.HeaderLength * 4) % 256)
  util.IPChecksum data

/-- Function `VerifyIPChecksum`. -/
def VerifyIPChecksum (packet : IPPacket) : Option Bool :=
  (IPChecksum packet).map (fun c => decide (c = 0))

/-- Function `NewIPPacket`. -/
def NewIPPacket (proto : Nat) (data : List Nat) (ttl : Nat) (src dst : List Nat) :
    Option IPPacket := do
  let header : IPHeader :=
    { Version := 4
      HeaderLength := 5
      Tos := 0
      TotalLength := (20 + data.length % 65536) % 65536
      Identification := 0
      Offset := 0
      Ttl := ttl
      Proto := proto
      Checksum := 0
      Src := src
      Dst := dst
      Options := [] }
  let packet : IPPacket := { Header := header, Data := data }
  let csum ← IPChecksum packet
  pure { Header := { header with Checksum := csum }, Data := data }

/-! ### Routing table (node.go, route.go) -/

/-- Struct `Route`, the key of the routing table. -/
structure Route where
  Addr : Nat
  Mask : Nat
deriving DecidableEq, Repr

/-- A `*time.Timer` made by `time.AfterFunc(RIP_ENTRY_TIMEOUT, node.newTimer(route))`:
the key it will expire and whether it is still running (`Stop` clears the flag, `Reset`
sets it). -/
structure Timer where
  route : Route
  running : Bool
deriving DecidableEq, Repr

/-- Struct `Entry`; `Interface` is a pointer (an index into `LocalInterfaces`, or nil)
and `Death` a pointer to a timer (or nil). -/
structure Entry where
  Interface : Option Nat
  Cost : Nat
  Death : Option Timer
deriving DecidableEq, Repr

/-- Struct `Interface` (the UDP target and the lock are left out). -/
structure Interface where
  Port : Nat
  Addr : List Nat
  Remote : List Nat
  Enabled : Bool
deriving DecidableEq, Repr

/-- Struct `Node`: the interfaces, the routing table and the aggregation flag. -/
structure Node where
  LocalInterfaces : List Interface
  RoutingTable : List (Route × Entry)
  Aggregate : Bool
deriving DecidableEq, Repr

/-- The zero value `Entry{}`. -/
def zeroEntry : Entry := ⟨none, 0, none⟩

/-- Map read `node.RoutingTable[route]`. -/
def tableGet : List (Route × Entry) → Route → Option Entry
  | [], _ => none
  | (r, e) :: rest, route => if r = route then some e else tableGet rest route

/-- Map write `node.RoutingTable[route] = entry`. -/
def tableSet (t : List (Route × Entry)) (route : Route) (entry : Entry) :
    List (Route × Entry) :=
  if (tableGet t route).isSome then
    t.map (fun re => if re.1 = route then (re.1, entry) else re)
  else t ++ [(route, entry)]

/-- Map removal `delete(node.RoutingTable, route)`. -/
def tableDelete (t : List (Route × Entry)) (route : Route) : List (Route × Entry) :=
  t.filter (fun re => decide (re.1 ≠ route))

/-- Expression `node.LocalInterfaces[linkID]` as a pointer; faults when out of range. -/
def localInterface (node : Node) (linkID : Nat) : Option Nat :=
  if linkID < node.LocalInterfaces.length then some linkID else none

/-- Method `Node.setRoute`. -/
def setRoute (node : Node) (route : Route) (entry : Entry) : Node :=
  { node with RoutingTable := tableSet node.RoutingTable route entry }

/-- Result of `matchRoute`: the table cell `match` points to (`none` for the fresh
`&Entry{}`), the value `*match`, the flag `*match != Entry{}` and `longestMask`. -/
structure MatchResult where
  cell : Option Route
  entry : Entry
  matched : Bool
  len : Int
deriving DecidableEq, Repr

/-- The `range` loop of `matchRoute` over the remaining table entries, carrying
`match` (cell and value) and `longestMask`. -/
def matchRouteLoop (addr : List Nat) (maxLen : Int) :
    List (Route × Entry) → Option Route × Entry × Int → Option (Option Route × Entry × Int)
  | [], acc => some acc
  | (route, entry) :: rest, (cell, m, longestMask) => do
    let len ← MaskLen (Int2IP route.Mask)
    let a ← IP2int addr
    if a &&& route.Mask = route.Addr &&& route.Mask ∧ len > longestMask ∧ len ≤ maxLen then
      matchRouteLoop addr maxLen rest (some route, entry, len)
    else
      matchRouteLoop addr maxLen rest (cell, m, longestMask)

/-- Method `Node.matchRoute`. -/
def matchRoute (node : Node) (addr : List Nat) (maxLen : Int) : Option MatchResult :=
  (matchRouteLoop addr maxLen node.RoutingTable (none, zeroEntry, 0)).map
    (fun r => ⟨r.1, r.2.1, decide (r.2.1 ≠ zeroEntry), r.2.2⟩)

/-! ### RIP (rip.go) -/

/-- Struct `RIPEntry`. -/
structure RIPEntry where
  Cost : Nat
  Addr : List Nat
  Mask : List Nat
deriving DecidableEq, Repr

/-- Struct `RIPData`. -/
structure RIPData where
  Command : Nat
  Entries : List RIPEntry
deriving DecidableEq, Repr

/-- Function `SerializeRIPEntry`. -/
def SerializeRIPEntry (ripEntry : RIPEntry) : Option (List Nat) := do
  let data := Htonl ripEntry.Cost
  let a ← IP2int ripEntry.Addr
  let data := data ++ Htonl a
  let m ← IP2int ripEntry.Mask
  let data := data ++ Htonl m
  pure data

/-- The loop of `SerializeRIPData` over the entries it visits. -/
def SerializeRIPEntries : List RIPEntry → Option (List Nat)
  | [] => some []
  | entry :: rest => do
    let d ← SerializeRIPEntry entry
    let r ← SerializeRIPEntries rest
    pure (d ++ r)

/-- Function `SerializeRIPData`: the loop breaks at index `MAX_RIP_ENTRIES`. -/
def SerializeRIPData (ripData : RIPData) : Option (List Nat) := do
  let data := Htons ripData.Command ++ Htons (ripData.Entries.length % 65536)
  let body ← SerializeRIPEntries (ripData.Entries.take MAX_RIP_ENTRIES)
  pure (data ++ body)

/-- Function `DeserializeRIPEntry`. -/
def DeserializeRIPEntry (data : List Nat) : Option (Except String RIPEntry) :=
  if data.length < 12 then some (.error "not enough data")
  else do
    let c ← slice data 0 4
    let a ← slice data 4 8
    let m ← slice data 8 12
    pure (.ok ⟨Ntohl c, Int2IP (Ntohl a), Int2IP (Ntohl m)⟩)

/-- The loop of `DeserializeRIPData` from index `i`, with `n` entries still to read. -/
def DeserializeRIPEntries (data : List Nat) : Nat → Nat → Option (Except String (List RIPEntry))
  | _, 0 => some (.ok [])
  | i, n + 1 => do
    let buf ← slice data (4 + i * 12) (4 + (i + 1) * 12)
    let buf12 ← slice buf 0 12
    match ← DeserializeRIPEntry buf12 with
    | .error err => pure (.error err)
    | .ok entry =>
      match ← DeserializeRIPEntries data (i + 1) n with
      | .error err => pure (.error err)
      | .ok rest => pure (.ok (entry :: rest))

/-- Function `DeserializeRIPData`: a fault, the returned error, or the parsed data. -/
def DeserializeRIPData (data : List Nat) : Option (Except String RIPData) := do
  let c ← slice data 0 2
  let n ← slice data 2 4
  let numEntries := Ntohs n
  if numEntries > MAX_RIP_ENTRIES then pure (.error "too many entries")
  else
    match ← DeserializeRIPEntries data 0 numEntries with
    | .error err => pure (.error err)
    | .ok entries => pure (.ok ⟨Ntohs c, entries⟩)

/-- Function `EntryToRIPEntry`. -/
def EntryToRIPEntry (route : Route) (entry : Entry) : RIPEntry :=
  ⟨entry.Cost, Int2IP route.Addr, Int2IP route.Mask⟩

/-- Function `RIPEntryToRoute`. -/
def RIPEntryToRoute (ripEntry : RIPEntry) : Option Route := do
  let a ← IP2int ripEntry.Addr
  let m ← IP2int ripEntry.Mask
  pure ⟨a, m⟩

/-- Method `Node.generateRIPData`. -/
def generateRIPData (node : Node) : RIPData :=
  ⟨2, node.RoutingTable.map (fun re => EntryToRIPEntry re.1 re.2)⟩

/-- The poison-reverse loop that `sendRIPUpdate` and `sendTriggeredUpdate` both run over
`ripData.Entries` for the interface `interf`. -/
def poisonReverse (node : Node) (interf : Nat) : List RIPEntry → Option (List RIPEntry)
  | [] => some []
  | entry :: rest => do
    let route ← RIPEntryToRoute entry
    let entry1 :=
      match tableGet node.RoutingTable route with
      | some rtEntry =>
        if rtEntry.Interface = some interf ∧ entry.Cost ≠ 0 then
          { entry with Cost := INFINITY }
        else entry
      | none => entry
    let rest1 ← poisonReverse node interf rest
    pure (entry1 :: rest1)

/-- Method `Interface.Send`: the datagrams written to the UDP socket, each with the index
of the interface whose target it is sent to. -/
def Send (interf : Interface) (idx : Nat) (packet : IPPacket) :
    Option (List (Nat × List Nat)) :=
  if interf.Enabled then do
    let buf ← Serialize packet
    pure [(idx, buf)]
  else pure []

/-- The RIP response that one iteration of the loop of `sendRIPUpdate` builds for the
interface `interf`, before serialization. -/
def ripUpdateFor (node : Node) (interf : Nat) : Option RIPData := do
  let ripData := generateRIPData node
  let entries ← poisonReverse node interf ripData.Entries
  pure { ripData with Entries := entries }

/-- The RIP response that one iteration of the loop of `sendTriggeredUpdate` builds for
the interface `interf`, before serialization. -/
def triggeredUpdateFor (node : Node) (interf : Nat) (newEntries : List RIPEntry) :
    Option RIPData := do
  let entries ← poisonReverse node interf newEntries
  pure ⟨2, entries⟩

/-- Serialization, packet construction and `interf.Send` that end an iteration of either
update loop. -/
def sendRIPData (interf : Interface) (idx : Nat) (ripData : RIPData) :
    Option (List (Nat × List Nat)) := do
  let data ← SerializeRIPData ripData
  let packet ← NewIPPacket 200 data DEFAULT_TTL interf.Addr interf.Remote
  Send interf idx packet

/-- The loop of `sendRIPUpdate` over the interfaces from index `idx` on. -/
def sendRIPUpdateLoop (node : Node) : Nat → List Interface → Option (List (Nat × List Nat))
  | _, [] => some []
  | idx, interf :: rest => do
    let ripData ← ripUpdateFor node idx
    let out ← sendRIPData interf idx ripData
    let outs ← sendRIPUpdateLoop node (idx + 1) rest
    pure (out ++ outs)

/-- Method `Node.sendRIPUpdate`: the datagrams it writes. -/
def sendRIPUpdate (node : Node) : Option (List (Nat × List Nat)) :=
  sendRIPUpdateLoop node 0 node.LocalInterfaces

/-- The loop of `sendTriggeredUpdate` over the interfaces from index `idx` on. -/
def sendTriggeredUpdateLoop (node : Node) (newEntries : List RIPEntry) :
    Nat → List Interface → Option (List (Nat × List Nat))
  | _, [] => some []
  | idx, interf :: rest => do
    let ripData ← triggeredUpdateFor node idx newEntries
    let out ← sendRIPData interf idx ripData
    let outs ← sendTriggeredUpdateLoop node newEntries (idx + 1) rest
    pure (out ++ outs)

/-- Method `Node.sendTriggeredUpdate`: the datagrams it writes. -/
def sendTriggeredUpdate (node : Node) (newEntries : List RIPEntry) :
    Option (List (Nat × List Nat)) :=
  sendTriggeredUpdateLoop node newEntries 0 node.LocalInterfaces

/-- Call `entry.Death.Stop()` on the entry `matchRoute` returned: a nil timer faults;
otherwise the timer of the table cell the pointer refers to stops running. -/
def stopDeath (node : Node) (m : MatchResult) : Option Node :=
  match m.entry.Death with
  | none => none
  | some t =>
    match m.cell with
    | none => some node
    | some k =>
      some { node with
        RoutingTable := tableSet node.RoutingTable k { m.entry with Death := some { t with running := false } } }

/-- Call `entry.Death.Reset(RIP_ENTRY_TIMEOUT)` on the entry `matchRoute` returned. -/
def resetDeath (node : Node) (m : MatchResult) : Option Node :=
  match m.entry.Death with
  | none => none
  | some t =>
    match m.cell with
    | none => some node
    | some k =>
      some { node with
        RoutingTable := tableSet node.RoutingTable k { m.entry with Death := some { t with running := true } } }

/-- One iteration of the loop of `RIPHandler` over the entries of a RIP response
(command 2) received on interface `linkID`: the node and `entriesDiff` afterwards. -/
def ingestEntry (linkID : Nat) (st : Node × List RIPEntry) (ripEntry : RIPEntry) :
    Option (Node × List RIPEntry) := do
  let node := st.1
  let entriesDiff := st.2
  let route ← RIPEntryToRoute ripEntry
  let routeMaskLen ← MaskLen ripEntry.Mask
  let m ← matchRoute node ripEntry.Addr routeMaskLen
  let cost1 := (ripEntry.Cost + 1) % 4294967296
  if m.matched = false then
    if cost1 ≥ INFINITY then pure st
    else
      let interf ← localInterface node linkID
      let entry : Entry := ⟨some interf, cost1, some ⟨route, true⟩⟩
      pure (setRoute node route entry, entriesDiff ++ [EntryToRIPEntry route entry])
  else if m.entry.Cost = 0 then pure st
  else
    let replace ←
      if cost1 < m.entry.Cost then pure true
      else if cost1 > m.entry.Cost then do
        let interf ← localInterface node linkID
        pure (decide (some interf = m.entry.Interface))
      else pure false
    if replace then
      let node1 ←
        if m.entry.Cost ≠ 0 ∧ m.len = routeMaskLen then stopDeath node m else pure node
      if cost1 ≥ INFINITY then
        pure ({ node1 with RoutingTable := tableDelete node1.RoutingTable route }, entriesDiff)
      else
        let interf ← localInterface node1 linkID
        let entry : Entry := ⟨some interf, cost1, some ⟨route, true⟩⟩
        pure (setRoute node1 route entry, entriesDiff ++ [EntryToRIPEntry route entry])
    else do
      let interf ← localInterface node linkID
      if some interf = m.entry.Interface then
        let node1 ← resetDeath node m
        pure (node1, entriesDiff)
      else pure st

/-- The loop of `RIPHandler` over all entries of a RIP response. -/
def ingest (linkID : Nat) : Node × List RIPEntry → List RIPEntry → Option (Node × List RIPEntry)
  | st, [] => some st
  | st, ripEntry :: rest => do
    let st1 ← ingestEntry linkID st ripEntry
    ingest linkID st1 rest

/-! ### Aggregation (route.go) -/

/-- Function `getSibling`. -/
def getSibling (route : Route) : Route :=
  let bitToFlip := ((route.Mask ^^^ 0xFFFFFFFF) + 1) % 4294967296
  let addr := route.Addr &&& route.Mask
  ⟨addr ^^^ bitToFlip, route.Mask⟩

/-- The test on an existing parent in `AggregateRoutes`: `true` after `parent.Death.Stop()`
(which faults on a nil timer) when the parent is to be replaced, `false` at the `break`. -/
def replacesParent (entry : RIPEntry) (current parent : Entry) : Option Bool :=
  if entry.Cost < parent.Cost ∨
      (entry.Cost > parent.Cost ∧ current.Interface = parent.Interface) then
    parent.Death.map (fun _ => true)
  else some false

/-- The body of the `select` loop of `AggregateRoutes` for one entry taken from the
channel: the node afterwards and the entry pushed to the channel (and appended to
`newEntries`), if any. -/
def aggregateEntry (node : Node) (entry : RIPEntry) : Option (Node × Option RIPEntry) := do
  let ourRoute ← RIPEntryToRoute entry
  let siblingRoute := getSibling ourRoute
  match tableGet node.RoutingTable siblingRoute, tableGet node.RoutingTable ourRoute with
  | some sibling, some current =>
    if sibling.Cost = current.Cost ∧ sibling.Interface = current.Interface then do
      let m ← IP2int entry.Mask
      let parentMask := (m <<< 1) % 4294967296
      let a ← IP2int entry.Addr
      let parentAddr := a &&& parentMask
      let parentRoute : Route := ⟨parentAddr, parentMask⟩
      let proceed ←
        match tableGet node.RoutingTable parentRoute with
        | some parent => replacesParent entry current parent
        | none => some true
      if proceed then
        let newEntry : Entry := ⟨current.Interface, current.Cost, some ⟨parentRoute, true⟩⟩
        let t1 := tableSet node.RoutingTable parentRoute newEntry
        let t2 := tableDelete t1 siblingRoute
        let t3 := tableDelete t2 ourRoute
        pure ({ node with RoutingTable := t3 }, some (EntryToRIPEntry parentRoute newEntry))
      else pure (node, none)
    else pure (node, none)
  | _, _ => pure (node, none)

/-- The `select` loop of `AggregateRoutes`: `queue` is the content of `entryChan`, the
result is the node and `newEntries` when the channel is found empty.  Every pass takes one
entry and a merge removes a key of the table, so `fuel` passes are enough when `fuel`
exceeds the length of the queue plus the size of the table. -/
def aggregateLoop : Nat → Node → List RIPEntry → List RIPEntry → Option (Node × List RIPEntry)
  | 0, _, _, _ => none
  | _ + 1, node, [], newEntries => some (node, newEntries)
  | fuel + 1, node, entry :: queue, newEntries =>
    match aggregateEntry node entry with
    | none => none
    | some (node1, none) => aggregateLoop fuel node1 queue newEntries
    | some (node1, some pushed) =>
      aggregateLoop fuel node1 (queue ++ [pushed]) (newEntries ++ [pushed])

/-- The loop that compiles `entriesDiff` at the end of `AggregateRoutes`. -/
def stillRouted (node : Node) : List RIPEntry → Option (List RIPEntry)
  | [] => some []
  | entry :: rest => do
    let route ← RIPEntryToRoute entry
    let rest1 ← stillRouted node rest
    if (tableGet node.RoutingTable route).isSome then pure (entry :: rest1) else pure rest1

/-- Method `Node.AggregateRoutes`: the node afterwards and the returned diff.  The channel
holds 1024 entries; filling it with more blocks for ever. -/
def AggregateRoutes (node : Node) (newEntries : List RIPEntry) :
    Option (Node × List RIPEntry) :=
  if newEntries.length > 1024 then none
  else do
    let r ← aggregateLoop (newEntries.length + node.RoutingTable.length + 1) node newEntries
      newEntries
    let entriesDiff ← stillRouted r.1 r.2
    pure (r.1, entriesDiff)

/-! ### Sending and receiving (node.go, icmp.go) -/

/-- Constant `MIN_PACKET_SIZE` of constants.go. -/
def MIN_PACKET_SIZE : Nat := 20

/-- Method `Node.SendPacket`: the datagrams written. -/
def SendPacket (node : Node) (packet : IPPacket) : Option (List (Nat × List Nat)) := do
  let m ← matchRoute node packet.Header.Dst 32
  if m.matched then do
    let i ← m.entry.Interface
    let interf ← node.LocalInterfaces[i]?
    Send interf i packet
  else pure []

/-- Method `Node.Send`. -/
def NodeSend (node : Node) (proto : Nat) (data : List Nat) (ttl : Nat) (src dst : List Nat) :
    Option (List (Nat × List Nat)) := do
  let packet ← NewIPPacket proto data ttl src dst
  SendPacket node packet

/-- Struct `ICMPPacket` (`ICMPType` is the field `Type`). -/
structure ICMPPacket where
  ICMPType : Nat
  Code : Nat
  Checksum : Nat
  Data : List Nat
deriving DecidableEq, Repr

/-- Method `ICMPPacket.Serialize`. -/
def ICMPSerialize (packet : ICMPPacket) : List Nat :=
  let data := [packet.ICMPType, packet.Code]
  let data := data ++ Htons packet.Checksum
  let data := data ++ [0, 0, 0, 0]
  data ++ packet.Data

/-- Function `ICMPChecksum`. -/
def ICMPChecksum (packet : ICMPPacket) : Option Nat := do
  let data ← slice (ICMPSerialize packet) 0 8
  util.IPChecksum data

/-- Function `newICMPpacket`. -/
def newICMPpacket (t code : Nat) (data : List Nat) : Option ICMPPacket := do
  let csum ← ICMPChecksum ⟨t, code, 0, data⟩
  pure ⟨t, code, csum, data⟩

/-- Method `Node.sendICMPTimeExceeded`. -/
def sendICMPTimeExceeded (node : Node) (src dst : List Nat) (originalPkt : IPPacket) :
    Option (List (Nat × List Nat)) := do
  let serializedData ← Serialize originalPkt
  if serializedData.length < 28 then pure []
  else do
    let d ← slice serializedData 0 28
    let packet ← newICMPpacket 11 0 d
    NodeSend node 1 (ICMPSerialize packet) DEFAULT_TTL src dst

/-- The prefix `v4InV6Prefix` of package net. -/
def v4InV6Prefix : List Nat := [0, 0, 0, 0, 0, 0, 0, 0, 0, 0, 0xff, 0xff]

/-- Library method `net.IP.Equal`. -/
def ipEqual (ip x : List Nat) : Bool :=
  if ip.length = x.length then decide (ip = x)
  else if ip.length = 4 ∧ x.length = 16 then
    decide (x.take 12 = v4InV6Prefix) && decide (ip = x.drop 12)
  else if ip.length = 16 ∧ x.length = 4 then
    decide (ip.take 12 = v4InV6Prefix) && decide (ip.drop 12 = x)
  else false

/-- The loop of `handleUDPListen` that looks the sender's port up: the index of the first
interface with that port, 0 when there is none. -/
def interfaceByPort : List Interface → Nat → Nat → Nat
  | [], _, _ => 0
  | interf :: rest, port, i =>
    if interf.Port = port then i else interfaceByPort rest port (i + 1)

/-- What one iteration of `handleUDPListen` comes to: the datagram is dropped before any
handler, forwarding or ICMP; the handler registered for the protocol is called; the
datagram is forwarded through `SendPacket`; or its TTL ran out and
`sendICMPTimeExceeded` ran (if the source has a route).  `out` lists the datagrams
written. -/
inductive Receipt where
  | dropped
  | handled (proto : Nat) (packet : IPPacket) (interfNum : Nat)
  | forwarded (packet : IPPacket) (out : List (Nat × List Nat))
  | expired (out : List (Nat × List Nat))
deriving DecidableEq, Repr

/-- The forwarding branch of `handleUDPListen` on a valid packet that no interface
owns. -/
def forward (node : Node) (packet : IPPacket) : Option Receipt := do
  let packet1 : IPPacket :=
    { packet with Header := { packet.Header with Ttl := (packet.Header.Ttl + 255) % 256 } }
  if packet1.Header.Ttl = 0 then do
    let sender := packet1.Header.Src
    let m ← matchRoute node sender 32
    if m.matched = false then pure (Receipt.expired [])
    else do
      let i ← m.entry.Interface
      let interf ← node.LocalInterfaces[i]?
      let out ← sendICMPTimeExceeded node interf.Addr sender packet1
      pure (Receipt.expired out)
  else do
    let packet2 : IPPacket := { packet1 with Header := { packet1.Header with Checksum := 0 } }
    let csum ← IPChecksum packet2
    let packet3 : IPPacket :=
      { packet2 with Header := { packet2.Header with Checksum := csum } }
    let out ← SendPacket node packet3
    pure (Receipt.forwarded packet3 out)

/-- One iteration of the loop of `Node.handleUDPListen` on a datagram `buf` (the `n` bytes
read) received from the UDP port `senderPort`. -/
def handleUDPListen (node : Node) (buf : List Nat) (senderPort : Nat) : Option Receipt :=
  if buf.length < MIN_PACKET_SIZE then some Receipt.dropped
  else do
    let packet ← Deserialize buf
    let interfNum := interfaceByPort node.LocalInterfaces senderPort 0
    let interf ← node.LocalInterfaces[interfNum]?
    if interf.Enabled = false then pure Receipt.dropped
    else do
      let valid ← VerifyIPChecksum packet
      if valid = false then pure Receipt.dropped
      else if node.LocalInterfaces.any (fun inf => ipEqual packet.Header.Dst inf.Addr) then
        pure (Receipt.handled packet.Header.Proto packet interfNum)
      else forward node packet

/-- Assignment `interf.Enabled = flag` through the pointer `node.LocalInterfaces[inum]`. -/
def setEnabled : List Interface → Nat → Bool → List Interface
  | [], _, _ => []
  | interf :: rest, 0, flag => { interf with Enabled := flag } :: rest
  | interf :: rest, i + 1, flag => interf :: setEnabled rest i flag

/-- The entries that the loop of `down` deletes, as it reports them: `entry.Cost` is set
to `INFINITY` before `EntryToRIPEntry`. -/
def downDeleted (table : List (Route × Entry)) (inum : Nat) : List RIPEntry :=
  (table.filter (fun re => decide (re.2.Interface = some inum))).map
    (fun re => EntryToRIPEntry re.1 { re.2 with Cost := INFINITY })

/-- Case `"down"` of `Node.HandleStdin` for the parsed index `inum` (not negative): the
node afterwards and the datagrams written. -/
def down (node : Node) (inum : Nat) : Option (Node × List (Nat × List Nat)) :=
  if inum ≥ node.LocalInterfaces.length then some (node, [])
  else
    let deletedEntries := downDeleted node.RoutingTable inum
    let node1 : Node :=
      { node with
        RoutingTable := node.RoutingTable.filter (fun re => decide (re.2.Interface ≠ some inum))
        LocalInterfaces := setEnabled node.LocalInterfaces inum false }
    if deletedEntries.length > 0 then
      (sendTriggeredUpdate node1 deletedEntries).map (fun out => (node1, out))
    else some (node1, [])

/-- Function `RIPHandler`: the node afterwards, the datagrams written and whether the
returned error is non-nil.  (The debug loop over the entries only evaluates
`RIPEntryToRoute` and `MaskLen` on deserialized, hence 4-byte, addresses.) -/
def RIPHandler (node : Node) (packet : IPPacket) (linkID : Nat) :
    Option (Node × List (Nat × List Nat) × Bool) :=
  match DeserializeRIPData packet.Data with
  | none => none
  | some (.error _) => some (node, [], true)
  | some (.ok ripData) =>
    if ripData.Command = 1 then do
      let outgoingRipData := generateRIPData node
      let interf ← node.LocalInterfaces[linkID]?
      let data ← SerializeRIPData outgoingRipData
      let outgoingPacket ← NewIPPacket 200 data DEFAULT_TTL interf.Addr interf.Remote
      let out ← Send interf linkID outgoingPacket
      pure (node, out, false)
    else if ripData.Command = 2 then do
      let r ← ingest linkID (node, []) ripData.Entries
      if r.2.length > 0 then do
        let r1 ← if r.1.Aggregate then AggregateRoutes r.1 r.2 else pure r
        let out ← sendTriggeredUpdate r1.1 r1.2
        pure (r1.1, out, false)
      else pure (r.1, [], false)
    else some (node, [], true)

/-- The call `node.Handlers[proto](node, packet, interfNum)`, `handlers` listing the
protocol numbers that `RegisterHandler` was called for.  The read of a missing key gives
a nil func, and calling it faults. -/
def callHandler (handlers : List Nat) (proto : Nat) : Option Unit :=
  if proto ∈ handlers then some () else none

/-- One iteration of the loop of `Node.handleUDPListen` with the handler call made: a
fault of the call is a fault of the iteration. -/
def receiveDatagram (node : Node) (handlers : List Nat) (buf : List Nat) (senderPort : Nat) :
    Option Receipt := do
  let r ← handleUDPListen node buf senderPort
  match r with
  | Receipt.handled proto _ _ => do
    callHandler handlers proto
    pure r
  | _ => pure r

/-- Slice expression `s[:hi]` on a slice whose backing array holds `spare` past the length
of `s`: it is legal up to the capacity and then reaches into `spare`. -/
def sliceToCap (s spare : List Nat) (hi : Nat) : Option (List Nat) :=
  if hi ≤ s.length + spare.length then some ((s ++ spare).take hi) else none

/-- Function `ip.IPChecksum` when the buffer that `Serialize` returns has the spare
capacity `spare`. -/
def IPChecksumSpare (packet : IPPacket) (spare : List Nat) : Option Nat := do
  let buf ← Serialize packet
  let data ← sliceToCap buf spare ((packet.Header.HeaderLength * 4) % 256)
  util.IPChecksum data

/-- Slice expression `s[lo:hi]` on a slice whose backing array holds `spare` past the
length of `s`: the bounds are checked against the capacity, and the result reaches into
`spare` past the length. -/
def sliceCap (s spare : List Nat) (lo hi : Nat) : Option (List Nat) :=
  if lo ≤ hi ∧ hi ≤ s.length + spare.length then
    some (((s ++ spare).drop lo).take (hi - lo))
  else none

/-- The loop of `DeserializeRIPData` from index `i`, with `n` entries still to read, on a
payload whose backing array holds `spare` past its length (`packet.Data` is `buf[20:n]` of
the receive buffer of `handleUDPListen`). -/
def DeserializeRIPEntriesCap (data spare : List Nat) :
    Nat → Nat → Option (Except String (List RIPEntry))
  | _, 0 => some (.ok [])
  | i, n + 1 => do
    let buf ← sliceCap data spare (4 + i * 12) (4 + (i + 1) * 12)
    let buf12 ← slice buf 0 12
    match ← DeserializeRIPEntry buf12 with
    | .error err => pure (.error err)
    | .ok entry =>
      match ← DeserializeRIPEntriesCap data spare (i + 1) n with
      | .error err => pure (.error err)
      | .ok rest => pure (.ok (entry :: rest))

/-- Function `DeserializeRIPData` on a payload whose backing array holds `spare` past its
length. -/
def DeserializeRIPDataCap (data spare : List Nat) : Option (Except String RIPData) := do
  let c ← sliceCap data spare 0 2
  let n ← sliceCap data spare 2 4
  let numEntries := Ntohs n
  if numEntries > MAX_RIP_ENTRIES then pure (.error "too many entries")
  else
    match ← DeserializeRIPEntriesCap data spare 0 numEntries with
    | .error err => pure (.error err)
    | .ok entries => pure (.ok ⟨Ntohs c, entries⟩)

/-- Function `RIPHandler` on a packet whose `Data` has the spare capacity `spare`: the node
afterwards, the datagrams written and whether the returned error is non-nil. -/
def RIPHandlerCap (node : Node) (packet : IPPacket) (spare : List Nat) (linkID : Nat) :
    Option (Node × List (Nat × List Nat) × Bool) :=
  match DeserializeRIPDataCap packet.Data spare with
  | none => none
  | some (.error _) => some (node, [], true)
  | some (.ok ripData) =>
    if ripData.Command = 1 then do
      let outgoingRipData := generateRIPData node
      let interf ← node.LocalInterfaces[linkID]?
      let data ← SerializeRIPData outgoingRipData
      let outgoingPacket ← NewIPPacket 200 data DEFAULT_TTL interf.Addr interf.Remote
      let out ← Send interf linkID outgoingPacket
      pure (node, out, false)
    else if ripData.Command = 2 then do
      let r ← ingest linkID (node, []) ripData.Entries
      if r.2.length > 0 then do
        let r1 ← if r.1.Aggregate then AggregateRoutes r.1 r.2 else pure r
        let out ← sendTriggeredUpdate r1.1 r1.2
        pure (r1.1, out, false)
      else pure (r.1, [], false)
    else some (node, [], true)

end ip

namespace tcp

/-! ### Circular receive buffer (circbuff.go) -/

/-- Addition of two uint32 values. -/
def add32 (x y : Nat) : Nat :=
  (x + y) % 4294967296

/-- Subtraction of two uint32 values. -/
def sub32 (x y : Nat) : Nat :=
  (x + 4294967296 - y) % 4294967296

/-- Struct `fragment`. -/
structure fragment where
  start : Nat
  len : Nat
deriving DecidableEq, Repr

/-- Struct `CircBuff`; `waitChan` records whether the wait channel is non-nil, the lock is
left out. -/
structure CircBuff where
  size : Nat
  buff : List Nat
  left : Nat
  next : Nat
  fragments : List fragment
  finRecvd : Bool
  finSeq : Nat
  waitChan : Bool
deriving DecidableEq, Repr

/-- Function `NewCircBuff` (the power-of-two warning is only printed). -/
def NewCircBuff (size startIdx : Nat) : CircBuff :=
  { size := size
    buff := List.replicate size 0
    left := startIdx
    next := startIdx
    fragments := []
    finRecvd := false
    finSeq := 0
    waitChan := false }

/-- Method `CircBuff.setFin`. -/
def setFin (cb : CircBuff) (seqNum : Nat) : CircBuff :=
  { cb with finRecvd := true, finSeq := seqNum, waitChan := false }

/-- Method `CircBuff.GetAckNum`. -/
def GetAckNum (cb : CircBuff) : Nat :=
  if cb.finRecvd = true ∧ cb.next = cb.finSeq then add32 cb.next 1 else cb.next

/-- Method `CircBuff.GetWindowSize`; `% cb.size` faults when the size is 0. -/
def GetWindowSize (cb : CircBuff) : Option Nat :=
  if cb.size = 0 then none
  else
    let lm := cb.left % cb.size
    let nm := if cb.next < cb.left then (sub32 cb.next cb.size) % cb.size else cb.next % cb.size
    if cb.left = cb.next then some cb.size
    else if lm < nm then some (sub32 cb.size (sub32 nm lm))
    else some (sub32 lm nm)

/-- Method `CircBuff.GetReadySize`. -/
def GetReadySize (cb : CircBuff) : Option Nat :=
  (GetWindowSize cb).map (fun w => sub32 cb.size w)

/-- Function `overflows`. -/
def overflows (x y : Nat) : Bool :=
  decide (x > 4294967295 - y)

/-- Function `xor`. -/
def xor (p q : Bool) : Bool :=
  (p && !q) || (!p && q)

/-- The loop of `PushData` that absorbs the leading fragments whose start equals `next`:
the new `next` and the count `last` of fragments absorbed. -/
def collapse : List fragment → Nat → Nat → Nat × Nat
  | [], next, last => (next, last)
  | f :: rest, next, last =>
    if f.start = next then collapse rest (add32 next f.len) (last + 1) else (next, last)

/-- The insertion loop of `PushData` over `cb.fragments[i:]`, `pre` being
`cb.fragments[:i]`.  At the first `f` with `f.start > lIdx` the list becomes
`append(append(cb.fragments[:i], fragment), cb.fragments[i:]...)`: the inner append writes
`fragment` into slot `i` of the shared backing array (there is room, `i < len`), so the
`cb.fragments[i:]` copied behind it starts with `fragment` instead of `f`. -/
def insertLoop (frag : fragment) : List fragment → List fragment → List fragment
  | pre, [] => pre ++ [frag]
  | pre, f :: rest =>
    if f.start > frag.start then (pre ++ [frag]) ++ (frag :: rest)
    else insertLoop frag (pre ++ [f]) rest

/-- Builtin `copy(buff[lo:hi], src)`: the buffer afterwards and the count copied; the
slice expression faults outside `lo ≤ hi ≤ len(buff)`. -/
def copyInto (buff : List Nat) (lo hi : Nat) (src : List Nat) : Option (List Nat × Nat) :=
  if lo ≤ hi ∧ hi ≤ buff.length then
    let n := min (hi - lo) src.length
    some (buff.take lo ++ src.take n ++ buff.drop (lo + n), n)
  else none

/-- The copy at the end of `PushData`: the buffer afterwards and the count `n`. -/
def pushCopy (cb : CircBuff) (lIdx : Nat) (data : List Nat) : Option (List Nat × Nat) :=
  if cb.size = 0 then none
  else
    let dl := data.length % 4294967296
    let rIdxMod := add32 (lIdx % cb.size) (dl % cb.size)
    if lIdx % cb.size < rIdxMod % cb.size then
      copyInto cb.buff (lIdx % cb.size) (rIdxMod % cb.size) data
    else do
      let d1 ← slice data 0 (sub32 cb.size (lIdx % cb.size))
      let r1 ← copyInto cb.buff (lIdx % cb.size) cb.buff.length d1
      let d2 ← sliceFrom data (sub32 cb.size (lIdx % cb.size))
      let r2 ← copyInto r1.1 0 (rIdxMod % cb.size) d2
      pure (r2.1, r1.2 + r2.2)

/-- The update of `next` and `fragments` in `PushData` once the bounds check passed. -/
def pushState (cb : CircBuff) (lIdx : Nat) (dl : Nat) : CircBuff :=
  if lIdx = cb.next then
    let r := collapse cb.fragments (add32 cb.next dl) 0
    { cb with next := r.1, fragments := cb.fragments.drop r.2 }
  else
    { cb with fragments := insertLoop ⟨lIdx, dl⟩ [] cb.fragments }

/-- The bounds check of `PushData`: true when the segment is refused. -/
def pushRejects (cb : CircBuff) (lIdx : Nat) (dl : Nat) : Bool :=
  let rIdxOf := overflows lIdx dl
  let szOf := overflows cb.left cb.size
  let rIdx := add32 lIdx dl
  decide (lIdx < cb.next) || (rIdxOf && !szOf) ||
    (!(xor rIdxOf szOf) && decide (rIdx > add32 cb.left cb.size))

/-- Method `CircBuff.PushData`: the buffer afterwards, `success`, and whether `err` is
non-nil. -/
def PushData (cb : CircBuff) (lIdx : Nat) (data : List Nat) : Option (CircBuff × Bool × Bool) :=
  if data.length = 0 then some (cb, false, false)
  else
    let dl := data.length % 4294967296
    if pushRejects cb lIdx dl = true then some (cb, false, false)
    else
      let cb1 := pushState cb lIdx dl
      match pushCopy cb1 lIdx data with
      | none => none
      | some (buff, n) =>
        if n ≠ data.length then some ({ cb1 with buff := buff }, false, true)
        else some ({ cb1 with buff := buff, waitChan := false }, true, false)

/-- What a call of `PullData` comes to: bytes with a nil error, `io.EOF`, another error,
or the caller parked on a fresh wait channel until a push or a FIN wakes it. -/
inductive PullOutcome where
  | ok (data : List Nat)
  | eof
  | err
  | blocked
deriving DecidableEq, Repr

/-- Method `CircBuff.PullData`, up to the point where it returns or parks. -/
def PullData (cb : CircBuff) (n : Nat) : Option (CircBuff × PullOutcome) :=
  if n = 0 then some (cb, .ok [])
  else if cb.finRecvd = true ∧ cb.finSeq = cb.left then some (cb, .eof)
  else
    match GetReadySize cb with
    | none => none
    | some readySize =>
      if readySize = 0 then some ({ cb with waitChan := true }, .blocked)
      else
        let n1 := if n > readySize then readySize else n
        let lIdx := cb.left % cb.size
        let res :=
          if add32 lIdx n1 ≤ cb.size then slice cb.buff lIdx (add32 lIdx n1)
          else
            (sliceFrom cb.buff lIdx).bind (fun a =>
              (slice cb.buff 0 ((add32 lIdx n1) % cb.size)).map (fun b => a ++ b))
        match res with
        | none => none
        | some bytes =>
          if bytes.length ≠ n1 then some (cb, .err)
          else some ({ cb with left := add32 cb.left n1 }, .ok bytes)

/-! ### Segments (packet.go) -/

/-- Constant `F_FIN`. -/
def F_FIN : Nat := 1

/-- Constant `F_SYN`. -/
def F_SYN : Nat := 2

/-- Constant `F_RST`. -/
def F_RST : Nat := 4

/-- Constant `F_PSH`. -/
def F_PSH : Nat := 8

/-- Constant `F_ACK`. -/
def F_ACK : Nat := 16

/-- Constant `F_URG`. -/
def F_URG : Nat := 32

/-- Constant `F_ECE`. -/
def F_ECE : Nat := 64

/-- Constant `F_CWR`. -/
def F_CWR : Nat := 128

/-- Constant `F_NS`. -/
def F_NS : Nat := 256

/-- Constant `TCP_WINDOW_SIZE` of constants.go. -/
def TCP_WINDOW_SIZE : Nat := 32768

/-- Struct `TCPPacket`. -/
structure TCPPacket where
  srcPort : Nat
  srcAddr : List Nat
  destPort : Nat
  destAddr : List Nat
  seqNum : Nat
  ackNum : Nat
  offset : Nat
  flags : Nat
  winSize : Nat
  checksum : Nat
  urgent : Nat
  options : List Nat
  data : List Nat
deriving DecidableEq, Repr

/-- Method `TCPPacket.Serialize`; `t` is `(uint16(offset) << 12) | flags`. -/
def Serialize (packet : TCPPacket) : List Nat :=
  let buf := util.Htons packet.srcPort
  let buf := buf ++ util.Htons packet.destPort
  let buf := buf ++ util.Htonl packet.seqNum
  let buf := buf ++ util.Htonl packet.ackNum
  let t := ((packet.offset <<< 12) % 65536) ||| packet.flags
  let buf := buf ++ util.Htons t
  let buf := buf ++ util.Htons packet.winSize
  let buf := buf ++ util.Htons packet.checksum
  let buf := buf ++ util.Htons packet.urgent
  let buf := buf ++ packet.options
  buf ++ packet.data

/-- Method `TCPPacket.Deserialize`: the packet after the call (the addresses are not
written).  The fixed fields fault on fewer than 20 bytes, `buf[20 : offset*4]` and
`buf[offset*4:]` when `offset*4` (a uint8) is below 20 or past the length. -/
def Deserialize (packet : TCPPacket) : List Nat → Option TCPPacket
  | b0 :: b1 :: b2 :: b3 :: b4 :: b5 :: b6 :: b7 :: b8 :: b9 :: b10 :: b11 :: b12 :: b13 ::
      b14 :: b15 :: b16 :: b17 :: b18 :: b19 :: rest => do
    let buf := b0 :: b1 :: b2 :: b3 :: b4 :: b5 :: b6 :: b7 :: b8 :: b9 :: b10 :: b11 ::
      b12 :: b13 :: b14 :: b15 :: b16 :: b17 :: b18 :: b19 :: rest
    let offset := b12 >>> 4
    let options ← slice buf 20 ((offset * 4) % 256)
    let data ← sliceFrom buf ((offset * 4) % 256)
    pure
      { packet with
        srcPort := util.Ntohs [b0, b1]
        destPort := util.Ntohs [b2, b3]
        seqNum := util.Ntohl [b4, b5, b6, b7]
        ackNum := util.Ntohl [b8, b9, b10, b11]
        offset := offset
        flags := util.Ntohs [b12, b13] &&& 0b1111111
        winSize := util.Ntohs [b14, b15]
        checksum := util.Ntohs [b16, b17]
        urgent := util.Ntohs [b18, b19]
        options := options
        data := data }
  | _ => none

/-- The buffer that `TCPChecksum` assembles: pseudo-header, then the segment. -/
def checksumBuffer (packet : TCPPacket) : Option (List Nat) := do
  let data := Serialize packet
  let src ← util.IP2int packet.srcAddr
  let buf := util.Htonl src
  let dst ← util.IP2int packet.destAddr
  let buf := buf ++ util.Htonl dst
  let buf := buf ++ [0]
  let buf := buf ++ [6]
  let buf := buf ++ util.Htons (data.length % 65536)
  pure (buf ++ data)

/-- Function `TCPChecksum`.  `spare` is what the backing array of the assembled buffer
holds past its length (`append` may leave room there); `util.IPChecksum` reads one byte
of it when the buffer has odd length. -/
def TCPChecksum (packet : TCPPacket) (spare : List Nat) : Option Nat := do
  let buf ← checksumBuffer packet
  util.IPChecksumCap buf spare

/-- Function `VerifyTCPChecksum`. -/
def VerifyTCPChecksum (packet : TCPPacket) (spare : List Nat) : Option Bool :=
  (TCPChecksum packet spare).map (fun c => decide (c = 0))

/-- Method `isFin`. -/
def isFin (packet : TCPPacket) : Bool := decide (packet.flags &&& F_FIN ≠ 0)

/-- Method `isSyn`. -/
def isSyn (packet : TCPPacket) : Bool := decide (packet.flags &&& F_SYN ≠ 0)

/-- Method `isRst`. -/
def isRst (packet : TCPPacket) : Bool := decide (packet.flags &&& F_RST ≠ 0)

/-- Method `isPsh`. -/
def isPsh (packet : TCPPacket) : Bool := decide (packet.flags &&& F_PSH ≠ 0)

/-- Method `isAck`. -/
def isAck (packet : TCPPacket) : Bool := decide (packet.flags &&& F_ACK ≠ 0)

/-- Method `isUrg`. -/
def isUrg (packet : TCPPacket) : Bool := decide (packet.flags &&& F_URG ≠ 0)

/-- Method `isEce`. -/
def isEce (packet : TCPPacket) : Bool := decide (packet.flags &&& F_ECE ≠ 0)

/-- Method `isCwr`. -/
def isCwr (packet : TCPPacket) : Bool := decide (packet.flags &&& F_CWR ≠ 0)

/-- Method `isNs`. -/
def isNs (packet : TCPPacket) : Bool := decide (packet.flags &&& F_NS ≠ 0)

/-! ### Connections (conn.go, retransmitter.go, state.go) -/

/-- Type `TCPState`. -/
inductive TCPState where
  | S_LISTEN
  | S_SYN_RCVD
  | S_SYN_SENT
  | S_ESTABLISHED
  | S_FIN_WAIT_1
  | S_FIN_WAIT_2
  | S_CLOSE_WAIT
  | S_CLOSING
  | S_CLOSED
  | S_LAST_ACK
  | S_TIME_WAIT
deriving DecidableEq, Repr

/-- Struct `Retransmitter` (the time stamp `sent` is left out). -/
structure Retransmitter where
  pkt : TCPPacket
  firstSeqNum : Nat
  len : Nat
  retried : Nat
  acked : Bool
deriving DecidableEq, Repr

/-- What a connection hands to its environment: a segment given to
`c.driver.node.Send(6, pkt.Serialize(), ...)`, a segment put on `c.sendBuffer`, the
goroutines it starts, the timer of TIME_WAIT, and the wake-ups of writers and of
`Accept`. -/
inductive Effect where
  | send (pkt : TCPPacket)
  | enqueue (pkt : TCPPacket)
  | goSynRetry (seqnum : Nat)
  | goSendControlMsg (flags : Nat) (inc : Bool)
  | timeWaitTimer
  | broadcast
  | ready
deriving DecidableEq, Repr

/-- Struct `Conn`: the fields the state machine and the send and receive threads use.
`readyConns` says whether the channel is non-nil, `receiveBuffer` is a pointer, `out`
lists the effects so far, oldest first; the locks, the driver and the round-trip
estimator are left out. -/
structure Conn where
  localAddr : List Nat
  localPort : Nat
  remoteAddr : List Nat
  remotePort : Nat
  state : TCPState
  readyConns : Bool
  sentBuffer : List Retransmitter
  seqNum : Nat
  remoteWinSize : Nat
  remoteAckNum : Nat
  numDupeAcks : Nat
  receiveBuffer : Option CircBuff
  canRead : Bool
  canWrite : Bool
  out : List Effect
deriving DecidableEq, Repr

/-- The `ackNum` and `winSize` that `NewTCPPacket` takes from the receive buffer: both 0
when there is none, else `GetAckNum` and `uint16(GetWindowSize)`. -/
def ackAndWindow (c : Conn) : Option (Nat × Nat) :=
  match c.receiveBuffer with
  | none => some (0, 0)
  | some cb => (GetWindowSize cb).map (fun w => (GetAckNum cb, w % 65536))

/-- Method `Conn.NewTCPPacket`; `spare` as in `TCPChecksum`. -/
def NewTCPPacket (c : Conn) (srcAddr destAddr data options : List Nat) (flags seqNum : Nat)
    (spare : List Nat) : Option TCPPacket := do
  let aw ← ackAndWindow c
  let packet : TCPPacket :=
    { srcPort := c.localPort
      srcAddr := srcAddr
      destPort := c.remotePort
      destAddr := destAddr
      seqNum := seqNum
      ackNum := aw.1
      offset := (5 + (options.length / 4) % 256) % 256
      flags := flags
      winSize := aw.2
      checksum := 0
      urgent := 0
      options := options
      data := data }
  let csum ← TCPChecksum packet spare
  pure { packet with checksum := csum }

/-- Method `Conn.sendControlMsgManually`.  The segment carries no data, so its checksum
buffer has even length and nothing past it is read. -/
def sendControlMsgManually (c : Conn) (flags seqnum : Nat) (inc : Bool) : Option Conn := do
  let pkt ← NewTCPPacket c c.localAddr c.remoteAddr [] [] flags seqnum []
  let c1 := { c with out := c.out ++ [Effect.send pkt] }
  if inc then pure { c1 with seqNum := add32 c1.seqNum 1 } else pure c1

/-- Method `Conn.sendControlMsg`, which `triggerClose` starts as a goroutine. -/
def sendControlMsg (c : Conn) (flags : Nat) (inc : Bool) : Option Conn := do
  let pkt ← NewTCPPacket c c.localAddr c.remoteAddr [] [] flags c.seqNum []
  let c1 := { c with out := c.out ++ [Effect.enqueue pkt] }
  if inc then pure { c1 with seqNum := add32 c1.seqNum 1 } else pure c1

/-- Method `Conn.sendAck`. -/
def sendAck (c : Conn) : Option Conn := do
  let packet ← NewTCPPacket c c.localAddr c.remoteAddr [] [] F_ACK c.seqNum []
  pure { c with out := c.out ++ [Effect.send packet] }

/-- Method `Conn.initiateRto`. -/
def initiateRto (c : Conn) (pkt : TCPPacket) : Conn :=
  { c with
    sentBuffer := c.sentBuffer ++
      [⟨pkt, pkt.seqNum, pkt.data.length % 4294967296, 0, false⟩] }

/-- Method `Conn.allAcked`. -/
def allAcked (c : Conn) (packet : TCPPacket) : Bool :=
  decide (packet.ackNum = c.seqNum)

/-- Method `Conn.handleListen`. -/
def handleListen (c : Conn) (packet : TCPPacket) : Option Conn :=
  if isSyn packet then do
    let c1 := { c with
      receiveBuffer := some (NewCircBuff TCP_WINDOW_SIZE (add32 packet.seqNum 1))
      state := TCPState.S_SYN_RCVD }
    let seqnum := c1.seqNum
    let c2 ← sendControlMsgManually c1 (F_SYN ||| F_ACK) seqnum true
    pure { c2 with out := c2.out ++ [Effect.goSynRetry seqnum] }
  else pure c

/-- The tail shared by the two ways into ESTABLISHED: `canWrite`, the broadcast and the
hand-over to `Accept`. -/
def established (c : Conn) : Conn :=
  let c1 := { c with
    state := TCPState.S_ESTABLISHED
    canWrite := true
    out := c.out ++ [Effect.broadcast] }
  if c1.readyConns then { c1 with out := c1.out ++ [Effect.ready] } else c1

/-- Method `Conn.handleSynRcvd`. -/
def handleSynRcvd (c : Conn) (packet : TCPPacket) : Option Conn :=
  if isAck packet && allAcked c packet then pure (established c) else pure c

/-- Method `Conn.handleSynSent`. -/
def handleSynSent (c : Conn) (packet : TCPPacket) : Option Conn :=
  if isSyn packet && isAck packet && allAcked c packet then do
    let c1 := { c with
      receiveBuffer := some (NewCircBuff TCP_WINDOW_SIZE (add32 packet.seqNum 1)) }
    let c2 ← sendAck c1
    pure (established c2)
  else if isSyn packet && !isAck packet then do
    let c1 := { c with
      receiveBuffer := some (NewCircBuff TCP_WINDOW_SIZE (add32 packet.seqNum 1)) }
    let c2 ← sendAck c1
    pure { c2 with state := TCPState.S_SYN_RCVD }
  else pure c

/-- Call `c.receiveBuffer.setFin(seqNum)`; a nil buffer faults. -/
def recordFin (c : Conn) (seqNum : Nat) : Option Conn :=
  c.receiveBuffer.map (fun cb => { c with receiveBuffer := some (setFin cb seqNum) })

/-- Method `Conn.handleEstablished`. -/
def handleEstablished (c : Conn) (packet : TCPPacket) : Option Conn :=
  if isFin packet then do
    let c1 ← recordFin c packet.seqNum
    let c2 ← sendAck c1
    pure { c2 with state := TCPState.S_CLOSE_WAIT }
  else pure c

/-- Method `Conn.triggerClose`. -/
def triggerClose (c : Conn) : Conn :=
  if c.state = TCPState.S_ESTABLISHED then
    { c with
      out := c.out ++ [Effect.goSendControlMsg (F_ACK ||| F_FIN) true]
      state := TCPState.S_FIN_WAIT_1 }
  else if c.state = TCPState.S_CLOSE_WAIT then
    { c with
      out := c.out ++ [Effect.goSendControlMsg (F_ACK ||| F_FIN) true]
      state := TCPState.S_LAST_ACK }
  else if c.state = TCPState.S_SYN_RCVD then
    { c with
      out := c.out ++ [Effect.goSendControlMsg (F_ACK ||| F_FIN) true]
      state := TCPState.S_FIN_WAIT_1 }
  else if c.state = TCPState.S_SYN_SENT then
    { c with state := TCPState.S_CLOSED }
  else c

/-- Method `Conn.handleFinWait1`. -/
def handleFinWait1 (c : Conn) (packet : TCPPacket) : Option Conn :=
  if isFin packet then do
    let c1 ← recordFin c packet.seqNum
    pure { c1 with state := TCPState.S_CLOSING }
  else if isAck packet && allAcked c packet then
    pure { c with state := TCPState.S_FIN_WAIT_2 }
  else pure c

/-- Method `Conn.handleFinWait2`. -/
def handleFinWait2 (c : Conn) (packet : TCPPacket) : Option Conn :=
  if isFin packet then do
    let c1 ← recordFin c packet.seqNum
    let c2 ← sendAck c1
    pure { c2 with state := TCPState.S_TIME_WAIT, out := c2.out ++ [Effect.timeWaitTimer] }
  else pure c

/-- Method `Conn.handleCloseWait`. -/
def handleCloseWait (c : Conn) (_packet : TCPPacket) : Option Conn :=
  pure c

/-- Method `Conn.handleClosing`. -/
def handleClosing (c : Conn) (packet : TCPPacket) : Option Conn :=
  if isAck packet && allAcked c packet then
    pure { c with state := TCPState.S_TIME_WAIT, out := c.out ++ [Effect.timeWaitTimer] }
  else pure c

/-- Method `Conn.handleLastAck`. -/
def handleLastAck (c : Conn) (packet : TCPPacket) : Option Conn :=
  if isAck packet && allAcked c packet then pure { c with state := TCPState.S_CLOSED }
  else pure c

/-- Method `Conn.handleTimeWait`. -/
def handleTimeWait (c : Conn) (_packet : TCPPacket) : Option Conn :=
  pure c

/-- The loop of `StateMachine` that marks the retransmitters the packet acknowledges. -/
def ackSent (sentBuffer : List Retransmitter) (packet : TCPPacket) : List Retransmitter :=
  sentBuffer.map (fun rt =>
    if add32 rt.firstSeqNum rt.len ≤ packet.ackNum ∧ rt.acked = false then
      { rt with acked := true }
    else rt)

/-- The loop of the fast-retransmit branch: `rt.execute()` on the first retransmitter
whose `firstSeqNum` is the packet's ack number. -/
def fastRetransmit : List Retransmitter → TCPPacket → List Effect
  | [], _ => []
  | rt :: rest, packet =>
    if packet.ackNum = rt.firstSeqNum then [Effect.send rt.pkt] else fastRetransmit rest packet

/-- The part of `StateMachine` before the `switch`: the update of `remoteAckNum` and
`remoteWinSize`, the acknowledged retransmitters, the duplicate-ack count and the fast
retransmit.  The flag says whether the fast-retransmit branch was entered. -/
def trackAcks (c : Conn) (packet : TCPPacket) : Conn × Bool :=
  let currAckNum := c.remoteAckNum
  let seqNum := c.seqNum
  let c1 : Conn :=
    if currAckNum = 0 ∨ (currAckNum < packet.ackNum ∧ packet.ackNum ≤ seqNum) ∨
        (seqNum < currAckNum ∧ ¬ (seqNum < packet.ackNum ∧ packet.ackNum ≤ currAckNum)) then
      { c with remoteAckNum := packet.ackNum, remoteWinSize := packet.winSize }
    else c
  let c2 : Conn := { c1 with sentBuffer := ackSent c1.sentBuffer packet }
  let c3 : Conn :=
    if packet.ackNum = currAckNum then
      let c21 : Conn := { c2 with numDupeAcks := add32 c2.numDupeAcks 1 }
      if packet.winSize > c21.remoteWinSize % 65536 then
        { c21 with remoteWinSize := packet.winSize }
      else c21
    else c2
  if c3.numDupeAcks = 3 then
    ({ c3 with
      numDupeAcks := add32 c3.numDupeAcks 1
      out := c3.out ++ fastRetransmit c3.sentBuffer packet }, true)
  else (c3, false)

/-- The `switch` of `StateMachine`.  No case names `S_CLOSED`. -/
def dispatch (c : Conn) (packet : TCPPacket) : Option Conn :=
  match c.state with
  | TCPState.S_LISTEN => handleListen c packet
  | TCPState.S_SYN_RCVD => handleSynRcvd c packet
  | TCPState.S_SYN_SENT => handleSynSent c packet
  | TCPState.S_ESTABLISHED => handleEstablished c packet
  | TCPState.S_FIN_WAIT_1 => handleFinWait1 c packet
  | TCPState.S_FIN_WAIT_2 => handleFinWait2 c packet
  | TCPState.S_CLOSE_WAIT => handleCloseWait c packet
  | TCPState.S_CLOSING => handleClosing c packet
  | TCPState.S_LAST_ACK => handleLastAck c packet
  | TCPState.S_TIME_WAIT => handleTimeWait c packet
  | TCPState.S_CLOSED => pure c

/-- Method `Conn.StateMachine`. -/
def StateMachine (c : Conn) (packet : TCPPacket) : Option Conn :=
  dispatch (trackAcks c packet).1 packet

/-- One iteration of `Conn.receiveThread` on the segment taken from the mailbox; the
error of `PushData` is dropped. -/
def receiveStep (c : Conn) (pkt : TCPPacket) : Option Conn := do
  let c1 ←
    if pkt.data.length > 0 then do
      let cb ← c.receiveBuffer
      let r ← PushData cb pkt.seqNum pkt.data
      sendAck { c with receiveBuffer := some r.1 }
    else pure c
  StateMachine c1 pkt

/-- Expression `lastWinSize - (currSeq - lastAcked)` of `sendThread`, in uint32. -/
def availableSpace (lastWinSize currSeq lastAcked : Nat) : Nat :=
  sub32 lastWinSize (sub32 currSeq lastAcked)

/-- One iteration of `Conn.sendThread` on the segment taken from `sendBuffer`, up to the
choice of the branch: either the segment is sent at once and a retransmitter registered
(flag true), or the thread enters the zero-window probing loop (flag false), which is not
followed further. -/
def sendStep (c : Conn) (pkt : TCPPacket) : Conn × Bool :=
  let toSend := pkt.data.length % 4294967296
  let currSeq := pkt.seqNum
  let lastAcked := c.remoteAckNum
  let lastWinSize := c.remoteWinSize
  if availableSpace lastWinSize currSeq lastAcked ≤ toSend then (c, false)
  else (initiateRto { c with out := c.out ++ [Effect.send pkt] } pkt, true)

/-! ### Retransmission worker (conn.go) -/

/-- The loop of one wake of `Conn.retransmitThread`, after the sleep: the sent buffer
afterwards and the segments handed to the network by `rt.execute()`.  Leading acked records
are cut off; the first unacked record is executed, its `retried` incremented (uint32), and
`append(c.sentBuffer[1:], rt)` puts it behind the others. -/
def retransmitWake : List Retransmitter → List Retransmitter × List Effect
  | [] => ([], [])
  | rt :: rest =>
    if rt.acked = false then
      (rest ++ [{ rt with retried := add32 rt.retried 1 }], [Effect.send rt.pkt])
    else retransmitWake rest

/-! ### Round-trip samples (retransmitter.go, conn.go, state.go) -/

/-- The zero value of `time.Time`, January 1 of year 1, 00:00 UTC, in nanoseconds from the
Unix epoch. -/
def zeroTime : Int := -62135596800000000000

/-- Method `Time.Sub` on wall-clock readings in nanoseconds: the `Duration` is an int64 and
the difference saturates at its ends. -/
def timeSub (t u : Int) : Int :=
  if t - u > 9223372036854775807 then 9223372036854775807
  else if t - u < -9223372036854775808 then -9223372036854775808
  else t - u

/-- The fields of a `Retransmitter` that the round-trip sample depends on. -/
structure SentRecord where
  firstSeqNum : Nat
  len : Nat
  retried : Nat
  sent : Int
  acked : Bool
deriving DecidableEq, Repr

/-- The record that `initiateRto` appends for `pkt`: the composite literal names `c`,
`pkt`, `firstSeqNum`, `len` and `retried`, so `sent` and `acked` have their zero values. -/
def newSentRecord (pkt : TCPPacket) : SentRecord :=
  ⟨pkt.seqNum, pkt.data.length % 4294967296, 0, zeroTime, false⟩

/-- The assignment `rt.sent = time.Now()` of `rt.execute()` at the time `now`. -/
def executeAt (rt : SentRecord) (now : Int) : SentRecord :=
  { rt with sent := now }

/-- The loop of `StateMachine` over `c.sentBuffer` at the time `now`: the records
afterwards and the samples `time.Since(rt.sent).Nanoseconds()` given to `c.srtt.AddPoint`
(before their conversion to float64), in order. -/
def ackSamples : List SentRecord → Nat → Int → List SentRecord × List Int
  | [], _, _ => ([], [])
  | rt :: rest, ackNum, now =>
    let r := ackSamples rest ackNum now
    if add32 rt.firstSeqNum rt.len ≤ ackNum ∧ rt.acked = false then
      ({ rt with acked := true } :: r.1,
        if rt.retried = 0 then timeSub now rt.sent :: r.2 else r.2)
    else (rt :: r.1, r.2)

/-! ### Socket table (driver.go) -/

/-- Struct `ConnID`. -/
structure ConnID where
  localAddr : Nat
  localPort : Nat
  remoteAddr : Nat
  remotePort : Nat
deriving DecidableEq, Repr

/-- Struct `Driver`: the port counter and the three tables, a `*Conn` or `*Listener` being
the index of the object (the node and the lock are left out). -/
structure Driver where
  nextPort : Nat
  connTable : List (ConnID × Nat)
  listTable : List (ConnID × Nat)
  socketTable : List ConnID
deriving DecidableEq, Repr

/-- The flag `found` of a map read `_, found := m[id]`. -/
def found (m : List (ConnID × Nat)) (id : ConnID) : Bool :=
  m.any (fun kv => decide (kv.1 = id))

/-- The loop of `createSocket` over `d.socketTable[sk:]`: the index at which it stores the
identity and returns, if it does. -/
def createSocketLoop (d : Driver) : List ConnID → Nat → Option Nat
  | [], _ => none
  | cid :: rest, sk =>
    if found d.connTable cid then createSocketLoop d rest (sk + 1)
    else if found d.listTable cid then createSocketLoop d rest (sk + 1)
    else some sk

/-- Method `Driver.createSocket`: the driver afterwards and the index returned. -/
def createSocket (d : Driver) (id : ConnID) : Driver × Nat :=
  match createSocketLoop d d.socketTable 0 with
  | some sk => ({ d with socketTable := d.socketTable.set sk id }, sk)
  | none => ({ d with socketTable := d.socketTable ++ [id] }, d.socketTable.length)

end tcp

/-! ### Specification-side vocabulary for the receive buffer -/

/-- Successive in-order pushes: each segment is pushed at the current `next`. -/
def pushInOrder : tcp.CircBuff → List (List Nat) → Option tcp.CircBuff
  | cb, [] => some cb
  | cb, data :: rest =>
    match tcp.PushData cb cb.next data with
    | none => none
    | some r => pushInOrder r.1 rest

/-- Successive `PullData` calls with the requests `ns`, each on the buffer the previous
call left: the chunks returned, up to the first call that finds no ready data and parks.
A fault, an error or EOF gives `none`. -/
def runPulls : tcp.CircBuff → List Nat → Option (List (List Nat))
  | _, [] => some []
  | cb, n :: rest =>
    match tcp.PullData cb n with
    | some (cb1, .ok bytes) => (runPulls cb1 rest).map (fun l => bytes :: l)
    | some (_, .blocked) => some []
    | _ => none

/-- The consecutive chunks of `data` of the requested sizes `ns`, until `data` is used
up. -/
def chunks : List Nat → List Nat → List (List Nat)
  | _, [] => []
  | data, n :: rest => if data = [] then [] else data.take n :: chunks (data.drop n) rest

/-! ### Specification-side vocabulary for the connection state machine -/

/-- The handshake table: the state after a segment `p` is processed in LISTEN, SYN_SENT
or SYN_RCVD by a connection whose next sequence number to send is `sendSeq`. -/
def handshakeNext (s : tcp.TCPState) (p : tcp.TCPPacket) (sendSeq : Nat) : tcp.TCPState :=
  match s with
  | .S_LISTEN => if tcp.isSyn p = true then .S_SYN_RCVD else s
  | .S_SYN_SENT =>
    if tcp.isSyn p = true ∧ tcp.isAck p = true ∧ p.ackNum = sendSeq then .S_ESTABLISHED
    else if tcp.isSyn p = true ∧ tcp.isAck p = false then .S_SYN_RCVD
    else s
  | .S_SYN_RCVD =>
    if tcp.isAck p = true ∧ p.ackNum = sendSeq then .S_ESTABLISHED else s
  | _ => s

/-- The teardown table: the state after a segment `p` is processed in ESTABLISHED,
FIN_WAIT_1, FIN_WAIT_2, CLOSING, LAST_ACK or CLOSE_WAIT. -/
def teardownNext (s : tcp.TCPState) (p : tcp.TCPPacket) (sendSeq : Nat) : tcp.TCPState :=
  match s with
  | .S_ESTABLISHED => if tcp.isFin p = true then .S_CLOSE_WAIT else s
  | .S_FIN_WAIT_1 =>
    if tcp.isFin p = true then .S_CLOSING
    else if tcp.isAck p = true ∧ p.ackNum = sendSeq then .S_FIN_WAIT_2
    else s
  | .S_FIN_WAIT_2 => if tcp.isFin p = true then .S_TIME_WAIT else s
  | .S_CLOSING => if tcp.isAck p = true ∧ p.ackNum = sendSeq then .S_TIME_WAIT else s
  | .S_LAST_ACK => if tcp.isAck p = true ∧ p.ackNum = sendSeq then .S_CLOSED else s
  | _ => s

/-- For each segment of a sequence fed to `StateMachine` in turn, whether the
fast-retransmit branch was entered on it. -/
def fastRetransmits : tcp.Conn → List tcp.TCPPacket → Option (List Bool)
  | _, [] => some []
  | c, p :: rest =>
    match tcp.StateMachine c p with
    | none => none
    | some c1 => (fastRetransmits c1 rest).map (fun l => (tcp.trackAcks c p).2 :: l)

/-- The fragments form a run from `start`: the first starts at `start` and each next one
starts where the previous one ends (uint32 arithmetic). -/
def runFrom : Nat → List tcp.fragment → Prop
  | _, [] => True
  | start, f :: rest => f.start = start ∧ runFrom (tcp.add32 f.start f.len) rest

/-- Total length of a list of fragments. -/
def totalLen (fs : List tcp.fragment) : Nat :=
  (fs.map (fun f => f.len)).sum

/-! ### Specification-side vocabulary for the Internet checksum -/

/-- The big-endian 16-bit words of a byte sequence (a trailing odd byte is left out). -/
def beWords : List Nat → List Nat
  | b0 :: b1 :: rest => (b0 * 256 + b1) :: beWords rest
  | _ => []

/-- The datagram `buf` with bit `i` flipped, the bits being numbered in transmission
order: bit `i` is in byte `i / 8`, bit 0 of a byte being its most significant bit. -/
def flipBit (buf : List Nat) (i : Nat) : List Nat :=
  buf.set (i / 8) (buf.getD (i / 8) 0 ^^^ 2 ^ (7 - i % 8))

/-! ### Specification-side vocabulary for routes -/

/-- Number of set bits among the 32 bits of a mask. -/
def popcount (m : Nat) : Nat :=
  ((List.range 32).filter (fun i => m.testBit i)).length

/-- A contiguous-ones mask: its set bits are exactly the top `popcount` of 32 bits. -/
def contiguousMask (m : Nat) : Prop :=
  m = 2 ^ 32 - 2 ^ (32 - popcount m)

instance (m : Nat) : Decidable (contiguousMask m) := by
  unfold contiguousMask
  infer_instance

/-- The address `a` lies in the prefix of the table key `route`. -/
def covers (route : ip.Route) (a : Nat) : Prop :=
  a &&& route.Mask = route.Addr &&& route.Mask

instance (route : ip.Route) (a : Nat) : Decidable (covers route a) := by
  unfold covers
  infer_instance

/-- The parent prefix of a table key: one bit shorter, `(addr & (mask << 1), mask << 1)`
in uint32. -/
def parentRoute (route : ip.Route) : ip.Route :=
  ⟨route.Addr &&& ((route.Mask <<< 1) % 4294967296), (route.Mask <<< 1) % 4294967296⟩

/-! ### Specification-side vocabulary for the RIP wire format -/

/-- The `k`-byte big-endian representation of `x`. -/
def beBytes : Nat → Nat → List Nat
  | 0, _ => []
  | k + 1, x => beBytes k (x / 256) ++ [x % 256]

/-- The records `[cost:u32][addr:u32][mask:u32]` of a list of (cost, address, mask). -/
def ripRecords : List (Nat × Nat × Nat) → List Nat
  | [] => []
  | r :: rest => beBytes 4 r.1 ++ beBytes 4 r.2.1 ++ beBytes 4 r.2.2 ++ ripRecords rest

/-- The RIP payload `[cmd:u16][n:u16]` followed by the `n` records. -/
def ripWire (cmd : Nat) (recs : List (Nat × Nat × Nat)) : List Nat :=
  beBytes 2 cmd ++ beBytes 2 recs.length ++ ripRecords recs

/-- The (cost, address, mask) of a RIP entry, the addresses as 32-bit values. -/
def ripTriple (e : ip.RIPEntry) : Option (Nat × Nat × Nat) :=
  (util.IP2int e.Addr).bind (fun a => (util.IP2int e.Mask).map (fun m => (e.Cost, a, m)))

/-! ### Specification-side vocabulary for split horizon with poison reverse -/

/-- The cost advertised on interface `i` for a table entry: 16 when the entry's outbound
interface is `i` and its cost is greater than 0, the entry's own cost otherwise. -/
def advertisedCost (i : Nat) (e : ip.Entry) : Nat :=
  if e.Interface = some i ∧ e.Cost > 0 then 16 else e.Cost

/-- The (cost, address, mask) advertised on interface `i` for a table row. -/
def advertisedTriple (i : Nat) (re : ip.Route × ip.Entry) : Nat × Nat × Nat :=
  (advertisedCost i re.2, re.1.Addr, re.1.Mask)

/-- The outbound interface the table records for the prefix of a RIP entry, if any. -/
def outboundInterface (t : List (ip.Route × ip.Entry)) (e : ip.RIPEntry) : Option Nat :=
  ((ip.RIPEntryToRoute e).bind (fun r => ip.tableGet t r)).bind (fun rt => rt.Interface)

/-- The same rewrite on a RIP entry of a diff: cost 16 when the table's outbound interface
for its prefix is `i` and its cost is greater than 0, unchanged otherwise. -/
def poisoned (t : List (ip.Route × ip.Entry)) (i : Nat) (e : ip.RIPEntry) : ip.RIPEntry :=
  if outboundInterface t e = some i ∧ e.Cost > 0 then { e with Cost := 16 } else e

/-! ### Specification-side vocabulary for the table mapping -/

/-- The table's mapping prefix -> (interface, cost) at a key, timers left aside. -/
def ifCost (t : List (ip.Route × ip.Entry)) (k : ip.Route) : Option (Option Nat × Nat) :=
  (ip.tableGet t k).map (fun e => (e.Interface, e.Cost))

/-! ### Specification-side vocabulary for the routing table as a map -/

/-- The association list stands for a Go map with uint32 keys: no key occurs twice and
every address and mask is below 2^32. -/
def mapOfUint32 (t : List (ip.Route × ip.Entry)) : Prop :=
  (t.map Prod.fst).Nodup ∧ ∀ k ∈ t.map Prod.fst, k.Addr < 4294967296 ∧ k.Mask < 4294967296

instance (t : List (ip.Route × ip.Entry)) : Decidable (mapOfUint32 t) := by
  unfold mapOfUint32
  infer_instance

/-! ### Specification-side vocabulary for the socket table -/

/-- Slot `i` of the socket table is free: it holds an identity that is bound neither in the
connection table nor in the listener table. -/
def freeSlot (d : tcp.Driver) (i : Nat) : Prop :=
  ∃ cid, d.socketTable[i]? = some cid ∧ tcp.found d.connTable cid = false ∧
    tcp.found d.listTable cid = false

/-! ### Specification-side vocabulary for acknowledgement numbers -/

/-- The ack number `ack` lies in the modular interval `(currAck, sendSeq]`. -/
def ackInWindow (currAck ack sendSeq : Nat) : Prop :=
  0 < tcp.sub32 ack currAck ∧ tcp.sub32 ack currAck ≤ tcp.sub32 sendSeq currAck

instance (currAck ack sendSeq : Nat) : Decidable (ackInWindow currAck ack sendSeq) := by
  unfold ackInWindow
  infer_instance

/-! ### Specification-side vocabulary for prefixes -/

/-- No two different keys of the table denote the same prefix. -/
def onePerPrefix (t : List (ip.Route × ip.Entry)) : Prop :=
  ∀ k1 ∈ t.map Prod.fst, ∀ k2 ∈ t.map Prod.fst,
    k1.Mask = k2.Mask → k1.Addr &&& k1.Mask = k2.Addr &&& k2.Mask → k1 = k2

instance (t : List (ip.Route × ip.Entry)) : Decidable (onePerPrefix t) := by
  unfold onePerPrefix
  infer_instance

/-- The indices, from `idx` on, of the interfaces that are enabled: the interfaces a send
loop over all interfaces writes a datagram to, in its order. -/
def enabledIndices : Nat → List ip.Interface → List Nat
  | _, [] => []
  | idx, interf :: rest =>
    (if interf.Enabled then [idx] else []) ++ enabledIndices (idx + 1) rest

/-- The fast retransmission that an inbound segment `p` sets off on the connection `c`:
when the count of duplicate acknowledgements, with `p` counted if its ack number repeats
the last one received, is 3, the first segment of the sent buffer that starts at
`p.ackNum` goes out again. -/
def fastResend (c : tcp.Conn) (p : tcp.TCPPacket) : List tcp.Effect :=
  if (if p.ackNum = c.remoteAckNum then (c.numDupeAcks + 1) % 4294967296
      else c.numDupeAcks) = 3 then
    match c.sentBuffer.find? (fun rt => decide (p.ackNum = rt.firstSeqNum)) with
    | some rt => [tcp.Effect.send rt.pkt]
    | none => []
  else []

/-! ## Theorems -/

section Bits

theorem xor_allOnes (n x : Nat) (h : x < 2 ^ n) : x ^^^ (2 ^ n - 1) = 2 ^ n - 1 - x := by
  apply Nat.eq_of_testBit_eq
  intro i
  have h2 : 2 ^ n - 1 - x = 2 ^ n - (x + 1) := by omega
  rw [h2, Nat.testBit_xor, Nat.testBit_two_pow_sub_one, Nat.testBit_two_pow_sub_succ h]
  by_cases hi : i < n
  · simp [hi]
  · simp [hi]
    exact Nat.testBit_lt_two_pow (lt_of_lt_of_le h (Nat.pow_le_pow_right (by decide) (by omega)))

theorem not16_eq (x : Nat) (h : x < 65536) : x ^^^ 0xFFFF = 65535 - x := by
  have := xor_allOnes 16 x (by simpa using h)
  simpa using this

theorem not32_eq (x : Nat) (h : x < 4294967296) : x ^^^ 0xFFFFFFFF = 4294967295 - x := by
  have := xor_allOnes 32 x (by simpa using h)
  simpa using this

end Bits

section Codec

open util

theorem Ntohs_Htons (x : Nat) : Ntohs (Htons x) = x % 65536 := by
  simp only [Htons, Ntohs]
  omega

theorem Ntohl_Htonl (x : Nat) : Ntohl (Htonl x) = x % 4294967296 := by
  simp only [Htonl, Ntohl]
  omega

theorem IP2int_Int2IP (x : Nat) : IP2int (Int2IP x) = some (x % 4294967296) := by
  simp only [IP2int, Int2IP, Htonl, Uint32, List.length_cons, List.length_nil]
  simp only [Nat.reduceAdd, Nat.reduceEqDiff, if_false, Option.some.injEq]
  omega

theorem Uint32_of_bytes (l : List Nat) (hl : 4 ≤ l.length) (hb : isBytes l) :
    ∃ x, Uint32 l = some x ∧ x < 4294967296 := by
  match l, hl, hb with
  | b0 :: b1 :: b2 :: b3 :: rest, _, hb =>
    have h0 : b0 < 256 := hb b0 (by simp)
    have h1 : b1 < 256 := hb b1 (by simp)
    have h2 : b2 < 256 := hb b2 (by simp)
    have h3 : b3 < 256 := hb b3 (by simp)
    exact ⟨_, rfl, by omega⟩

theorem IP2int_of_isIPv4 (ip : List Nat) (h : isIPv4 ip) :
    ∃ x, IP2int ip = some x ∧ x < 4294967296 := by
  obtain ⟨hlen, hb⟩ := h
  unfold IP2int
  split_ifs with h16
  · exact Uint32_of_bytes _ (by simp [h16]) (fun b hbm => hb b (List.mem_of_mem_drop hbm))
  · exact Uint32_of_bytes _ (by omega) hb

end Codec

section Checksum

open util

theorem IPChecksumStep_eq (c w : Nat) (hc : c ≤ 65535) (hw : w ≤ 65535) :
    IPChecksumStep c w = if c + w < 65536 then c + w else c + w - 65535 := by
  unfold IPChecksumStep
  simp only
  split_ifs <;> omega

theorem foldl_IPChecksumStep (ws : List Nat) :
    ∀ c : Nat, c ≤ 65535 → (∀ w ∈ ws, w ≤ 65535) →
      ws.foldl IPChecksumStep c ≤ 65535 ∧
      (ws.foldl IPChecksumStep c) % 65535 = (c + ws.sum) % 65535 ∧
      (ws.foldl IPChecksumStep c = 0 ↔ c = 0 ∧ ∀ w ∈ ws, w = 0) := by
  induction ws with
  | nil => intro c hc _; simpa using hc
  | cons w ws ih =>
    intro c hc hws
    have hw : w ≤ 65535 := hws w (by simp)
    have hstep := IPChecksumStep_eq c w hc hw
    have hle : IPChecksumStep c w ≤ 65535 := by rw [hstep]; split_ifs <;> omega
    obtain ⟨h1, h2, h3⟩ := ih (IPChecksumStep c w) hle (fun x hx => hws x (by simp [hx]))
    refine ⟨by simpa using h1, ?_, ?_⟩
    · simp only [List.foldl_cons, List.sum_cons]
      rw [h2, hstep]
      split_ifs <;> omega
    · simp only [List.foldl_cons, List.mem_cons, forall_eq_or_imp]
      rw [h3, hstep]
      split_ifs <;> constructor <;> rintro ⟨a, b⟩ <;> refine ⟨by omega, ?_⟩ <;>
        first | exact ⟨by omega, b⟩ | exact b | exact b.2

theorem beWords_le (data : List Nat) (hb : isBytes data) : ∀ w ∈ beWords data, w ≤ 65535 := by
  induction data using beWords.induct with
  | case1 b0 b1 rest ih =>
    intro w hw
    simp only [beWords, List.mem_cons] at hw
    have h0 : b0 < 256 := hb b0 (by simp)
    have h1 : b1 < 256 := hb b1 (by simp)
    rcases hw with rfl | hw
    · omega
    · exact ih (fun b hbm => hb b (by simp [hbm])) w hw
  | case2 data h =>
    intro w hw
    rw [beWords] at hw
    · simp at hw
    · intro b0 b1 rest hd
      exact h b0 b1 rest hd

theorem IPChecksumLoop_even (data : List Nat) :
    ∀ c : Nat, data.length % 2 = 0 →
      IPChecksumLoop data c = some ((beWords data).foldl IPChecksumStep c) := by
  induction data using beWords.induct with
  | case1 b0 b1 rest ih =>
    intro c hlen
    simp only [IPChecksumLoop, beWords, List.foldl_cons, Ntohs]
    apply ih
    simp only [List.length_cons] at hlen
    omega
  | case2 data h =>
    intro c hlen
    match data, h, hlen with
    | [], _, _ => simp [IPChecksumLoop, beWords]
    | [b], _, hlen => simp at hlen
    | b0 :: b1 :: rest, h, _ => exact absurd rfl (h b0 b1 rest)

end Checksum

/-- C3: on a byte sequence of even length `util.IPChecksum` returns the bitwise NOT (which
on 16 bits is `0xFFFF - acc`) of an accumulator `acc` that is 0 when every big-endian
16-bit word is 0 and is otherwise the value in `1..0xFFFF` congruent modulo `0xFFFF` to
the integer sum of the words. -/
theorem util_IPChecksum_ones_complement (data : List Nat) (hb : isBytes data)
    (hlen : data.length % 2 = 0) :
    ∃ acc : Nat, util.IPChecksum data = some (acc ^^^ 0xFFFF) ∧
      acc ^^^ 0xFFFF = 0xFFFF - acc ∧
      ((∀ w ∈ beWords data, w = 0) → acc = 0) ∧
      (¬ (∀ w ∈ beWords data, w = 0) →
        1 ≤ acc ∧ acc ≤ 0xFFFF ∧ acc % 0xFFFF = (beWords data).sum % 0xFFFF) := by
  obtain ⟨h1, h2, h3⟩ :=
    foldl_IPChecksumStep (beWords data) 0 (by omega) (beWords_le data hb)
  refine ⟨(beWords data).foldl util.IPChecksumStep 0, ?_, ?_, ?_, ?_⟩
  · simp [util.IPChecksum, IPChecksumLoop_even data 0 hlen]
  · exact not16_eq _ (by omega)
  · intro hz
    exact h3.mpr ⟨rfl, hz⟩
  · intro hnz
    have hne : (beWords data).foldl util.IPChecksumStep 0 ≠ 0 := fun h0 => hnz (h3.mp h0).2
    refine ⟨by omega, h1, ?_⟩
    simpa using h2

/-- Witness for C3 on the four bytes `45 00 00 1c`. -/
theorem util_IPChecksum_ones_complement_witness :
    ∃ acc : Nat, util.IPChecksum [0x45, 0, 0, 0x1c] = some (acc ^^^ 0xFFFF) ∧
      acc ^^^ 0xFFFF = 0xFFFF - acc ∧
      ((∀ w ∈ beWords [0x45, 0, 0, 0x1c], w = 0) → acc = 0) ∧
      (¬ (∀ w ∈ beWords [0x45, 0, 0, 0x1c], w = 0) →
        1 ≤ acc ∧ acc ≤ 0xFFFF ∧ acc % 0xFFFF = (beWords [0x45, 0, 0, 0x1c]).sum % 0xFFFF) :=
  util_IPChecksum_ones_complement [0x45, 0, 0, 0x1c] (by decide) (by decide)


section IPCodec

open util ip

theorem Serialize_eq (p : IPPacket) (s d : Nat) (hs : IP2int p.Header.Src = some s)
    (hd : IP2int p.Header.Dst = some d) :
    Serialize p = some
      (((p.Header.Version <<< 4) % 256 + p.Header.HeaderLength) % 256 :: p.Header.Tos ::
        (p.Header.TotalLength / 256 % 256) :: (p.Header.TotalLength % 256) ::
        (p.Header.Identification / 256 % 256) :: (p.Header.Identification % 256) ::
        (p.Header.Offset / 256 % 256) :: (p.Header.Offset % 256) ::
        p.Header.Ttl :: p.Header.Proto ::
        (p.Header.Checksum / 256 % 256) :: (p.Header.Checksum % 256) ::
        (s / 16777216 % 256) :: (s / 65536 % 256) :: (s / 256 % 256) :: (s % 256) ::
        (d / 16777216 % 256) :: (d / 65536 % 256) :: (d / 256 % 256) :: (d % 256) ::
        p.Data) := by
  simp [Serialize, hs, hd, Htons, Htonl]

theorem firstByte_version (v : Nat) (hv : v ≤ 15) :
    (((v <<< 4) % 256 + 5) % 256) >>> 4 = v ∧ (((v <<< 4) % 256 + 5) % 256) &&& 0xF = 5 := by
  interval_cases v <;> decide


theorem Deserialize_Serialize_fields (p : ip.IPPacket)
    (hV : p.Header.Version ≤ 15) (hL : p.Header.HeaderLength = 5)
    (hO : p.Header.Options = [])
    (hTL : p.Header.TotalLength < 65536)
    (hId : p.Header.Identification < 65536) (hOff : p.Header.Offset < 65536)
    (hCk : p.Header.Checksum < 65536)
    (hSrc : isIPv4 p.Header.Src) (hDst : isIPv4 p.Header.Dst) :
    ∃ buf q, ip.Serialize p = some buf ∧ ip.Deserialize buf = some q ∧
      q.Header.Version = p.Header.Version ∧
      q.Header.HeaderLength = p.Header.HeaderLength ∧
      q.Header.Tos = p.Header.Tos ∧
      q.Header.TotalLength = p.Header.TotalLength ∧
      q.Header.Identification = p.Header.Identification ∧
      q.Header.Offset = p.Header.Offset ∧
      q.Header.Ttl = p.Header.Ttl ∧
      q.Header.Proto = p.Header.Proto ∧
      q.Header.Checksum = p.Header.Checksum ∧
      util.IP2int q.Header.Src = util.IP2int p.Header.Src ∧
      util.IP2int q.Header.Dst = util.IP2int p.Header.Dst ∧
      q.Header.Options = p.Header.Options ∧
      q.Data = p.Data := by
  obtain ⟨s, hs, hs32⟩ := IP2int_of_isIPv4 _ hSrc
  obtain ⟨d, hd, hd32⟩ := IP2int_of_isIPv4 _ hDst
  obtain ⟨hv1, hv2⟩ := firstByte_version p.Header.Version hV
  refine ⟨_, _, Serialize_eq p s d hs hd, rfl, ?_⟩
  simp only [hL, hv1, hv2, hO, hs, hd, util.Ntohs, util.Ntohl, IP2int_Int2IP,
    Option.some.injEq, true_and]
  exact ⟨by omega, by omega, by omega, by omega, by omega, by omega, trivial⟩

theorem Serialize_congr (p q : ip.IPPacket)
    (h1 : q.Header.Version = p.Header.Version)
    (h2 : q.Header.HeaderLength = p.Header.HeaderLength)
    (h3 : q.Header.Tos = p.Header.Tos)
    (h4 : q.Header.TotalLength = p.Header.TotalLength)
    (h5 : q.Header.Identification = p.Header.Identification)
    (h6 : q.Header.Offset = p.Header.Offset)
    (h7 : q.Header.Ttl = p.Header.Ttl)
    (h8 : q.Header.Proto = p.Header.Proto)
    (h9 : q.Header.Checksum = p.Header.Checksum)
    (h10 : util.IP2int q.Header.Src = util.IP2int p.Header.Src)
    (h11 : util.IP2int q.Header.Dst = util.IP2int p.Header.Dst)
    (h12 : q.Data = p.Data) :
    ip.Serialize q = ip.Serialize p := by
  simp only [ip.Serialize, h1, h2, h3, h4, h5, h6, h7, h8, h9, h10, h11, h12]

theorem IPChecksum_congr (p q : ip.IPPacket) (h1 : ip.Serialize q = ip.Serialize p)
    (h2 : q.Header.HeaderLength = p.Header.HeaderLength) :
    ip.IPChecksum q = ip.IPChecksum p := by
  simp only [ip.IPChecksum, h1, h2]

theorem IPChecksum_header (p : ip.IPPacket) (s d : Nat)
    (hs : util.IP2int p.Header.Src = some s) (hd : util.IP2int p.Header.Dst = some d)
    (hL : p.Header.HeaderLength = 5) :
    ip.IPChecksum p = some
      (List.foldl util.IPChecksumStep 0
        [((p.Header.Version <<< 4) % 256 + 5) % 256 * 256 + p.Header.Tos,
          p.Header.TotalLength / 256 % 256 * 256 + p.Header.TotalLength % 256,
          p.Header.Identification / 256 % 256 * 256 + p.Header.Identification % 256,
          p.Header.Offset / 256 % 256 * 256 + p.Header.Offset % 256,
          p.Header.Ttl * 256 + p.Header.Proto,
          p.Header.Checksum / 256 % 256 * 256 + p.Header.Checksum % 256,
          s / 16777216 % 256 * 256 + s / 65536 % 256,
          s / 256 % 256 * 256 + s % 256,
          d / 16777216 % 256 * 256 + d / 65536 % 256,
          d / 256 % 256 * 256 + d % 256] ^^^ 0xFFFF) := by
  rw [ip.IPChecksum, Serialize_eq p s d hs hd, hL]
  simp [slice, util.IPChecksum, util.IPChecksumLoop, util.Ntohs]

end IPCodec

/-- C2: for a packet whose header has Version at most 15, HeaderLength 5, no options,
16-bit and 32-bit fields within their Go types and IPv4 source and destination,
deserializing the serialized packet gives back every header field (the addresses as
32-bit values) and the data. -/
theorem ip_Deserialize_Serialize (p : ip.IPPacket)
    (hV : p.Header.Version ≤ 15) (hL : p.Header.HeaderLength = 5)
    (hO : p.Header.Options = [])
    (hTL : p.Header.TotalLength < 65536)
    (hId : p.Header.Identification < 65536) (hOff : p.Header.Offset < 65536)
    (hCk : p.Header.Checksum < 65536)
    (hSrc : isIPv4 p.Header.Src) (hDst : isIPv4 p.Header.Dst) :
    ∃ buf q, ip.Serialize p = some buf ∧ ip.Deserialize buf = some q ∧
      q.Header.Version = p.Header.Version ∧
      q.Header.HeaderLength = p.Header.HeaderLength ∧
      q.Header.Tos = p.Header.Tos ∧
      q.Header.TotalLength = p.Header.TotalLength ∧
      q.Header.Identification = p.Header.Identification ∧
      q.Header.Offset = p.Header.Offset ∧
      q.Header.Ttl = p.Header.Ttl ∧
      q.Header.Proto = p.Header.Proto ∧
      q.Header.Checksum = p.Header.Checksum ∧
      util.IP2int q.Header.Src = util.IP2int p.Header.Src ∧
      util.IP2int q.Header.Dst = util.IP2int p.Header.Dst ∧
      q.Header.Options = p.Header.Options ∧
      q.Data = p.Data :=
  Deserialize_Serialize_fields p hV hL hO hTL hId hOff hCk hSrc hDst

/-- Witness for C2: an ICMP packet from 10.0.0.1 to 10.0.0.2 with three data bytes. -/
theorem ip_Deserialize_Serialize_witness :
    ∃ buf q,
      ip.Serialize ⟨⟨4, 5, 0, 23, 0, 0, 16, 1, 0x1234, [10, 0, 0, 1], [10, 0, 0, 2], []⟩,
        [7, 8, 9]⟩ = some buf ∧ ip.Deserialize buf = some q ∧
      q.Header.Version = 4 ∧ q.Header.HeaderLength = 5 ∧ q.Header.Tos = 0 ∧
      q.Header.TotalLength = 23 ∧ q.Header.Identification = 0 ∧ q.Header.Offset = 0 ∧
      q.Header.Ttl = 16 ∧ q.Header.Proto = 1 ∧ q.Header.Checksum = 0x1234 ∧
      util.IP2int q.Header.Src = util.IP2int [10, 0, 0, 1] ∧
      util.IP2int q.Header.Dst = util.IP2int [10, 0, 0, 2] ∧
      q.Header.Options = [] ∧ q.Data = [7, 8, 9] :=
  ip_Deserialize_Serialize
    ⟨⟨4, 5, 0, 23, 0, 0, 16, 1, 0x1234, [10, 0, 0, 1], [10, 0, 0, 2], []⟩, [7, 8, 9]⟩
    (by decide) rfl rfl (by decide) (by decide) (by decide) (by decide) (by decide)
    (by decide)

section NewPacket

open util ip

theorem be16_id (x : Nat) (h : x < 65536) : x / 256 % 256 * 256 + x % 256 = x := by
  omega

theorem checksum_fill (w0 w1 w2 w3 w4 z w6 w7 w8 w9 : Nat)
    (h0 : w0 ≤ 65535) (h1 : w1 ≤ 65535) (h2 : w2 ≤ 65535) (h3 : w3 ≤ 65535)
    (h4 : w4 ≤ 65535) (h6 : w6 ≤ 65535) (h7 : w7 ≤ 65535) (h8 : w8 ≤ 65535)
    (h9 : w9 ≤ 65535) (hne : w0 ≠ 0) (hz : z = 0) :
    List.foldl IPChecksumStep 0 [w0, w1, w2, w3, w4, z, w6, w7, w8, w9] ≤ 65535 ∧
      List.foldl IPChecksumStep 0 [w0, w1, w2, w3, w4,
        65535 - List.foldl IPChecksumStep 0 [w0, w1, w2, w3, w4, z, w6, w7, w8, w9],
        w6, w7, w8, w9] = 65535 := by
  subst hz
  have hall : ∀ c : Nat, c ≤ 65535 →
      ∀ w ∈ [w0, w1, w2, w3, w4, c, w6, w7, w8, w9], w ≤ 65535 := by
    intro c hc w hw
    simp only [List.mem_cons, List.mem_singleton, List.not_mem_nil, or_false] at hw
    rcases hw with h | h | h | h | h | h | h | h | h | h <;> subst h <;> assumption
  obtain ⟨a1, a2, -⟩ := foldl_IPChecksumStep [w0, w1, w2, w3, w4, 0, w6, w7, w8, w9] 0
    (Nat.zero_le _) (hall 0 (Nat.zero_le _))
  simp only [List.sum_cons, List.sum_nil] at a2
  generalize List.foldl IPChecksumStep 0 [w0, w1, w2, w3, w4, 0, w6, w7, w8, w9] = acc
    at a1 a2 ⊢
  obtain ⟨b1, b2, b3⟩ := foldl_IPChecksumStep
    [w0, w1, w2, w3, w4, 65535 - acc, w6, w7, w8, w9] 0
    (Nat.zero_le _) (hall (65535 - acc) (Nat.sub_le _ _))
  have hnz : List.foldl IPChecksumStep 0
      [w0, w1, w2, w3, w4, 65535 - acc, w6, w7, w8, w9] ≠ 0 :=
    fun h => hne ((b3.mp h).2 w0 (List.mem_cons_self _ _))
  simp only [List.sum_cons, List.sum_nil] at b2
  generalize List.foldl IPChecksumStep 0
    [w0, w1, w2, w3, w4, 65535 - acc, w6, w7, w8, w9] = acc2 at b1 b2 hnz ⊢
  refine ⟨a1, ?_⟩
  omega

theorem IPChecksum_fields (v tos tl id off ttl proto ck : Nat) (src dst data : List Nat)
    (s d : Nat) (hs : IP2int src = some s) (hd : IP2int dst = some d) :
    IPChecksum ⟨⟨v, 5, tos, tl, id, off, ttl, proto, ck, src, dst, []⟩, data⟩ = some
      (List.foldl IPChecksumStep 0
        [((v <<< 4) % 256 + 5) % 256 * 256 + tos,
          tl / 256 % 256 * 256 + tl % 256,
          id / 256 % 256 * 256 + id % 256,
          off / 256 % 256 * 256 + off % 256,
          ttl * 256 + proto,
          ck / 256 % 256 * 256 + ck % 256,
          s / 16777216 % 256 * 256 + s / 65536 % 256,
          s / 256 % 256 * 256 + s % 256,
          d / 16777216 % 256 * 256 + d / 65536 % 256,
          d / 256 % 256 * 256 + d % 256] ^^^ 0xFFFF) :=
  IPChecksum_header _ s d hs hd rfl

theorem IPChecksum_refill (v tos tl id off ttl proto : Nat) (src dst data : List Nat)
    (htos : tos < 256) (httl : ttl < 256) (hproto : proto < 256)
    (hsrc : isIPv4 src) (hdst : isIPv4 dst) :
    ∃ c, IPChecksum ⟨⟨v, 5, tos, tl, id, off, ttl, proto, 0, src, dst, []⟩, data⟩ = some c ∧
      c < 65536 ∧
      IPChecksum ⟨⟨v, 5, tos, tl, id, off, ttl, proto, c, src, dst, []⟩, data⟩ = some 0 := by
  obtain ⟨s, hs, hs32⟩ := IP2int_of_isIPv4 _ hsrc
  obtain ⟨d, hd, hd32⟩ := IP2int_of_isIPv4 _ hdst
  have hv : v <<< 4 = v * 16 := by simp [Nat.shiftLeft_eq]
  obtain ⟨k1, k2⟩ := checksum_fill
    (((v <<< 4) % 256 + 5) % 256 * 256 + tos)
    (tl / 256 % 256 * 256 + tl % 256)
    (id / 256 % 256 * 256 + id % 256)
    (off / 256 % 256 * 256 + off % 256)
    (ttl * 256 + proto)
    (0 / 256 % 256 * 256 + 0 % 256)
    (s / 16777216 % 256 * 256 + s / 65536 % 256)
    (s / 256 % 256 * 256 + s % 256)
    (d / 16777216 % 256 * 256 + d / 65536 % 256)
    (d / 256 % 256 * 256 + d % 256)
    (by omega) (by omega) (by omega) (by omega) (by omega) (by omega) (by omega)
    (by omega) (by omega) (by omega) (by decide)
  have h0 := IPChecksum_fields v tos tl id off ttl proto 0 src dst data s d hs hd
  rw [not16_eq _ (Nat.lt_succ_of_le k1)] at h0
  refine ⟨_, h0, Nat.lt_succ_of_le (Nat.sub_le _ _), ?_⟩
  rw [IPChecksum_fields v tos tl id off ttl proto _ src dst data s d hs hd,
    be16_id _ (Nat.lt_succ_of_le (Nat.sub_le _ _)), k2]
  rfl

theorem NewIPPacket_checksum_zero (proto ttl : Nat) (data src dst : List Nat)
    (hproto : proto < 256) (httl : ttl < 256) (hsrc : isIPv4 src) (hdst : isIPv4 dst) :
    ∃ p, NewIPPacket proto data ttl src dst = some p ∧ IPChecksum p = some 0 ∧
      p.Header.Version = 4 ∧ p.Header.HeaderLength = 5 ∧ p.Header.Tos = 0 ∧
      p.Header.TotalLength = (20 + data.length % 65536) % 65536 ∧
      p.Header.Identification = 0 ∧ p.Header.Offset = 0 ∧ p.Header.Ttl = ttl ∧
      p.Header.Proto = proto ∧ p.Header.Checksum < 65536 ∧ p.Header.Src = src ∧
      p.Header.Dst = dst ∧ p.Header.Options = [] ∧ p.Data = data := by
  obtain ⟨c, h0, hc, h1⟩ := IPChecksum_refill 4 0 ((20 + data.length % 65536) % 65536) 0 0
    ttl proto src dst data (by decide) httl hproto hsrc hdst
  refine ⟨⟨⟨4, 5, 0, (20 + data.length % 65536) % 65536, 0, 0, ttl, proto, c, src, dst, []⟩,
    data⟩, ?_, h1, rfl, rfl, rfl, rfl, rfl, rfl, rfl, rfl, hc, rfl, rfl, rfl, rfl⟩
  simp only [NewIPPacket, h0, Option.bind_eq_bind, Option.some_bind, Option.pure_def]

end NewPacket

/-- C1: for every protocol number, payload, TTL and pair of IPv4 addresses, the packet
built by `NewIPPacket` passes `VerifyIPChecksum`, and so does the packet obtained by
deserializing its serialization. -/
theorem NewIPPacket_VerifyIPChecksum (proto ttl : Nat) (data src dst : List Nat)
    (hproto : proto < 256) (httl : ttl < 256) (hsrc : isIPv4 src) (hdst : isIPv4 dst) :
    ∃ p buf q, ip.NewIPPacket proto data ttl src dst = some p ∧
      ip.VerifyIPChecksum p = some true ∧
      ip.Serialize p = some buf ∧ ip.Deserialize buf = some q ∧
      ip.VerifyIPChecksum q = some true := by
  obtain ⟨p, hp, hc, f1, f2, f3, f4, f5, f6, f7, f8, f9, f10, f11, f12, f13⟩ :=
    NewIPPacket_checksum_zero proto ttl data src dst hproto httl hsrc hdst
  obtain ⟨buf, q, hser, hdes, g1, g2, g3, g4, g5, g6, g7, g8, g9, g10, g11, -, g13⟩ :=
    Deserialize_Serialize_fields p (by omega) f2 f12 (by omega) (by omega) (by omega) f9
      (by rw [f10]; exact hsrc) (by rw [f11]; exact hdst)
  have hq : ip.IPChecksum q = ip.IPChecksum p :=
    IPChecksum_congr p q (Serialize_congr p q g1 g2 g3 g4 g5 g6 g7 g8 g9 g10 g11 g13) g2
  refine ⟨p, buf, q, hp, ?_, hser, hdes, ?_⟩
  · simp [ip.VerifyIPChecksum, hc]
  · simp [ip.VerifyIPChecksum, hq, hc]

/-- Witness for C1: a RIP packet (protocol 200) from 192.168.0.1 to 192.168.0.2. -/
theorem NewIPPacket_VerifyIPChecksum_witness :
    ∃ p buf q, ip.NewIPPacket 200 [0, 1, 0, 0] 16 [192, 168, 0, 1] [192, 168, 0, 2] = some p ∧
      ip.VerifyIPChecksum p = some true ∧
      ip.Serialize p = some buf ∧ ip.Deserialize buf = some q ∧
      ip.VerifyIPChecksum q = some true :=
  NewIPPacket_VerifyIPChecksum 200 16 [0, 1, 0, 0] [192, 168, 0, 1] [192, 168, 0, 2]
    (by decide) (by decide) (by decide) (by decide)

section Routing

open util ip

theorem popcount_le (m : Nat) : popcount m ≤ 32 := by
  unfold popcount
  exact (List.length_filter_le _ _).trans (by simp)

theorem MaskLen_Int2IP_contiguous (M : Nat) (hc : contiguousMask M) (h1 : 1 ≤ popcount M) :
    MaskLen (Int2IP M) = some (popcount M : Int) := by
  have h32 := popcount_le M
  unfold contiguousMask at hc
  generalize popcount M = k at hc h1 h32
  interval_cases k <;> subst hc <;> decide

theorem matchRouteLoop_spec (addr : List Nat) (a : Nat) (maxLen : Int)
    (ha : IP2int addr = some a) (t : List (Route × Entry))
    (hML : ∀ re ∈ t, MaskLen (Int2IP re.1.Mask) = some (popcount re.1.Mask : Int)) :
    ∀ acc : Option Route × Entry × Int,
      ∃ r, matchRouteLoop addr maxLen t acc = some r ∧ acc.2.2 ≤ r.2.2 ∧
        (r = acc ∨ ∃ re ∈ t, r = (some re.1, re.2, (popcount re.1.Mask : Int)) ∧
          covers re.1 a ∧ (popcount re.1.Mask : Int) ≤ maxLen ∧
          acc.2.2 < (popcount re.1.Mask : Int)) ∧
        (∀ re ∈ t, covers re.1 a → (popcount re.1.Mask : Int) ≤ maxLen →
          (popcount re.1.Mask : Int) ≤ r.2.2) := by
  induction t with
  | nil =>
    intro acc
    exact ⟨acc, rfl, le_refl _, Or.inl rfl, by simp⟩
  | cons hd tl ih =>
    intro acc
    obtain ⟨route, entry⟩ := hd
    obtain ⟨cell, m, l⟩ := acc
    have hhd := hML (route, entry) (by simp)
    have htl : ∀ re ∈ tl, MaskLen (Int2IP re.1.Mask) = some (popcount re.1.Mask : Int) :=
      fun re hre => hML re (by simp [hre])
    simp only at hhd
    simp only [matchRouteLoop, hhd, ha, Option.bind_eq_bind, Option.some_bind]
    by_cases hcond : a &&& route.Mask = route.Addr &&& route.Mask ∧
        (popcount route.Mask : Int) > l ∧ (popcount route.Mask : Int) ≤ maxLen
    · rw [if_pos hcond]
      obtain ⟨r, hr, hle, hsel, hmax⟩ := ih htl (some route, entry, (popcount route.Mask : Int))
      refine ⟨r, hr, ?_, ?_, ?_⟩
      · simp only at hle ⊢
        omega
      · right
        rcases hsel with rfl | ⟨re, hre, rfl, hcov, hlen, hlt⟩
        · exact ⟨(route, entry), by simp, rfl, hcond.1, hcond.2.2, hcond.2.1⟩
        · refine ⟨re, by simp [hre], rfl, hcov, hlen, ?_⟩
          simp only at hlt ⊢
          omega
      · intro re hre hcov hlen
        rcases List.mem_cons.mp hre with rfl | hre
        · exact hle
        · exact hmax re hre hcov hlen
    · rw [if_neg hcond]
      obtain ⟨r, hr, hle, hsel, hmax⟩ := ih htl (cell, m, l)
      refine ⟨r, hr, hle, ?_, ?_⟩
      · rcases hsel with rfl | ⟨re, hre, rfl, hcov, hlen, hlt⟩
        · exact Or.inl rfl
        · exact Or.inr ⟨re, by simp [hre], rfl, hcov, hlen, hlt⟩
      · intro re hre hcov hlen
        rcases List.mem_cons.mp hre with rfl | hre
        · simp only at hle ⊢
          by_contra hgt
          exact hcond ⟨hcov, by omega, hlen⟩
        · exact hmax re hre hcov hlen

end Routing

/-- C4 (amended to prefix lengths 1..32): for a routing table whose masks are
contiguous-ones masks of prefix length 1 to 32 and whose entries carry an interface,
`matchRoute(a, maxLen)` reports `matched` exactly when some key covers `a` with prefix
length at most `maxLen`; the entry it then returns is a table entry covering `a` whose
prefix length is the greatest among those keys, and the length returned is that prefix
length. -/
theorem matchRoute_longest_match (node : ip.Node) (addr : List Nat) (a : Nat)
    (maxLen : Int) (ha : util.IP2int addr = some a)
    (hmask : ∀ re ∈ node.RoutingTable, contiguousMask re.1.Mask ∧ 1 ≤ popcount re.1.Mask)
    (hif : ∀ re ∈ node.RoutingTable, re.2.Interface ≠ none) :
    ∃ m, ip.matchRoute node addr maxLen = some m ∧
      (m.matched = true ↔
        ∃ re ∈ node.RoutingTable, covers re.1 a ∧ (popcount re.1.Mask : Int) ≤ maxLen) ∧
      (m.matched = true →
        ∃ re ∈ node.RoutingTable, m.cell = some re.1 ∧ m.entry = re.2 ∧
          covers re.1 a ∧ (popcount re.1.Mask : Int) ≤ maxLen ∧
          m.len = (popcount re.1.Mask : Int) ∧
          ∀ re1 ∈ node.RoutingTable, covers re1.1 a → (popcount re1.1.Mask : Int) ≤ maxLen →
            popcount re1.1.Mask ≤ popcount re.1.Mask) := by
  obtain ⟨r, hr, -, hsel, hmax⟩ := matchRouteLoop_spec addr a maxLen ha node.RoutingTable
    (fun re hre => MaskLen_Int2IP_contiguous _ (hmask re hre).1 (hmask re hre).2)
    (none, ip.zeroEntry, 0)
  refine ⟨_, by simp only [ip.matchRoute, hr, Option.map_some']; rfl, ?_, ?_⟩
  · rcases hsel with rfl | ⟨re, hre, rfl, hcov, hlen, -⟩
    · simp only [ne_eq, not_true_eq_false, decide_False, Bool.false_eq_true, false_iff,
        not_exists, not_and, not_le]
      intro re hre hcov
      by_contra hle
      have h0 := hmax re hre hcov (by omega)
      have h1 := (hmask re hre).2
      simp only at h0
      omega
    · have hne : re.2 ≠ ip.zeroEntry := by
        intro h
        exact hif re hre (by rw [h]; rfl)
      simp only [ne_eq, hne, not_false_eq_true, decide_True, true_iff]
      exact ⟨re, hre, hcov, hlen⟩
  · rcases hsel with rfl | ⟨re, hre, rfl, hcov, hlen, -⟩
    · simp
    · intro _
      refine ⟨re, hre, rfl, rfl, hcov, hlen, rfl, ?_⟩
      intro re1 hre1 hcov1 hlen1
      have := hmax re1 hre1 hcov1 hlen1
      simp only at this
      omega

/-- Witness for C4: a /24 and a /16 that both cover 10.0.1.7, with the interface's own
/32; the lookup is for 10.0.1.7 with `maxLen` 32. -/
theorem matchRoute_longest_match_witness :
    ∃ m, ip.matchRoute
        ⟨[], [(⟨0x0A000000, 0xFFFF0000⟩, ⟨some 0, 2, none⟩),
          (⟨0x0A000100, 0xFFFFFF00⟩, ⟨some 1, 3, none⟩),
          (⟨0x0A000201, 0xFFFFFFFF⟩, ⟨some 0, 0, none⟩)], false⟩ [10, 0, 1, 7] 32 = some m ∧
      (m.matched = true ↔
        ∃ re ∈ [((⟨0x0A000000, 0xFFFF0000⟩ : ip.Route), (⟨some 0, 2, none⟩ : ip.Entry)),
          (⟨0x0A000100, 0xFFFFFF00⟩, ⟨some 1, 3, none⟩),
          (⟨0x0A000201, 0xFFFFFFFF⟩, ⟨some 0, 0, none⟩)],
          covers re.1 0x0A000107 ∧ (popcount re.1.Mask : Int) ≤ 32) ∧
      (m.matched = true →
        ∃ re ∈ [((⟨0x0A000000, 0xFFFF0000⟩ : ip.Route), (⟨some 0, 2, none⟩ : ip.Entry)),
          (⟨0x0A000100, 0xFFFFFF00⟩, ⟨some 1, 3, none⟩),
          (⟨0x0A000201, 0xFFFFFFFF⟩, ⟨some 0, 0, none⟩)],
          m.cell = some re.1 ∧ m.entry = re.2 ∧
          covers re.1 0x0A000107 ∧ (popcount re.1.Mask : Int) ≤ 32 ∧
          m.len = (popcount re.1.Mask : Int) ∧
          ∀ re1 ∈ [((⟨0x0A000000, 0xFFFF0000⟩ : ip.Route), (⟨some 0, 2, none⟩ : ip.Entry)),
            (⟨0x0A000100, 0xFFFFFF00⟩, ⟨some 1, 3, none⟩),
            (⟨0x0A000201, 0xFFFFFFFF⟩, ⟨some 0, 0, none⟩)],
            covers re1.1 0x0A000107 → (popcount re1.1.Mask : Int) ≤ 32 →
            popcount re1.1.Mask ≤ popcount re.1.Mask) :=
  matchRoute_longest_match
    ⟨[], [(⟨0x0A000000, 0xFFFF0000⟩, ⟨some 0, 2, none⟩),
      (⟨0x0A000100, 0xFFFFFF00⟩, ⟨some 1, 3, none⟩),
      (⟨0x0A000201, 0xFFFFFFFF⟩, ⟨some 0, 0, none⟩)], false⟩ [10, 0, 1, 7] 0x0A000107 32
    (by decide) (by decide) (by decide)

/-- C4, counterexample to the claim as stated (prefix lengths from 0): the table holds
the single contiguous-ones key 0.0.0.0/0, which covers 10.0.0.1 with prefix length
0 ≤ 32, yet `matchRoute(10.0.0.1, 32)` reports `matched = false`. -/
theorem matchRoute_zero_length_unmatched :
    contiguousMask 0 ∧ popcount 0 = 0 ∧ covers ⟨0, 0⟩ 0x0A000001 ∧
      ip.matchRoute ⟨[], [(⟨0, 0⟩, ⟨some 0, 1, some ⟨⟨0, 0⟩, true⟩⟩)], false⟩ [10, 0, 0, 1] 32 =
        some ⟨none, ip.zeroEntry, false, 0⟩ := by
  decide

section RIPCodec

open util ip

theorem Htons_eq_beBytes (x : Nat) : Htons x = beBytes 2 x := by
  simp [Htons, beBytes]

theorem Htonl_eq_beBytes (x : Nat) : Htonl x = beBytes 4 x := by
  simp [Htonl, beBytes, Nat.div_div_eq_div_mul]

theorem slice_append_mid (A B C : List Nat) (lo hi : Nat) (hlo : lo = A.length)
    (hhi : hi = A.length + B.length) : slice (A ++ B ++ C) lo hi = some B := by
  subst hlo hhi
  have h1 : A.length ≤ A.length + B.length ∧
      A.length + B.length ≤ (A ++ B ++ C).length := by
    simp only [List.length_append]
    omega
  rw [slice, if_pos h1]
  simp [List.append_assoc]

theorem ripTriple_some (e : RIPEntry) (ha : isIPv4 e.Addr) (hm : isIPv4 e.Mask) :
    ∃ a m, ripTriple e = some (e.Cost, a, m) ∧ IP2int e.Addr = some a ∧
      IP2int e.Mask = some m ∧ a < 4294967296 ∧ m < 4294967296 := by
  obtain ⟨a, ha1, ha2⟩ := IP2int_of_isIPv4 _ ha
  obtain ⟨m, hm1, hm2⟩ := IP2int_of_isIPv4 _ hm
  exact ⟨a, m, by simp [ripTriple, ha1, hm1], ha1, hm1, ha2, hm2⟩

theorem entries_triples (es : List RIPEntry)
    (he : ∀ e ∈ es, e.Cost < 4294967296 ∧ isIPv4 e.Addr ∧ isIPv4 e.Mask) :
    ∃ recs : List (Nat × Nat × Nat), es.map ripTriple = recs.map some ∧
      recs.length = es.length ∧
      (∀ r ∈ recs, r.1 < 4294967296 ∧ r.2.1 < 4294967296 ∧ r.2.2 < 4294967296) ∧
      SerializeRIPEntries es = some (ripRecords recs) := by
  induction es with
  | nil => exact ⟨[], rfl, rfl, by simp, rfl⟩
  | cons e es ih =>
    obtain ⟨recs, h1, h2, h3, h4⟩ := ih (fun x hx => he x (by simp [hx]))
    obtain ⟨hc, ha, hm⟩ := he e (by simp)
    obtain ⟨a, m, ht, ha1, hm1, ha2, hm2⟩ := ripTriple_some e ha hm
    refine ⟨(e.Cost, a, m) :: recs, by simp [ht, h1], by simp [h2], ?_, ?_⟩
    · intro r hr
      rcases List.mem_cons.mp hr with rfl | hr
      · exact ⟨hc, ha2, hm2⟩
      · exact h3 r hr
    · simp [SerializeRIPEntries, SerializeRIPEntry, ha1, hm1, h4, ripRecords,
        Htonl_eq_beBytes, List.append_assoc]

theorem DeserializeRIPEntry_record (r : Nat × Nat × Nat)
    (h : r.1 < 4294967296 ∧ r.2.1 < 4294967296 ∧ r.2.2 < 4294967296) :
    ∃ e, DeserializeRIPEntry (beBytes 4 r.1 ++ beBytes 4 r.2.1 ++ beBytes 4 r.2.2) =
        some (.ok e) ∧ ripTriple e = some r := by
  obtain ⟨c, a, m⟩ := r
  obtain ⟨hc, ha, hm⟩ := h
  simp only at hc ha hm
  refine ⟨⟨c, Int2IP a, Int2IP m⟩, ?_, ?_⟩
  · simp only [← Htonl_eq_beBytes, Htonl, DeserializeRIPEntry, slice, Ntohl]
    simp only [List.cons_append, List.nil_append, List.length_cons, List.length_nil]
    simp only [Nat.reduceAdd, Nat.reduceLT, if_false, Nat.zero_le, Nat.reduceLeDiff, and_self,
      if_true, List.drop, List.take, Nat.reduceSub, Option.bind_eq_bind, Option.some_bind,
      Option.pure_def, Option.some.injEq, Except.ok.injEq, RIPEntry.mk.injEq]
    refine ⟨by omega, ?_, ?_⟩
    · congr 1
      omega
    · congr 1
      omega
  · simp only [ripTriple, IP2int_Int2IP, Option.some_bind, Option.map_some', Option.some.injEq,
      Prod.mk.injEq, true_and]
    omega

theorem record_length (r : Nat × Nat × Nat) :
    (beBytes 4 r.1 ++ beBytes 4 r.2.1 ++ beBytes 4 r.2.2).length = 12 := by
  simp [beBytes]

theorem DeserializeRIPEntries_records (recs : List (Nat × Nat × Nat)) :
    ∀ (A : List Nat) (i : Nat), A.length = 4 + i * 12 →
      (∀ r ∈ recs, r.1 < 4294967296 ∧ r.2.1 < 4294967296 ∧ r.2.2 < 4294967296) →
      ∃ es, DeserializeRIPEntries (A ++ ripRecords recs) i recs.length = some (.ok es) ∧
        es.map ripTriple = recs.map some := by
  induction recs with
  | nil =>
    intro A i _ _
    exact ⟨[], rfl, rfl⟩
  | cons r recs ih =>
    intro A i hA hr
    obtain ⟨e, he1, he2⟩ := DeserializeRIPEntry_record r (hr r (by simp))
    have hlen := record_length r
    obtain ⟨es, hes1, hes2⟩ := ih (A ++ (beBytes 4 r.1 ++ beBytes 4 r.2.1 ++ beBytes 4 r.2.2))
      (i + 1) (by rw [List.length_append, hlen, hA]; omega) (fun x hx => hr x (by simp [hx]))
    have hdata : A ++ ripRecords (r :: recs) =
        A ++ (beBytes 4 r.1 ++ beBytes 4 r.2.1 ++ beBytes 4 r.2.2) ++ ripRecords recs := by
      simp [ripRecords, List.append_assoc]
    have hs1 : slice (A ++ ripRecords (r :: recs)) (4 + i * 12) (4 + (i + 1) * 12) =
        some (beBytes 4 r.1 ++ beBytes 4 r.2.1 ++ beBytes 4 r.2.2) := by
      rw [hdata]
      exact slice_append_mid _ _ _ _ _ hA.symm (by rw [hlen, hA]; omega)
    have hs2 : slice (beBytes 4 r.1 ++ beBytes 4 r.2.1 ++ beBytes 4 r.2.2) 0 12 =
        some (beBytes 4 r.1 ++ beBytes 4 r.2.1 ++ beBytes 4 r.2.2) := by
      have := slice_append_mid [] (beBytes 4 r.1 ++ beBytes 4 r.2.1 ++ beBytes 4 r.2.2) [] 0 12
        rfl (by rw [hlen]; rfl)
      simpa using this
    refine ⟨e :: es, ?_, by simp [he2, hes2]⟩
    rw [hdata] at hs1
    rw [hdata, List.length_cons, DeserializeRIPEntries]
    simp only [hs1, hs2, he1, hes1, Option.bind_eq_bind, Option.some_bind, Option.pure_def]

theorem RIPData_codec (d : RIPData) (hc : d.Command < 65536)
    (hn : d.Entries.length ≤ 64)
    (he : ∀ e ∈ d.Entries, e.Cost < 4294967296 ∧ isIPv4 e.Addr ∧ isIPv4 e.Mask) :
    ∃ (recs : List (Nat × Nat × Nat)) (d1 : RIPData),
      d.Entries.map ripTriple = recs.map some ∧
      SerializeRIPData d = some (ripWire d.Command recs) ∧
      DeserializeRIPData (ripWire d.Command recs) = some (.ok d1) ∧
      d1.Command = d.Command ∧ d1.Entries.map ripTriple = recs.map some := by
  obtain ⟨recs, h1, h2, h3, h4⟩ := entries_triples d.Entries he
  have htake : d.Entries.take MAX_RIP_ENTRIES = d.Entries :=
    List.take_of_length_le (by simpa [MAX_RIP_ENTRIES] using hn)
  have hmod : d.Entries.length % 65536 = recs.length := by
    rw [h2]
    omega
  obtain ⟨es, hes1, hes2⟩ := DeserializeRIPEntries_records recs
    (beBytes 2 d.Command ++ beBytes 2 recs.length) 0 (by simp [beBytes]) h3
  have hwire : ripWire d.Command recs =
      (d.Command / 256 % 256) :: (d.Command % 256) :: (recs.length / 256 % 256) ::
        (recs.length % 256) :: ripRecords recs := by
    simp [ripWire, beBytes]
  refine ⟨recs, ⟨d.Command, es⟩, h1, ?_, ?_, rfl, hes2⟩
  · simp [SerializeRIPData, htake, h4, hmod, ripWire, Htons_eq_beBytes, List.append_assoc]
  · have hnum : Ntohs [recs.length / 256 % 256, recs.length % 256] = recs.length := by
      simp only [Ntohs]
      omega
    have hcmd : Ntohs [d.Command / 256 % 256, d.Command % 256] = d.Command := by
      simp only [Ntohs]
      omega
    have hle : ¬ recs.length > MAX_RIP_ENTRIES := by
      simp only [MAX_RIP_ENTRIES]
      omega
    have hs1 : slice (ripWire d.Command recs) 0 2 =
        some [d.Command / 256 % 256, d.Command % 256] := by
      rw [hwire]
      simp [slice]
    have hs2 : slice (ripWire d.Command recs) 2 4 =
        some [recs.length / 256 % 256, recs.length % 256] := by
      rw [hwire]
      simp [slice]
    have hes3 : DeserializeRIPEntries (ripWire d.Command recs) 0 recs.length =
        some (.ok es) := by
      rw [ripWire]
      exact hes1
    simp only [DeserializeRIPData, hs1, hs2, hnum, hcmd, hle, hes3, Option.bind_eq_bind,
      Option.some_bind, if_false, Option.pure_def]

end RIPCodec

/-- C5: for a RIPData with command `c` and at most 64 entries (fields within their Go
types, IPv4 addresses), `SerializeRIPData` produces exactly `[c:u16][n:u16]` followed by the
`n` records `[cost:u32][addr:u32][mask:u32]`, all big-endian, and `DeserializeRIPData` of
those bytes returns no error, the same command and the same (cost, address, mask) list in
the same order. -/
theorem RIPData_roundtrip (d : ip.RIPData) (hc : d.Command < 65536)
    (hn : d.Entries.length ≤ 64)
    (he : ∀ e ∈ d.Entries, e.Cost < 4294967296 ∧ isIPv4 e.Addr ∧ isIPv4 e.Mask) :
    ∃ (recs : List (Nat × Nat × Nat)) (d1 : ip.RIPData),
      d.Entries.map ripTriple = recs.map some ∧
      ip.SerializeRIPData d = some (ripWire d.Command recs) ∧
      ip.DeserializeRIPData (ripWire d.Command recs) = some (.ok d1) ∧
      d1.Command = d.Command ∧ d1.Entries.map ripTriple = recs.map some :=
  RIPData_codec d hc hn he

/-- Witness for C5: a response with two entries, one address in its 16-byte form. -/
theorem RIPData_roundtrip_witness :
    ∃ (recs : List (Nat × Nat × Nat)) (d1 : ip.RIPData),
      [(⟨1, [10, 0, 0, 1], [255, 255, 255, 255]⟩ : ip.RIPEntry),
        ⟨16, [0, 0, 0, 0, 0, 0, 0, 0, 0, 0, 255, 255, 10, 0, 1, 0], [255, 255, 255, 0]⟩].map
          ripTriple = recs.map some ∧
      ip.SerializeRIPData ⟨2, [⟨1, [10, 0, 0, 1], [255, 255, 255, 255]⟩,
        ⟨16, [0, 0, 0, 0, 0, 0, 0, 0, 0, 0, 255, 255, 10, 0, 1, 0], [255, 255, 255, 0]⟩]⟩ =
          some (ripWire 2 recs) ∧
      ip.DeserializeRIPData (ripWire 2 recs) = some (.ok d1) ∧
      d1.Command = 2 ∧ d1.Entries.map ripTriple = recs.map some :=
  RIPData_roundtrip ⟨2, [⟨1, [10, 0, 0, 1], [255, 255, 255, 255]⟩,
    ⟨16, [0, 0, 0, 0, 0, 0, 0, 0, 0, 0, 255, 255, 10, 0, 1, 0], [255, 255, 255, 0]⟩]⟩
    (by decide) (by decide) (by decide)

section PoisonReverse

open util ip

theorem isIPv4_Int2IP (x : Nat) : isIPv4 (Int2IP x) := by
  refine ⟨Or.inl rfl, ?_⟩
  intro b hb
  simp only [Int2IP, Htonl, List.mem_cons, List.mem_singleton, List.not_mem_nil, or_false] at hb
  rcases hb with h | h | h | h <;> omega

theorem poisonReverse_eq (node : Node) (i : Nat) (es : List RIPEntry)
    (h : ∀ e ∈ es, ∃ r, RIPEntryToRoute e = some r) :
    poisonReverse node i es = some (es.map (poisoned node.RoutingTable i)) := by
  induction es with
  | nil => rfl
  | cons e es ih =>
    obtain ⟨r, hr⟩ := h e (by simp)
    have ih1 := ih (fun x hx => h x (by simp [hx]))
    simp only [poisonReverse, hr, ih1, Option.bind_eq_bind, Option.some_bind, Option.pure_def,
      List.map_cons, Option.some.injEq, List.cons.injEq, and_true]
    unfold poisoned outboundInterface
    rw [hr]
    simp only [Option.some_bind]
    have hcases : tableGet node.RoutingTable r = none ∨
        ∃ rt, tableGet node.RoutingTable r = some rt := by
      cases tableGet node.RoutingTable r with
      | none => exact Or.inl rfl
      | some rt => exact Or.inr ⟨rt, rfl⟩
    rcases hcases with hg | ⟨rt, hg⟩
    · simp [hg]
    · simp only [hg, Option.some_bind, INFINITY]
      by_cases hc : rt.Interface = some i ∧ e.Cost ≠ 0
      · rw [if_pos hc, if_pos ⟨hc.1, Nat.pos_of_ne_zero hc.2⟩]
      · rw [if_neg hc, if_neg (fun h2 => hc ⟨h2.1, Nat.pos_iff_ne_zero.mp h2.2⟩)]

theorem RIPEntryToRoute_of_isIPv4 (e : RIPEntry) (ha : isIPv4 e.Addr) (hm : isIPv4 e.Mask) :
    ∃ r, RIPEntryToRoute e = some r := by
  obtain ⟨a, ha1, -⟩ := IP2int_of_isIPv4 _ ha
  obtain ⟨m, hm1, -⟩ := IP2int_of_isIPv4 _ hm
  exact ⟨⟨a, m⟩, by simp [RIPEntryToRoute, ha1, hm1]⟩

theorem RIPEntryToRoute_EntryToRIPEntry (r : Route) (e : Entry) (ha : r.Addr < 4294967296)
    (hm : r.Mask < 4294967296) : RIPEntryToRoute (EntryToRIPEntry r e) = some r := by
  simp only [RIPEntryToRoute, EntryToRIPEntry, IP2int_Int2IP, Option.bind_eq_bind,
    Option.some_bind, Option.pure_def, Nat.mod_eq_of_lt ha, Nat.mod_eq_of_lt hm]

theorem tableGet_of_mem (t : List (Route × Entry)) (hnd : (t.map Prod.fst).Nodup)
    (re : Route × Entry) (hre : re ∈ t) : tableGet t re.1 = some re.2 := by
  induction t with
  | nil => simp at hre
  | cons hd tl ih =>
    obtain ⟨r, e⟩ := hd
    simp only [List.map_cons, List.nodup_cons, List.mem_map, not_exists, not_and] at hnd
    rcases List.mem_cons.mp hre with rfl | hre
    · simp [tableGet]
    · have hne : r ≠ re.1 := fun h => hnd.1 re hre h.symm
      simp only [tableGet, hne, if_false]
      exact ih hnd.2 hre

theorem poisoned_table_row (t : List (Route × Entry)) (hnd : (t.map Prod.fst).Nodup)
    (i : Nat) (re : Route × Entry) (hre : re ∈ t)
    (ha : re.1.Addr < 4294967296) (hm : re.1.Mask < 4294967296) :
    poisoned t i (EntryToRIPEntry re.1 re.2) =
      ⟨advertisedCost i re.2, Int2IP re.1.Addr, Int2IP re.1.Mask⟩ := by
  unfold poisoned outboundInterface advertisedCost
  rw [RIPEntryToRoute_EntryToRIPEntry _ _ ha hm]
  simp only [Option.some_bind, tableGet_of_mem t hnd re hre, EntryToRIPEntry]
  split_ifs <;> rfl

theorem ripTriple_row (c a m : Nat) (ha : a < 4294967296) (hm : m < 4294967296) :
    ripTriple ⟨c, Int2IP a, Int2IP m⟩ = some (c, a, m) := by
  simp [ripTriple, IP2int_Int2IP, Nat.mod_eq_of_lt ha, Nat.mod_eq_of_lt hm]

theorem advertisedCost_lt (i : Nat) (e : Entry) (h : e.Cost < 4294967296) :
    advertisedCost i e < 4294967296 := by
  unfold advertisedCost
  split_ifs <;> omega

theorem ripUpdateFor_eq (node : Node) (i : Nat)
    (hkeys : ∀ re ∈ node.RoutingTable, re.1.Addr < 4294967296 ∧ re.1.Mask < 4294967296)
    (hnd : (node.RoutingTable.map Prod.fst).Nodup) :
    ripUpdateFor node i = some ⟨2, node.RoutingTable.map
      (fun re => ⟨advertisedCost i re.2, Int2IP re.1.Addr, Int2IP re.1.Mask⟩)⟩ := by
  have h1 := poisonReverse_eq node i (generateRIPData node).Entries (by
    intro e he
    simp only [generateRIPData, List.mem_map] at he
    obtain ⟨re, hre, rfl⟩ := he
    exact ⟨re.1, RIPEntryToRoute_EntryToRIPEntry _ _ (hkeys re hre).1 (hkeys re hre).2⟩)
  simp only [ripUpdateFor, h1, Option.bind_eq_bind, Option.some_bind, Option.pure_def]
  simp only [generateRIPData, List.map_map, Option.some.injEq, RIPData.mk.injEq, true_and]
  apply List.map_congr_left
  intro re hre
  exact poisoned_table_row _ hnd i re hre (hkeys re hre).1 (hkeys re hre).2

end PoisonReverse

section SendLoops

open ip util

theorem SerializeRIPData_some (d : RIPData)
    (he : ∀ e ∈ d.Entries, e.Cost < 4294967296 ∧ isIPv4 e.Addr ∧ isIPv4 e.Mask) :
    ∃ data, SerializeRIPData d = some data := by
  obtain ⟨recs, -, -, -, h⟩ := entries_triples (d.Entries.take MAX_RIP_ENTRIES)
    (fun e hm => he e (List.mem_of_mem_take hm))
  exact ⟨Htons d.Command ++ Htons (d.Entries.length % 65536) ++ ripRecords recs, by
    simp only [SerializeRIPData, h, Option.bind_eq_bind, Option.some_bind, Option.pure_def]⟩

theorem poisoned_fields (t : List (Route × Entry)) (i : Nat) (e : RIPEntry) :
    (poisoned t i e).Addr = e.Addr ∧ (poisoned t i e).Mask = e.Mask ∧
      ((poisoned t i e).Cost = e.Cost ∨ (poisoned t i e).Cost = 16) := by
  unfold poisoned
  split_ifs <;> simp

theorem sendRIPData_spec (interf : Interface) (idx : Nat) (rd : RIPData) (data : List Nat)
    (hser : SerializeRIPData rd = some data)
    (ha : isIPv4 interf.Addr) (hr : isIPv4 interf.Remote) :
    ∃ p buf, NewIPPacket 200 data DEFAULT_TTL interf.Addr interf.Remote = some p ∧
      Serialize p = some buf ∧ buf.drop 20 = data ∧
      sendRIPData interf idx rd =
        some (if interf.Enabled = true then [(idx, buf)] else []) := by
  obtain ⟨p, hp, -, -, -, -, -, -, -, -, -, -, hps, hpd, -, hdata⟩ :=
    NewIPPacket_checksum_zero 200 DEFAULT_TTL data interf.Addr interf.Remote (by decide)
      (by decide) ha hr
  obtain ⟨s, hs1, -⟩ := IP2int_of_isIPv4 _ ha
  obtain ⟨d, hd1, -⟩ := IP2int_of_isIPv4 _ hr
  rw [← hps] at hs1
  rw [← hpd] at hd1
  have hbuf := Serialize_eq p s d hs1 hd1
  refine ⟨p, _, hp, hbuf, by simp [hdata], ?_⟩
  unfold sendRIPData Send
  by_cases he : interf.Enabled = true
  · simp only [hser, hp, hbuf, he, if_true, Option.bind_eq_bind, Option.some_bind,
      Option.pure_def]
  · simp only [hser, hp, he, Bool.false_eq_true, if_false, Option.bind_eq_bind,
      Option.some_bind, Option.pure_def]

theorem sendRIPUpdateLoop_out (node : Node) (payload : Nat → List Nat)
    (hupd : ∀ i, ∃ rd, ripUpdateFor node i = some rd ∧
      SerializeRIPData rd = some (payload i)) :
    ∀ (l : List Interface) (start : Nat), (∀ x ∈ l, isIPv4 x.Addr ∧ isIPv4 x.Remote) →
      ∃ out, sendRIPUpdateLoop node start l = some out ∧
        out.map Prod.fst = enabledIndices start l ∧
        ∀ d ∈ out, ∃ j x p, l[j]? = some x ∧ d.1 = start + j ∧
          NewIPPacket 200 (payload d.1) DEFAULT_TTL x.Addr x.Remote = some p ∧
          Serialize p = some d.2 ∧ d.2.drop 20 = payload d.1 := by
  intro l
  induction l with
  | nil =>
    intro start _
    exact ⟨[], rfl, rfl, by simp⟩
  | cons hd tl ih =>
    intro start hl
    obtain ⟨hda, hdr⟩ := hl hd (by simp)
    obtain ⟨rd, hrd, hser⟩ := hupd start
    obtain ⟨p, buf, hp, hbuf, hdrop, hsend⟩ := sendRIPData_spec hd start rd _ hser hda hdr
    obtain ⟨outs, ho, h1, h2⟩ := ih (start + 1) (fun x hx => hl x (by simp [hx]))
    refine ⟨(if hd.Enabled = true then [(start, buf)] else []) ++ outs, ?_, ?_, ?_⟩
    · simp only [sendRIPUpdateLoop, hrd, hsend, ho, Option.bind_eq_bind, Option.some_bind,
        Option.pure_def]
    · simp only [enabledIndices, List.map_append, h1]
      by_cases he : hd.Enabled = true
      · simp only [he, if_true, List.map_cons, List.map_nil]
      · simp only [he, Bool.false_eq_true, if_false, List.map_nil]
    · intro d hdm
      rcases List.mem_append.mp hdm with hm | hm
      · by_cases he : hd.Enabled = true
        · rw [if_pos he] at hm
          simp only [List.mem_singleton] at hm
          subst hm
          exact ⟨0, hd, p, by simp, rfl, hp, hbuf, hdrop⟩
        · rw [if_neg he] at hm
          simp at hm
      · obtain ⟨j, x, q, g1, g2, g3, g4, g5⟩ := h2 d hm
        exact ⟨j + 1, x, q, by simpa using g1, by omega, g3, g4, g5⟩

theorem sendTriggeredUpdateLoop_out (node : Node) (newEntries : List RIPEntry)
    (payload : Nat → List Nat)
    (hupd : ∀ i, ∃ rd, triggeredUpdateFor node i newEntries = some rd ∧
      SerializeRIPData rd = some (payload i)) :
    ∀ (l : List Interface) (start : Nat), (∀ x ∈ l, isIPv4 x.Addr ∧ isIPv4 x.Remote) →
      ∃ out, sendTriggeredUpdateLoop node newEntries start l = some out ∧
        out.map Prod.fst = enabledIndices start l ∧
        ∀ d ∈ out, ∃ j x p, l[j]? = some x ∧ d.1 = start + j ∧
          NewIPPacket 200 (payload d.1) DEFAULT_TTL x.Addr x.Remote = some p ∧
          Serialize p = some d.2 ∧ d.2.drop 20 = payload d.1 := by
  intro l
  induction l with
  | nil =>
    intro start _
    exact ⟨[], rfl, rfl, by simp⟩
  | cons hd tl ih =>
    intro start hl
    obtain ⟨hda, hdr⟩ := hl hd (by simp)
    obtain ⟨rd, hrd, hser⟩ := hupd start
    obtain ⟨p, buf, hp, hbuf, hdrop, hsend⟩ := sendRIPData_spec hd start rd _ hser hda hdr
    obtain ⟨outs, ho, h1, h2⟩ := ih (start + 1) (fun x hx => hl x (by simp [hx]))
    refine ⟨(if hd.Enabled = true then [(start, buf)] else []) ++ outs, ?_, ?_, ?_⟩
    · simp only [sendTriggeredUpdateLoop, hrd, hsend, ho, Option.bind_eq_bind,
        Option.some_bind, Option.pure_def]
    · simp only [enabledIndices, List.map_append, h1]
      by_cases he : hd.Enabled = true
      · simp only [he, if_true, List.map_cons, List.map_nil]
      · simp only [he, Bool.false_eq_true, if_false, List.map_nil]
    · intro d hdm
      rcases List.mem_append.mp hdm with hm | hm
      · by_cases he : hd.Enabled = true
        · rw [if_pos he] at hm
          simp only [List.mem_singleton] at hm
          subst hm
          exact ⟨0, hd, p, by simp, rfl, hp, hbuf, hdrop⟩
        · rw [if_neg he] at hm
          simp at hm
      · obtain ⟨j, x, q, g1, g2, g3, g4, g5⟩ := h2 d hm
        exact ⟨j + 1, x, q, by simpa using g1, by omega, g3, g4, g5⟩

theorem ripUpdateFor_wire (node : Node) (i : Nat)
    (hlen : node.RoutingTable.length ≤ 64)
    (hnd : (node.RoutingTable.map Prod.fst).Nodup)
    (hkeys : ∀ re ∈ node.RoutingTable,
      re.1.Addr < 4294967296 ∧ re.1.Mask < 4294967296 ∧ re.2.Cost < 4294967296) :
    ∃ d d1 : RIPData, ripUpdateFor node i = some d ∧ d.Command = 2 ∧
      d.Entries.map ripTriple = (node.RoutingTable.map (advertisedTriple i)).map some ∧
      ((node.RoutingTable.map (advertisedTriple i)).map (fun r => (r.2.1, r.2.2))).Nodup ∧
      SerializeRIPData d = some (ripWire 2 (node.RoutingTable.map (advertisedTriple i))) ∧
      DeserializeRIPData (ripWire 2 (node.RoutingTable.map (advertisedTriple i))) =
        some (.ok d1) ∧
      d1.Command = 2 ∧
      d1.Entries.map ripTriple = (node.RoutingTable.map (advertisedTriple i)).map some := by
  have hd := ripUpdateFor_eq node i (fun re hre => ⟨(hkeys re hre).1, (hkeys re hre).2.1⟩) hnd
  have htr : (node.RoutingTable.map
      (fun re => (⟨advertisedCost i re.2, util.Int2IP re.1.Addr, util.Int2IP re.1.Mask⟩ :
        ip.RIPEntry))).map ripTriple =
      (node.RoutingTable.map (advertisedTriple i)).map some := by
    simp only [List.map_map]
    apply List.map_congr_left
    intro re hre
    exact ripTriple_row _ _ _ (hkeys re hre).1 (hkeys re hre).2.1
  obtain ⟨recs, d1, h1, h2, h3, h4, h5⟩ := RIPData_codec
    ⟨2, node.RoutingTable.map
      (fun re => ⟨advertisedCost i re.2, util.Int2IP re.1.Addr, util.Int2IP re.1.Mask⟩)⟩
    (show (2 : Nat) < 65536 by decide) (by simpa using hlen) (by
      intro e he
      simp only [List.mem_map] at he
      obtain ⟨re, hre, rfl⟩ := he
      exact ⟨advertisedCost_lt i re.2 (hkeys re hre).2.2, isIPv4_Int2IP _, isIPv4_Int2IP _⟩)
  simp only at h1 h2 h3 h4
  rw [htr] at h1
  have hrecs : recs = node.RoutingTable.map (advertisedTriple i) :=
    (List.map_injective_iff.mpr (Option.some_injective _) h1).symm
  subst hrecs
  refine ⟨_, d1, hd, rfl, htr, ?_, h2, h3, h4, h5⟩
  have hk : (node.RoutingTable.map (advertisedTriple i)).map (fun r => (r.2.1, r.2.2)) =
      (node.RoutingTable.map Prod.fst).map (fun r => (r.Addr, r.Mask)) := by
    simp [List.map_map, Function.comp_def, advertisedTriple]
  rw [hk]
  apply List.Nodup.map _ hnd
  intro r1 r2 h
  cases r1
  cases r2
  simp only [Prod.mk.injEq] at h
  simp [h.1, h.2]

theorem triggeredUpdateFor_eq (node : Node) (i : Nat) (newEntries : List RIPEntry)
    (hne : ∀ e ∈ newEntries, isIPv4 e.Addr ∧ isIPv4 e.Mask) :
    triggeredUpdateFor node i newEntries =
      some ⟨2, newEntries.map (poisoned node.RoutingTable i)⟩ := by
  have := poisonReverse_eq node i newEntries
    (fun e he => RIPEntryToRoute_of_isIPv4 e (hne e he).1 (hne e he).2)
  simp [triggeredUpdateFor, this]

theorem poisoned_wire (t : List (Route × Entry)) (i : Nat) (newEntries : List RIPEntry)
    (hne : ∀ e ∈ newEntries, e.Cost < 4294967296 ∧ isIPv4 e.Addr ∧ isIPv4 e.Mask) :
    ∃ data, SerializeRIPData ⟨2, newEntries.map (poisoned t i)⟩ = some data ∧
      (newEntries.length ≤ 64 → ∃ recs,
        (newEntries.map (poisoned t i)).map ripTriple = recs.map some ∧
        data = ripWire 2 recs) := by
  have hp : ∀ e ∈ newEntries.map (poisoned t i),
      e.Cost < 4294967296 ∧ isIPv4 e.Addr ∧ isIPv4 e.Mask := by
    intro e he
    obtain ⟨x, hx, rfl⟩ := List.mem_map.mp he
    obtain ⟨f1, f2, f3⟩ := poisoned_fields t i x
    obtain ⟨g1, g2, g3⟩ := hne x hx
    rw [f1, f2]
    refine ⟨?_, g2, g3⟩
    rcases f3 with f3 | f3 <;> omega
  obtain ⟨data, hdata⟩ := SerializeRIPData_some ⟨2, newEntries.map (poisoned t i)⟩ hp
  refine ⟨data, hdata, ?_⟩
  intro hlen
  obtain ⟨recs, -, h1, h2, -, -, -⟩ := RIPData_codec ⟨2, newEntries.map (poisoned t i)⟩
    (show (2 : Nat) < 65536 by decide) (by simpa using hlen) hp
  refine ⟨recs, h1, ?_⟩
  rw [hdata] at h2
  exact Option.some.inj h2

end SendLoops

/-- C6: for a routing table with at most 64 entries (a map: distinct keys, 32-bit key and
cost fields) on a node whose interfaces have IPv4 addresses, `sendRIPUpdate` writes one
datagram to every enabled interface, in order, and to no other; the datagram written to
interface `i` is the IP packet of protocol 200 from the interface's address to its remote
whose payload is the wire form of command 2 followed by every table key exactly once, in
table order, with cost 16 if the entry's outbound interface is `i` and its cost is greater
than 0 and with the entry's own cost otherwise.  The response built for any `i`, enabled
or not, has that content and deserializes to it.  `sendTriggeredUpdate` writes to the same
interfaces, the payload for interface `i` being the serialization of command 2 with the
same rewrite applied to every entry of the diff. -/
theorem sendRIPUpdate_poison_reverse (node : ip.Node)
    (hlen : node.RoutingTable.length ≤ 64)
    (hnd : (node.RoutingTable.map Prod.fst).Nodup)
    (hkeys : ∀ re ∈ node.RoutingTable,
      re.1.Addr < 4294967296 ∧ re.1.Mask < 4294967296 ∧ re.2.Cost < 4294967296)
    (hifs : ∀ x ∈ node.LocalInterfaces, isIPv4 x.Addr ∧ isIPv4 x.Remote) :
    (∃ out, ip.sendRIPUpdate node = some out ∧
      out.map Prod.fst = enabledIndices 0 node.LocalInterfaces ∧
      ∀ d ∈ out, ∃ x p, node.LocalInterfaces[d.1]? = some x ∧
        ip.NewIPPacket 200 (ripWire 2 (node.RoutingTable.map (advertisedTriple d.1)))
          util.DEFAULT_TTL x.Addr x.Remote = some p ∧
        ip.Serialize p = some d.2 ∧
        d.2.drop 20 = ripWire 2 (node.RoutingTable.map (advertisedTriple d.1))) ∧
    (∀ i, ∃ d d1 : ip.RIPData, ip.ripUpdateFor node i = some d ∧ d.Command = 2 ∧
      d.Entries.map ripTriple = (node.RoutingTable.map (advertisedTriple i)).map some ∧
      ((node.RoutingTable.map (advertisedTriple i)).map (fun r => (r.2.1, r.2.2))).Nodup ∧
      ip.SerializeRIPData d = some (ripWire 2 (node.RoutingTable.map (advertisedTriple i))) ∧
      ip.DeserializeRIPData (ripWire 2 (node.RoutingTable.map (advertisedTriple i))) =
        some (.ok d1) ∧
      d1.Command = 2 ∧
      d1.Entries.map ripTriple = (node.RoutingTable.map (advertisedTriple i)).map some) ∧
    (∀ (i : Nat) (newEntries : List ip.RIPEntry),
      (∀ e ∈ newEntries, isIPv4 e.Addr ∧ isIPv4 e.Mask) →
      ip.triggeredUpdateFor node i newEntries =
        some ⟨2, newEntries.map (poisoned node.RoutingTable i)⟩) ∧
    (∀ newEntries : List ip.RIPEntry,
      (∀ e ∈ newEntries, e.Cost < 4294967296 ∧ isIPv4 e.Addr ∧ isIPv4 e.Mask) →
      ∃ out, ip.sendTriggeredUpdate node newEntries = some out ∧
        out.map Prod.fst = enabledIndices 0 node.LocalInterfaces ∧
        ∀ d ∈ out, ∃ x p data, node.LocalInterfaces[d.1]? = some x ∧
          ip.SerializeRIPData ⟨2, newEntries.map (poisoned node.RoutingTable d.1)⟩ =
            some data ∧
          ip.NewIPPacket 200 data util.DEFAULT_TTL x.Addr x.Remote = some p ∧
          ip.Serialize p = some d.2 ∧ d.2.drop 20 = data ∧
          (newEntries.length ≤ 64 → ∃ recs,
            (newEntries.map (poisoned node.RoutingTable d.1)).map ripTriple =
              recs.map some ∧
            data = ripWire 2 recs)) := by
  refine ⟨?_, fun i => ripUpdateFor_wire node i hlen hnd hkeys,
    fun i newEntries hne => triggeredUpdateFor_eq node i newEntries hne, ?_⟩
  · obtain ⟨out, h1, h2, h3⟩ := sendRIPUpdateLoop_out node
      (fun i => ripWire 2 (node.RoutingTable.map (advertisedTriple i)))
      (fun i => by
        obtain ⟨d, -, g1, -, -, -, g2, -⟩ := ripUpdateFor_wire node i hlen hnd hkeys
        exact ⟨d, g1, g2⟩)
      node.LocalInterfaces 0 hifs
    refine ⟨out, h1, h2, ?_⟩
    intro d hd
    obtain ⟨j, x, p, g1, g2, g3, g4, g5⟩ := h3 d hd
    have hj : d.1 = j := by omega
    exact ⟨x, p, by rw [hj]; exact g1, g3, g4, g5⟩
  · intro newEntries hne
    have hw := fun i => poisoned_wire node.RoutingTable i newEntries hne
    obtain ⟨out, h1, h2, h3⟩ := sendTriggeredUpdateLoop_out node newEntries
      (fun i => (ip.SerializeRIPData
        ⟨2, newEntries.map (poisoned node.RoutingTable i)⟩).getD [])
      (fun i => by
        obtain ⟨data, g1, -⟩ := hw i
        refine ⟨_, triggeredUpdateFor_eq node i newEntries
          (fun e he => ⟨(hne e he).2.1, (hne e he).2.2⟩), ?_⟩
        simp only [g1, Option.getD_some])
      node.LocalInterfaces 0 hifs
    refine ⟨out, h1, h2, ?_⟩
    intro d hd
    obtain ⟨j, x, p, g1, g2, g3, g4, g5⟩ := h3 d hd
    obtain ⟨data, w1, w2⟩ := hw d.1
    have hj : d.1 = j := by omega
    simp only [w1, Option.getD_some] at g3 g5
    exact ⟨x, p, data, by rw [hj]; exact g1, w1, g3, g4, g5, w2⟩

/-- Witness for C6: a node with its own /32 on interface 0 and a learned /24 through
interface 0, with interfaces 0 and 2 enabled and interface 1 disabled: the periodic update
writes to interfaces 0 and 2, each payload being the wire form of the table as advertised
on that interface. -/
theorem sendRIPUpdate_poison_reverse_witness :
    ∃ out, ip.sendRIPUpdate
        ⟨[⟨5001, [10, 0, 0, 1], [10, 0, 0, 2], true⟩,
            ⟨5002, [10, 0, 1, 1], [10, 0, 1, 2], false⟩,
            ⟨5003, [10, 0, 2, 1], [10, 0, 2, 2], true⟩],
          [(⟨0x0A000001, 0xFFFFFFFF⟩, ⟨some 0, 0, none⟩),
            (⟨0x0A000100, 0xFFFFFF00⟩, ⟨some 0, 3, none⟩)], false⟩ = some out ∧
      out.map Prod.fst = [0, 2] ∧
      ∀ d ∈ out, d.2.drop 20 = ripWire 2
        ([((⟨0x0A000001, 0xFFFFFFFF⟩ : ip.Route), (⟨some 0, 0, none⟩ : ip.Entry)),
          (⟨0x0A000100, 0xFFFFFF00⟩, ⟨some 0, 3, none⟩)].map (advertisedTriple d.1)) := by
  obtain ⟨⟨out, h1, h2, h3⟩, -⟩ := sendRIPUpdate_poison_reverse
    ⟨[⟨5001, [10, 0, 0, 1], [10, 0, 0, 2], true⟩,
        ⟨5002, [10, 0, 1, 1], [10, 0, 1, 2], false⟩,
        ⟨5003, [10, 0, 2, 1], [10, 0, 2, 2], true⟩],
      [(⟨0x0A000001, 0xFFFFFFFF⟩, ⟨some 0, 0, none⟩),
        (⟨0x0A000100, 0xFFFFFF00⟩, ⟨some 0, 3, none⟩)], false⟩
    (by decide) (by decide) (by decide) (by decide)
  refine ⟨out, h1, by rw [h2]; rfl, ?_⟩
  intro d hd
  obtain ⟨x, p, -, -, -, g⟩ := h3 d hd
  exact g

section Table

open util ip

theorem tableGet_map_replace (t : List (Route × Entry)) (k k1 : Route) (v : Entry) :
    tableGet (t.map (fun re => if re.1 = k then (re.1, v) else re)) k1 =
      if k1 = k then (tableGet t k).map (fun _ => v) else tableGet t k1 := by
  induction t with
  | nil => simp [tableGet]
  | cons hd tl ih =>
    obtain ⟨r, e⟩ := hd
    simp only [List.map_cons]
    by_cases hrk : r = k
    · rw [if_pos hrk]
      simp only [tableGet, ih]
      subst hrk
      by_cases hk1 : k1 = r
      · subst hk1
        simp
      · have hne : ¬ r = k1 := fun h => hk1 h.symm
        simp [hk1, hne]
    · rw [if_neg hrk]
      simp only [tableGet, ih]
      by_cases hk1 : k1 = k
      · subst hk1
        simp [hrk]
      · simp [hk1]

theorem tableGet_append_single (t : List (Route × Entry)) (k k1 : Route) (v : Entry) :
    tableGet (t ++ [(k, v)]) k1 =
      match tableGet t k1 with
      | some e => some e
      | none => if k = k1 then some v else none := by
  induction t with
  | nil => simp [tableGet]
  | cons hd tl ih =>
    obtain ⟨r, e⟩ := hd
    simp only [List.cons_append, tableGet]
    by_cases hr : r = k1
    · simp [hr]
    · simp only [hr, if_false]
      exact ih

theorem tableGet_tableSet (t : List (Route × Entry)) (k k1 : Route) (v : Entry) :
    tableGet (tableSet t k v) k1 = if k1 = k then some v else tableGet t k1 := by
  unfold tableSet
  cases hg : tableGet t k with
  | some e =>
    simp only [Option.isSome_some, if_true]
    rw [tableGet_map_replace, hg]
    simp
  | none =>
    simp only [Option.isSome_none, Bool.false_eq_true, if_false]
    rw [tableGet_append_single]
    by_cases hk : k1 = k
    · subst hk
      simp [hg]
    · have hne : ¬ k = k1 := fun h => hk h.symm
      simp only [hk, hne, if_false]
      cases tableGet t k1 <;> rfl

theorem tableGet_tableDelete (t : List (Route × Entry)) (k k1 : Route) :
    tableGet (tableDelete t k) k1 = if k1 = k then none else tableGet t k1 := by
  induction t with
  | nil => simp [tableDelete, tableGet]
  | cons hd tl ih =>
    obtain ⟨r, e⟩ := hd
    unfold tableDelete at ih ⊢
    by_cases hrk : r = k
    · subst hrk
      simp only [List.filter_cons, ne_eq, not_true_eq_false, decide_False, Bool.false_eq_true,
        if_false]
      rw [ih]
      by_cases hk1 : k1 = r
      · simp [hk1]
      · have hne : ¬ r = k1 := fun h => hk1 h.symm
        simp [hk1, tableGet, hne]
    · simp only [List.filter_cons, ne_eq, hrk, not_false_eq_true, decide_True, if_true, tableGet]
      by_cases hr1 : r = k1
      · subst hr1
        simp [hrk]
      · simp only [hr1, if_false]
        exact ih

theorem matchRouteLoop_mem (addr : List Nat) (maxLen : Int) (t : List (Route × Entry)) :
    ∀ (acc r : Option Route × Entry × Int), matchRouteLoop addr maxLen t acc = some r →
      (r.1 = acc.1 ∧ r.2.1 = acc.2.1) ∨ ∃ re ∈ t, r.1 = some re.1 ∧ r.2.1 = re.2 := by
  induction t with
  | nil =>
    intro acc r h
    simp only [matchRouteLoop, Option.some.injEq] at h
    subst h
    exact Or.inl ⟨rfl, rfl⟩
  | cons hd tl ih =>
    intro acc r h
    obtain ⟨route, entry⟩ := hd
    obtain ⟨cell, m, l⟩ := acc
    simp only [matchRouteLoop, Option.bind_eq_bind] at h
    cases hml : MaskLen (Int2IP route.Mask) with
    | none => simp [hml] at h
    | some len =>
      cases hip : IP2int addr with
      | none => simp [hml, hip] at h
      | some a =>
        simp only [hml, hip, Option.some_bind] at h
        split_ifs at h with hc
        · rcases ih _ r h with ⟨h1, h2⟩ | ⟨re, hre, h1, h2⟩
          · exact Or.inr ⟨(route, entry), by simp, h1, h2⟩
          · exact Or.inr ⟨re, by simp [hre], h1, h2⟩
        · rcases ih _ r h with h1 | ⟨re, hre, h1, h2⟩
          · exact Or.inl h1
          · exact Or.inr ⟨re, by simp [hre], h1, h2⟩

theorem matchRoute_cell (node : Node) (addr : List Nat) (maxLen : Int) (m : MatchResult)
    (hm : matchRoute node addr maxLen = some m) (hfound : m.matched = true) :
    ∃ re ∈ node.RoutingTable, m.cell = some re.1 ∧ m.entry = re.2 := by
  unfold matchRoute at hm
  cases hl : matchRouteLoop addr maxLen node.RoutingTable (none, zeroEntry, 0) with
  | none => simp [hl] at hm
  | some r =>
    simp only [hl, Option.map_some', Option.some.injEq] at hm
    subst hm
    simp only [ne_eq, decide_eq_true_eq] at hfound
    rcases matchRouteLoop_mem _ _ _ _ _ hl with ⟨-, h2⟩ | h
    · exact absurd h2 hfound
    · exact h

theorem ifCost_tableSet_same_fields (t : List (Route × Entry)) (k : Route) (e e1 : Entry)
    (hg : tableGet t k = some e) (hi : e1.Interface = e.Interface) (hc : e1.Cost = e.Cost) :
    ∀ k1, ifCost (tableSet t k e1) k1 = ifCost t k1 := by
  intro k1
  unfold ifCost
  rw [tableGet_tableSet]
  by_cases hk : k1 = k
  · subst hk
    simp [hg, hi, hc]
  · simp [hk]

theorem resetDeath_ifCost (node : Node) (m : MatchResult) (hd : m.entry.Death ≠ none)
    (hcell : ∀ k, m.cell = some k → tableGet node.RoutingTable k = some m.entry) :
    ∃ node1, resetDeath node m = some node1 ∧
      ∀ k, ifCost node1.RoutingTable k = ifCost node.RoutingTable k := by
  unfold resetDeath
  cases ht : m.entry.Death with
  | none => exact absurd ht hd
  | some timer =>
    cases hk : m.cell with
    | none => exact ⟨node, rfl, fun _ => rfl⟩
    | some k =>
      exact ⟨_, rfl, ifCost_tableSet_same_fields _ k m.entry _ (hcell k hk) rfl rfl⟩

theorem stopDeath_some (node : Node) (m : MatchResult) (hd : m.entry.Death ≠ none) :
    ∃ node1, stopDeath node m = some node1 ∧
      node1.LocalInterfaces = node.LocalInterfaces := by
  unfold stopDeath
  cases ht : m.entry.Death with
  | none => exact absurd ht hd
  | some timer =>
    cases hk : m.cell with
    | none => exact ⟨node, rfl, rfl⟩
    | some k => exact ⟨_, rfl, rfl⟩

end Table

section Ingest

open util ip

theorem ingestEntry_replace_eval (linkID : Nat) (node : Node) (diff : List RIPEntry)
    (ripEntry : RIPEntry) (P : Route) (L : Int) (m : MatchResult)
    (hC : ripEntry.Cost + 1 < 4294967296)
    (hP : RIPEntryToRoute ripEntry = some P) (hL : MaskLen ripEntry.Mask = some L)
    (hm : matchRoute node ripEntry.Addr L = some m) (hfound : m.matched = true)
    (hcost : 0 < m.entry.Cost) (htimer : m.entry.Death ≠ none)
    (hlink : linkID < node.LocalInterfaces.length)
    (hrep : ripEntry.Cost + 1 < m.entry.Cost ∨
      (ripEntry.Cost + 1 > m.entry.Cost ∧ m.entry.Interface = some linkID)) :
    ingestEntry linkID (node, diff) ripEntry =
      (if m.len = L then stopDeath node m else some node).bind (fun node0 =>
        if 16 ≤ ripEntry.Cost + 1 then
          some ({ node0 with RoutingTable := tableDelete node0.RoutingTable P }, diff)
        else
          some (setRoute node0 P ⟨some linkID, ripEntry.Cost + 1, some ⟨P, true⟩⟩,
            diff ++ [⟨ripEntry.Cost + 1, Int2IP P.Addr, Int2IP P.Mask⟩])) := by
  have hc1 : (ripEntry.Cost + 1) % 4294967296 = ripEntry.Cost + 1 := Nat.mod_eq_of_lt hC
  have hne : ¬ m.entry.Cost = 0 := by omega
  obtain ⟨nodeS, hS, hSi⟩ := stopDeath_some node m htimer
  have hli : localInterface node linkID = some linkID := by simp [localInterface, hlink]
  have hliS : localInterface nodeS linkID = some linkID := by
    simp [localInterface, hSi, hlink]
  by_cases hlen : m.len = L <;> by_cases h16 : 16 ≤ ripEntry.Cost + 1 <;>
    rcases hrep with h | ⟨h1, h2⟩
  all_goals first
    | simp [ingestEntry, hP, hL, hm, hc1, hfound, hne, hlen, h16, h, hS, hli, hliS, INFINITY,
        EntryToRIPEntry]
    | (have hnlt : ¬ ripEntry.Cost + 1 < m.entry.Cost := by omega
       have hgt : m.entry.Cost < ripEntry.Cost + 1 := h1
       simp [ingestEntry, hP, hL, hm, hc1, hfound, hne, hlen, h16, hnlt, hgt, h2, hS, hli, hliS,
         INFINITY, EntryToRIPEntry])

theorem ingestEntry_replace (linkID : Nat) (node : Node) (diff : List RIPEntry)
    (ripEntry : RIPEntry) (P : Route) (L : Int) (m : MatchResult)
    (hC : ripEntry.Cost + 1 < 4294967296)
    (hP : RIPEntryToRoute ripEntry = some P) (hL : MaskLen ripEntry.Mask = some L)
    (hm : matchRoute node ripEntry.Addr L = some m) (hfound : m.matched = true)
    (hcost : 0 < m.entry.Cost) (htimer : m.entry.Death ≠ none)
    (hlink : linkID < node.LocalInterfaces.length)
    (hrep : ripEntry.Cost + 1 < m.entry.Cost ∨
      (ripEntry.Cost + 1 > m.entry.Cost ∧ m.entry.Interface = some linkID)) :
    ∃ node1 diff1, ingestEntry linkID (node, diff) ripEntry = some (node1, diff1) ∧
      (16 ≤ ripEntry.Cost + 1 → tableGet node1.RoutingTable P = none ∧ diff1 = diff) ∧
      (ripEntry.Cost + 1 < 16 →
        tableGet node1.RoutingTable P =
          some ⟨some linkID, ripEntry.Cost + 1, some ⟨P, true⟩⟩ ∧
        diff1 = diff ++ [⟨ripEntry.Cost + 1, Int2IP P.Addr, Int2IP P.Mask⟩]) := by
  rw [ingestEntry_replace_eval linkID node diff ripEntry P L m hC hP hL hm hfound hcost htimer
    hlink hrep]
  obtain ⟨nodeS, hS, -⟩ := stopDeath_some node m htimer
  have hstop : ∃ node0, (if m.len = L then stopDeath node m else some node) = some node0 := by
    by_cases hlen : m.len = L
    · rw [if_pos hlen]
      exact ⟨nodeS, hS⟩
    · rw [if_neg hlen]
      exact ⟨node, rfl⟩
  obtain ⟨node0, h0⟩ := hstop
  rw [h0, Option.some_bind]
  by_cases h16 : 16 ≤ ripEntry.Cost + 1
  · rw [if_pos h16]
    refine ⟨_, _, rfl, fun _ => ⟨by simp [tableGet_tableDelete], rfl⟩, fun h => by omega⟩
  · rw [if_neg h16]
    refine ⟨_, _, rfl, fun h => by omega, fun _ => ⟨by simp [setRoute, tableGet_tableSet], rfl⟩⟩

theorem ingestEntry_keep_eval (linkID : Nat) (node : Node) (diff : List RIPEntry)
    (ripEntry : RIPEntry) (P : Route) (L : Int) (m : MatchResult)
    (hC : ripEntry.Cost + 1 < 4294967296)
    (hP : RIPEntryToRoute ripEntry = some P) (hL : MaskLen ripEntry.Mask = some L)
    (hm : matchRoute node ripEntry.Addr L = some m) (hfound : m.matched = true)
    (hcost : 0 < m.entry.Cost)
    (hlink : linkID < node.LocalInterfaces.length)
    (hrep : ¬ (ripEntry.Cost + 1 < m.entry.Cost ∨
      (ripEntry.Cost + 1 > m.entry.Cost ∧ m.entry.Interface = some linkID))) :
    ingestEntry linkID (node, diff) ripEntry =
      if some linkID = m.entry.Interface then
        (resetDeath node m).bind (fun node1 => some (node1, diff))
      else some (node, diff) := by
  have hc1 : (ripEntry.Cost + 1) % 4294967296 = ripEntry.Cost + 1 := Nat.mod_eq_of_lt hC
  have hne : ¬ m.entry.Cost = 0 := by omega
  have hli : localInterface node linkID = some linkID := by simp [localInterface, hlink]
  have hnlt : ¬ ripEntry.Cost + 1 < m.entry.Cost := fun h => hrep (Or.inl h)
  by_cases hgt : m.entry.Cost < ripEntry.Cost + 1
  · have hif : ¬ m.entry.Interface = some linkID := fun h => hrep (Or.inr ⟨hgt, h⟩)
    have hif2 : ¬ some linkID = m.entry.Interface := fun h => hif h.symm
    simp [ingestEntry, hP, hL, hm, hc1, hfound, hne, hnlt, hgt, hif2, hli]
  · by_cases hsame : m.entry.Interface = some linkID
    · simp [ingestEntry, hP, hL, hm, hc1, hfound, hne, hnlt, hgt, hsame, hli]
    · have hsame2 : ¬ some linkID = m.entry.Interface := fun h => hsame h.symm
      simp [ingestEntry, hP, hL, hm, hc1, hfound, hne, hnlt, hgt, hsame2, hli]

theorem ingestEntry_keep (linkID : Nat) (node : Node) (diff : List RIPEntry)
    (ripEntry : RIPEntry) (P : Route) (L : Int) (m : MatchResult)
    (hC : ripEntry.Cost + 1 < 4294967296)
    (hP : RIPEntryToRoute ripEntry = some P) (hL : MaskLen ripEntry.Mask = some L)
    (hm : matchRoute node ripEntry.Addr L = some m) (hfound : m.matched = true)
    (hcost : 0 < m.entry.Cost) (htimer : m.entry.Death ≠ none)
    (hlink : linkID < node.LocalInterfaces.length)
    (hnd : (node.RoutingTable.map Prod.fst).Nodup)
    (hrep : ¬ (ripEntry.Cost + 1 < m.entry.Cost ∨
      (ripEntry.Cost + 1 > m.entry.Cost ∧ m.entry.Interface = some linkID))) :
    ∃ node1, ingestEntry linkID (node, diff) ripEntry = some (node1, diff) ∧
      ∀ k, ifCost node1.RoutingTable k = ifCost node.RoutingTable k := by
  rw [ingestEntry_keep_eval linkID node diff ripEntry P L m hC hP hL hm hfound hcost hlink hrep]
  obtain ⟨re, hre, hcell, hentry⟩ := matchRoute_cell node _ _ m hm hfound
  obtain ⟨nodeR, hR, hRt⟩ := resetDeath_ifCost node m htimer (by
    intro k hk
    rw [hcell] at hk
    cases hk
    rw [hentry]
    exact tableGet_of_mem _ hnd re hre)
  by_cases hsame : some linkID = m.entry.Interface
  · rw [if_pos hsame, hR]
    exact ⟨nodeR, rfl, hRt⟩
  · rw [if_neg hsame]
    exact ⟨node, rfl, fun _ => rfl⟩

theorem ingestEntry_unknown (linkID : Nat) (node : Node) (diff : List RIPEntry)
    (ripEntry : RIPEntry) (P : Route) (L : Int) (m : MatchResult)
    (hC : ripEntry.Cost + 1 < 4294967296)
    (hP : RIPEntryToRoute ripEntry = some P) (hL : MaskLen ripEntry.Mask = some L)
    (hm : matchRoute node ripEntry.Addr L = some m) (hfound : m.matched = false)
    (hlink : linkID < node.LocalInterfaces.length) :
    ∃ node1 diff1, ingestEntry linkID (node, diff) ripEntry = some (node1, diff1) ∧
      (16 ≤ ripEntry.Cost + 1 → node1 = node ∧ diff1 = diff) ∧
      (ripEntry.Cost + 1 < 16 →
        tableGet node1.RoutingTable P =
          some ⟨some linkID, ripEntry.Cost + 1, some ⟨P, true⟩⟩ ∧
        (∀ k, k ≠ P → tableGet node1.RoutingTable k = tableGet node.RoutingTable k) ∧
        diff1 = diff ++ [⟨ripEntry.Cost + 1, Int2IP P.Addr, Int2IP P.Mask⟩]) := by
  have hc1 : (ripEntry.Cost + 1) % 4294967296 = ripEntry.Cost + 1 := Nat.mod_eq_of_lt hC
  have hli : localInterface node linkID = some linkID := by simp [localInterface, hlink]
  by_cases h16 : 16 ≤ ripEntry.Cost + 1
  · refine ⟨node, diff, ?_, fun _ => ⟨rfl, rfl⟩, fun h => by omega⟩
    simp only [ingestEntry, hP, hL, hm, hc1, hfound, INFINITY, h16, Option.bind_eq_bind,
      Option.some_bind, Option.pure_def, if_true, ge_iff_le]
  · refine ⟨setRoute node P ⟨some linkID, ripEntry.Cost + 1, some ⟨P, true⟩⟩,
      diff ++ [⟨ripEntry.Cost + 1, Int2IP P.Addr, Int2IP P.Mask⟩], ?_, fun h => by omega, ?_⟩
    · simp only [ingestEntry, hP, hL, hm, hc1, hfound, INFINITY, h16, hli, Option.bind_eq_bind,
        Option.some_bind, Option.pure_def, if_true, if_false, ge_iff_le, EntryToRIPEntry]
    · intro _
      refine ⟨by simp [setRoute, tableGet_tableSet], ?_, rfl⟩
      intro k hk
      simp [setRoute, tableGet_tableSet, hk]

end Ingest

section CostBound

open ip util

theorem mem_tableSet (t : List (Route × Entry)) (k : Route) (v : Entry) (re : Route × Entry)
    (h : re ∈ tableSet t k v) : re ∈ t ∨ re = (k, v) := by
  unfold tableSet at h
  split_ifs at h
  · obtain ⟨x, hx, rfl⟩ := List.mem_map.mp h
    by_cases hk : x.1 = k
    · rw [if_pos hk, hk]
      exact Or.inr rfl
    · rw [if_neg hk]
      exact Or.inl hx
  · rcases List.mem_append.mp h with h | h
    · exact Or.inl h
    · exact Or.inr (by simpa using h)

theorem mem_tableDelete (t : List (Route × Entry)) (k : Route) (re : Route × Entry)
    (h : re ∈ tableDelete t k) : re ∈ t :=
  (List.mem_filter.mp h).1

theorem stopDeath_cost (node : Node) (m : MatchResult) (n1 : Node)
    (h : stopDeath node m = some n1) :
    n1 = node ∨ ∃ k v, v.Cost = m.entry.Cost ∧
      n1 = { node with RoutingTable := tableSet node.RoutingTable k v } := by
  unfold stopDeath at h
  cases ht : m.entry.Death with
  | none => simp [ht] at h
  | some timer =>
    cases hk : m.cell with
    | none =>
      simp only [ht, hk, Option.some.injEq] at h
      exact Or.inl h.symm
    | some k =>
      simp only [ht, hk, Option.some.injEq] at h
      exact Or.inr ⟨k, { m.entry with Death := some { timer with running := false } }, rfl, h.symm⟩

theorem resetDeath_cost (node : Node) (m : MatchResult) (n1 : Node)
    (h : resetDeath node m = some n1) :
    n1 = node ∨ ∃ k v, v.Cost = m.entry.Cost ∧
      n1 = { node with RoutingTable := tableSet node.RoutingTable k v } := by
  unfold resetDeath at h
  cases ht : m.entry.Death with
  | none => simp [ht] at h
  | some timer =>
    cases hk : m.cell with
    | none =>
      simp only [ht, hk, Option.some.injEq] at h
      exact Or.inl h.symm
    | some k =>
      simp only [ht, hk, Option.some.injEq] at h
      exact Or.inr ⟨k, { m.entry with Death := some { timer with running := true } }, rfl, h.symm⟩

set_option maxHeartbeats 2000000 in
theorem ingestEntry_cost_bound (linkID : Nat) (node : Node) (diff : List RIPEntry)
    (ripEntry : RIPEntry) (node1 : Node) (diff1 : List RIPEntry)
    (hinv : ∀ re ∈ node.RoutingTable, re.2.Cost < 16)
    (h : ingestEntry linkID (node, diff) ripEntry = some (node1, diff1)) :
    ∀ re ∈ node1.RoutingTable, re.2.Cost < 16 := by
  cases hP : RIPEntryToRoute ripEntry with
  | none => simp [ingestEntry, hP] at h
  | some P =>
  cases hL : MaskLen ripEntry.Mask with
  | none => simp [ingestEntry, hP, hL] at h
  | some L =>
  cases hm : matchRoute node ripEntry.Addr L with
  | none => simp [ingestEntry, hP, hL, hm] at h
  | some m =>
    have Tset : ∀ (y : Node) (entry : Entry), (∀ re ∈ y.RoutingTable, re.2.Cost < 16) →
        entry.Cost < 16 → ∀ re ∈ (setRoute y P entry).RoutingTable, re.2.Cost < 16 := by
      intro y entry hy he re hre
      rcases mem_tableSet _ _ _ _ hre with h1 | h1
      · exact hy re h1
      · rw [h1]
        exact he
    have Tdel : ∀ (y : Node), (∀ re ∈ y.RoutingTable, re.2.Cost < 16) →
        ∀ re ∈ tableDelete y.RoutingTable P, re.2.Cost < 16 :=
      fun y hy re hre => hy re (mem_tableDelete _ _ _ hre)
    have Tcell : ∀ (y : Node), (y = node ∨ ∃ k v, v.Cost = m.entry.Cost ∧
          y = { node with RoutingTable := tableSet node.RoutingTable k v }) →
        m.matched = true → ∀ re ∈ y.RoutingTable, re.2.Cost < 16 := by
      intro y hy hfound re hre
      rcases hy with rfl | ⟨k, v, hv, rfl⟩
      · exact hinv re hre
      · rcases mem_tableSet _ _ _ _ hre with h1 | h1
        · exact hinv re h1
        · obtain ⟨x, hx, -, he⟩ := matchRoute_cell node _ _ m hm hfound
          rw [h1]
          show v.Cost < 16
          rw [hv, he]
          exact hinv x hx
    simp only [ingestEntry, hP, hL, hm, Option.bind_eq_bind, Option.some_bind,
      Option.pure_def, localInterface, INFINITY, ge_iff_le] at h
    by_cases hmt : m.matched = false
    · simp only [hmt, if_true] at h
      split_ifs at h with h16 hlink
      · cases h
        exact hinv
      · simp only [Option.some_bind, Option.some.injEq, Prod.mk.injEq] at h
        obtain ⟨rfl, -⟩ := h
        exact Tset _ _ hinv (Nat.lt_of_not_le h16)
      · simp at h
    · have hfound : m.matched = true := by
        cases hx : m.matched
        · exact absurd hx hmt
        · rfl
      by_cases hc0 : m.entry.Cost = 0
      · simp only [hmt, hc0, if_true, if_false] at h
        cases h
        exact hinv
      · have hS : ∀ y, stopDeath node m = some y → ∀ re ∈ y.RoutingTable, re.2.Cost < 16 :=
          fun y hy => Tcell y (stopDeath_cost node m y hy) hfound
        have hR : ∀ y, resetDeath node m = some y → ∀ re ∈ y.RoutingTable, re.2.Cost < 16 :=
          fun y hy => Tcell y (resetDeath_cost node m y hy) hfound
        simp only [hfound, hc0, Bool.true_eq_false, Bool.false_eq_true, if_false, if_true,
          ne_eq, not_false_eq_true, true_and, decide_eq_true_eq] at h
        by_cases c16 : 16 ≤ (ripEntry.Cost + 1) % 4294967296 <;>
          by_cases c1 : (ripEntry.Cost + 1) % 4294967296 < m.entry.Cost <;>
          by_cases c2 : (ripEntry.Cost + 1) % 4294967296 > m.entry.Cost <;>
          by_cases hlink : linkID < node.LocalInterfaces.length <;>
          by_cases c3 : some linkID = m.entry.Interface
        all_goals simp only [c16, c1, c2, hlink, if_true, if_false, Option.none_bind,
          Option.some_bind, reduceCtorEq] at h
        all_goals first
          | simp only [if_pos c3] at h
          | simp only [if_neg c3] at h
          | skip
        all_goals rcases hsd : stopDeath node m with _ | y <;>
          rcases hrd : resetDeath node m with _ | z
        all_goals try simp only [hsd, hrd, Option.none_bind, Option.some_bind, reduceCtorEq] at h
        all_goals try split_ifs at h
        all_goals try simp only [Option.none_bind, Option.some_bind, reduceCtorEq] at h
        all_goals
          cases h
          first
            | exact hinv
            | exact Tset _ _ hinv (Nat.lt_of_not_le c16)
            | exact Tdel _ hinv
            | exact Tset _ _ (hS _ hsd) (Nat.lt_of_not_le c16)
            | exact Tdel _ (hS _ hsd)
            | exact hR _ hrd

theorem ingest_cost_bound (linkID : Nat) :
    ∀ (es : List RIPEntry) (st st1 : Node × List RIPEntry),
      (∀ re ∈ st.1.RoutingTable, re.2.Cost < 16) → ingest linkID st es = some st1 →
      ∀ re ∈ st1.1.RoutingTable, re.2.Cost < 16 := by
  intro es
  induction es with
  | nil =>
    intro st st1 hinv h
    simp only [ingest, Option.some.injEq] at h
    subst h
    exact hinv
  | cons x rest ih =>
    intro st st1 hinv h
    obtain ⟨node, diff⟩ := st
    simp only [ingest, Option.bind_eq_bind] at h
    cases hx : ingestEntry linkID (node, diff) x with
    | none => simp [hx] at h
    | some st2 =>
      obtain ⟨node2, diff2⟩ := st2
      simp only [hx, Option.some_bind] at h
      exact ih (node2, diff2) st1
        (ingestEntry_cost_bound linkID node diff x node2 diff2 hinv hx) h

end CostBound

/-- C7: for a received RIP response entry (P, C) with C ≤ 16 arriving on interface
`linkID`, with C' = min(C+1, 16), when `matchRoute` of P (maxLen = MaskLen of P) finds an
entry `e` with cost > 0: if C' < e.cost, or C' > e.cost and `linkID` is e's outbound
interface, then afterwards the table has no entry under key P when C' ≥ 16 and otherwise
maps P to (linkID, C') and (P, C') is appended to the diff; in every other case the table's
mapping key -> (interface, cost) is unchanged and nothing is appended to the diff.  The
matched entry is one the code stored: its cost is below 16 (a cost is written to the table
only after the test `cost + 1 < INFINITY`) and it carries its death timer.  The last
conjunct shows that the step keeps every stored cost below 16. -/
theorem RIPHandler_known_route (linkID : Nat) (node : ip.Node) (diff : List ip.RIPEntry)
    (ripEntry : ip.RIPEntry) (P : ip.Route) (L : Int) (m : ip.MatchResult)
    (hC : ripEntry.Cost ≤ 16)
    (hP : ip.RIPEntryToRoute ripEntry = some P) (hL : util.MaskLen ripEntry.Mask = some L)
    (hm : ip.matchRoute node ripEntry.Addr L = some m) (hfound : m.matched = true)
    (hcost : 0 < m.entry.Cost) (hcost16 : m.entry.Cost < 16)
    (htimer : m.entry.Death ≠ none)
    (hlink : linkID < node.LocalInterfaces.length)
    (hnd : (node.RoutingTable.map Prod.fst).Nodup) :
    ∃ node1 diff1, ip.ingestEntry linkID (node, diff) ripEntry = some (node1, diff1) ∧
      ((min (ripEntry.Cost + 1) 16 < m.entry.Cost ∨
          (min (ripEntry.Cost + 1) 16 > m.entry.Cost ∧ m.entry.Interface = some linkID)) →
        (16 ≤ min (ripEntry.Cost + 1) 16 →
          ip.tableGet node1.RoutingTable P = none ∧ diff1 = diff) ∧
        (min (ripEntry.Cost + 1) 16 < 16 →
          ifCost node1.RoutingTable P = some (some linkID, min (ripEntry.Cost + 1) 16) ∧
          diff1 = diff ++
            [⟨min (ripEntry.Cost + 1) 16, util.Int2IP P.Addr, util.Int2IP P.Mask⟩])) ∧
      (¬ (min (ripEntry.Cost + 1) 16 < m.entry.Cost ∨
          (min (ripEntry.Cost + 1) 16 > m.entry.Cost ∧ m.entry.Interface = some linkID)) →
        (∀ k, ifCost node1.RoutingTable k = ifCost node.RoutingTable k) ∧ diff1 = diff) ∧
      ((∀ re ∈ node.RoutingTable, re.2.Cost < 16) →
        ∀ re ∈ node1.RoutingTable, re.2.Cost < 16) := by
  have hC32 : ripEntry.Cost + 1 < 4294967296 := by omega
  by_cases hrep : ripEntry.Cost + 1 < m.entry.Cost ∨
      (ripEntry.Cost + 1 > m.entry.Cost ∧ m.entry.Interface = some linkID)
  · obtain ⟨node1, diff1, h1, h2, h3⟩ := ingestEntry_replace linkID node diff ripEntry P L m
      hC32 hP hL hm hfound hcost htimer hlink hrep
    refine ⟨node1, diff1, h1, ?_, ?_,
      fun hinv => ingestEntry_cost_bound linkID node diff ripEntry node1 diff1 hinv h1⟩
    · intro _
      constructor
      · intro h16
        exact h2 (by omega)
      · intro h16
        have hlt : ripEntry.Cost + 1 < 16 := by omega
        have hmin : min (ripEntry.Cost + 1) 16 = ripEntry.Cost + 1 := by omega
        obtain ⟨h4, h5⟩ := h3 hlt
        rw [hmin]
        exact ⟨by simp [ifCost, h4], h5⟩
    · intro hn
      exfalso
      apply hn
      rcases hrep with h | ⟨h, hi⟩
      · left
        omega
      · right
        exact ⟨by omega, hi⟩
  · obtain ⟨node1, h1, h2⟩ := ingestEntry_keep linkID node diff ripEntry P L m
      hC32 hP hL hm hfound hcost htimer hlink hnd hrep
    refine ⟨node1, diff, h1, ?_, ?_,
      fun hinv => ingestEntry_cost_bound linkID node diff ripEntry node1 diff hinv h1⟩
    · intro hc
      exfalso
      apply hrep
      rcases hc with h | ⟨h, hi⟩
      · left
        omega
      · right
        exact ⟨by omega, hi⟩
    · intro _
      exact ⟨h2, rfl⟩

/-- Witness for C7: 10.0.1.0/24 is known at cost 5 through interface 1; a response entry
with cost 2 for it arrives on interface 0. -/
theorem RIPHandler_known_route_witness :
    ∃ node1 diff1,
      ip.ingestEntry 0
        (⟨[⟨5001, [10, 0, 0, 1], [10, 0, 0, 2], true⟩, ⟨5002, [10, 0, 2, 1], [10, 0, 2, 2], true⟩],
          [(⟨0x0A000100, 0xFFFFFF00⟩,
            ⟨some 1, 5, some ⟨⟨0x0A000100, 0xFFFFFF00⟩, true⟩⟩)], false⟩, [])
        ⟨2, [10, 0, 1, 0], [255, 255, 255, 0]⟩ = some (node1, diff1) ∧
      ((min (2 + 1) 16 < 5 ∨ (min (2 + 1) 16 > 5 ∧ some 1 = some 0)) →
        (16 ≤ min (2 + 1) 16 →
          ip.tableGet node1.RoutingTable ⟨0x0A000100, 0xFFFFFF00⟩ = none ∧ diff1 = []) ∧
        (min (2 + 1) 16 < 16 →
          ifCost node1.RoutingTable ⟨0x0A000100, 0xFFFFFF00⟩ = some (some 0, min (2 + 1) 16) ∧
          diff1 = [] ++
            [⟨min (2 + 1) 16, util.Int2IP 0x0A000100, util.Int2IP 0xFFFFFF00⟩])) ∧
      (¬ (min (2 + 1) 16 < 5 ∨ (min (2 + 1) 16 > 5 ∧ some 1 = some 0)) →
        (∀ k, ifCost node1.RoutingTable k =
          ifCost [(⟨0x0A000100, 0xFFFFFF00⟩,
            ⟨some 1, 5, some ⟨⟨0x0A000100, 0xFFFFFF00⟩, true⟩⟩)] k) ∧ diff1 = []) ∧
      ((∀ re ∈ [((⟨0x0A000100, 0xFFFFFF00⟩ : ip.Route),
            (⟨some 1, 5, some ⟨⟨0x0A000100, 0xFFFFFF00⟩, true⟩⟩ : ip.Entry))],
          re.2.Cost < 16) →
        ∀ re ∈ node1.RoutingTable, re.2.Cost < 16) :=
  RIPHandler_known_route 0
    ⟨[⟨5001, [10, 0, 0, 1], [10, 0, 0, 2], true⟩, ⟨5002, [10, 0, 2, 1], [10, 0, 2, 2], true⟩],
      [(⟨0x0A000100, 0xFFFFFF00⟩,
        ⟨some 1, 5, some ⟨⟨0x0A000100, 0xFFFFFF00⟩, true⟩⟩)], false⟩ []
    ⟨2, [10, 0, 1, 0], [255, 255, 255, 0]⟩ ⟨0x0A000100, 0xFFFFFF00⟩ 24
    ⟨some ⟨0x0A000100, 0xFFFFFF00⟩, ⟨some 1, 5, some ⟨⟨0x0A000100, 0xFFFFFF00⟩, true⟩⟩, true, 24⟩
    (by decide) (by decide) (by decide) (by decide) rfl (by decide) (by decide) (by decide)
    (by decide) (by decide)

/-- C8, the code at the failing input: no route covers 10.0.1.0/24 and a response entry
for it with cost 0xFFFFFFFF arrives on interface 0.  `ripEntry.Cost+1` wraps to 0, the test
against INFINITY passes, and the key is installed with cost 0 (and advertised in the
diff), whereas min(C+1, 16) = 16 asks for the table to stay unchanged. -/
theorem RIPHandler_cost_wraps_to_zero :
    ip.matchRoute ⟨[⟨5001, [10, 0, 0, 1], [10, 0, 0, 2], true⟩], [], false⟩ [10, 0, 1, 0] 24 =
      some ⟨none, ip.zeroEntry, false, 0⟩ ∧
      min (4294967295 + 1) 16 = 16 ∧
      ip.ingestEntry 0 (⟨[⟨5001, [10, 0, 0, 1], [10, 0, 0, 2], true⟩], [], false⟩, [])
        ⟨4294967295, [10, 0, 1, 0], [255, 255, 255, 0]⟩ =
      some (⟨[⟨5001, [10, 0, 0, 1], [10, 0, 0, 2], true⟩],
          [(⟨0x0A000100, 0xFFFFFF00⟩,
            ⟨some 0, 0, some ⟨⟨0x0A000100, 0xFFFFFF00⟩, true⟩⟩)], false⟩,
        [⟨0, [10, 0, 1, 0], [255, 255, 255, 0]⟩]) := by
  decide

section Window

open tcp

theorem add_mod_ring (S lm d : Nat) (hlm : lm < S) (hd : d ≤ S) :
    (lm + d) % S = if lm + d < S then lm + d else lm + d - S := by
  split_ifs with h
  · exact Nat.mod_eq_of_lt h
  · rw [Nat.mod_eq_sub_mod (by omega)]
    exact Nat.mod_eq_of_lt (by omega)

theorem next_mod_size (S l n : Nat) (hS : 1 ≤ S) (hS32 : S < 4294967296)
    (hl : l < 4294967296) (hn : n < 4294967296) (hd : sub32 n l ≤ S) :
    (if n < l then (sub32 n S) % S else n % S) = (l % S + sub32 n l) % S := by
  unfold sub32 at hd ⊢
  have hmod : ∀ x : Nat, (l % S + x) % S = (l + x) % S := by
    intro x
    rw [Nat.add_mod, Nat.mod_mod, ← Nat.add_mod]
  rw [hmod]
  split_ifs with h
  · have h1 : (n + 4294967296 - l) % 4294967296 = n + 4294967296 - l :=
      Nat.mod_eq_of_lt (by omega)
    rw [h1] at hd ⊢
    have h2 : (n + 4294967296 - S) % 4294967296 = n + 4294967296 - S :=
      Nat.mod_eq_of_lt (by omega)
    rw [h2]
    have h3 : l + (n + 4294967296 - l) = (n + 4294967296 - S) + S := by omega
    rw [h3, Nat.add_mod_right]
  · have h1 : (n + 4294967296 - l) % 4294967296 = n - l := by
      have : n + 4294967296 - l = (n - l) + 4294967296 := by omega
      rw [this, Nat.add_mod_right]
      exact Nat.mod_eq_of_lt (by omega)
    rw [h1]
    congr 1
    omega

theorem GetWindowSize_eq (cb : CircBuff) (hS : 1 ≤ cb.size) (hS32 : cb.size < 4294967296)
    (hl : cb.left < 4294967296) (hn : cb.next < 4294967296)
    (hd : sub32 cb.next cb.left ≤ cb.size) :
    GetWindowSize cb = some (cb.size - sub32 cb.next cb.left) := by
  have hnm := next_mod_size cb.size cb.left cb.next hS hS32 hl hn hd
  have hlm : cb.left % cb.size < cb.size := Nat.mod_lt _ (by omega)
  have hring := add_mod_ring cb.size (cb.left % cb.size) (sub32 cb.next cb.left) hlm hd
  have hd0 : sub32 cb.next cb.left = 0 ↔ cb.left = cb.next := by
    unfold sub32
    constructor
    · intro h
      by_contra hne
      by_cases hlt : cb.next < cb.left
      · rw [Nat.mod_eq_of_lt (by omega)] at h
        omega
      · have : cb.next + 4294967296 - cb.left = (cb.next - cb.left) + 4294967296 := by omega
        rw [this, Nat.add_mod_right, Nat.mod_eq_of_lt (by omega)] at h
        omega
    · intro h
      rw [h]
      have : cb.next + 4294967296 - cb.next = 0 + 4294967296 := by omega
      rw [this, Nat.add_mod_right]
  unfold GetWindowSize
  rw [if_neg (by omega)]
  simp only [hnm, hring]
  generalize sub32 cb.next cb.left = d at hd hd0 hring ⊢
  generalize cb.left % cb.size = lm at hlm ⊢
  by_cases hz : cb.left = cb.next
  · have : d = 0 := hd0.mpr hz
    subst this
    simp [hz]
  · have hdpos : d ≠ 0 := fun h => hz (hd0.mp h)
    rw [if_neg hz]
    by_cases hlt : lm + d < cb.size
    · rw [if_pos hlt, if_pos (by omega)]
      unfold sub32
      have h1 : (lm + d + 4294967296 - lm) % 4294967296 = d := by
        have : lm + d + 4294967296 - lm = d + 4294967296 := by omega
        rw [this, Nat.add_mod_right]
        exact Nat.mod_eq_of_lt (by omega)
      rw [h1]
      have : cb.size + 4294967296 - d = (cb.size - d) + 4294967296 := by omega
      rw [this, Nat.add_mod_right, Nat.mod_eq_of_lt (by omega)]
    · rw [if_neg hlt, if_neg (by omega)]
      unfold sub32
      have : lm + 4294967296 - (lm + d - cb.size) = (cb.size - d) + 4294967296 := by omega
      rw [this, Nat.add_mod_right, Nat.mod_eq_of_lt (by omega)]

theorem GetReadySize_eq (cb : CircBuff) (hS : 1 ≤ cb.size) (hS32 : cb.size < 4294967296)
    (hl : cb.left < 4294967296) (hn : cb.next < 4294967296)
    (hd : sub32 cb.next cb.left ≤ cb.size) :
    GetReadySize cb = some (sub32 cb.next cb.left) := by
  unfold GetReadySize
  rw [GetWindowSize_eq cb hS hS32 hl hn hd]
  simp only [Option.map_some', Option.some.injEq]
  unfold sub32 at hd ⊢
  generalize (cb.next + 4294967296 - cb.left) % 4294967296 = d at hd ⊢
  have : cb.size + 4294967296 - (cb.size - d) = d + 4294967296 := by omega
  rw [this, Nat.add_mod_right]
  exact Nat.mod_eq_of_lt (by omega)

end Window

section Push

open tcp

theorem pushRejects_iff (cb : CircBuff) (lIdx dl : Nat) :
    pushRejects cb lIdx dl = true ↔
      (lIdx < cb.next ∨
        (lIdx > 4294967295 - dl ∧ ¬ cb.left > 4294967295 - cb.size) ∨
        ((lIdx > 4294967295 - dl ↔ cb.left > 4294967295 - cb.size) ∧
          add32 lIdx dl > add32 cb.left cb.size)) := by
  unfold pushRejects overflows tcp.xor
  by_cases h1 : lIdx < cb.next <;> by_cases h2 : lIdx > 4294967295 - dl <;>
    by_cases h3 : cb.left > 4294967295 - cb.size <;>
    by_cases h4 : add32 lIdx dl > add32 cb.left cb.size <;> simp [h1, h2, h3, h4]

theorem copyInto_some (buff : List Nat) (lo hi : Nat) (src : List Nat) (h1 : lo ≤ hi)
    (h2 : hi ≤ buff.length) :
    ∃ r, copyInto buff lo hi src = some r ∧ r.1.length = buff.length ∧
      r.2 = min (hi - lo) src.length := by
  refine ⟨_, by rw [copyInto, if_pos ⟨h1, h2⟩], ?_, rfl⟩
  simp only [List.length_append, List.length_take, List.length_drop]
  omega

theorem pushCopy_some (cb : CircBuff) (lIdx : Nat) (data : List Nat) (hS : 1 ≤ cb.size)
    (hS32 : cb.size < 4294967296) (hb : cb.buff.length = cb.size)
    (h1 : 1 ≤ data.length) (h2 : data.length ≤ cb.size) :
    ∃ r, pushCopy cb lIdx data = some r ∧ r.1.length = cb.size := by
  have ha : lIdx % cb.size < cb.size := Nat.mod_lt _ (by omega)
  have hdl : data.length % 4294967296 = data.length := Nat.mod_eq_of_lt (by omega)
  unfold pushCopy
  rw [if_neg (by omega), hdl]
  simp only
  have hr : add32 (lIdx % cb.size) (data.length % cb.size) % cb.size < cb.size :=
    Nat.mod_lt _ (by omega)
  by_cases hbr : lIdx % cb.size < add32 (lIdx % cb.size) (data.length % cb.size) % cb.size
  · rw [if_pos hbr]
    obtain ⟨r, hr1, hr2, -⟩ := copyInto_some cb.buff (lIdx % cb.size)
      (add32 (lIdx % cb.size) (data.length % cb.size) % cb.size) data (by omega) (by omega)
    exact ⟨r, hr1, by rw [hr2, hb]⟩
  · rw [if_neg hbr]
    have hsub : sub32 cb.size (lIdx % cb.size) = cb.size - lIdx % cb.size := by
      unfold sub32
      have : cb.size + 4294967296 - lIdx % cb.size =
          (cb.size - lIdx % cb.size) + 4294967296 := by omega
      rw [this, Nat.add_mod_right]
      exact Nat.mod_eq_of_lt (by omega)
    have hfit : cb.size - lIdx % cb.size ≤ data.length := by
      by_contra hlt
      have hlt2 : lIdx % cb.size + data.length < cb.size := by omega
      have hm : data.length % cb.size = data.length := Nat.mod_eq_of_lt (by omega)
      have hadd : add32 (lIdx % cb.size) (data.length % cb.size) =
          lIdx % cb.size + data.length := by
        rw [hm]
        exact Nat.mod_eq_of_lt (by omega)
      rw [hadd, Nat.mod_eq_of_lt hlt2] at hbr
      omega
    rw [hsub]
    have hs1 : slice data 0 (cb.size - lIdx % cb.size) =
        some ((data.drop 0).take (cb.size - lIdx % cb.size - 0)) := by
      rw [slice, if_pos ⟨Nat.zero_le _, hfit⟩]
    have hs2 : sliceFrom data (cb.size - lIdx % cb.size) =
        some (data.drop (cb.size - lIdx % cb.size)) := by
      rw [sliceFrom, if_pos hfit]
    obtain ⟨r1, hr1, hr1l, -⟩ := copyInto_some cb.buff (lIdx % cb.size) cb.buff.length
      ((data.drop 0).take (cb.size - lIdx % cb.size - 0)) (by omega) (le_refl _)
    obtain ⟨r2, hr2, hr2l, -⟩ := copyInto_some r1.1 0
      (add32 (lIdx % cb.size) (data.length % cb.size) % cb.size)
      (data.drop (cb.size - lIdx % cb.size)) (Nat.zero_le _) (by rw [hr1l, hb]; omega)
    refine ⟨(r2.1, r1.2 + r2.2), ?_, by simp only; rw [hr2l, hr1l, hb]⟩
    simp only [hs1, hs2, hr1, hr2, Option.bind_eq_bind, Option.some_bind, Option.pure_def]

theorem PushData_in_order_fresh (cb : CircBuff) (data : List Nat) (s k : Nat)
    (hS : 1 ≤ cb.size) (hS32 : cb.size < 4294967296) (hb : cb.buff.length = cb.size)
    (hs : s < 4294967296) (hl : cb.left = s) (hn : cb.next = add32 s k)
    (hf : cb.fragments = []) (hk : k + data.length ≤ cb.size) :
    ∃ r, PushData cb cb.next data = some r ∧ r.1.size = cb.size ∧
      r.1.buff.length = cb.size ∧ r.1.left = s ∧ r.1.next = add32 s (k + data.length) ∧
      r.1.fragments = [] := by
  by_cases h0 : data.length = 0
  · refine ⟨(cb, false, false), by rw [PushData, if_pos h0], rfl, hb, hl, ?_, hf⟩
    simp only [h0, Nat.add_zero]
    exact hn
  · have hdl : data.length % 4294967296 = data.length := Nat.mod_eq_of_lt (by omega)
    have hrej : ¬ pushRejects cb cb.next data.length = true := by
      rw [pushRejects_iff, hl, hn]
      unfold add32
      omega
    have hst : pushState cb cb.next data.length =
        { cb with next := add32 cb.next data.length, fragments := [] } := by
      simp [pushState, hf, collapse]
    have hnext : add32 cb.next data.length = add32 s (k + data.length) := by
      rw [hn]
      unfold add32
      omega
    obtain ⟨r, hr, hrl⟩ := pushCopy_some
      { cb with next := add32 cb.next data.length, fragments := [] } cb.next data hS hS32 hb
      (Nat.pos_of_ne_zero h0) (show data.length ≤ cb.size by omega)
    obtain ⟨buff, n⟩ := r
    by_cases hcount : n ≠ data.length
    · refine ⟨(⟨cb.size, buff, cb.left, add32 cb.next data.length, [], cb.finRecvd, cb.finSeq,
        cb.waitChan⟩, false, true), ?_, rfl, hrl, hl, hnext, rfl⟩
      simp only [PushData, h0, hdl, hrej, hst, hr, hcount, if_false, if_true, ne_eq,
        not_false_eq_true, Bool.false_eq_true]
    · refine ⟨(⟨cb.size, buff, cb.left, add32 cb.next data.length, [], cb.finRecvd, cb.finSeq,
        false⟩, true, false), ?_, rfl, hrl, hl, hnext, rfl⟩
      simp only [PushData, h0, hdl, hrej, hst, hr, hcount, if_false, if_true, ne_eq,
        not_false_eq_true, Bool.false_eq_true]

theorem pushInOrder_fresh (datas : List (List Nat)) :
    ∀ (cb : CircBuff) (s k : Nat), 1 ≤ cb.size → cb.size < 4294967296 →
      cb.buff.length = cb.size → s < 4294967296 → cb.left = s → cb.next = add32 s k →
      cb.fragments = [] → k + (datas.map List.length).sum ≤ cb.size →
      ∃ cb1, pushInOrder cb datas = some cb1 ∧ cb1.size = cb.size ∧ cb1.left = s ∧
        cb1.next = add32 s (k + (datas.map List.length).sum) := by
  induction datas with
  | nil =>
    intro cb s k _ _ _ _ hl hn _ _
    exact ⟨cb, rfl, rfl, hl, by simpa using hn⟩
  | cons data rest ih =>
    intro cb s k hS hS32 hb hs hl hn hf hk
    simp only [List.map_cons, List.sum_cons] at hk
    obtain ⟨r, hr, h1, h2, h3, h4, h5⟩ :=
      PushData_in_order_fresh cb data s k hS hS32 hb hs hl hn hf (by omega)
    obtain ⟨cb1, hc1, hc2, hc3, hc4⟩ := ih r.1 s (k + data.length) (by omega) (by omega)
      (by rw [h2, h1]) hs h3 h4 h5 (by rw [h1]; omega)
    refine ⟨cb1, ?_, by rw [hc2, h1], hc3, ?_⟩
    · simp only [pushInOrder, hr]
      exact hc1
    · rw [hc4]
      simp only [List.map_cons, List.sum_cons]
      congr 1
      omega

theorem sub32_add32 (s k : Nat) (hs : s < 4294967296) (hk : k < 4294967296) :
    sub32 (add32 s k) s = k := by
  unfold sub32 add32
  omega

end Push

/-- C9: for a CircBuff with size S ≥ 1 whose sequence distance d = (next - left) mod 2^32
is at most S (also when next has wrapped past 2^32 and left has not), `GetWindowSize`
returns S - d and `GetReadySize` returns d, so that window + ready = S; and after in-order
pushes totalling k ≤ S bytes into a fresh buffer created at any start index the window
size is S - k. -/
theorem GetWindowSize_law (cb : tcp.CircBuff) (hS : 1 ≤ cb.size)
    (hS32 : cb.size < 4294967296) (hl : cb.left < 4294967296) (hn : cb.next < 4294967296)
    (hd : tcp.sub32 cb.next cb.left ≤ cb.size) :
    tcp.GetWindowSize cb = some (cb.size - tcp.sub32 cb.next cb.left) ∧
      tcp.GetReadySize cb = some (tcp.sub32 cb.next cb.left) ∧
      (cb.size - tcp.sub32 cb.next cb.left) + tcp.sub32 cb.next cb.left = cb.size ∧
      (∀ (s : Nat) (datas : List (List Nat)), s < 4294967296 →
        (datas.map List.length).sum ≤ cb.size →
        ∃ cb1, pushInOrder (tcp.NewCircBuff cb.size s) datas = some cb1 ∧
          tcp.GetWindowSize cb1 = some (cb.size - (datas.map List.length).sum)) := by
  refine ⟨GetWindowSize_eq cb hS hS32 hl hn hd, GetReadySize_eq cb hS hS32 hl hn hd,
    by omega, ?_⟩
  intro s datas hs hk
  obtain ⟨cb1, h1, h2, h3, h4⟩ := pushInOrder_fresh datas (tcp.NewCircBuff cb.size s) s 0
    hS hS32 (by simp [tcp.NewCircBuff]) hs rfl
    (by simp [tcp.NewCircBuff, tcp.add32, Nat.mod_eq_of_lt hs]) rfl
    (by simpa [tcp.NewCircBuff] using hk)
  simp only [tcp.NewCircBuff] at h2
  have hsub : tcp.sub32 cb1.next cb1.left = (datas.map List.length).sum := by
    rw [h3, h4, Nat.zero_add]
    exact sub32_add32 s _ hs (by omega)
  refine ⟨cb1, h1, ?_⟩
  have := GetWindowSize_eq cb1 (by omega) (by omega) (by omega)
    (by rw [h4]; exact Nat.mod_lt _ (by decide)) (by rw [hsub, h2]; exact hk)
  rw [this, hsub, h2]

/-- Witness for C9: a buffer of size 10 whose `left` is 4294967292 and whose `next` has
wrapped to 1 (five ready bytes). -/
theorem GetWindowSize_law_witness :
    tcp.GetWindowSize ⟨10, List.replicate 10 0, 4294967292, 1, [], false, 0, false⟩ =
        some (10 - tcp.sub32 1 4294967292) ∧
      tcp.GetReadySize ⟨10, List.replicate 10 0, 4294967292, 1, [], false, 0, false⟩ =
        some (tcp.sub32 1 4294967292) ∧
      (10 - tcp.sub32 1 4294967292) + tcp.sub32 1 4294967292 = 10 ∧
      (∀ (s : Nat) (datas : List (List Nat)), s < 4294967296 →
        (datas.map List.length).sum ≤ 10 →
        ∃ cb1, pushInOrder (tcp.NewCircBuff 10 s) datas = some cb1 ∧
          tcp.GetWindowSize cb1 = some (10 - (datas.map List.length).sum)) :=
  GetWindowSize_law ⟨10, List.replicate 10 0, 4294967292, 1, [], false, 0, false⟩
    (by decide) (by decide) (by decide) (by decide) (by decide)

section Collapse

open tcp

theorem collapse_spec (frags : List fragment) :
    ∀ (next last : Nat), next < 4294967296 →
      ∃ k, k ≤ frags.length ∧ (collapse frags next last).2 = last + k ∧
        runFrom next (frags.take k) ∧
        (∀ j, j ≤ frags.length → runFrom next (frags.take j) → j ≤ k) ∧
        (collapse frags next last).1 = (next + totalLen (frags.take k)) % 4294967296 := by
  induction frags with
  | nil =>
    intro next last hn
    refine ⟨0, le_refl _, rfl, trivial, ?_, ?_⟩
    · intro j hj _
      simpa using hj
    · simp only [collapse, List.take_nil, totalLen, List.map_nil, List.sum_nil, Nat.add_zero]
      exact (Nat.mod_eq_of_lt hn).symm
  | cons f rest ih =>
    intro next last hn
    by_cases hf : f.start = next
    · obtain ⟨k, hk, h2, h3, h4, h5⟩ := ih (add32 next f.len) (last + 1)
        (Nat.mod_lt _ (by decide))
      refine ⟨k + 1, by simpa using hk, ?_, ?_, ?_, ?_⟩
      · simp only [collapse, hf, if_true, h2]
        omega
      · simp only [List.take_succ_cons, runFrom]
        exact ⟨hf, by rw [hf]; exact h3⟩
      · intro j hj hrun
        cases j with
        | zero => omega
        | succ j =>
          simp only [List.take_succ_cons, runFrom] at hrun
          have := h4 j (by simpa using hj) (by rw [← hf]; exact hrun.2)
          omega
      · simp only [collapse, hf, if_true, h5, List.take_succ_cons, totalLen, List.map_cons,
          List.sum_cons]
        unfold add32
        omega
    · refine ⟨0, Nat.zero_le _, by simp [collapse, hf], trivial, ?_, ?_⟩
      · intro j _ hrun
        cases j with
        | zero => exact le_refl _
        | succ j =>
          simp only [List.take_succ_cons, runFrom] at hrun
          exact absurd hrun.1 hf
      · simp only [collapse, hf, if_false, List.take_zero, totalLen, List.map_nil, List.sum_nil,
          Nat.add_zero]
        exact (Nat.mod_eq_of_lt hn).symm

theorem PushData_accepted (cb cb1 : CircBuff) (lIdx : Nat) (data : List Nat) (err : Bool)
    (h : PushData cb lIdx data = some (cb1, true, err)) :
    data.length ≠ 0 ∧ pushRejects cb lIdx (data.length % 4294967296) = false ∧
      ∃ buff, pushCopy (pushState cb lIdx (data.length % 4294967296)) lIdx data =
          some (buff, data.length) ∧
        cb1 = { pushState cb lIdx (data.length % 4294967296) with
          buff := buff, waitChan := false } := by
  unfold PushData at h
  by_cases h0 : data.length = 0
  · rw [if_pos h0] at h
    simp at h
  · rw [if_neg h0] at h
    simp only at h
    by_cases hrej : pushRejects cb lIdx (data.length % 4294967296) = true
    · rw [if_pos hrej] at h
      simp at h
    · rw [if_neg hrej] at h
      refine ⟨h0, by simpa using hrej, ?_⟩
      cases hpc : pushCopy (pushState cb lIdx (data.length % 4294967296)) lIdx data with
      | none =>
        rw [hpc] at h
        simp at h
      | some r =>
        obtain ⟨buff, n⟩ := r
        rw [hpc] at h
        simp only at h
        by_cases hcount : n ≠ data.length
        · rw [if_pos hcount] at h
          simp at h
        · rw [if_neg hcount] at h
          have hn : n = data.length := by
            by_contra hne
            exact hcount hne
          subst hn
          simp only [Option.some.injEq, Prod.mk.injEq, and_true] at h
          exact ⟨buff, rfl, h.1.symm⟩

end Collapse

/-- C10: for every accepted `PushData(lIdx, data)` with `lIdx = next`, afterwards
`next = old next + len(data) +` the total length of the longest leading run `f1..fk` of
the fragment list with `f1.start = old next + len(data)` and each next start equal to the
previous start plus length (uint32 arithmetic); exactly those `k` records are removed, the
remaining records keep their order, and `left` is unchanged. -/
theorem PushData_in_order_collapse (cb cb1 : tcp.CircBuff) (data : List Nat) (err : Bool)
    (h : tcp.PushData cb cb.next data = some (cb1, true, err)) :
    ∃ k, k ≤ cb.fragments.length ∧
      runFrom (tcp.add32 cb.next (data.length % 4294967296)) (cb.fragments.take k) ∧
      (∀ j, j ≤ cb.fragments.length →
        runFrom (tcp.add32 cb.next (data.length % 4294967296)) (cb.fragments.take j) →
        j ≤ k) ∧
      cb1.next = (cb.next + data.length + totalLen (cb.fragments.take k)) % 4294967296 ∧
      cb1.fragments = cb.fragments.drop k ∧
      cb1.left = cb.left := by
  obtain ⟨-, -, buff, -, hcb⟩ := PushData_accepted cb cb1 cb.next data err h
  obtain ⟨k, hk, h2, h3, h4, h5⟩ := collapse_spec cb.fragments
    (tcp.add32 cb.next (data.length % 4294967296)) 0 (Nat.mod_lt _ (by decide))
  have hst : tcp.pushState cb cb.next (data.length % 4294967296) =
      { cb with
        next := (tcp.collapse cb.fragments (tcp.add32 cb.next (data.length % 4294967296)) 0).1
        fragments := cb.fragments.drop
          (tcp.collapse cb.fragments (tcp.add32 cb.next (data.length % 4294967296)) 0).2 } := by
    simp [tcp.pushState]
  rw [hst] at hcb
  subst hcb
  refine ⟨k, hk, h3, h4, ?_, ?_, rfl⟩
  · simp only [h5]
    unfold tcp.add32
    omega
  · simp only [h2, Nat.zero_add]

/-- Witness for C10: the state of TestCircBuffFragmentsLeftOver before its last push
(fragments at 132 and 134, `next` = 131); pushing the byte 131 absorbs the fragment at
132 and leaves the one at 134. -/
theorem PushData_in_order_collapse_witness :
    ∃ k, k ≤ [(⟨132, 1⟩ : tcp.fragment), ⟨134, 1⟩].length ∧
      runFrom (tcp.add32 131 ([3].length % 4294967296))
        ([(⟨132, 1⟩ : tcp.fragment), ⟨134, 1⟩].take k) ∧
      (∀ j, j ≤ [(⟨132, 1⟩ : tcp.fragment), ⟨134, 1⟩].length →
        runFrom (tcp.add32 131 ([3].length % 4294967296))
          ([(⟨132, 1⟩ : tcp.fragment), ⟨134, 1⟩].take j) →
        j ≤ k) ∧
      133 = (131 + [3].length +
        totalLen ([(⟨132, 1⟩ : tcp.fragment), ⟨134, 1⟩].take k)) % 4294967296 ∧
      [(⟨134, 1⟩ : tcp.fragment)] = [(⟨132, 1⟩ : tcp.fragment), ⟨134, 1⟩].drop k ∧
      128 = 128 :=
  PushData_in_order_collapse
    ⟨10, [2, 0, 4, 0, 6, 0, 0, 0, 0, 1], 128, 131, [⟨132, 1⟩, ⟨134, 1⟩], false, 0, false⟩
    ⟨10, [2, 3, 4, 0, 6, 0, 0, 0, 0, 1], 128, 133, [⟨134, 1⟩], false, 0, false⟩
    [3] false (by decide)

section Pull

open tcp

theorem sub32_small (x y : Nat) (h : y ≤ x) (hx : x < 4294967296) : sub32 x y = x - y := by
  unfold sub32
  have : x + 4294967296 - y = (x - y) + 4294967296 := by omega
  rw [this, Nat.add_mod_right]
  exact Nat.mod_eq_of_lt (by omega)

theorem GetReadySize_le (cb : CircBuff) (r : Nat) (hS32 : cb.size < 4294967296)
    (hr : GetReadySize cb = some r) : r ≤ cb.size ∧ 1 ≤ cb.size := by
  unfold GetReadySize GetWindowSize at hr
  by_cases h0 : cb.size = 0
  · rw [if_pos h0] at hr
    simp at hr
  · rw [if_neg h0] at hr
    simp only at hr
    have hlm : cb.left % cb.size < cb.size := Nat.mod_lt _ (by omega)
    have hnm : (if cb.next < cb.left then sub32 cb.next cb.size % cb.size
        else cb.next % cb.size) < cb.size := by
      split_ifs <;> exact Nat.mod_lt _ (by omega)
    generalize (if cb.next < cb.left then sub32 cb.next cb.size % cb.size
        else cb.next % cb.size) = nm at hr hnm
    generalize cb.left % cb.size = lm at hr hlm
    refine ⟨?_, by omega⟩
    split_ifs at hr with h1 h2
    · simp only [Option.map_some', Option.some.injEq] at hr
      rw [← hr, sub32_small _ _ (le_refl _) hS32]
      omega
    · simp only [Option.map_some', Option.some.injEq] at hr
      rw [sub32_small nm lm (by omega) (by omega),
        sub32_small cb.size (nm - lm) (by omega) hS32,
        sub32_small cb.size _ (by omega) hS32] at hr
      omega
    · simp only [Option.map_some', Option.some.injEq] at hr
      rw [sub32_small lm nm (by omega) (by omega),
        sub32_small cb.size _ (by omega) hS32] at hr
      omega

theorem ring_read (buff : List Nat) (S lIdx n1 : Nat) (hb : buff.length = S)
    (hl : lIdx < S) (hn : n1 ≤ S) (hS : S ≤ 2147483648) :
    ∃ bytes,
      (if add32 lIdx n1 ≤ S then slice buff lIdx (add32 lIdx n1)
        else (sliceFrom buff lIdx).bind (fun a =>
          (slice buff 0 ((add32 lIdx n1) % S)).map (fun b => a ++ b))) = some bytes ∧
      bytes.length = n1 ∧ ∀ i, i < n1 → bytes[i]? = buff[(lIdx + i) % S]? := by
  have hadd : add32 lIdx n1 = lIdx + n1 := Nat.mod_eq_of_lt (by omega)
  rw [hadd]
  by_cases hfit : lIdx + n1 ≤ S
  · rw [if_pos hfit]
    refine ⟨(buff.drop lIdx).take (lIdx + n1 - lIdx), ?_, ?_, ?_⟩
    · rw [slice, if_pos ⟨by omega, by omega⟩]
    · simp only [List.length_take, List.length_drop]
      omega
    · intro i hi
      rw [List.getElem?_take_of_lt (by omega), List.getElem?_drop,
        Nat.mod_eq_of_lt (by omega)]
  · rw [if_neg hfit]
    have hmod : (lIdx + n1) % S = lIdx + n1 - S := by
      rw [Nat.mod_eq_sub_mod (by omega)]
      exact Nat.mod_eq_of_lt (by omega)
    rw [hmod]
    refine ⟨buff.drop lIdx ++ (buff.drop 0).take (lIdx + n1 - S - 0), ?_, ?_, ?_⟩
    · rw [sliceFrom, if_pos (by omega), slice, if_pos ⟨by omega, by omega⟩]
      rfl
    · simp only [List.length_append, List.length_take, List.length_drop]
      omega
    · intro i hi
      by_cases hi2 : lIdx + i < S
      · rw [List.getElem?_append_left (by simp only [List.length_drop]; omega),
          List.getElem?_drop, Nat.mod_eq_of_lt hi2]
      · rw [List.getElem?_append_right (by simp only [List.length_drop]; omega),
          List.getElem?_take_of_lt (by simp only [List.length_drop]; omega),
          List.getElem?_drop]
        have h1 : (lIdx + i) % S = lIdx + i - S := by
          rw [Nat.mod_eq_sub_mod (by omega)]
          exact Nat.mod_eq_of_lt (by omega)
        rw [h1]
        congr 1
        simp only [List.length_drop]
        omega

theorem PullData_ready (cb : CircBuff) (n r : Nat) (hn : 1 ≤ n)
    (hsz : cb.size ≤ 2147483648) (hb : cb.buff.length = cb.size)
    (hr : GetReadySize cb = some r) (hr1 : 1 ≤ r)
    (hfin : ¬ (cb.finRecvd = true ∧ cb.finSeq = cb.left)) :
    ∃ bytes, PullData cb n = some ({ cb with left := add32 cb.left (min n r) }, .ok bytes) ∧
      bytes.length = min n r ∧
      ∀ i, i < min n r → bytes[i]? = cb.buff[(cb.left + i) % cb.size]? := by
  obtain ⟨hrS, hS1⟩ := GetReadySize_le cb r (by omega) hr
  have hn1 : (if n > r then r else n) = min n r := by
    split_ifs <;> omega
  obtain ⟨bytes, hb1, hb2, hb3⟩ := ring_read cb.buff cb.size (cb.left % cb.size) (min n r) hb
    (Nat.mod_lt _ (by omega)) (by omega) hsz
  refine ⟨bytes, ?_, hb2, ?_⟩
  · unfold PullData
    rw [if_neg (by omega), if_neg hfin, hr]
    simp only [hn1]
    rw [if_neg (by omega), hb1]
    simp only [hb2, ne_eq, not_true_eq_false, if_false]
  · intro i hi
    rw [hb3 i hi, Nat.mod_add_mod]

theorem PullData_eof_iff (cb cb1 : CircBuff) (n : Nat)
    (h : PullData cb n = some (cb1, .eof)) :
    cb.finRecvd = true ∧ cb.finSeq = cb.left ∧ cb1 = cb := by
  unfold PullData at h
  by_cases h0 : n = 0
  · rw [if_pos h0] at h
    simp at h
  · rw [if_neg h0] at h
    by_cases hfin : cb.finRecvd = true ∧ cb.finSeq = cb.left
    · rw [if_pos hfin] at h
      simp only [Option.some.injEq, Prod.mk.injEq, and_true] at h
      exact ⟨hfin.1, hfin.2, h.symm⟩
    · rw [if_neg hfin] at h
      exfalso
      cases hg : GetReadySize cb with
      | none =>
        rw [hg] at h
        simp at h
      | some r =>
        rw [hg] at h
        simp only at h
        by_cases hr0 : r = 0
        · rw [if_pos hr0] at h
          simp at h
        · rw [if_neg hr0] at h
          split at h
          · simp at h
          · split_ifs at h <;> simp at h

end Pull

/-- C12: for a CircBuff (ring of `size` bytes, `size` at most 2^31 as for every power of
two) with `r ≥ 1` ready bytes that is not at EOF and every `n ≥ 1`, `PullData(n)` returns
exactly `min(n, r)` bytes with a nil error, namely the ring bytes at positions
`(left + i) mod size` for `i < min(n, r)`, advances `left` by `min(n, r)` and leaves every
other field (next, fragments, FIN fields) as it was. -/
theorem PullData_returns_ready_bytes (cb : tcp.CircBuff) (n r : Nat) (hn : 1 ≤ n)
    (hsz : cb.size ≤ 2147483648) (hb : cb.buff.length = cb.size)
    (hr : tcp.GetReadySize cb = some r) (hr1 : 1 ≤ r)
    (hfin : ¬ (cb.finRecvd = true ∧ cb.finSeq = cb.left)) :
    ∃ bytes,
      tcp.PullData cb n =
        some ({ cb with left := tcp.add32 cb.left (min n r) }, .ok bytes) ∧
      bytes.length = min n r ∧
      ∀ i, i < min n r → bytes[i]? = cb.buff[(cb.left + i) % cb.size]? :=
  PullData_ready cb n r hn hsz hb hr hr1 hfin

/-- Witness for C12: ten ready bytes in a ring of 16 starting at position 11, pull 8. -/
theorem PullData_returns_ready_bytes_witness :
    ∃ bytes,
      tcp.PullData ⟨16, [5, 6, 7, 8, 9, 0, 0, 0, 0, 0, 0, 0, 1, 2, 3, 4], 4294967291, 5, [],
          false, 0, false⟩ 8 =
        some (⟨16, [5, 6, 7, 8, 9, 0, 0, 0, 0, 0, 0, 0, 1, 2, 3, 4],
          tcp.add32 4294967291 (min 8 10), 5, [], false, 0, false⟩, .ok bytes) ∧
      bytes.length = min 8 10 ∧
      ∀ i, i < min 8 10 →
        bytes[i]? =
          [5, 6, 7, 8, 9, 0, 0, 0, 0, 0, 0, 0, 1, 2, 3, 4][(4294967291 + i) % 16]? :=
  PullData_returns_ready_bytes
    ⟨16, [5, 6, 7, 8, 9, 0, 0, 0, 0, 0, 0, 0, 1, 2, 3, 4], 4294967291, 5, [], false, 0, false⟩
    8 10 (by decide) (by decide) (by decide) (by decide) (by decide) (by decide)

/-- C13, the code at the failing input (TestCircBuffPullTooMuch): a buffer of size 10 is
filled with ten bytes and `PullData(11)` is called.  The code clamps the request to the
ready size and returns the ten bytes with a nil error. -/
theorem PullData_too_much_returns_data :
    tcp.PushData (tcp.NewCircBuff 10 0) 0 [0, 1, 2, 3, 4, 5, 6, 7, 8, 9] =
        some (⟨10, [0, 1, 2, 3, 4, 5, 6, 7, 8, 9], 0, 10, [], false, 0, false⟩, true, false) ∧
      tcp.GetReadySize ⟨10, [0, 1, 2, 3, 4, 5, 6, 7, 8, 9], 0, 10, [], false, 0, false⟩ =
        some 10 ∧
      tcp.PullData ⟨10, [0, 1, 2, 3, 4, 5, 6, 7, 8, 9], 0, 10, [], false, 0, false⟩ 11 =
        some (⟨10, [0, 1, 2, 3, 4, 5, 6, 7, 8, 9], 10, 10, [], false, 0, false⟩,
          .ok [0, 1, 2, 3, 4, 5, 6, 7, 8, 9]) := by
  decide

/-- C14: for every `n ≥ 1`, `PullData(n)` returns (no bytes, io.EOF) and leaves the buffer
unchanged when a FIN has been recorded by `setFin(q)` and `left = q`; it returns io.EOF
in no other state; and when a FIN is recorded with `left` different from its sequence
number and ready bytes remain, it returns those bytes (`min(n, r)` of them) and no EOF. -/
theorem PullData_eof (n : Nat) (hn : 1 ≤ n) :
    (∀ (cb : tcp.CircBuff) (q : Nat), cb.left = q →
      tcp.PullData (tcp.setFin cb q) n = some (tcp.setFin cb q, .eof)) ∧
    (∀ cb cb1 : tcp.CircBuff, tcp.PullData cb n = some (cb1, .eof) →
      cb.finRecvd = true ∧ cb.finSeq = cb.left ∧ cb1 = cb) ∧
    (∀ (cb : tcp.CircBuff) (r : Nat), cb.size ≤ 2147483648 → cb.buff.length = cb.size →
      cb.finRecvd = true → cb.finSeq ≠ cb.left → tcp.GetReadySize cb = some r → 1 ≤ r →
      ∃ bytes, tcp.PullData cb n =
          some ({ cb with left := tcp.add32 cb.left (min n r) }, .ok bytes) ∧
        bytes.length = min n r) := by
  refine ⟨?_, ?_, ?_⟩
  · intro cb q hq
    unfold tcp.PullData
    rw [if_neg (by omega), if_pos ⟨rfl, by simp [tcp.setFin, hq]⟩]
  · intro cb cb1 h
    exact PullData_eof_iff cb cb1 n h
  · intro cb r hsz hb _ hne hr hr1
    obtain ⟨bytes, h1, h2, -⟩ := PullData_ready cb n r hn hsz hb hr hr1 (fun h => hne h.2)
    exact ⟨bytes, h1, h2⟩

/-- Witness for C14 at `n = 3`. -/
theorem PullData_eof_witness :
    (∀ (cb : tcp.CircBuff) (q : Nat), cb.left = q →
      tcp.PullData (tcp.setFin cb q) 3 = some (tcp.setFin cb q, .eof)) ∧
    (∀ cb cb1 : tcp.CircBuff, tcp.PullData cb 3 = some (cb1, .eof) →
      cb.finRecvd = true ∧ cb.finSeq = cb.left ∧ cb1 = cb) ∧
    (∀ (cb : tcp.CircBuff) (r : Nat), cb.size ≤ 2147483648 → cb.buff.length = cb.size →
      cb.finRecvd = true → cb.finSeq ≠ cb.left → tcp.GetReadySize cb = some r → 1 ≤ r →
      ∃ bytes, tcp.PullData cb 3 =
          some ({ cb with left := tcp.add32 cb.left (min 3 r) }, .ok bytes) ∧
        bytes.length = min 3 r) :=
  PullData_eof 3 (by decide)

section RingContents

open tcp

theorem copyInto_fit (buff : List Nat) (lo hi : Nat) (src : List Nat) (h1 : lo ≤ hi)
    (h2 : hi ≤ buff.length) (h3 : src.length ≤ hi - lo) :
    copyInto buff lo hi src =
      some (buff.take lo ++ src ++ buff.drop (lo + src.length), src.length) := by
  rw [copyInto, if_pos ⟨h1, h2⟩]
  simp only [Nat.min_eq_right h3, List.take_length]

theorem pushCopy_contents (cb : CircBuff) (lIdx : Nat) (data : List Nat) (hS : 1 ≤ cb.size)
    (hsz : cb.size ≤ 2147483648) (hb : cb.buff.length = cb.size)
    (h1 : 1 ≤ data.length) (h2 : data.length ≤ cb.size) :
    ∃ buff1, pushCopy cb lIdx data = some (buff1, data.length) ∧
      buff1.length = cb.size ∧
      ∀ i, i < data.length → buff1[(lIdx % cb.size + i) % cb.size]? = data[i]? := by
  have ha : lIdx % cb.size < cb.size := Nat.mod_lt _ (by omega)
  have hdl : data.length % 4294967296 = data.length := Nat.mod_eq_of_lt (by omega)
  have hbm : data.length % cb.size < cb.size := Nat.mod_lt _ (by omega)
  have hadd : add32 (lIdx % cb.size) (data.length % cb.size) =
      lIdx % cb.size + data.length % cb.size := Nat.mod_eq_of_lt (by omega)
  unfold pushCopy
  rw [if_neg (by omega), hdl]
  simp only
  rw [hadd]
  generalize lIdx % cb.size = a at ha ⊢
  by_cases hfit : a + data.length < cb.size
  · -- the segment does not reach the end of the ring
    have hm : data.length % cb.size = data.length := Nat.mod_eq_of_lt (by omega)
    rw [hm, Nat.mod_eq_of_lt hfit, if_pos (by omega),
      copyInto_fit cb.buff a (a + data.length) data (by omega) (by omega) (by omega)]
    refine ⟨_, rfl, ?_, ?_⟩
    · simp only [List.length_append, List.length_take, List.length_drop]
      omega
    · intro i hi
      rw [Nat.mod_eq_of_lt (by omega),
        List.getElem?_append_left (by
          simp only [List.length_append, List.length_take]
          omega),
        List.getElem?_append_right (by
          simp only [List.length_take]
          omega)]
      congr 1
      simp only [List.length_take]
      omega
  · -- the segment wraps around the end of the ring
    have hr : (a + data.length % cb.size) % cb.size = a + data.length - cb.size := by
      by_cases hfull : data.length = cb.size
      · rw [hfull, Nat.mod_self, Nat.add_zero, Nat.mod_eq_of_lt ha]
        omega
      · rw [Nat.mod_eq_of_lt (show data.length < cb.size by omega),
          Nat.mod_eq_sub_mod (by omega)]
        exact Nat.mod_eq_of_lt (by omega)
    rw [hr, if_neg (by omega), sub32_small cb.size a (by omega) (by omega)]
    have hs1 : slice data 0 (cb.size - a) = some (data.take (cb.size - a)) := by
      rw [slice, if_pos ⟨Nat.zero_le _, by omega⟩]
      rfl
    have hs2 : sliceFrom data (cb.size - a) = some (data.drop (cb.size - a)) := by
      rw [sliceFrom, if_pos (by omega)]
    have hl1 : (data.take (cb.size - a)).length = cb.size - a := by
      rw [List.length_take]
      omega
    have hl2 : (data.drop (cb.size - a)).length = a + data.length - cb.size := by
      rw [List.length_drop]
      omega
    obtain ⟨R1, hR1⟩ : ∃ R1, R1 = cb.buff.take a ++ data.take (cb.size - a) ++
        cb.buff.drop (a + (data.take (cb.size - a)).length) := ⟨_, rfl⟩
    have hc1 : copyInto cb.buff a cb.buff.length (data.take (cb.size - a)) =
        some (R1, (data.take (cb.size - a)).length) := by
      rw [hR1]
      exact copyInto_fit cb.buff a cb.buff.length (data.take (cb.size - a)) (by omega)
        (le_refl _) (by rw [hl1, hb])
    have hlr1 : R1.length = cb.size := by
      rw [hR1]
      simp only [List.length_append, List.length_take, List.length_drop]
      omega
    have hR1get : ∀ j, a ≤ j → j < cb.size → R1[j]? = data[j - a]? := by
      intro j hj1 hj2
      rw [hR1, List.getElem?_append_left (by
          simp only [List.length_append, List.length_take]
          omega),
        List.getElem?_append_right (by
          simp only [List.length_take]
          omega),
        List.getElem?_take_of_lt (by
          simp only [List.length_take]
          omega)]
      congr 1
      simp only [List.length_take]
      omega
    have hc2 := copyInto_fit R1 0 (a + data.length - cb.size) (data.drop (cb.size - a))
      (Nat.zero_le _) (by omega) (by omega)
    have hsum : cb.size - a + (a + data.length - cb.size) = data.length := by omega
    refine ⟨List.take 0 R1 ++ data.drop (cb.size - a) ++
      List.drop (0 + (data.drop (cb.size - a)).length) R1, ?_, ?_, ?_⟩
    · simp only [hs1, hs2, hc1, hc2, Option.bind_eq_bind, Option.some_bind, Option.pure_def,
        hl1, hl2, hsum]
    · simp only [List.length_append, List.length_take, List.length_drop]
      omega
    · intro i hi
      simp only [List.take_zero, List.nil_append, Nat.zero_add]
      by_cases hi1 : a + i < cb.size
      · rw [Nat.mod_eq_of_lt hi1, List.getElem?_append_right (by omega), List.getElem?_drop,
          hR1get _ (by omega) (by omega)]
        congr 1
        omega
      · have hmod : (a + i) % cb.size = a + i - cb.size := by
          rw [Nat.mod_eq_sub_mod (by omega)]
          exact Nat.mod_eq_of_lt (by omega)
        rw [hmod, List.getElem?_append_left (by omega), List.getElem?_drop]
        congr 1
        omega

theorem pow2_mod (e x i : Nat) (he : e ≤ 32) :
    ((x % 4294967296) + i) % 2 ^ e = (x + i) % 2 ^ e := by
  have hdvd : 2 ^ e ∣ 4294967296 := by
    have : (4294967296 : Nat) = 2 ^ 32 := by norm_num
    rw [this]
    exact Nat.pow_dvd_pow 2 he
  rw [Nat.add_mod, Nat.mod_mod_of_dvd _ hdvd, ← Nat.add_mod]

theorem PushData_fresh_contents (S s : Nat) (data : List Nat) (hS : 1 ≤ S)
    (hsz : S ≤ 2147483648) (hs : s < 4294967296) (h1 : 1 ≤ data.length)
    (h2 : data.length ≤ S) :
    ∃ buff1, PushData (NewCircBuff S s) s data =
        some (⟨S, buff1, s, add32 s data.length, [], false, 0, false⟩, true, false) ∧
      buff1.length = S ∧ ∀ i, i < data.length → buff1[(s % S + i) % S]? = data[i]? := by
  have hdl : data.length % 4294967296 = data.length := Nat.mod_eq_of_lt (by omega)
  have hrej : ¬ pushRejects (NewCircBuff S s) s data.length = true := by
    rw [pushRejects_iff]
    simp only [NewCircBuff]
    unfold add32
    omega
  have hst : pushState (NewCircBuff S s) s data.length =
      ⟨S, List.replicate S 0, s, add32 s data.length, [], false, 0, false⟩ := by
    simp [pushState, NewCircBuff, collapse]
  obtain ⟨buff1, hc, hl, hget⟩ := pushCopy_contents
    ⟨S, List.replicate S 0, s, add32 s data.length, [], false, 0, false⟩ s data hS hsz
    (by simp) h1 h2
  refine ⟨buff1, ?_, hl, hget⟩
  simp only [PushData, hdl, hrej, hst, hc, if_false, ne_eq, not_true_eq_false,
    Bool.false_eq_true, Nat.pos_iff_ne_zero.mp h1]

theorem runPulls_chunks (e s : Nat) (data buff1 : List Nat) (he : e ≤ 31)
    (_hs : s < 4294967296) (h2 : data.length ≤ 2 ^ e) (hl : buff1.length = 2 ^ e)
    (hget : ∀ i, i < data.length → buff1[(s % 2 ^ e + i) % 2 ^ e]? = data[i]?)
    (ns : List Nat) :
    ∀ k, k ≤ data.length → (∀ n ∈ ns, 1 ≤ n) →
      runPulls ⟨2 ^ e, buff1, add32 s k, add32 s data.length, [], false, 0, false⟩ ns =
        some (chunks (data.drop k) ns) := by
  have hpow : 2 ^ e ≤ 2147483648 := by
    have : (2147483648 : Nat) = 2 ^ 31 := by norm_num
    rw [this]
    exact Nat.pow_le_pow_right (by decide) he
  have hpos : 1 ≤ 2 ^ e := Nat.one_le_two_pow
  induction ns with
  | nil =>
    intro k _ _
    simp [runPulls, chunks]
  | cons n ns ih =>
    intro k hk hns
    have hn : 1 ≤ n := hns n (by simp)
    have hready : GetReadySize
        ⟨2 ^ e, buff1, add32 s k, add32 s data.length, [], false, 0, false⟩ =
        some (data.length - k) := by
      have hd : sub32 (add32 s data.length) (add32 s k) = data.length - k := by
        unfold sub32 add32
        omega
      have := GetReadySize_eq
        ⟨2 ^ e, buff1, add32 s k, add32 s data.length, [], false, 0, false⟩ hpos
        (by simp only; omega) (Nat.mod_lt _ (by decide)) (Nat.mod_lt _ (by decide))
        (by simp only; rw [hd]; omega)
      rw [this]
      simp only [hd]
    by_cases hlast : k = data.length
    · subst hlast
      have hdrop : data.drop data.length = [] := List.drop_length data
      rw [hdrop]
      simp only [Nat.sub_self] at hready
      simp [runPulls, PullData, hready, chunks, Nat.pos_iff_ne_zero.mp hn]
    · obtain ⟨bytes, hp, hb1, hb2⟩ := PullData_ready
        ⟨2 ^ e, buff1, add32 s k, add32 s data.length, [], false, 0, false⟩ n
        (data.length - k) hn hpow hl hready (by omega) (by simp)
      have hbytes : bytes = (data.drop k).take n := by
        apply List.ext_getElem?
        intro i
        by_cases hi : i < min n (data.length - k)
        · rw [hb2 i hi]
          simp only
          have h1 : (add32 s k + i) % 2 ^ e = (s % 2 ^ e + (k + i)) % 2 ^ e := by
            unfold add32
            rw [pow2_mod e (s + k) i (by omega), Nat.mod_add_mod, Nat.add_assoc]
          rw [h1, hget (k + i) (by omega), List.getElem?_take_of_lt (by omega),
            List.getElem?_drop]
        · rw [List.getElem?_eq_none (by omega), List.getElem?_eq_none (by
            simp only [List.length_take, List.length_drop]
            omega)]
      have hleft : add32 (add32 s k) (min n (data.length - k)) =
          add32 s (k + min n (data.length - k)) := by
        unfold add32
        omega
      have hne : data.drop k ≠ [] := by
        intro h
        have := congrArg List.length h
        simp only [List.length_drop, List.length_nil] at this
        omega
      have hrest : data.drop (k + min n (data.length - k)) = (data.drop k).drop n := by
        rw [List.drop_drop]
        by_cases hmin : n ≤ data.length - k
        · rw [Nat.min_eq_left hmin, Nat.add_comm]
        · rw [Nat.min_eq_right (by omega), List.drop_eq_nil_of_le (by omega),
            List.drop_eq_nil_of_le (by omega)]
      have ih1 := ih (k + min n (data.length - k)) (by omega)
        (fun x hx => hns x (by simp [hx]))
      simp only [runPulls, hp, hleft, ih1, chunks, hne, if_false, hbytes, hrest,
        Option.map_some']

end RingContents

/-- C11: for every power-of-two size S = 2^e (e ≤ 31), every start index s (also when the
segment straddles the 2^32 boundary) and every data with 1 ≤ len(data) ≤ S: after
`NewCircBuff(S, s)` and `PushData(s, data)`, which succeeds, successive `PullData` calls
with positive arguments n1, n2, ... return consecutive chunks of data in order, the first
`data[0 : min(n1, len)]` and each next one continuing where the previous stopped, until
all bytes have been returned (a further call would park). -/
theorem CircBuff_push_pull_roundtrip (e s : Nat) (data : List Nat) (ns : List Nat)
    (he : e ≤ 31) (hs : s < 4294967296) (h1 : 1 ≤ data.length) (h2 : data.length ≤ 2 ^ e)
    (hns : ∀ n ∈ ns, 1 ≤ n) :
    ∃ cb0, tcp.PushData (tcp.NewCircBuff (2 ^ e) s) s data = some (cb0, true, false) ∧
      runPulls cb0 ns = some (chunks data ns) := by
  have hpow : 2 ^ e ≤ 2147483648 := by
    have : (2147483648 : Nat) = 2 ^ 31 := by norm_num
    rw [this]
    exact Nat.pow_le_pow_right (by decide) he
  obtain ⟨buff1, hp, hl, hget⟩ := PushData_fresh_contents (2 ^ e) s data Nat.one_le_two_pow
    hpow hs h1 h2
  refine ⟨_, hp, ?_⟩
  have h := runPulls_chunks e s data buff1 he hs h2 hl hget ns 0 (Nat.zero_le _) hns
  have h0 : tcp.add32 s 0 = s := by
    unfold tcp.add32
    omega
  rw [h0, List.drop_zero] at h
  exact h

/-- Witness for C11: a ring of 8 bytes created at 4294967294, six bytes pushed across the
2^32 boundary, pulled in requests of 4, 1 and 5 bytes. -/
theorem CircBuff_push_pull_roundtrip_witness :
    ∃ cb0, tcp.PushData (tcp.NewCircBuff (2 ^ 3) 4294967294) 4294967294 [1, 2, 3, 4, 5, 6] =
        some (cb0, true, false) ∧
      runPulls cb0 [4, 1, 5] = some (chunks [1, 2, 3, 4, 5, 6] [4, 1, 5]) :=
  CircBuff_push_pull_roundtrip 3 4294967294 [1, 2, 3, 4, 5, 6] [4, 1, 5]
    (by decide) (by decide) (by decide) (by decide) (by decide)

/-- C15, the code at the failing input: a ring of 16 bytes created at 4294967293 receives
five bytes in order, so `next` has wrapped to 2 while `left` is still 4294967293
(distance 5 ≤ 16).  The retransmitted segment (4294967293, three bytes) lies entirely
before `next` in sequence space, yet the numeric test `lIdx < next` does not fire: the
push is accepted and a fragment record is inserted. -/
theorem PushData_accepts_segment_before_next :
    tcp.PushData (tcp.NewCircBuff 16 4294967293) 4294967293 [1, 2, 3, 4, 5] =
        some (⟨16, [4, 5, 0, 0, 0, 0, 0, 0, 0, 0, 0, 0, 0, 1, 2, 3], 4294967293, 2, [],
          false, 0, false⟩, true, false) ∧
      tcp.sub32 2 4294967293 = 5 ∧
      tcp.sub32 4294967293 4294967293 + [1, 2, 3].length ≤ tcp.sub32 2 4294967293 ∧
      tcp.PushData ⟨16, [4, 5, 0, 0, 0, 0, 0, 0, 0, 0, 0, 0, 0, 1, 2, 3], 4294967293, 2, [],
          false, 0, false⟩ 4294967293 [1, 2, 3] =
        some (⟨16, [4, 5, 0, 0, 0, 0, 0, 0, 0, 0, 0, 0, 0, 1, 2, 3], 4294967293, 2,
          [⟨4294967293, 3⟩], false, 0, false⟩, true, false) := by
  decide

/-- C16, the code at two failing inputs, both from `NewCircBuff(16, 0)`.  Pushing the
out-of-order segment (4, two bytes) twice leaves two records with the same start; pushing
(8, one byte) and then (4, two bytes) inserts the new record before the old one through
the nested append, which overwrites the record at 8 with a second copy of the new one. -/
theorem PushData_fragments_not_strictly_increasing :
    tcp.PushData (tcp.NewCircBuff 16 0) 4 [1, 2] =
        some (⟨16, [0, 0, 0, 0, 1, 2, 0, 0, 0, 0, 0, 0, 0, 0, 0, 0], 0, 0, [⟨4, 2⟩],
          false, 0, false⟩, true, false) ∧
      tcp.PushData ⟨16, [0, 0, 0, 0, 1, 2, 0, 0, 0, 0, 0, 0, 0, 0, 0, 0], 0, 0, [⟨4, 2⟩],
          false, 0, false⟩ 4 [1, 2] =
        some (⟨16, [0, 0, 0, 0, 1, 2, 0, 0, 0, 0, 0, 0, 0, 0, 0, 0], 0, 0,
          [⟨4, 2⟩, ⟨4, 2⟩], false, 0, false⟩, true, false) ∧
      tcp.PushData (tcp.NewCircBuff 16 0) 8 [9] =
        some (⟨16, [0, 0, 0, 0, 0, 0, 0, 0, 9, 0, 0, 0, 0, 0, 0, 0], 0, 0, [⟨8, 1⟩],
          false, 0, false⟩, true, false) ∧
      tcp.PushData ⟨16, [0, 0, 0, 0, 0, 0, 0, 0, 9, 0, 0, 0, 0, 0, 0, 0], 0, 0, [⟨8, 1⟩],
          false, 0, false⟩ 4 [1, 2] =
        some (⟨16, [0, 0, 0, 0, 1, 2, 0, 0, 9, 0, 0, 0, 0, 0, 0, 0], 0, 0,
          [⟨4, 2⟩, ⟨4, 2⟩], false, 0, false⟩, true, false) := by
  decide

section Segments

open tcp util

theorem IPChecksumLoopCap_even (data spare : List Nat) :
    ∀ c : Nat, data.length % 2 = 0 →
      IPChecksumLoopCap data spare c = IPChecksumLoop data c := by
  induction data using beWords.induct with
  | case1 b0 b1 rest ih =>
    intro c hlen
    simp only [IPChecksumLoopCap, IPChecksumLoop]
    apply ih
    simp only [List.length_cons] at hlen
    omega
  | case2 data h =>
    intro c hlen
    match data, h, hlen with
    | [], _, _ => simp [IPChecksumLoopCap, IPChecksumLoop]
    | [b], _, hlen => simp at hlen
    | b0 :: b1 :: rest, h, _ => exact absurd rfl (h b0 b1 rest)

theorem IPChecksumLoopCap_odd (data : List Nat) (z : Nat) (spare : List Nat) :
    ∀ c : Nat, data.length % 2 = 1 →
      IPChecksumLoopCap data (z :: spare) c = IPChecksumLoop (data ++ [z]) c := by
  induction data using beWords.induct with
  | case1 b0 b1 rest ih =>
    intro c hlen
    simp only [IPChecksumLoopCap, IPChecksumLoop, List.cons_append]
    apply ih
    simp only [List.length_cons] at hlen
    omega
  | case2 data h =>
    intro c hlen
    match data, h, hlen with
    | [], _, hlen => simp at hlen
    | [b], _, _ => simp [IPChecksumLoopCap, IPChecksumLoop]
    | b0 :: b1 :: rest, h, _ => exact absurd rfl (h b0 b1 rest)

theorem IPChecksumLoopCap_odd_nil (data : List Nat) :
    ∀ c : Nat, data.length % 2 = 1 → IPChecksumLoopCap data [] c = none := by
  induction data using beWords.induct with
  | case1 b0 b1 rest ih =>
    intro c hlen
    simp only [IPChecksumLoopCap]
    apply ih
    simp only [List.length_cons] at hlen
    omega
  | case2 data h =>
    intro c hlen
    match data, h, hlen with
    | [], _, hlen => simp at hlen
    | [b], _, _ => simp [IPChecksumLoopCap]
    | b0 :: b1 :: rest, h, _ => exact absurd rfl (h b0 b1 rest)

theorem IPChecksumLoop_some_of_even (data : List Nat) :
    ∀ c : Nat, data.length % 2 = 0 → ∃ v, IPChecksumLoop data c = some v :=
  fun c h => ⟨_, IPChecksumLoop_even data c h⟩

theorem Serialize_length (p : TCPPacket) :
    (tcp.Serialize p).length = 20 + p.options.length + p.data.length := by
  simp only [tcp.Serialize, Htons, Htonl, List.length_append, List.length_cons,
    List.length_nil]

theorem checksumBuffer_some (p : TCPPacket) (hs : isIPv4 p.srcAddr) (hd : isIPv4 p.destAddr) :
    ∃ src dst, IP2int p.srcAddr = some src ∧ IP2int p.destAddr = some dst ∧
      checksumBuffer p = some (Htonl src ++ Htonl dst ++ [0] ++ [6] ++
        Htons ((tcp.Serialize p).length % 65536) ++ tcp.Serialize p) := by
  obtain ⟨src, hsrc, -⟩ := IP2int_of_isIPv4 _ hs
  obtain ⟨dst, hdst, -⟩ := IP2int_of_isIPv4 _ hd
  refine ⟨src, dst, hsrc, hdst, ?_⟩
  simp only [checksumBuffer, hsrc, hdst, Option.bind_eq_bind, Option.some_bind,
    Option.pure_def]

theorem TCPChecksum_even (p : TCPPacket) (spare : List Nat) (hs : isIPv4 p.srcAddr)
    (hd : isIPv4 p.destAddr) (heven : (p.options.length + p.data.length) % 2 = 0) :
    ∃ v, TCPChecksum p spare = some v := by
  obtain ⟨src, dst, -, -, hbuf⟩ := checksumBuffer_some p hs hd
  have hlen : (Htonl src ++ Htonl dst ++ [0] ++ [6] ++
      Htons ((tcp.Serialize p).length % 65536) ++ tcp.Serialize p).length % 2 = 0 := by
    simp only [List.length_append, Serialize_length, Htons, Htonl, List.length_cons,
      List.length_nil]
    omega
  simp only [TCPChecksum, hbuf, Option.bind_eq_bind, Option.some_bind, IPChecksumCap,
    IPChecksumLoopCap_even _ spare 0 hlen, IPChecksumLoop_even _ 0 hlen, Option.map_some']
  exact ⟨_, rfl⟩

/-- A control segment (no data, no options) can always be built when both addresses are
IPv4 addresses and the receive buffer, if there is one, has a nonzero size. -/
theorem NewTCPPacket_control (c : Conn) (flags seq : Nat) (hl : isIPv4 c.localAddr)
    (hr : isIPv4 c.remoteAddr) (hb : ∀ cb, c.receiveBuffer = some cb → cb.size ≠ 0) :
    ∃ pkt, NewTCPPacket c c.localAddr c.remoteAddr [] [] flags seq [] = some pkt ∧
      pkt.flags = flags ∧ pkt.seqNum = seq ∧ pkt.data = [] ∧ pkt.options = [] ∧
      pkt.ackNum = (match c.receiveBuffer with
        | none => 0
        | some cb => GetAckNum cb) := by
  have haw : ∃ aw : Nat × Nat, ackAndWindow c = some aw ∧
      aw.1 = (match c.receiveBuffer with
        | none => 0
        | some cb => GetAckNum cb) := by
    unfold ackAndWindow
    cases hcb : c.receiveBuffer with
    | none => exact ⟨(0, 0), rfl, rfl⟩
    | some cb =>
      have h0 := hb cb hcb
      have hw : ∃ w, GetWindowSize cb = some w := by
        unfold GetWindowSize
        rw [if_neg h0]
        simp only
        split_ifs <;> exact ⟨_, rfl⟩
      obtain ⟨w, hw⟩ := hw
      exact ⟨(GetAckNum cb, w % 65536), by simp [hw], rfl⟩
  obtain ⟨aw, haw1, haw2⟩ := haw
  obtain ⟨v, hv⟩ := TCPChecksum_even
    { srcPort := c.localPort, srcAddr := c.localAddr, destPort := c.remotePort,
      destAddr := c.remoteAddr, seqNum := seq, ackNum := aw.1,
      offset := (5 + (([] : List Nat).length / 4) % 256) % 256, flags := flags,
      winSize := aw.2, checksum := 0, urgent := 0, options := [], data := [] } [] hl hr
    (by simp)
  refine ⟨⟨c.localPort, c.localAddr, c.remotePort, c.remoteAddr, seq, aw.1,
    (5 + (([] : List Nat).length / 4) % 256) % 256, flags, aw.2, v, 0, [], []⟩, ?_, ?_⟩
  · unfold NewTCPPacket
    rw [haw1]
    simp only [Option.bind_eq_bind, Option.some_bind, hv, Option.pure_def]
  · exact ⟨rfl, rfl, rfl, rfl, haw2⟩

theorem sendAck_some (c : Conn) (hl : isIPv4 c.localAddr) (hr : isIPv4 c.remoteAddr)
    (hb : ∀ cb, c.receiveBuffer = some cb → cb.size ≠ 0) :
    ∃ pkt, sendAck c = some { c with out := c.out ++ [Effect.send pkt] } ∧
      pkt.flags = F_ACK ∧ pkt.seqNum = c.seqNum ∧ pkt.data = [] ∧
      pkt.ackNum = (match c.receiveBuffer with
        | none => 0
        | some cb => GetAckNum cb) := by
  obtain ⟨pkt, h1, h2, h3, h4, -, h5⟩ := NewTCPPacket_control c F_ACK c.seqNum hl hr hb
  exact ⟨pkt, by simp [sendAck, h1], h2, h3, h4, h5⟩

theorem trackAcks_frame (c : Conn) (p : TCPPacket) :
    (trackAcks c p).1.state = c.state ∧ (trackAcks c p).1.seqNum = c.seqNum ∧
    (trackAcks c p).1.canWrite = c.canWrite ∧
    (trackAcks c p).1.receiveBuffer = c.receiveBuffer ∧
    (trackAcks c p).1.localAddr = c.localAddr ∧
    (trackAcks c p).1.remoteAddr = c.remoteAddr ∧
    ((trackAcks c p).1.out = c.out ∨
      (trackAcks c p).1.out = c.out ++ fastRetransmit (ackSent c.sentBuffer p) p) := by
  unfold trackAcks
  simp only
  split_ifs <;> simp

theorem fastRetransmit_find (sb : List Retransmitter) (p : TCPPacket) :
    fastRetransmit (ackSent sb p) p =
      match sb.find? (fun rt => decide (p.ackNum = rt.firstSeqNum)) with
      | some rt => [Effect.send rt.pkt]
      | none => [] := by
  induction sb with
  | nil => rfl
  | cons rt rest ih =>
    unfold ackSent at ih ⊢
    by_cases h : p.ackNum = rt.firstSeqNum
    · simp only [List.map_cons, fastRetransmit, List.find?_cons]
      split_ifs <;> simp_all
    · simp only [List.map_cons, fastRetransmit, List.find?_cons]
      split_ifs <;> simp_all

theorem trackAcks_out (c : Conn) (p : TCPPacket) :
    (trackAcks c p).1.out = c.out ++ fastResend c p ∧
      (trackAcks c p).1.numDupeAcks =
        (if (if p.ackNum = c.remoteAckNum then (c.numDupeAcks + 1) % 4294967296
            else c.numDupeAcks) = 3 then 4
          else if p.ackNum = c.remoteAckNum then (c.numDupeAcks + 1) % 4294967296
          else c.numDupeAcks) := by
  have hf := fastRetransmit_find c.sentBuffer p
  unfold trackAcks fastResend
  simp only [add32]
  by_cases hB : p.ackNum = c.remoteAckNum
  · by_cases hD : (c.numDupeAcks + 1) % 4294967296 = 3
    · simp only [hB, hD, if_true]
      split_ifs <;> simp_all
    · simp only [hB, hD, if_true, if_false]
      split_ifs <;> simp_all
  · by_cases hD : c.numDupeAcks = 3
    · simp only [hB, hD, if_true, if_false]
      split_ifs <;> simp_all
    · simp only [hB, hD, if_false]
      split_ifs <;> simp_all

end Segments
section Handshake

open tcp

theorem sendControlMsgManually_inc (c : Conn) (flags seq : Nat) (hl : isIPv4 c.localAddr)
    (hr : isIPv4 c.remoteAddr) (hb : ∀ cb, c.receiveBuffer = some cb → cb.size ≠ 0) :
    ∃ pkt, sendControlMsgManually c flags seq true =
        some { c with out := c.out ++ [Effect.send pkt], seqNum := add32 c.seqNum 1 } ∧
      pkt.flags = flags ∧ pkt.seqNum = seq ∧ pkt.data = [] := by
  obtain ⟨pkt, h1, h2, h3, h4, -, -⟩ := NewTCPPacket_control c flags seq hl hr hb
  exact ⟨pkt, by simp [sendControlMsgManually, h1], h2, h3, h4⟩

theorem sendControlMsg_inc (c : Conn) (flags : Nat) (hl : isIPv4 c.localAddr)
    (hr : isIPv4 c.remoteAddr) (hb : ∀ cb, c.receiveBuffer = some cb → cb.size ≠ 0) :
    ∃ pkt, sendControlMsg c flags true =
        some { c with out := c.out ++ [Effect.enqueue pkt], seqNum := add32 c.seqNum 1 } ∧
      pkt.flags = flags ∧ pkt.seqNum = c.seqNum ∧ pkt.data = [] := by
  obtain ⟨pkt, h1, h2, h3, h4, -, -⟩ := NewTCPPacket_control c flags c.seqNum hl hr hb
  exact ⟨pkt, by simp [sendControlMsg, h1], h2, h3, h4⟩

theorem handleListen_state (c : Conn) (p : TCPPacket) (hl : isIPv4 c.localAddr)
    (hr : isIPv4 c.remoteAddr) :
    ∃ c1, handleListen c p = some c1 ∧
      c1.state = (if isSyn p = true then TCPState.S_SYN_RCVD else c.state) ∧
      c1.canWrite = c.canWrite ∧
      (isSyn p = true →
        c1.receiveBuffer = some (NewCircBuff TCP_WINDOW_SIZE (add32 p.seqNum 1))) := by
  unfold handleListen
  by_cases h : isSyn p = true
  · obtain ⟨pkt, h1, -⟩ := sendControlMsgManually_inc
      { c with
        receiveBuffer := some (NewCircBuff TCP_WINDOW_SIZE (add32 p.seqNum 1))
        state := TCPState.S_SYN_RCVD } (F_SYN ||| F_ACK) c.seqNum hl hr
      (by
        intro cb hcb
        simp only [Option.some.injEq] at hcb
        subst hcb
        exact (show (32768 : Nat) ≠ 0 by decide))
    simp only [h, if_true, h1, Option.bind_eq_bind, Option.some_bind, Option.pure_def]
    exact ⟨_, rfl, rfl, rfl, fun _ => rfl⟩
  · simp only [h, if_false, Option.pure_def]
    exact ⟨c, rfl, by simp, rfl, fun hc => absurd hc (by simp)⟩

theorem established_fields (c : Conn) :
    (established c).state = TCPState.S_ESTABLISHED ∧ (established c).canWrite = true ∧
      (established c).receiveBuffer = c.receiveBuffer := by
  unfold established
  simp only
  split_ifs <;> exact ⟨rfl, rfl, rfl⟩

theorem handleSynRcvd_state (c : Conn) (p : TCPPacket) :
    ∃ c1, handleSynRcvd c p = some c1 ∧
      c1.state = (if isAck p = true ∧ p.ackNum = c.seqNum then TCPState.S_ESTABLISHED
        else c.state) ∧
      c1.canWrite = (if isAck p = true ∧ p.ackNum = c.seqNum then true else c.canWrite) := by
  unfold handleSynRcvd allAcked
  by_cases h : isAck p = true ∧ p.ackNum = c.seqNum
  · obtain ⟨h1, h2, -⟩ := established_fields c
    simp only [h.1, h.2, decide_True, Bool.and_self, if_true, Option.pure_def, and_self]
    exact ⟨_, rfl, h1, h2⟩
  · have hc : (isAck p && decide (p.ackNum = c.seqNum)) = false := by
      by_cases ha : isAck p = true
      · have : ¬ p.ackNum = c.seqNum := fun hq => h ⟨ha, hq⟩
        simp [ha, this]
      · simp [ha]
    simp only [hc, Bool.false_eq_true, if_false, Option.pure_def, h]
    exact ⟨c, rfl, rfl, rfl⟩

theorem handleSynSent_state (c : Conn) (p : TCPPacket) (hl : isIPv4 c.localAddr)
    (hr : isIPv4 c.remoteAddr) :
    ∃ c1, handleSynSent c p = some c1 ∧
      c1.state =
        (if isSyn p = true ∧ isAck p = true ∧ p.ackNum = c.seqNum then TCPState.S_ESTABLISHED
        else if isSyn p = true ∧ isAck p = false then TCPState.S_SYN_RCVD
        else c.state) ∧
      c1.canWrite =
        (if isSyn p = true ∧ isAck p = true ∧ p.ackNum = c.seqNum then true
        else c.canWrite) ∧
      (isSyn p = true ∧ isAck p = true ∧ p.ackNum = c.seqNum →
        c1.receiveBuffer = some (NewCircBuff TCP_WINDOW_SIZE (add32 p.seqNum 1))) := by
  obtain ⟨ack, hack, -⟩ := sendAck_some
    { c with receiveBuffer := some (NewCircBuff TCP_WINDOW_SIZE (add32 p.seqNum 1)) } hl hr
    (by
      intro cb hcb
      simp only [Option.some.injEq] at hcb
      subst hcb
      exact (show (32768 : Nat) ≠ 0 by decide))
  unfold handleSynSent allAcked
  by_cases h1 : isSyn p = true ∧ isAck p = true ∧ p.ackNum = c.seqNum
  · obtain ⟨e1, e2, e3⟩ := established_fields
      { c with
        receiveBuffer := some (NewCircBuff TCP_WINDOW_SIZE (add32 p.seqNum 1))
        out := c.out ++ [Effect.send ack] }
    simp only [h1.1, h1.2.1, h1.2.2, decide_True, Bool.and_self, if_true, hack,
      Option.bind_eq_bind, Option.some_bind, Option.pure_def, and_self]
    exact ⟨_, rfl, e1, e2, fun _ => e3⟩
  · have hc1 : (isSyn p && isAck p && decide (p.ackNum = c.seqNum)) = false := by
      by_cases hs : isSyn p = true
      · by_cases ha : isAck p = true
        · have : ¬ p.ackNum = c.seqNum := fun hq => h1 ⟨hs, ha, hq⟩
          simp [hs, ha, this]
        · simp [ha]
      · simp [hs]
    by_cases h2 : isSyn p = true ∧ isAck p = false
    · simp only [hc1, Bool.false_eq_true, if_false, h2.1, h2.2, Bool.not_false, Bool.and_self,
        if_true, hack, Option.bind_eq_bind, Option.some_bind, Option.pure_def, h1, and_self]
      exact ⟨_, rfl, rfl, rfl, fun hq => absurd hq (by simp [h2.2])⟩
    · have hc2 : (isSyn p && !isAck p) = false := by
        by_cases hs : isSyn p = true
        · have : isAck p = true := by
            by_contra hq
            exact h2 ⟨hs, by simpa using hq⟩
          simp [this]
        · simp [hs]
      simp only [hc1, hc2, Bool.false_eq_true, if_false, Option.pure_def, h1, h2]
      exact ⟨c, rfl, rfl, rfl, fun hq => hq.elim⟩

end Handshake

/-- C17: for every inbound segment `p` processed by a connection in LISTEN, SYN_SENT or
SYN_RCVD (with IPv4 local and remote addresses), `StateMachine` returns and the next state
is the one of the handshake table: LISTEN with SYN gives SYN_RCVD with a receive buffer
created at `p.seq + 1`; SYN_SENT with SYN, ACK and `p.ack = sendSeq` gives ESTABLISHED
with a receive buffer at `p.seq + 1` and `canWrite` true; SYN_SENT with SYN and no ACK
gives SYN_RCVD; SYN_RCVD with ACK and `p.ack = sendSeq` gives ESTABLISHED with `canWrite`
true; in every other case the state and `canWrite` are unchanged.  ESTABLISHED is entered
only by a segment with `p.ack = sendSeq`. -/
theorem StateMachine_handshake (c : tcp.Conn) (p : tcp.TCPPacket)
    (hl : isIPv4 c.localAddr) (hr : isIPv4 c.remoteAddr)
    (hs : c.state = .S_LISTEN ∨ c.state = .S_SYN_SENT ∨ c.state = .S_SYN_RCVD) :
    ∃ c1, tcp.StateMachine c p = some c1 ∧
      c1.state = handshakeNext c.state p c.seqNum ∧
      c1.canWrite = (if c1.state = .S_ESTABLISHED then true else c.canWrite) ∧
      (c1.state = c.state → c1.canWrite = c.canWrite) ∧
      (c.state = .S_LISTEN → tcp.isSyn p = true →
        c1.receiveBuffer =
          some (tcp.NewCircBuff tcp.TCP_WINDOW_SIZE (tcp.add32 p.seqNum 1))) ∧
      (c.state = .S_SYN_SENT → c1.state = .S_ESTABLISHED →
        c1.receiveBuffer =
          some (tcp.NewCircBuff tcp.TCP_WINDOW_SIZE (tcp.add32 p.seqNum 1))) ∧
      (c1.state = .S_ESTABLISHED → p.ackNum = c.seqNum) := by
  obtain ⟨t1, t2, t3, -, t5, t6, -⟩ := trackAcks_frame c p
  unfold tcp.StateMachine
  generalize (tcp.trackAcks c p).1 = t at t1 t2 t3 t5 t6
  rw [← t5] at hl
  rw [← t6] at hr
  rw [← t1, ← t2, ← t3]
  rw [← t1] at hs
  clear t1 t2 t3 t5 t6
  rcases hs with hs | hs | hs
  · obtain ⟨c1, e1, e2, e3, e4⟩ := handleListen_state t p hl hr
    refine ⟨c1, by simp only [tcp.dispatch, hs, e1], ?_⟩
    rw [hs] at e2 ⊢
    by_cases h : tcp.isSyn p = true
    · simp only [h, if_true] at e2
      simp [handshakeNext, h, e2, e3, e4 h]
    · simp only [h, if_false] at e2
      simp [handshakeNext, h, e2, e3]
  · obtain ⟨c1, e1, e2, e3, e4⟩ := handleSynSent_state t p hl hr
    refine ⟨c1, by simp only [tcp.dispatch, hs, e1], ?_⟩
    rw [hs] at e2 ⊢
    by_cases h1 : tcp.isSyn p = true ∧ tcp.isAck p = true ∧ p.ackNum = t.seqNum
    · simp only [h1, and_self, if_true] at e2 e3
      simp [handshakeNext, h1, e2, e3, e4 h1]
    · by_cases h2 : tcp.isSyn p = true ∧ tcp.isAck p = false
      · simp only [h1, h2, and_self, if_true, if_false] at e2 e3
        simp [handshakeNext, h1, h2, e2, e3]
      · simp only [h1, h2, if_false] at e2 e3
        simp [handshakeNext, h1, h2, e2, e3]
  · obtain ⟨c1, e1, e2, e3⟩ := handleSynRcvd_state t p
    refine ⟨c1, by simp only [tcp.dispatch, hs, e1], ?_⟩
    rw [hs] at e2 ⊢
    by_cases h1 : tcp.isAck p = true ∧ p.ackNum = t.seqNum
    · simp only [h1, and_self, if_true] at e2 e3
      simp [handshakeNext, h1, e2, e3]
    · simp only [h1, if_false] at e2 e3
      simp [handshakeNext, h1, e2, e3]

/-- Witness for C17: a connection in SYN_SENT with sequence number 1000 receives a SYN|ACK
with ack number 1000 and sequence number 5000. -/
theorem StateMachine_handshake_witness :
    ∃ c1, tcp.StateMachine
        ⟨[10, 0, 0, 1], 1024, [10, 0, 0, 2], 80, .S_SYN_SENT, false, [], 1000, 0, 0, 0, none,
          true, false, []⟩
        ⟨80, [10, 0, 0, 2], 1024, [10, 0, 0, 1], 5000, 1000, 5, 18, 32768, 0, 0, [], []⟩ =
          some c1 ∧
      c1.state = .S_ESTABLISHED ∧ c1.canWrite = true ∧
      c1.receiveBuffer = some (tcp.NewCircBuff tcp.TCP_WINDOW_SIZE 5001) := by
  obtain ⟨c1, h1, h2, h3, -, -, h6, -⟩ := StateMachine_handshake
    ⟨[10, 0, 0, 1], 1024, [10, 0, 0, 2], 80, .S_SYN_SENT, false, [], 1000, 0, 0, 0, none,
      true, false, []⟩
    ⟨80, [10, 0, 0, 2], 1024, [10, 0, 0, 1], 5000, 1000, 5, 18, 32768, 0, 0, [], []⟩
    (by decide) (by decide) (Or.inr (Or.inl rfl))
  have hst : c1.state = .S_ESTABLISHED := by
    rw [h2]
    decide
  refine ⟨c1, h1, hst, ?_, ?_⟩
  · rw [h3, if_pos hst]
  · rw [h6 rfl hst]
    rfl

section Teardown

open tcp

theorem recordFin_some (c : Conn) (cb : CircBuff) (seq : Nat)
    (hcb : c.receiveBuffer = some cb) :
    recordFin c seq = some { c with receiveBuffer := some (setFin cb seq) } := by
  simp [recordFin, hcb]

theorem ackTest_false (c : Conn) (p : TCPPacket)
    (h : ¬ (isAck p = true ∧ p.ackNum = c.seqNum)) :
    (isAck p && allAcked c p) = false := by
  unfold allAcked
  by_cases ha : isAck p = true
  · have : ¬ p.ackNum = c.seqNum := fun hq => h ⟨ha, hq⟩
    simp [ha, this]
  · simp [ha]

theorem ackTest_true (c : Conn) (p : TCPPacket)
    (h : isAck p = true ∧ p.ackNum = c.seqNum) :
    (isAck p && allAcked c p) = true := by
  unfold allAcked
  simp [h.1, h.2]

theorem handleEstablished_state (c : Conn) (p : TCPPacket) (cb : CircBuff)
    (hl : isIPv4 c.localAddr) (hr : isIPv4 c.remoteAddr)
    (hcb : c.receiveBuffer = some cb) (hsz : cb.size ≠ 0) :
    ∃ c1, handleEstablished c p = some c1 ∧
      c1.state = (if isFin p = true then TCPState.S_CLOSE_WAIT else c.state) ∧
      (isFin p = true →
        c1.receiveBuffer = some (setFin cb p.seqNum) ∧
        ∃ ack, ack.flags = F_ACK ∧ ack.data = [] ∧ c1.out = c.out ++ [Effect.send ack]) := by
  unfold handleEstablished
  by_cases h : isFin p = true
  · obtain ⟨ack, hack, ha1, -, ha3, -⟩ := sendAck_some
      { c with receiveBuffer := some (setFin cb p.seqNum) } hl hr
      (by
        intro cb1 h1
        simp only [Option.some.injEq] at h1
        subst h1
        exact hsz)
    simp only [h, if_true, recordFin_some c cb p.seqNum hcb, hack, Option.bind_eq_bind,
      Option.some_bind, Option.pure_def]
    exact ⟨_, rfl, rfl, fun _ => ⟨rfl, ack, ha1, ha3, rfl⟩⟩
  · simp only [h, if_false, Option.pure_def]
    exact ⟨c, rfl, rfl, fun hq => absurd hq (by simp)⟩

theorem handleFinWait1_state (c : Conn) (p : TCPPacket) (cb : CircBuff)
    (hcb : c.receiveBuffer = some cb) :
    ∃ c1, handleFinWait1 c p = some c1 ∧
      c1.state = (if isFin p = true then TCPState.S_CLOSING
        else if isAck p = true ∧ p.ackNum = c.seqNum then TCPState.S_FIN_WAIT_2
        else c.state) := by
  unfold handleFinWait1
  by_cases h : isFin p = true
  · simp only [h, if_true, recordFin_some c cb p.seqNum hcb, Option.bind_eq_bind,
      Option.some_bind, Option.pure_def]
    exact ⟨_, rfl, rfl⟩
  · by_cases h2 : isAck p = true ∧ p.ackNum = c.seqNum
    · simp only [h, if_false, ackTest_true c p h2, if_true, Option.pure_def, if_pos h2]
      exact ⟨_, rfl, rfl⟩
    · simp only [h, if_false, ackTest_false c p h2, Bool.false_eq_true, Option.pure_def, if_neg h2]
      exact ⟨c, rfl, rfl⟩

theorem handleFinWait2_state (c : Conn) (p : TCPPacket) (cb : CircBuff)
    (hl : isIPv4 c.localAddr) (hr : isIPv4 c.remoteAddr)
    (hcb : c.receiveBuffer = some cb) (hsz : cb.size ≠ 0) :
    ∃ c1, handleFinWait2 c p = some c1 ∧
      c1.state = (if isFin p = true then TCPState.S_TIME_WAIT else c.state) ∧
      (isFin p = true →
        ∃ ack, ack.flags = F_ACK ∧ ack.data = [] ∧
          c1.out = c.out ++ [Effect.send ack] ++ [Effect.timeWaitTimer]) := by
  unfold handleFinWait2
  by_cases h : isFin p = true
  · obtain ⟨ack, hack, ha1, -, ha3, -⟩ := sendAck_some
      { c with receiveBuffer := some (setFin cb p.seqNum) } hl hr
      (by
        intro cb1 h1
        simp only [Option.some.injEq] at h1
        subst h1
        exact hsz)
    simp only [h, if_true, recordFin_some c cb p.seqNum hcb, hack, Option.bind_eq_bind,
      Option.some_bind, Option.pure_def]
    exact ⟨_, rfl, rfl, fun _ => ⟨ack, ha1, ha3, rfl⟩⟩
  · simp only [h, if_false, Option.pure_def]
    exact ⟨c, rfl, rfl, fun hq => absurd hq (by simp)⟩

theorem handleClosing_state (c : Conn) (p : TCPPacket) :
    ∃ c1, handleClosing c p = some c1 ∧
      c1.state = (if isAck p = true ∧ p.ackNum = c.seqNum then TCPState.S_TIME_WAIT
        else c.state) := by
  unfold handleClosing
  by_cases h2 : isAck p = true ∧ p.ackNum = c.seqNum
  · simp only [ackTest_true c p h2, if_true, Option.pure_def, if_pos h2]
    exact ⟨_, rfl, rfl⟩
  · simp only [ackTest_false c p h2, Bool.false_eq_true, if_false, Option.pure_def, if_neg h2]
    exact ⟨c, rfl, rfl⟩

theorem handleLastAck_state (c : Conn) (p : TCPPacket) :
    ∃ c1, handleLastAck c p = some c1 ∧
      c1.state = (if isAck p = true ∧ p.ackNum = c.seqNum then TCPState.S_CLOSED
        else c.state) := by
  unfold handleLastAck
  by_cases h2 : isAck p = true ∧ p.ackNum = c.seqNum
  · simp only [ackTest_true c p h2, if_true, Option.pure_def, if_pos h2]
    exact ⟨_, rfl, rfl⟩
  · simp only [ackTest_false c p h2, Bool.false_eq_true, if_false, Option.pure_def, if_neg h2]
    exact ⟨c, rfl, rfl⟩

theorem triggerClose_frame (c : Conn) :
    (triggerClose c).localAddr = c.localAddr ∧ (triggerClose c).remoteAddr = c.remoteAddr ∧
      (triggerClose c).receiveBuffer = c.receiveBuffer ∧
      (triggerClose c).seqNum = c.seqNum := by
  unfold triggerClose
  split_ifs <;> exact ⟨rfl, rfl, rfl, rfl⟩

end Teardown

/-- C18: for every inbound segment `p` processed in ESTABLISHED, FIN_WAIT_1, FIN_WAIT_2,
CLOSING, LAST_ACK or CLOSE_WAIT by a connection with IPv4 addresses and a receive buffer,
`StateMachine` returns and the next state is the one of the teardown table.  ESTABLISHED
with FIN records the FIN in the receive buffer (afterwards `finRecvd` is true, `finSeq` is
`p.seq`, a waiting reader is released and nothing else in the buffer changes) and sends an
ACK as the last segment, after the fast retransmission if `p` sets one off; FIN_WAIT_2
with FIN sends an ACK in the same way and then starts the timer of TIME_WAIT.  `Close`
takes ESTABLISHED to FIN_WAIT_1 and CLOSE_WAIT to LAST_ACK and starts the goroutine that,
once run, puts a FIN|ACK segment on the send queue. -/
theorem StateMachine_teardown (c : tcp.Conn) (p : tcp.TCPPacket) (cb : tcp.CircBuff)
    (hl : isIPv4 c.localAddr) (hr : isIPv4 c.remoteAddr)
    (hcb : c.receiveBuffer = some cb) (hsz : cb.size ≠ 0)
    (hs : c.state = .S_ESTABLISHED ∨ c.state = .S_FIN_WAIT_1 ∨ c.state = .S_FIN_WAIT_2 ∨
      c.state = .S_CLOSING ∨ c.state = .S_LAST_ACK ∨ c.state = .S_CLOSE_WAIT) :
    (∃ c1, tcp.StateMachine c p = some c1 ∧
      c1.state = teardownNext c.state p c.seqNum ∧
      (c.state = .S_ESTABLISHED → tcp.isFin p = true →
        c1.receiveBuffer =
          some { cb with finRecvd := true, finSeq := p.seqNum, waitChan := false } ∧
        ∃ ack, ack.flags = tcp.F_ACK ∧ ack.data = [] ∧
          c1.out = (tcp.trackAcks c p).1.out ++ [tcp.Effect.send ack] ∧
          c1.out = c.out ++ fastResend c p ++ [tcp.Effect.send ack]) ∧
      (c.state = .S_FIN_WAIT_2 → tcp.isFin p = true →
        ∃ ack, ack.flags = tcp.F_ACK ∧ ack.data = [] ∧
          c1.out = (tcp.trackAcks c p).1.out ++ [tcp.Effect.send ack] ++
            [tcp.Effect.timeWaitTimer] ∧
          c1.out = c.out ++ fastResend c p ++ [tcp.Effect.send ack] ++
            [tcp.Effect.timeWaitTimer])) ∧
    (c.state = .S_ESTABLISHED → (tcp.triggerClose c).state = .S_FIN_WAIT_1) ∧
    (c.state = .S_CLOSE_WAIT → (tcp.triggerClose c).state = .S_LAST_ACK) ∧
    (c.state = .S_ESTABLISHED ∨ c.state = .S_CLOSE_WAIT →
      (tcp.triggerClose c).out =
        c.out ++ [tcp.Effect.goSendControlMsg (tcp.F_ACK ||| tcp.F_FIN) true] ∧
      ∃ c2 fin, tcp.sendControlMsg (tcp.triggerClose c) (tcp.F_ACK ||| tcp.F_FIN) true =
          some c2 ∧
        c2.out = (tcp.triggerClose c).out ++ [tcp.Effect.enqueue fin] ∧
        fin.flags = tcp.F_ACK ||| tcp.F_FIN ∧ fin.data = []) := by
  refine ⟨?_, ?_, ?_, ?_⟩
  · obtain ⟨t1, t2, -, t4, t5, t6, -⟩ := trackAcks_frame c p
    have t7 := (trackAcks_out c p).1
    unfold tcp.StateMachine
    generalize (tcp.trackAcks c p).1 = t at t1 t2 t4 t5 t6 t7
    rw [← t5] at hl
    rw [← t6] at hr
    rw [← t4] at hcb
    rw [← t1, ← t2, ← t7]
    rw [← t1] at hs
    clear t1 t2 t4 t5 t6 t7
    rcases hs with hs | hs | hs | hs | hs | hs
    · obtain ⟨c1, e1, e2, e3⟩ := handleEstablished_state t p cb hl hr hcb hsz
      refine ⟨c1, by simp only [tcp.dispatch, hs, e1], ?_, ?_, ?_⟩
      · rw [e2, hs]
        rfl
      · intro _ h
        obtain ⟨g1, ack, g2, g3, g4⟩ := e3 h
        exact ⟨g1, ack, g2, g3, g4, g4⟩
      · intro h
        rw [hs] at h
        exact absurd h (by decide)
    · obtain ⟨c1, e1, e2⟩ := handleFinWait1_state t p cb hcb
      refine ⟨c1, by simp only [tcp.dispatch, hs, e1], ?_, ?_, ?_⟩
      · rw [e2, hs]
        rfl
      · intro h
        rw [hs] at h
        exact absurd h (by decide)
      · intro h
        rw [hs] at h
        exact absurd h (by decide)
    · obtain ⟨c1, e1, e2, e3⟩ := handleFinWait2_state t p cb hl hr hcb hsz
      refine ⟨c1, by simp only [tcp.dispatch, hs, e1], ?_, ?_, ?_⟩
      · rw [e2, hs]
        rfl
      · intro h
        rw [hs] at h
        exact absurd h (by decide)
      · intro _ h
        obtain ⟨ack, g2, g3, g4⟩ := e3 h
        exact ⟨ack, g2, g3, g4, g4⟩
    · obtain ⟨c1, e1, e2⟩ := handleClosing_state t p
      refine ⟨c1, by simp only [tcp.dispatch, hs, e1], ?_, ?_, ?_⟩
      · rw [e2, hs]
        rfl
      · intro h
        rw [hs] at h
        exact absurd h (by decide)
      · intro h
        rw [hs] at h
        exact absurd h (by decide)
    · obtain ⟨c1, e1, e2⟩ := handleLastAck_state t p
      refine ⟨c1, by simp only [tcp.dispatch, hs, e1], ?_, ?_, ?_⟩
      · rw [e2, hs]
        rfl
      · intro h
        rw [hs] at h
        exact absurd h (by decide)
      · intro h
        rw [hs] at h
        exact absurd h (by decide)
    · refine ⟨t, by simp only [tcp.dispatch, hs, tcp.handleCloseWait, Option.pure_def],
        ?_, ?_, ?_⟩
      · rw [hs]
        rfl
      · intro h
        rw [hs] at h
        exact absurd h (by decide)
      · intro h
        rw [hs] at h
        exact absurd h (by decide)
  · intro h
    simp [tcp.triggerClose, h]
  · intro h
    simp [tcp.triggerClose, h]
  · intro h
    obtain ⟨f1, f2, f3, -⟩ := triggerClose_frame c
    obtain ⟨fin, hfin, g1, -, g3⟩ := sendControlMsg_inc (tcp.triggerClose c)
      (tcp.F_ACK ||| tcp.F_FIN) (by rw [f1]; exact hl) (by rw [f2]; exact hr)
      (by
        intro cb1 h1
        rw [f3, hcb] at h1
        simp only [Option.some.injEq] at h1
        subst h1
        exact hsz)
    refine ⟨?_, _, fin, hfin, rfl, g1, g3⟩
    rcases h with h | h <;> simp [tcp.triggerClose, h]

/-- Witness for C18: an ESTABLISHED connection whose receive buffer expects sequence number
5001 receives a FIN|ACK segment with sequence number 5001; afterwards it is in CLOSE_WAIT
and the buffer has the FIN recorded at 5001. -/
theorem StateMachine_teardown_witness :
    ∃ c1, tcp.StateMachine
        ⟨[10, 0, 0, 1], 1024, [10, 0, 0, 2], 80, .S_ESTABLISHED, false, [], 1000, 32768, 1000,
          0, some (tcp.NewCircBuff 16 5001), true, true, []⟩
        ⟨80, [10, 0, 0, 2], 1024, [10, 0, 0, 1], 5001, 900, 5, 17, 32768, 0, 0, [], []⟩ =
          some c1 ∧
      c1.state = .S_CLOSE_WAIT ∧
      c1.receiveBuffer =
        some ⟨16, List.replicate 16 0, 5001, 5001, [], true, 5001, false⟩ := by
  obtain ⟨⟨c1, h1, h2, h3, -⟩, -⟩ := StateMachine_teardown
    ⟨[10, 0, 0, 1], 1024, [10, 0, 0, 2], 80, .S_ESTABLISHED, false, [], 1000, 32768, 1000,
      0, some (tcp.NewCircBuff 16 5001), true, true, []⟩
    ⟨80, [10, 0, 0, 2], 1024, [10, 0, 0, 1], 5001, 900, 5, 17, 32768, 0, 0, [], []⟩
    (tcp.NewCircBuff 16 5001) (by decide) (by decide) rfl (by decide) (Or.inl rfl)
  refine ⟨c1, h1, ?_, (h3 rfl (by decide)).1⟩
  rw [h2]
  decide

section ReceiveStep

open tcp

theorem pushCopy_total (cb : CircBuff) (lIdx : Nat) (data : List Nat) (hS : 1 ≤ cb.size)
    (hsz : cb.size ≤ 2147483648) (hb : cb.buff.length = cb.size) (h1 : 1 ≤ data.length) :
    ∃ r, pushCopy cb lIdx data = some r := by
  have ha : lIdx % cb.size < cb.size := Nat.mod_lt _ (by omega)
  have hd : data.length % 4294967296 % cb.size < cb.size := Nat.mod_lt _ (by omega)
  have hadd : add32 (lIdx % cb.size) (data.length % 4294967296 % cb.size) =
      lIdx % cb.size + data.length % 4294967296 % cb.size := Nat.mod_eq_of_lt (by omega)
  have hdle : data.length % 4294967296 % cb.size ≤ data.length :=
    le_trans (Nat.mod_le _ _) (Nat.mod_le _ _)
  unfold pushCopy
  rw [if_neg (by omega)]
  simp only
  rw [hadd]
  have hr : (lIdx % cb.size + data.length % 4294967296 % cb.size) % cb.size < cb.size :=
    Nat.mod_lt _ (by omega)
  by_cases hbr : lIdx % cb.size <
      (lIdx % cb.size + data.length % 4294967296 % cb.size) % cb.size
  · rw [if_pos hbr]
    obtain ⟨r, hr1, -, -⟩ := copyInto_some cb.buff (lIdx % cb.size)
      ((lIdx % cb.size + data.length % 4294967296 % cb.size) % cb.size) data
      (by omega) (by omega)
    exact ⟨r, hr1⟩
  · rw [if_neg hbr, sub32_small cb.size (lIdx % cb.size) (by omega) (by omega)]
    have hfit : cb.size - lIdx % cb.size ≤ data.length := by
      by_cases hwrap : lIdx % cb.size + data.length % 4294967296 % cb.size < cb.size
      · rw [Nat.mod_eq_of_lt hwrap] at hbr
        have hd0 : data.length % 4294967296 % cb.size = 0 := by omega
        by_cases hz : data.length % 4294967296 = 0
        · omega
        · have hdvd : cb.size ∣ data.length % 4294967296 := Nat.dvd_of_mod_eq_zero hd0
          have hle : cb.size ≤ data.length % 4294967296 :=
            Nat.le_of_dvd (Nat.pos_of_ne_zero hz) hdvd
          have : data.length % 4294967296 ≤ data.length := Nat.mod_le _ _
          omega
      · omega
    have hs1 : slice data 0 (cb.size - lIdx % cb.size) =
        some ((data.drop 0).take (cb.size - lIdx % cb.size - 0)) := by
      rw [slice, if_pos ⟨Nat.zero_le _, hfit⟩]
    have hs2 : sliceFrom data (cb.size - lIdx % cb.size) =
        some (data.drop (cb.size - lIdx % cb.size)) := by
      rw [sliceFrom, if_pos hfit]
    obtain ⟨r1, hr1, hl1, -⟩ := copyInto_some cb.buff (lIdx % cb.size) cb.buff.length
      ((data.drop 0).take (cb.size - lIdx % cb.size - 0)) (by omega) (le_refl _)
    obtain ⟨r2, hr2, -, -⟩ := copyInto_some r1.1 0
      ((lIdx % cb.size + data.length % 4294967296 % cb.size) % cb.size)
      (data.drop (cb.size - lIdx % cb.size)) (Nat.zero_le _) (by omega)
    exact ⟨(r2.1, r1.2 + r2.2), by
      simp only [hs1, hs2, hr1, hr2, Option.bind_eq_bind, Option.some_bind, Option.pure_def]⟩

theorem pushState_size (cb : CircBuff) (lIdx dl : Nat) :
    (pushState cb lIdx dl).size = cb.size ∧ (pushState cb lIdx dl).buff = cb.buff := by
  unfold pushState
  split_ifs <;> exact ⟨rfl, rfl⟩

theorem PushData_total (cb : CircBuff) (lIdx : Nat) (data : List Nat) (hS : 1 ≤ cb.size)
    (hsz : cb.size ≤ 2147483648) (hb : cb.buff.length = cb.size) :
    ∃ r, PushData cb lIdx data = some r ∧ r.1.size = cb.size := by
  unfold PushData
  by_cases h0 : data.length = 0
  · rw [if_pos h0]
    exact ⟨_, rfl, rfl⟩
  · rw [if_neg h0]
    simp only
    by_cases hrej : pushRejects cb lIdx (data.length % 4294967296) = true
    · rw [if_pos hrej]
      exact ⟨_, rfl, rfl⟩
    · rw [if_neg hrej]
      obtain ⟨e1, e2⟩ := pushState_size cb lIdx (data.length % 4294967296)
      obtain ⟨r, hr⟩ := pushCopy_total (pushState cb lIdx (data.length % 4294967296)) lIdx
        data (by rw [e1]; exact hS) (by rw [e1]; exact hsz) (by rw [e1, e2]; exact hb)
        (by omega)
      rw [hr]
      simp only
      split_ifs
      · exact ⟨_, rfl, e1⟩
      · exact ⟨_, rfl, e1⟩

theorem dispatch_TIME_WAIT (c : Conn) (p : TCPPacket) (h : c.state = TCPState.S_TIME_WAIT) :
    dispatch c p = some c := by
  simp only [dispatch, h, handleTimeWait, Option.pure_def]

end ReceiveStep

/-- C19, the code at the failing input: a connection in TIME_WAIT receives a retransmitted
FIN without payload (FIN|ACK, sequence number 5001, the FIN already recorded in the
receive buffer).  The step of the receive thread leaves the connection in TIME_WAIT and
sends nothing: the list of effects stays empty. -/
theorem TIME_WAIT_bare_FIN_not_acked :
    tcp.isFin ⟨80, [10, 0, 0, 2], 1024, [10, 0, 0, 1], 5001, 1001, 5, 17, 32768, 0, 0, [], []⟩
        = true ∧
      tcp.receiveStep
        ⟨[10, 0, 0, 1], 1024, [10, 0, 0, 2], 80, .S_TIME_WAIT, false, [], 1001, 32768, 1001,
          0, some (tcp.setFin (tcp.NewCircBuff 16 5001) 5001), true, true, []⟩
        ⟨80, [10, 0, 0, 2], 1024, [10, 0, 0, 1], 5001, 1001, 5, 17, 32768, 0, 0, [], []⟩ =
      some ⟨[10, 0, 0, 1], 1024, [10, 0, 0, 2], 80, .S_TIME_WAIT, false, [], 1001, 32768,
        1001, 1, some (tcp.setFin (tcp.NewCircBuff 16 5001) 5001), true, true, []⟩ := by
  decide

/-- C19, amended: for every connection in TIME_WAIT (IPv4 addresses, a receive buffer of
size between 1 and 2^31 whose ring has that length) and every inbound segment, with FIN or
without, the step of the receive thread returns and leaves the connection in TIME_WAIT.
The segments it sends are, in order: one ACK exactly when the segment carries payload,
then the fast retransmission if the segment sets one off (it is counted as the third
duplicate acknowledgement and the sent buffer holds a segment starting at its ack number).
So a segment without payload that sets off no fast retransmission, such as a retransmitted
bare FIN, sends nothing. -/
theorem TIME_WAIT_acks_payload_only (c : tcp.Conn) (p : tcp.TCPPacket) (cb : tcp.CircBuff)
    (hl : isIPv4 c.localAddr) (hr : isIPv4 c.remoteAddr)
    (hcb : c.receiveBuffer = some cb) (hS : 1 ≤ cb.size) (hsz : cb.size ≤ 2147483648)
    (hb : cb.buff.length = cb.size) (hst : c.state = .S_TIME_WAIT) :
    (∃ c1, tcp.receiveStep c p = some c1 ∧ c1.state = .S_TIME_WAIT ∧
      (p.data = [] → c1.out = c.out ++ fastResend c p ∧ (fastResend c p = [] → c1.out = c.out)) ∧
      (p.data ≠ [] → ∃ ack, ack.flags = tcp.F_ACK ∧ ack.data = [] ∧ ack.seqNum = c.seqNum ∧
        c1.out = c.out ++ [tcp.Effect.send ack] ++ fastResend c p)) ∧
    (p.data = [] → tcp.receiveStep c p = some (tcp.trackAcks c p).1) ∧
    (p.data ≠ [] → ∃ cb1 ack, ack.flags = tcp.F_ACK ∧ ack.data = [] ∧
      tcp.receiveStep c p =
        some (tcp.trackAcks
          { c with receiveBuffer := some cb1, out := c.out ++ [tcp.Effect.send ack] } p).1) := by
  by_cases hd : p.data = []
  · have hstep : tcp.receiveStep c p = some (tcp.trackAcks c p).1 := by
      have h0 : ¬ p.data.length > 0 := by simp [hd]
      simp only [tcp.receiveStep, h0, if_false, Option.pure_def, Option.bind_eq_bind,
        Option.some_bind, tcp.StateMachine]
      exact dispatch_TIME_WAIT _ p (by rw [(trackAcks_frame c p).1, hst])
    have hout := (trackAcks_out c p).1
    refine ⟨⟨_, hstep, by rw [(trackAcks_frame c p).1, hst], fun _ => ⟨hout, ?_⟩,
      fun h => absurd hd h⟩, fun _ => hstep, fun h => absurd hd h⟩
    intro hnone
    rw [hout, hnone, List.append_nil]
  · obtain ⟨r, hpush, hsize⟩ := PushData_total cb p.seqNum p.data hS hsz hb
    obtain ⟨ack, hack, ha1, ha2, ha3, -⟩ := sendAck_some
      { c with receiveBuffer := some r.1 } hl hr
      (by
        intro cb1 h1
        simp only [Option.some.injEq] at h1
        subst h1
        omega)
    have h0 : p.data.length > 0 := List.length_pos.mpr hd
    have hstep : tcp.receiveStep c p =
        some (tcp.trackAcks
          { c with receiveBuffer := some r.1, out := c.out ++ [tcp.Effect.send ack] } p).1 := by
      simp only [tcp.receiveStep, h0, if_true, hcb, hpush, hack, Option.bind_eq_bind,
        Option.some_bind, tcp.StateMachine]
      exact dispatch_TIME_WAIT _ p (by rw [(trackAcks_frame _ p).1]; exact hst)
    have hout := (trackAcks_out
      { c with receiveBuffer := some r.1, out := c.out ++ [tcp.Effect.send ack] } p).1
    exact ⟨⟨_, hstep, by rw [(trackAcks_frame _ p).1]; exact hst, fun h => absurd h hd,
      fun _ => ⟨ack, ha1, ha3, ha2, hout⟩⟩, fun h => absurd h hd,
      fun _ => ⟨r.1, ack, ha1, ha3, hstep⟩⟩

/-- Witness for C19 (amended): the connection of the failing input receives the FIN again,
this time with one byte of payload; it stays in TIME_WAIT and sends one ACK. -/
theorem TIME_WAIT_acks_payload_only_witness :
    ∃ c1 ack, tcp.receiveStep
        ⟨[10, 0, 0, 1], 1024, [10, 0, 0, 2], 80, .S_TIME_WAIT, false, [], 1001, 32768, 1001,
          0, some ⟨16, List.replicate 16 0, 5001, 5001, [], true, 5001, false⟩, true, true, []⟩
        ⟨80, [10, 0, 0, 2], 1024, [10, 0, 0, 1], 5000, 1001, 5, 17, 32768, 0, 0, [], [7]⟩ =
          some c1 ∧
      c1.state = .S_TIME_WAIT ∧ ack.flags = tcp.F_ACK ∧ c1.out = [tcp.Effect.send ack] := by
  obtain ⟨⟨c1, h1, h2, -, h4⟩, -⟩ := TIME_WAIT_acks_payload_only
    ⟨[10, 0, 0, 1], 1024, [10, 0, 0, 2], 80, .S_TIME_WAIT, false, [], 1001, 32768, 1001,
      0, some ⟨16, List.replicate 16 0, 5001, 5001, [], true, 5001, false⟩, true, true, []⟩
    ⟨80, [10, 0, 0, 2], 1024, [10, 0, 0, 1], 5000, 1001, 5, 17, 32768, 0, 0, [], [7]⟩
    ⟨16, List.replicate 16 0, 5001, 5001, [], true, 5001, false⟩ (by decide) (by decide) rfl
    (by decide) (by decide) (by decide) rfl
  obtain ⟨ack, a1, -, -, a4⟩ := h4 (by decide)
  exact ⟨c1, ack, h1, h2, a1, by rw [a4]; rfl⟩

/-- C20, the code on a sequence of six segments: an ESTABLISHED connection with
`remoteAckNum` 100, no duplicate counted so far, and an unacknowledged record at sequence
number 150 receives the ack numbers 100, 100, 150, 150, 150, 150.  The fast-retransmit
branch is entered on the fourth segment, the first duplicate of 150 (the two duplicates of
100 are still counted), and not on the sixth, the third duplicate of 150. -/
theorem fast_retransmit_counts_across_ack_numbers :
    fastRetransmits
      ⟨[10, 0, 0, 1], 1024, [10, 0, 0, 2], 80, .S_ESTABLISHED, false,
        [⟨⟨1024, [10, 0, 0, 1], 80, [10, 0, 0, 2], 150, 5001, 5, 16, 16, 0, 0, [], [1, 2]⟩,
          150, 2, 0, false⟩],
        1000, 32768, 100, 0, some (tcp.NewCircBuff 16 5001), true, true, []⟩
      [⟨80, [10, 0, 0, 2], 1024, [10, 0, 0, 1], 5001, 100, 5, 16, 32768, 0, 0, [], []⟩,
        ⟨80, [10, 0, 0, 2], 1024, [10, 0, 0, 1], 5001, 100, 5, 16, 32768, 0, 0, [], []⟩,
        ⟨80, [10, 0, 0, 2], 1024, [10, 0, 0, 1], 5001, 150, 5, 16, 32768, 0, 0, [], []⟩,
        ⟨80, [10, 0, 0, 2], 1024, [10, 0, 0, 1], 5001, 150, 5, 16, 32768, 0, 0, [], []⟩,
        ⟨80, [10, 0, 0, 2], 1024, [10, 0, 0, 1], 5001, 150, 5, 16, 32768, 0, 0, [], []⟩,
        ⟨80, [10, 0, 0, 2], 1024, [10, 0, 0, 1], 5001, 150, 5, 16, 32768, 0, 0, [], []⟩] =
      some [false, false, false, true, false, false] := by
  decide

/-- C21, the code at the failing input: remote window 100, remote ack 1000, and a queued
segment of 10 bytes at sequence number 1200, so 200 bytes are in flight.  As integers
`100 - 200 > 10` is false, but the uint32 subtraction wraps to 4294967196 and the segment
is sent at once, with a retransmitter registered. -/
theorem sendThread_window_underflow :
    ¬ ((100 : Int) - ((1200 - 1000) % 4294967296) > 10) ∧
      tcp.availableSpace 100 1200 1000 = 4294967196 ∧
      tcp.sendStep
        ⟨[10, 0, 0, 1], 1024, [10, 0, 0, 2], 80, .S_ESTABLISHED, false, [], 1210, 100, 1000,
          0, none, true, true, []⟩
        ⟨1024, [10, 0, 0, 1], 80, [10, 0, 0, 2], 1200, 0, 5, 16, 0, 0, 0, [],
          [0, 1, 2, 3, 4, 5, 6, 7, 8, 9]⟩ =
      (⟨[10, 0, 0, 1], 1024, [10, 0, 0, 2], 80, .S_ESTABLISHED, false,
        [⟨⟨1024, [10, 0, 0, 1], 80, [10, 0, 0, 2], 1200, 0, 5, 16, 0, 0, 0, [],
          [0, 1, 2, 3, 4, 5, 6, 7, 8, 9]⟩, 1200, 10, 0, false⟩],
        1210, 100, 1000, 0, none, true, true,
        [tcp.Effect.send ⟨1024, [10, 0, 0, 1], 80, [10, 0, 0, 2], 1200, 0, 5, 16, 0, 0, 0, [],
          [0, 1, 2, 3, 4, 5, 6, 7, 8, 9]⟩]⟩, true) := by
  decide

/-- C28: for every TCP packet with IPv4 addresses whose serialized segment has odd length,
`TCPChecksum` is defined and equals `util.IPChecksum` of the 12-byte pseudo-header
(source, destination, zero byte, protocol 6, segment length as a uint16), followed by the
segment, followed by one zero byte.  The code does not append that byte: the last
iteration of `util.IPChecksum` reads it from the room that `append` left behind the
assembled buffer, here a backing array that continues with a zero byte. -/
theorem TCPChecksum_odd_segment (p : tcp.TCPPacket) (spare : List Nat)
    (hs : isIPv4 p.srcAddr) (hd : isIPv4 p.destAddr)
    (hodd : (tcp.Serialize p).length % 2 = 1) :
    ∃ src dst v, util.IP2int p.srcAddr = some src ∧ util.IP2int p.destAddr = some dst ∧
      tcp.TCPChecksum p (0 :: spare) = some v ∧
      util.IPChecksum (util.Htonl src ++ util.Htonl dst ++ [0] ++ [6] ++
        util.Htons ((tcp.Serialize p).length % 65536) ++ tcp.Serialize p ++ [0]) = some v := by
  obtain ⟨src, dst, hsrc, hdst, hbuf⟩ := checksumBuffer_some p hs hd
  have hlen : (util.Htonl src ++ util.Htonl dst ++ [0] ++ [6] ++
      util.Htons ((tcp.Serialize p).length % 65536) ++ tcp.Serialize p).length % 2 = 1 := by
    simp only [List.length_append, util.Htons, util.Htonl, List.length_cons, List.length_nil]
    omega
  have hlen2 : (util.Htonl src ++ util.Htonl dst ++ [0] ++ [6] ++
      util.Htons ((tcp.Serialize p).length % 65536) ++ tcp.Serialize p ++ [0]).length % 2
        = 0 := by
    rw [List.length_append, List.length_singleton]
    omega
  refine ⟨src, dst,
    (beWords (util.Htonl src ++ util.Htonl dst ++ [0] ++ [6] ++
      util.Htons ((tcp.Serialize p).length % 65536) ++ tcp.Serialize p ++ [0])).foldl
      util.IPChecksumStep 0 ^^^ 0xFFFF, hsrc, hdst, ?_, ?_⟩
  · simp only [tcp.TCPChecksum, hbuf, Option.bind_eq_bind, Option.some_bind,
      util.IPChecksumCap, IPChecksumLoopCap_odd _ 0 spare 0 hlen,
      IPChecksumLoop_even _ 0 hlen2, Option.map_some']
  · simp only [util.IPChecksum, IPChecksumLoop_even _ 0 hlen2, Option.map_some']

/-- Witness for C28: a segment with one byte of payload (21 bytes). -/
theorem TCPChecksum_odd_segment_witness :
    ∃ src dst v, util.IP2int [10, 0, 0, 1] = some src ∧ util.IP2int [10, 0, 0, 2] = some dst ∧
      tcp.TCPChecksum
        ⟨1024, [10, 0, 0, 1], 80, [10, 0, 0, 2], 1000, 5001, 5, 16, 32768, 0, 0, [], [7]⟩
        (0 :: []) = some v ∧
      util.IPChecksum (util.Htonl src ++ util.Htonl dst ++ [0] ++ [6] ++
        util.Htons ((tcp.Serialize
          ⟨1024, [10, 0, 0, 1], 80, [10, 0, 0, 2], 1000, 5001, 5, 16, 32768, 0, 0, [], [7]⟩
          ).length % 65536) ++
        tcp.Serialize
          ⟨1024, [10, 0, 0, 1], 80, [10, 0, 0, 2], 1000, 5001, 5, 16, 32768, 0, 0, [], [7]⟩
        ++ [0]) = some v :=
  TCPChecksum_odd_segment
    ⟨1024, [10, 0, 0, 1], 80, [10, 0, 0, 2], 1000, 5001, 5, 16, 32768, 0, 0, [], [7]⟩ []
    (by decide) (by decide) (by decide)

/-- C29, the code at two failing inputs: a packet with offset 5, no options and the flags
CWR|ACK, and one with the flag NS alone.  `Serialize` writes the flag bits, but
`Deserialize` keeps only the seven low bits (`& 0b1111111`): the packet read back has the
flags ACK, respectively none, and `isCwr`, respectively `isNs`, has changed from true to
false. -/
theorem TCP_Deserialize_drops_CWR_and_NS :
    tcp.Deserialize
        ⟨0, [10, 0, 0, 1], 0, [10, 0, 0, 2], 0, 0, 0, 0, 0, 0, 0, [], []⟩
        (tcp.Serialize
          ⟨1024, [10, 0, 0, 1], 80, [10, 0, 0, 2], 1000, 5001, 5, 144, 32768, 0, 0, [], []⟩) =
      some ⟨1024, [10, 0, 0, 1], 80, [10, 0, 0, 2], 1000, 5001, 5, 16, 32768, 0, 0, [], []⟩ ∧
    tcp.isCwr
        ⟨1024, [10, 0, 0, 1], 80, [10, 0, 0, 2], 1000, 5001, 5, 144, 32768, 0, 0, [], []⟩ =
      true ∧
    tcp.isCwr
        ⟨1024, [10, 0, 0, 1], 80, [10, 0, 0, 2], 1000, 5001, 5, 16, 32768, 0, 0, [], []⟩ =
      false ∧
    tcp.Deserialize
        ⟨0, [10, 0, 0, 1], 0, [10, 0, 0, 2], 0, 0, 0, 0, 0, 0, 0, [], []⟩
        (tcp.Serialize
          ⟨1024, [10, 0, 0, 1], 80, [10, 0, 0, 2], 1000, 5001, 5, 256, 32768, 0, 0, [], []⟩) =
      some ⟨1024, [10, 0, 0, 1], 80, [10, 0, 0, 2], 1000, 5001, 5, 0, 32768, 0, 0, [], []⟩ ∧
    tcp.isNs
        ⟨1024, [10, 0, 0, 1], 80, [10, 0, 0, 2], 1000, 5001, 5, 256, 32768, 0, 0, [], []⟩ =
      true ∧
    tcp.isNs
        ⟨1024, [10, 0, 0, 1], 80, [10, 0, 0, 2], 1000, 5001, 5, 0, 32768, 0, 0, [], []⟩ =
      false := by
  decide

section Receive

open ip util

theorem bytes20 (buf : List Nat) (h : 20 ≤ buf.length) :
    ∃ b0 b1 b2 b3 b4 b5 b6 b7 b8 b9 b10 b11 b12 b13 b14 b15 b16 b17 b18 b19 rest,
      buf = b0 :: b1 :: b2 :: b3 :: b4 :: b5 :: b6 :: b7 :: b8 :: b9 :: b10 :: b11 :: b12 ::
        b13 :: b14 :: b15 :: b16 :: b17 :: b18 :: b19 :: rest := by
  rcases buf with _ | ⟨b0, _ | ⟨b1, _ | ⟨b2, _ | ⟨b3, _ | ⟨b4, _ | ⟨b5, _ | ⟨b6, _ | ⟨b7,
    _ | ⟨b8, _ | ⟨b9, _ | ⟨b10, _ | ⟨b11, _ | ⟨b12, _ | ⟨b13, _ | ⟨b14, _ | ⟨b15,
    _ | ⟨b16, _ | ⟨b17, _ | ⟨b18, _ | ⟨b19, rest⟩⟩⟩⟩⟩⟩⟩⟩⟩⟩⟩⟩⟩⟩⟩⟩⟩⟩⟩⟩
  all_goals first
    | exact ⟨_, _, _, _, _, _, _, _, _, _, _, _, _, _, _, _, _, _, _, _, _, rfl⟩
    | (simp only [List.length_cons, List.length_nil] at h; omega)

theorem Deserialize_some (buf : List Nat) (h : 20 ≤ buf.length) :
    ∃ q, ip.Deserialize buf = some q := by
  obtain ⟨b0, b1, b2, b3, b4, b5, b6, b7, b8, b9, b10, b11, b12, b13, b14, b15, b16, b17,
    b18, b19, rest, rfl⟩ := bytes20 buf h
  exact ⟨_, rfl⟩

theorem interfaceByPort_first (port : Nat) :
    ∀ (l : List Interface) (j start : Nat) (interf : Interface), l[j]? = some interf →
      interf.Port = port →
      (∀ i x, i < j → l[i]? = some x → x.Port ≠ port) →
      interfaceByPort l port start = start + j := by
  intro l
  induction l with
  | nil =>
    intro j start interf h
    simp at h
  | cons hd tl ih =>
    intro j start interf h hp hfirst
    cases j with
    | zero =>
      simp only [List.getElem?_cons_zero, Option.some.injEq] at h
      subst h
      simp [interfaceByPort, hp]
    | succ j =>
      have hne : hd.Port ≠ port := hfirst 0 hd (Nat.succ_pos j) (by simp)
      simp only [List.getElem?_cons_succ] at h
      rw [interfaceByPort, if_neg hne,
        ih j (start + 1) interf h hp (fun i x hi hx =>
          hfirst (i + 1) x (Nat.succ_lt_succ hi) (by simpa using hx))]
      omega

end Receive

/-- C24, the code at the failing input: two interfaces have the same remote UDP port 5001
(on different hosts); interface 0 is enabled and interface 1 is disabled.  A valid datagram
from port 5001 addressed to the node is attributed to interface 0, the first interface
with that port, and its protocol handler is called. -/
theorem disabled_interface_shared_port_handled :
    ip.handleUDPListen
        ⟨[⟨5001, [10, 0, 0, 1], [10, 0, 0, 2], true⟩, ⟨5001, [10, 0, 1, 1], [10, 0, 1, 2], false⟩],
          [(⟨0x0A000001, 0xFFFFFFFF⟩, ⟨some 0, 0, none⟩)], false⟩
        [69, 0, 0, 24, 0, 0, 0, 0, 16, 200, 150, 28, 10, 0, 0, 2, 10, 0, 0, 1, 0, 1, 0, 0] 5001 =
      some (ip.Receipt.handled 200
        ⟨⟨4, 5, 0, 24, 0, 0, 16, 200, 38428, [10, 0, 0, 2], [10, 0, 0, 1], []⟩, [0, 1, 0, 0]⟩
        0) := by
  decide

/-- C24, amended: for every disabled interface, `Interface.Send` writes no datagram
whatever packet it is given; and if no interface before it in `LocalInterfaces` has the
same UDP port, every datagram received from its port is dropped by the receive loop before
any handler is called, anything is forwarded or any ICMP message is built. -/
theorem disabled_interface_gate (node : ip.Node) (j : Nat) (interf : ip.Interface)
    (hj : node.LocalInterfaces[j]? = some interf) (hdis : interf.Enabled = false)
    (hfirst : ∀ i x, i < j → node.LocalInterfaces[i]? = some x → x.Port ≠ interf.Port) :
    (∀ idx packet, ip.Send interf idx packet = some []) ∧
    (∀ buf, ip.handleUDPListen node buf interf.Port = some ip.Receipt.dropped) := by
  constructor
  · intro idx packet
    simp [ip.Send, hdis]
  · intro buf
    unfold ip.handleUDPListen
    by_cases hlen : buf.length < ip.MIN_PACKET_SIZE
    · rw [if_pos hlen]
    · rw [if_neg hlen]
      obtain ⟨q, hq⟩ := Deserialize_some buf (by
        unfold ip.MIN_PACKET_SIZE at hlen
        omega)
      have hidx := interfaceByPort_first interf.Port node.LocalInterfaces j 0 interf hj rfl
        hfirst
      simp only [hq, hidx, Nat.zero_add, hj, hdis, Option.bind_eq_bind, Option.some_bind,
        if_true, Option.pure_def]

/-- Witness for C24 (amended): the node of the failing input with the ports made distinct;
interface 1 (port 5002) is disabled. -/
theorem disabled_interface_gate_witness :
    (∀ idx packet,
      ip.Send ⟨5002, [10, 0, 1, 1], [10, 0, 1, 2], false⟩ idx packet = some []) ∧
    (∀ buf, ip.handleUDPListen
      ⟨[⟨5001, [10, 0, 0, 1], [10, 0, 0, 2], true⟩, ⟨5002, [10, 0, 1, 1], [10, 0, 1, 2], false⟩],
        [(⟨0x0A000001, 0xFFFFFFFF⟩, ⟨some 0, 0, none⟩)], false⟩ buf
      (ip.Interface.Port ⟨5002, [10, 0, 1, 1], [10, 0, 1, 2], false⟩) =
        some ip.Receipt.dropped) :=
  disabled_interface_gate
    ⟨[⟨5001, [10, 0, 0, 1], [10, 0, 0, 2], true⟩, ⟨5002, [10, 0, 1, 1], [10, 0, 1, 2], false⟩],
      [(⟨0x0A000001, 0xFFFFFFFF⟩, ⟨some 0, 0, none⟩)], false⟩ 1
    ⟨5002, [10, 0, 1, 1], [10, 0, 1, 2], false⟩ rfl rfl (by
      intro i x hi hx
      have h0 : i = 0 := by omega
      subst h0
      simp only [List.getElem?_cons_zero, Option.some.injEq] at hx
      subst hx
      decide)

/-- C25, the code at the failing input: a valid datagram with TTL 0 for 10.0.2.7, which
is not an address of the node and has a route through interface 1.  `packet.Header.Ttl--`
wraps the uint8 to 255, the test for 0 does not fire, and the datagram is forwarded with
TTL 255 and a recomputed checksum. -/
theorem forward_ttl_zero_wraps :
    ip.VerifyIPChecksum
        ⟨⟨4, 5, 0, 24, 0, 0, 0, 17, 42189, [10, 0, 0, 2], [10, 0, 2, 7], []⟩, [1, 2, 3, 4]⟩ =
      some true ∧
    ip.handleUDPListen
        ⟨[⟨5001, [10, 0, 0, 1], [10, 0, 0, 2], true⟩, ⟨5002, [10, 0, 1, 1], [10, 0, 1, 2], true⟩],
          [(⟨0x0A000001, 0xFFFFFFFF⟩, ⟨some 0, 0, none⟩),
            (⟨0x0A000101, 0xFFFFFFFF⟩, ⟨some 1, 0, none⟩),
            (⟨0x0A000200, 0xFFFFFF00⟩, ⟨some 1, 1, some ⟨⟨0x0A000200, 0xFFFFFF00⟩, true⟩⟩)],
          false⟩
        [69, 0, 0, 24, 0, 0, 0, 0, 0, 17, 164, 205, 10, 0, 0, 2, 10, 0, 2, 7, 1, 2, 3, 4] 5001 =
      some (ip.Receipt.forwarded
        ⟨⟨4, 5, 0, 24, 0, 0, 255, 17, 42444, [10, 0, 0, 2], [10, 0, 2, 7], []⟩, [1, 2, 3, 4]⟩
        [(1, [69, 0, 0, 24, 0, 0, 0, 0, 255, 17, 165, 204, 10, 0, 0, 2, 10, 0, 2, 7,
          1, 2, 3, 4])]) := by
  decide

/-- C27, the code at the failing input: a node whose interface 0 carries its own /32
(cost 0) and a learned route 10.0.1.0/24 of cost 1 receives a RIP request on interface 0.
The reply written to interface 0 is the table as it is: the learned route is advertised
with cost 1, whereas the periodic update for interface 0 advertises it with cost 16. -/
theorem RIP_request_reply_not_poisoned :
    ip.RIPHandler
        ⟨[⟨5001, [10, 0, 0, 1], [10, 0, 0, 2], true⟩],
          [(⟨0x0A000001, 0xFFFFFFFF⟩, ⟨some 0, 0, none⟩),
            (⟨0x0A000100, 0xFFFFFF00⟩, ⟨some 0, 1, some ⟨⟨0x0A000100, 0xFFFFFF00⟩, true⟩⟩)],
          false⟩
        ⟨⟨4, 5, 0, 24, 0, 0, 16, 200, 38428, [10, 0, 0, 2], [10, 0, 0, 1], []⟩, [0, 1, 0, 0]⟩
        0 =
      some (⟨[⟨5001, [10, 0, 0, 1], [10, 0, 0, 2], true⟩],
          [(⟨0x0A000001, 0xFFFFFFFF⟩, ⟨some 0, 0, none⟩),
            (⟨0x0A000100, 0xFFFFFF00⟩, ⟨some 0, 1, some ⟨⟨0x0A000100, 0xFFFFFF00⟩, true⟩⟩)],
          false⟩,
        [(0, [69, 0, 0, 48, 0, 0, 0, 0, 16, 200, 150, 4, 10, 0, 0, 1, 10, 0, 0, 2,
          0, 2, 0, 2,
          0, 0, 0, 0, 10, 0, 0, 1, 255, 255, 255, 255,
          0, 0, 0, 1, 10, 0, 1, 0, 255, 255, 255, 0])],
        false) ∧
    ip.ripUpdateFor
        ⟨[⟨5001, [10, 0, 0, 1], [10, 0, 0, 2], true⟩],
          [(⟨0x0A000001, 0xFFFFFFFF⟩, ⟨some 0, 0, none⟩),
            (⟨0x0A000100, 0xFFFFFF00⟩, ⟨some 0, 1, some ⟨⟨0x0A000100, 0xFFFFFF00⟩, true⟩⟩)],
          false⟩ 0 =
      some ⟨2, [⟨0, [10, 0, 0, 1], [255, 255, 255, 255]⟩,
        ⟨16, [10, 0, 1, 0], [255, 255, 255, 0]⟩]⟩ := by
  decide

section Down

open ip util

theorem setEnabled_get (flag : Bool) :
    ∀ (l : List Interface) (n : Nat),
      (setEnabled l n flag)[n]? = (l[n]?).map (fun x => { x with Enabled := flag }) ∧
      (∀ i, i ≠ n → (setEnabled l n flag)[i]? = l[i]?) ∧
      (setEnabled l n flag).length = l.length := by
  intro l
  induction l with
  | nil =>
    intro n
    simp [setEnabled]
  | cons hd tl ih =>
    intro n
    cases n with
    | zero =>
      refine ⟨by simp [setEnabled], ?_, by simp [setEnabled]⟩
      intro i hi
      cases i with
      | zero => exact absurd rfl hi
      | succ i => simp [setEnabled]
    | succ n =>
      obtain ⟨h1, h2, h3⟩ := ih n
      refine ⟨by simpa [setEnabled] using h1, ?_, by simp [setEnabled, h3]⟩
      intro i hi
      cases i with
      | zero => simp [setEnabled]
      | succ i =>
        simp only [setEnabled, List.getElem?_cons_succ]
        exact h2 i (by omega)

theorem setEnabled_addresses (flag : Bool) (l : List Interface) (n : Nat)
    (h : ∀ x ∈ l, isIPv4 x.Addr ∧ isIPv4 x.Remote) :
    ∀ x ∈ setEnabled l n flag, isIPv4 x.Addr ∧ isIPv4 x.Remote := by
  intro x hx
  obtain ⟨i, hi⟩ := List.getElem?_of_mem hx
  obtain ⟨h1, h2, -⟩ := setEnabled_get flag l n
  by_cases hin : i = n
  · subst hin
    rw [h1] at hi
    cases hl : l[i]? with
    | none => simp [hl] at hi
    | some y =>
      simp only [hl, Option.map_some', Option.some.injEq] at hi
      subst hi
      exact h y (List.mem_iff_getElem?.mpr ⟨i, hl⟩)
  · rw [h2 i hin] at hi
    exact h x (List.mem_iff_getElem?.mpr ⟨i, hi⟩)

theorem downDeleted_eq (t : List (Route × Entry)) (n : Nat) :
    downDeleted t n =
      (t.filter (fun re => decide (re.2.Interface = some n))).map
        (fun re => (⟨16, Int2IP re.1.Addr, Int2IP re.1.Mask⟩ : RIPEntry)) := by
  rfl

theorem poisoned_cost16 (t : List (Route × Entry)) (i : Nat) (e : RIPEntry)
    (h : e.Cost = 16) : poisoned t i e = e := by
  unfold poisoned
  split_ifs
  · cases e
    simp only at h
    subst h
    rfl
  · rfl

theorem triggeredUpdateFor_deleted (node1 : Node) (i : Nat) (t : List (Route × Entry))
    (n : Nat) :
    triggeredUpdateFor node1 i (downDeleted t n) = some ⟨2, downDeleted t n⟩ := by
  have h1 := poisonReverse_eq node1 i (downDeleted t n) (by
    intro e he
    rw [downDeleted_eq] at he
    simp only [List.mem_map] at he
    obtain ⟨re, -, rfl⟩ := he
    exact RIPEntryToRoute_of_isIPv4 _ (isIPv4_Int2IP _) (isIPv4_Int2IP _))
  have h2 : (downDeleted t n).map (poisoned node1.RoutingTable i) = downDeleted t n := by
    rw [List.map_congr_left, List.map_id]
    intro e he
    rw [downDeleted_eq] at he
    simp only [List.mem_map] at he
    obtain ⟨re, -, rfl⟩ := he
    exact poisoned_cost16 _ _ _ rfl
  simp only [triggeredUpdateFor, h1, h2, Option.bind_eq_bind, Option.some_bind,
    Option.pure_def]

theorem Send_eq (interf : Interface) (idx : Nat) (p : IPPacket)
    (hs : isIPv4 p.Header.Src) (hd : isIPv4 p.Header.Dst) :
    ∃ buf, Serialize p = some buf ∧
      Send interf idx p = some (if interf.Enabled = true then [(idx, buf)] else []) := by
  obtain ⟨s, hs1, -⟩ := IP2int_of_isIPv4 _ hs
  obtain ⟨d, hd1, -⟩ := IP2int_of_isIPv4 _ hd
  have hser := Serialize_eq p s d hs1 hd1
  refine ⟨_, hser, ?_⟩
  unfold Send
  by_cases he : interf.Enabled = true
  · simp only [he, if_true, hser, Option.bind_eq_bind, Option.some_bind, Option.pure_def]
  · simp only [he, Bool.false_eq_true, if_false, Option.pure_def]

theorem sendTriggeredUpdateLoop_spec (node1 : Node) (es : List RIPEntry) (data : List Nat)
    (hser : SerializeRIPData ⟨2, es⟩ = some data)
    (hupd : ∀ i, triggeredUpdateFor node1 i es = some ⟨2, es⟩) :
    ∀ (l : List Interface) (start : Nat), (∀ x ∈ l, isIPv4 x.Addr ∧ isIPv4 x.Remote) →
      ∃ out, sendTriggeredUpdateLoop node1 es start l = some out ∧
        (∀ d ∈ out, ∃ j x p, l[j]? = some x ∧ d.1 = start + j ∧ x.Enabled = true ∧
          NewIPPacket 200 data DEFAULT_TTL x.Addr x.Remote = some p ∧
          Serialize p = some d.2) ∧
        (∀ j x, l[j]? = some x → x.Enabled = true → ∃ d ∈ out, d.1 = start + j) := by
  intro l
  induction l with
  | nil =>
    intro start _
    exact ⟨[], rfl, by simp, by simp⟩
  | cons hd tl ih =>
    intro start hl
    obtain ⟨hda, hdr⟩ := hl hd (by simp)
    obtain ⟨p, hp, -, -, -, -, -, -, -, -, -, -, hps, hpd, -, -⟩ :=
      NewIPPacket_checksum_zero 200 DEFAULT_TTL data hd.Addr hd.Remote (by decide)
        (by decide) hda hdr
    obtain ⟨buf, hbuf, hsend⟩ := Send_eq hd start p (by rw [hps]; exact hda)
      (by rw [hpd]; exact hdr)
    obtain ⟨outs, ho, h1, h2⟩ := ih (start + 1) (fun x hx => hl x (by simp [hx]))
    refine ⟨(if hd.Enabled = true then [(start, buf)] else []) ++ outs, ?_, ?_, ?_⟩
    · simp only [sendTriggeredUpdateLoop, hupd, sendRIPData, hser, hp, hsend, ho,
        Option.bind_eq_bind, Option.some_bind, Option.pure_def]
    · intro d hd1
      rw [List.mem_append] at hd1
      rcases hd1 with hd1 | hd1
      · by_cases he : hd.Enabled = true
        · simp only [he, if_true, List.mem_singleton] at hd1
          subst hd1
          exact ⟨0, hd, p, by simp, by simp, he, hp, hbuf⟩
        · simp [he] at hd1
      · obtain ⟨j, x, q, e1, e2, e3, e4, e5⟩ := h1 d hd1
        exact ⟨j + 1, x, q, by simpa using e1, by omega, e3, e4, e5⟩
    · intro j x hj hx
      cases j with
      | zero =>
        simp only [List.getElem?_cons_zero, Option.some.injEq] at hj
        subst hj
        exact ⟨(start, buf), by simp [hx], by simp⟩
      | succ j =>
        simp only [List.getElem?_cons_succ] at hj
        obtain ⟨d, hd1, hd2⟩ := h2 j x hj hx
        exact ⟨d, by simp [hd1], by omega⟩

end Down

set_option maxRecDepth 1000000 in
/-- C23, the code at the failing input: 65 routes (10.0.k.0/24 for k = 0..64) leave
through interface 0 and interface 1 is enabled; `down 0` removes all 65, but the triggered
update written to interface 1 carries 20 + 4 + 64 * 12 bytes: its count field says 65 and
only the first 64 removed prefixes are listed. -/
theorem down_update_truncated :
    (ip.downDeleted ((List.range 65).map (fun k =>
        ((⟨0x0A000000 + 256 * k, 0xFFFFFF00⟩ : ip.Route),
          (⟨some 0, 1, some ⟨⟨0x0A000000 + 256 * k, 0xFFFFFF00⟩, true⟩⟩ : ip.Entry)))) 0).length
      = 65 ∧
    (ip.down
      ⟨[⟨5001, [10, 1, 0, 1], [10, 1, 0, 2], true⟩, ⟨5002, [10, 2, 0, 1], [10, 2, 0, 2], true⟩],
        (List.range 65).map (fun k =>
          ((⟨0x0A000000 + 256 * k, 0xFFFFFF00⟩ : ip.Route),
            (⟨some 0, 1, some ⟨⟨0x0A000000 + 256 * k, 0xFFFFFF00⟩, true⟩⟩ : ip.Entry))),
        false⟩ 0).map
      (fun r => (r.1.RoutingTable, r.2.map (fun d => (d.1, d.2.length, (d.2.drop 20).take 4))))
      = some ([], [(1, 792, [0, 2, 0, 65])]) := by
  decide

/-- C23, amended: for every node whose interfaces have IPv4 addresses and every valid
index `n` such that at most 64 table entries leave through interface `n`, `down n`
returns, leaves interface `n` disabled and every other interface as it was, keeps exactly
the table entries whose outbound interface is not `n`, and writes a datagram to each other
enabled interface (to none when nothing was removed) whose RIP payload is command 2
listing exactly the removed prefixes, each with cost 16. -/
theorem down_removes_routes (node : ip.Node) (n : Nat)
    (hn : n < node.LocalInterfaces.length)
    (hif : ∀ x ∈ node.LocalInterfaces, isIPv4 x.Addr ∧ isIPv4 x.Remote)
    (hkeys : ∀ re ∈ node.RoutingTable, re.1.Addr < 4294967296 ∧ re.1.Mask < 4294967296)
    (h64 : (node.RoutingTable.filter
      (fun re => decide (re.2.Interface = some n))).length ≤ 64) :
    ∃ node1 out, ip.down node n = some (node1, out) ∧
      node1.LocalInterfaces[n]? =
        (node.LocalInterfaces[n]?).map (fun x => { x with Enabled := false }) ∧
      (∀ i, i ≠ n → node1.LocalInterfaces[i]? = node.LocalInterfaces[i]?) ∧
      node1.RoutingTable =
        node.RoutingTable.filter (fun re => decide (re.2.Interface ≠ some n)) ∧
      (∀ d ∈ out, d.1 ≠ n ∧ ∃ x p, node.LocalInterfaces[d.1]? = some x ∧ x.Enabled = true ∧
        ip.NewIPPacket 200
          (ripWire 2 ((node.RoutingTable.filter
            (fun re => decide (re.2.Interface = some n))).map
              (fun re => (16, re.1.Addr, re.1.Mask))))
          util.DEFAULT_TTL x.Addr x.Remote = some p ∧
        ip.Serialize p = some d.2) ∧
      (node.RoutingTable.filter (fun re => decide (re.2.Interface = some n)) ≠ [] →
        ∀ i x, i ≠ n → node.LocalInterfaces[i]? = some x → x.Enabled = true →
          ∃ d ∈ out, d.1 = i) ∧
      (node.RoutingTable.filter (fun re => decide (re.2.Interface = some n)) = [] →
        out = []) := by
  obtain ⟨g1, g2, -⟩ := setEnabled_get false node.LocalInterfaces n
  have hlen : (ip.downDeleted node.RoutingTable n).length =
      (node.RoutingTable.filter (fun re => decide (re.2.Interface = some n))).length := by
    rw [downDeleted_eq, List.length_map]
  unfold ip.down
  rw [if_neg (by omega)]
  simp only
  by_cases hrem : node.RoutingTable.filter (fun re => decide (re.2.Interface = some n)) = []
  · have h0 : ¬ (ip.downDeleted node.RoutingTable n).length > 0 := by
      rw [hlen, hrem]
      simp
    rw [if_neg h0]
    exact ⟨⟨ip.setEnabled node.LocalInterfaces n false,
      node.RoutingTable.filter (fun re => decide (re.2.Interface ≠ some n)), node.Aggregate⟩,
      [], rfl, g1, g2, rfl, by simp, fun h => absurd hrem h, fun _ => rfl⟩
  · have h0 : (ip.downDeleted node.RoutingTable n).length > 0 := by
      rw [hlen]
      exact List.length_pos.mpr hrem
    rw [if_pos h0]
    -- the payload of the update
    obtain ⟨recs, d1, c1, c2, -, -, -⟩ := RIPData_codec ⟨2, ip.downDeleted node.RoutingTable n⟩
      (show (2 : Nat) < 65536 by decide) (by simpa [hlen] using h64) (by
        intro e he
        rw [downDeleted_eq] at he
        simp only [List.mem_map] at he
        obtain ⟨re, -, rfl⟩ := he
        exact ⟨show (16 : Nat) < 4294967296 by decide, isIPv4_Int2IP _, isIPv4_Int2IP _⟩)
    have htr : (ip.downDeleted node.RoutingTable n).map ripTriple =
        ((node.RoutingTable.filter (fun re => decide (re.2.Interface = some n))).map
          (fun re => (16, re.1.Addr, re.1.Mask))).map some := by
      rw [downDeleted_eq]
      simp only [List.map_map]
      apply List.map_congr_left
      intro re hre
      have hmem := List.mem_of_mem_filter hre
      exact ripTriple_row 16 _ _ (hkeys re hmem).1 (hkeys re hmem).2
    simp only at c1 c2
    rw [htr] at c1
    have hrecs : recs = (node.RoutingTable.filter
        (fun re => decide (re.2.Interface = some n))).map
          (fun re => (16, re.1.Addr, re.1.Mask)) :=
      (List.map_injective_iff.mpr (Option.some_injective _) c1).symm
    subst hrecs
    obtain ⟨out, ho, o1, o2⟩ := sendTriggeredUpdateLoop_spec
      { node with
        RoutingTable := node.RoutingTable.filter (fun re => decide (re.2.Interface ≠ some n))
        LocalInterfaces := ip.setEnabled node.LocalInterfaces n false }
      (ip.downDeleted node.RoutingTable n) _ c2
      (fun i => triggeredUpdateFor_deleted _ i node.RoutingTable n)
      (ip.setEnabled node.LocalInterfaces n false) 0
      (setEnabled_addresses false node.LocalInterfaces n hif)
    refine ⟨⟨ip.setEnabled node.LocalInterfaces n false,
      node.RoutingTable.filter (fun re => decide (re.2.Interface ≠ some n)), node.Aggregate⟩,
      out, by simp only [ip.sendTriggeredUpdate, ho, Option.map_some'], g1, g2, rfl,
      ?_, ?_, fun h => absurd h hrem⟩
    · intro d hd
      obtain ⟨j, x, p, e1, e2, e3, e4, e5⟩ := o1 d hd
      have hjn : j ≠ n := by
        intro hjn
        subst hjn
        rw [g1] at e1
        cases hl : node.LocalInterfaces[j]? with
        | none => simp [hl] at e1
        | some y =>
          simp only [hl, Option.map_some', Option.some.injEq] at e1
          subst e1
          simp at e3
      have hd1 : d.1 = j := by omega
      rw [g2 j hjn] at e1
      exact ⟨by rw [hd1]; exact hjn, x, p, by rw [hd1]; exact e1, e3, e4, e5⟩
    · intro _ i x hi hx hen
      obtain ⟨d, hd1, hd2⟩ := o2 i x (by rw [g2 i hi]; exact hx) hen
      exact ⟨d, hd1, by omega⟩

/-- Witness for C23 (amended): two interfaces, one learned route through each; `down 0`. -/
theorem down_removes_routes_witness :
    ∃ node1 out, ip.down
        ⟨[⟨5001, [10, 0, 0, 1], [10, 0, 0, 2], true⟩, ⟨5002, [10, 0, 1, 1], [10, 0, 1, 2], true⟩],
          [(⟨0x0A000001, 0xFFFFFFFF⟩, ⟨some 0, 0, none⟩),
            (⟨0x0A000101, 0xFFFFFFFF⟩, ⟨some 1, 0, none⟩),
            (⟨0x0A000200, 0xFFFFFF00⟩, ⟨some 0, 2, some ⟨⟨0x0A000200, 0xFFFFFF00⟩, true⟩⟩)],
          false⟩ 0 = some (node1, out) ∧
      node1.RoutingTable = [(⟨0x0A000101, 0xFFFFFFFF⟩, ⟨some 1, 0, none⟩)] := by
  obtain ⟨node1, out, h1, -, -, h4, -⟩ := down_removes_routes
    ⟨[⟨5001, [10, 0, 0, 1], [10, 0, 0, 2], true⟩, ⟨5002, [10, 0, 1, 1], [10, 0, 1, 2], true⟩],
      [(⟨0x0A000001, 0xFFFFFFFF⟩, ⟨some 0, 0, none⟩),
        (⟨0x0A000101, 0xFFFFFFFF⟩, ⟨some 1, 0, none⟩),
        (⟨0x0A000200, 0xFFFFFF00⟩, ⟨some 0, 2, some ⟨⟨0x0A000200, 0xFFFFFF00⟩, true⟩⟩)],
      false⟩ 0 (by decide) (by decide) (by decide) (by decide)
  exact ⟨node1, out, h1, by rw [h4]; decide⟩

section LocalRoutes

open ip util

theorem floorLog2Fuel_le (fuel : Nat) : ∀ x, floorLog2Fuel fuel x ≤ fuel := by
  induction fuel with
  | zero =>
    intro x
    simp [floorLog2Fuel]
  | succ n ih =>
    intro x
    unfold floorLog2Fuel
    split_ifs
    · have := ih (x / 2)
      omega
    · omega

theorem floorLog2Fuel_eq_zero (fuel x : Nat) (h : floorLog2Fuel (fuel + 1) x = 0) : x < 2 := by
  unfold floorLog2Fuel at h
  split_ifs at h with hx
  all_goals omega

theorem MaskLen_bound (M : Nat) (h : M < 4294967296) :
    ∃ len, MaskLen (Int2IP M) = some len ∧ len ≤ 32 ∧ (len = 32 → M = 0xFFFFFFFF) := by
  unfold MaskLen
  rw [IP2int_Int2IP, Nat.mod_eq_of_lt h]
  simp only [Option.map_some']
  rw [not32_eq M h]
  refine ⟨_, rfl, ?_⟩
  by_cases hM : M = 0
  · subst hM
    decide
  · have hx : (4294967295 - M + 1) % 4294967296 = 4294967296 - M := by omega
    have hx0 : 4294967296 - M ≠ 0 := by omega
    rw [hx]
    unfold intLog2 wrapInt64
    rw [if_neg hx0]
    have hle := floorLog2Fuel_le 32 (4294967296 - M)
    unfold floorLog2
    constructor
    · omega
    · intro h32
      have h0 : floorLog2Fuel 32 (4294967296 - M) = 0 := by omega
      have := floorLog2Fuel_eq_zero 31 (4294967296 - M) h0
      omega

theorem MaskLen_full (mask : List Nat) (h : IP2int mask = some 0xFFFFFFFF) :
    MaskLen mask = some 32 := by
  unfold MaskLen
  rw [h]
  decide

theorem matchRouteLoop_saturated (addr : List Nat) (maxLen : Int) (t : List (Route × Entry)) :
    ∀ (acc r : Option Route × Entry × Int), maxLen ≤ acc.2.2 →
      matchRouteLoop addr maxLen t acc = some r → r = acc := by
  induction t with
  | nil =>
    intro acc r _ h
    simp only [matchRouteLoop, Option.some.injEq] at h
    exact h.symm
  | cons hd tl ih =>
    intro acc r hle h
    obtain ⟨route, entry⟩ := hd
    obtain ⟨cell, m, l⟩ := acc
    simp only [matchRouteLoop, Option.bind_eq_bind] at h
    cases hml : MaskLen (Int2IP route.Mask) with
    | none => simp [hml] at h
    | some len =>
      cases hip : IP2int addr with
      | none => simp [hml, hip] at h
      | some a =>
        simp only [hml, hip, Option.some_bind] at h
        simp only at hle
        have hc : ¬ (a &&& route.Mask = route.Addr &&& route.Mask ∧ len > l ∧ len ≤ maxLen) := by
          intro hc
          omega
        rw [if_neg hc] at h
        exact ih _ r hle h

theorem and_allOnes32 (x : Nat) (h : x < 4294967296) : x &&& 0xFFFFFFFF = x := by
  have h1 : x &&& (2 ^ 32 - 1) = x % 2 ^ 32 := Nat.and_pow_two_sub_one_eq_mod x 32
  have h2 : (2 : Nat) ^ 32 - 1 = 0xFFFFFFFF := by decide
  rw [h2] at h1
  rw [h1]
  exact Nat.mod_eq_of_lt h

theorem matchRouteLoop_local (addr : List Nat) (K : Route) (e : Entry)
    (hK : K.Mask = 0xFFFFFFFF) (hA : K.Addr < 4294967296) (ha : IP2int addr = some K.Addr) :
    ∀ (t : List (Route × Entry)) (acc r : Option Route × Entry × Int),
      (∀ re ∈ t, re.1.Addr < 4294967296 ∧ re.1.Mask < 4294967296) →
      (K, e) ∈ t → (∀ re ∈ t, re.1 = K → re.2 = e) → acc.2.2 < 32 →
      matchRouteLoop addr 32 t acc = some r → r = (some K, e, 32) := by
  intro t
  induction t with
  | nil =>
    intro acc r _ hmem
    simp at hmem
  | cons hd tl ih =>
    intro acc r hb hmem huniq hlt h
    obtain ⟨route, entry⟩ := hd
    obtain ⟨cell, m, l⟩ := acc
    obtain ⟨hra, hrm⟩ := hb (route, entry) (by simp)
    simp only at hra hrm hlt
    obtain ⟨len, hml, hle, hfull⟩ := MaskLen_bound route.Mask hrm
    have htl : ∀ re ∈ tl, re.1.Addr < 4294967296 ∧ re.1.Mask < 4294967296 :=
      fun re hre => hb re (by simp [hre])
    have hutl : ∀ re ∈ tl, re.1 = K → re.2 = e := fun re hre => huniq re (by simp [hre])
    simp only [matchRouteLoop, hml, ha, Option.bind_eq_bind, Option.some_bind] at h
    by_cases hc : K.Addr &&& route.Mask = route.Addr &&& route.Mask ∧ len > l ∧ len ≤ 32
    · rw [if_pos hc] at h
      by_cases h32 : len = 32
      · have hmask := hfull h32
        have haddr : K.Addr = route.Addr := by
          have h1 := hc.1
          rw [hmask, and_allOnes32 _ hA, and_allOnes32 _ hra] at h1
          exact h1
        have hrK : route = K := by
          cases route
          cases K
          simp only at hmask haddr hK
          simp only [Route.mk.injEq]
          exact ⟨haddr.symm, by rw [hmask, hK]⟩
        have hent : entry = e := huniq (route, entry) (by simp) hrK
        have := matchRouteLoop_saturated addr 32 tl _ r (by simp only; omega) h
        rw [this, hrK, hent, h32]
      · have hne : route ≠ K := by
          intro hrK
          rw [hrK, hK] at hml
          have h2 : MaskLen (Int2IP 0xFFFFFFFF) = some 32 := by decide
          rw [h2] at hml
          simp only [Option.some.injEq] at hml
          exact h32 hml.symm
        have hmtl : (K, e) ∈ tl := by
          rcases List.mem_cons.mp hmem with h1 | h1
          · simp only [Prod.mk.injEq] at h1
            exact absurd h1.1.symm hne
          · exact h1
        exact ih _ r htl hmtl hutl (by simp only; omega) h
    · rw [if_neg hc] at h
      have hne : route ≠ K := by
        intro hrK
        apply hc
        rw [hrK, hK] at hml
        have h2 : MaskLen (Int2IP 0xFFFFFFFF) = some 32 := by decide
        rw [h2] at hml
        simp only [Option.some.injEq] at hml
        rw [hrK]
        exact ⟨rfl, by omega, by omega⟩
      have hmtl : (K, e) ∈ tl := by
        rcases List.mem_cons.mp hmem with h1 | h1
        · simp only [Prod.mk.injEq] at h1
          exact absurd h1.1.symm hne
        · exact h1
      exact ih _ r htl hmtl hutl hlt h

theorem mem_of_tableGet (t : List (Route × Entry)) (k : Route) (e : Entry)
    (h : tableGet t k = some e) : (k, e) ∈ t := by
  induction t with
  | nil => simp [tableGet] at h
  | cons hd tl ih =>
    obtain ⟨r, e1⟩ := hd
    simp only [tableGet] at h
    split_ifs at h with hr
    · simp only [Option.some.injEq] at h
      subst hr
      subst h
      simp
    · exact List.mem_cons_of_mem _ (ih h)

theorem tableGet_isSome_iff (t : List (Route × Entry)) (k : Route) :
    (tableGet t k).isSome = true ↔ k ∈ t.map Prod.fst := by
  induction t with
  | nil => simp [tableGet]
  | cons hd tl ih =>
    obtain ⟨r, e1⟩ := hd
    simp only [tableGet, List.map_cons, List.mem_cons]
    by_cases hr : r = k
    · simp [hr]
    · have hne : ¬ k = r := fun h => hr h.symm
      simp only [hr, if_false, hne, false_or]
      exact ih

theorem tableSet_keys (t : List (Route × Entry)) (k : Route) (v : Entry) :
    (tableSet t k v).map Prod.fst =
      if k ∈ t.map Prod.fst then t.map Prod.fst else t.map Prod.fst ++ [k] := by
  unfold tableSet
  by_cases hk : k ∈ t.map Prod.fst
  · rw [if_pos ((tableGet_isSome_iff t k).mpr hk), if_pos hk, List.map_map]
    apply List.map_congr_left
    intro re _
    simp only [Function.comp]
    split_ifs <;> rfl
  · have hn : ¬ (tableGet t k).isSome = true := fun h => hk ((tableGet_isSome_iff t k).mp h)
    rw [if_neg hn, if_neg hk, List.map_append]
    rfl

theorem tableDelete_keys (t : List (Route × Entry)) (k : Route) :
    (tableDelete t k).map Prod.fst = (t.map Prod.fst).filter (fun r => decide (r ≠ k)) := by
  unfold tableDelete
  rw [List.filter_map]
  rfl

theorem mapOfUint32_tableSet (t : List (Route × Entry)) (k : Route) (v : Entry)
    (h : mapOfUint32 t) (hk : k ∈ t.map Prod.fst ∨ (k.Addr < 4294967296 ∧ k.Mask < 4294967296)) :
    mapOfUint32 (tableSet t k v) := by
  unfold mapOfUint32 at h ⊢
  rw [tableSet_keys]
  by_cases hmem : k ∈ t.map Prod.fst
  · rw [if_pos hmem]
    exact h
  · rw [if_neg hmem]
    rcases hk with hk | hk
    · exact absurd hk hmem
    · refine ⟨?_, ?_⟩
      · rw [List.nodup_append]
        refine ⟨h.1, List.nodup_singleton k, ?_⟩
        intro a ha hb
        simp only [List.mem_singleton] at hb
        subst hb
        exact hmem ha
      · intro k1 hk1
        rcases List.mem_append.mp hk1 with h1 | h1
        · exact h.2 k1 h1
        · simp only [List.mem_singleton] at h1
          subst h1
          exact hk

theorem mapOfUint32_tableDelete (t : List (Route × Entry)) (k : Route) (h : mapOfUint32 t) :
    mapOfUint32 (tableDelete t k) := by
  unfold mapOfUint32 at h ⊢
  rw [tableDelete_keys]
  exact ⟨h.1.filter _, fun k1 hk1 => h.2 k1 (List.mem_of_mem_filter hk1)⟩

end LocalRoutes

section LocalFrame

open ip util

theorem local_tableSet (t : List (Route × Entry)) (K k : Route) (e v : Entry)
    (hwf : mapOfUint32 t) (hget : tableGet t K = some e)
    (hk : k ∈ t.map Prod.fst ∨ (k.Addr < 4294967296 ∧ k.Mask < 4294967296)) (hne : k ≠ K) :
    mapOfUint32 (tableSet t k v) ∧ tableGet (tableSet t k v) K = some e := by
  refine ⟨mapOfUint32_tableSet t k v hwf hk, ?_⟩
  rw [tableGet_tableSet, if_neg (fun h => hne h.symm)]
  exact hget

theorem local_tableDelete (t : List (Route × Entry)) (K k : Route) (e : Entry)
    (hwf : mapOfUint32 t) (hget : tableGet t K = some e) (hne : k ≠ K) :
    mapOfUint32 (tableDelete t k) ∧ tableGet (tableDelete t k) K = some e := by
  refine ⟨mapOfUint32_tableDelete t k hwf, ?_⟩
  rw [tableGet_tableDelete, if_neg (fun h => hne h.symm)]
  exact hget

theorem stopDeath_frame (node : Node) (m : MatchResult) (n1 : Node)
    (h : stopDeath node m = some n1) :
    n1 = node ∨ ∃ k v, m.cell = some k ∧
      n1 = { node with RoutingTable := tableSet node.RoutingTable k v } := by
  unfold stopDeath at h
  cases ht : m.entry.Death with
  | none => simp [ht] at h
  | some timer =>
    cases hk : m.cell with
    | none =>
      simp only [ht, hk, Option.some.injEq] at h
      exact Or.inl h.symm
    | some k =>
      simp only [ht, hk, Option.some.injEq] at h
      exact Or.inr ⟨k, _, rfl, h.symm⟩

theorem resetDeath_frame (node : Node) (m : MatchResult) (n1 : Node)
    (h : resetDeath node m = some n1) :
    n1 = node ∨ ∃ k v, m.cell = some k ∧
      n1 = { node with RoutingTable := tableSet node.RoutingTable k v } := by
  unfold resetDeath at h
  cases ht : m.entry.Death with
  | none => simp [ht] at h
  | some timer =>
    cases hk : m.cell with
    | none =>
      simp only [ht, hk, Option.some.injEq] at h
      exact Or.inl h.symm
    | some k =>
      simp only [ht, hk, Option.some.injEq] at h
      exact Or.inr ⟨k, _, rfl, h.symm⟩

theorem matchRoute_local (node : Node) (addr : List Nat) (K : Route) (e : Entry)
    (m : MatchResult) (hwf : mapOfUint32 node.RoutingTable)
    (hK : K.Mask = 0xFFFFFFFF) (hget : tableGet node.RoutingTable K = some e)
    (ha : IP2int addr = some K.Addr) (hm : matchRoute node addr 32 = some m) :
    m.cell = some K ∧ m.entry = e := by
  have hmem := mem_of_tableGet _ _ _ hget
  have hkey : K ∈ node.RoutingTable.map Prod.fst := List.mem_map.mpr ⟨(K, e), hmem, rfl⟩
  unfold matchRoute at hm
  cases hl : matchRouteLoop addr 32 node.RoutingTable (none, zeroEntry, 0) with
  | none => simp [hl] at hm
  | some r =>
    simp only [hl, Option.map_some', Option.some.injEq] at hm
    have hr := matchRouteLoop_local addr K e hK (hwf.2 K hkey).1 ha node.RoutingTable _ r
      (fun re hre => hwf.2 re.1 (List.mem_map.mpr ⟨re, hre, rfl⟩)) hmem
      (fun re hre hreK => by
        have h1 := tableGet_of_mem _ hwf.1 re hre
        rw [hreK, hget] at h1
        simp only [Option.some.injEq] at h1
        exact h1.symm)
      (by decide) hl
    subst hm
    rw [hr]
    exact ⟨rfl, rfl⟩

set_option maxHeartbeats 2000000 in
theorem ingestEntry_local (linkID : Nat) (node : Node) (diff : List RIPEntry)
    (ripEntry : RIPEntry) (K : Route) (e : Entry) (node1 : Node) (diff1 : List RIPEntry)
    (hwf : mapOfUint32 node.RoutingTable)
    (hK : K.Mask = 0xFFFFFFFF) (hget : tableGet node.RoutingTable K = some e)
    (hcost : e.Cost = 0) (hif : e.Interface ≠ none)
    (ha : isIPv4 ripEntry.Addr) (hmk : isIPv4 ripEntry.Mask)
    (h : ingestEntry linkID (node, diff) ripEntry = some (node1, diff1)) :
    mapOfUint32 node1.RoutingTable ∧ tableGet node1.RoutingTable K = some e ∧
      node1.Aggregate = node.Aggregate := by
  obtain ⟨a, ha1, ha2⟩ := IP2int_of_isIPv4 _ ha
  obtain ⟨mk, hm1, hm2⟩ := IP2int_of_isIPv4 _ hmk
  have hP : RIPEntryToRoute ripEntry = some ⟨a, mk⟩ := by
    simp [RIPEntryToRoute, ha1, hm1]
  obtain ⟨L, hL⟩ : ∃ L, MaskLen ripEntry.Mask = some L := by
    unfold MaskLen
    rw [hm1]
    exact ⟨_, rfl⟩
  cases hm : matchRoute node ripEntry.Addr L with
  | none => simp [ingestEntry, hP, hL, hm] at h
  | some m =>
    -- the entry under the cell that `matchRoute` returned
    have hcell : m.matched = true → ∀ k, m.cell = some k →
        k ∈ node.RoutingTable.map Prod.fst ∧ tableGet node.RoutingTable k = some m.entry := by
      intro hfound k hk
      obtain ⟨re, hre, hc, he⟩ := matchRoute_cell node _ _ m hm hfound
      rw [hc] at hk
      cases hk
      rw [he]
      exact ⟨List.mem_map.mpr ⟨re, hre, rfl⟩, tableGet_of_mem _ hwf.1 re hre⟩
    have hcellK : m.matched = true → m.entry.Cost ≠ 0 → ∀ k, m.cell = some k → k ≠ K := by
      intro hfound hc0 k hk hkK
      have h1 := (hcell hfound k hk).2
      rw [hkK, hget] at h1
      simp only [Option.some.injEq] at h1
      rw [← h1] at hc0
      exact hc0 hcost
    -- the advertised prefix is the local key only in the branch that ignores it
    have hroute : (⟨a, mk⟩ : Route) = K → m.matched = true ∧ m.entry.Cost = 0 := by
      intro hrK
      have hmk2 : mk = 0xFFFFFFFF := by
        rw [← hrK] at hK
        exact hK
      have hL32 : L = 32 := by
        have h1 := MaskLen_full ripEntry.Mask (by rw [hm1, hmk2])
        rw [hL] at h1
        simp only [Option.some.injEq] at h1
        exact h1
      rw [hL32] at hm
      have haK : IP2int ripEntry.Addr = some K.Addr := by
        rw [ha1, ← hrK]
      obtain ⟨-, h2⟩ := matchRoute_local node _ K e m hwf hK hget haK hm
      have h3 : m.matched = decide (m.entry ≠ zeroEntry) := by
        unfold matchRoute at hm
        cases hl : matchRouteLoop ripEntry.Addr 32 node.RoutingTable (none, zeroEntry, 0) with
        | none => simp [hl] at hm
        | some r =>
          simp only [hl, Option.map_some', Option.some.injEq] at hm
          subst hm
          rfl
      refine ⟨?_, by rw [h2]; exact hcost⟩
      rw [h3, h2]
      simp only [ne_eq, decide_eq_true_eq]
      intro hz
      rw [hz] at hif
      exact hif rfl
    have hb : (⟨a, mk⟩ : Route).Addr < 4294967296 ∧ (⟨a, mk⟩ : Route).Mask < 4294967296 :=
      ⟨ha2, hm2⟩
    have hrK : (m.matched = false ∨ m.entry.Cost ≠ 0) → (⟨a, mk⟩ : Route) ≠ K := by
      intro hor hr
      obtain ⟨h1, h2⟩ := hroute hr
      rcases hor with h3 | h3
      · rw [h1] at h3
        cases h3
      · exact h3 h2
    have T0 : mapOfUint32 node.RoutingTable ∧ tableGet node.RoutingTable K = some e ∧
        node.Aggregate = node.Aggregate := ⟨hwf, hget, rfl⟩
    have Tset : ∀ (y : Node) (entry : Entry),
        (mapOfUint32 y.RoutingTable ∧ tableGet y.RoutingTable K = some e ∧
          y.Aggregate = node.Aggregate) → (m.matched = false ∨ m.entry.Cost ≠ 0) →
        (mapOfUint32 (setRoute y ⟨a, mk⟩ entry).RoutingTable ∧
          tableGet (setRoute y ⟨a, mk⟩ entry).RoutingTable K = some e ∧
          (setRoute y ⟨a, mk⟩ entry).Aggregate = node.Aggregate) := by
      intro y entry hy hor
      obtain ⟨h1, h2⟩ := local_tableSet y.RoutingTable K ⟨a, mk⟩ e entry hy.1 hy.2.1
        (Or.inr hb) (hrK hor)
      exact ⟨h1, h2, hy.2.2⟩
    have Tdel : ∀ (y : Node),
        (mapOfUint32 y.RoutingTable ∧ tableGet y.RoutingTable K = some e ∧
          y.Aggregate = node.Aggregate) → (m.matched = false ∨ m.entry.Cost ≠ 0) →
        (mapOfUint32 (tableDelete y.RoutingTable ⟨a, mk⟩) ∧
          tableGet (tableDelete y.RoutingTable ⟨a, mk⟩) K = some e ∧
          y.Aggregate = node.Aggregate) := by
      intro y hy hor
      obtain ⟨h1, h2⟩ := local_tableDelete y.RoutingTable K ⟨a, mk⟩ e hy.1 hy.2.1 (hrK hor)
      exact ⟨h1, h2, hy.2.2⟩
    have Tcell : ∀ (y : Node), (y = node ∨ ∃ k v, m.cell = some k ∧
          y = { node with RoutingTable := tableSet node.RoutingTable k v }) →
        m.matched = true → m.entry.Cost ≠ 0 →
        (mapOfUint32 y.RoutingTable ∧ tableGet y.RoutingTable K = some e ∧
          y.Aggregate = node.Aggregate) := by
      intro y hy hfound hc0
      rcases hy with rfl | ⟨k, v, hk, rfl⟩
      · exact T0
      · obtain ⟨h1, h2⟩ := local_tableSet node.RoutingTable K k e v hwf hget
          (Or.inl (hcell hfound k hk).1) (hcellK hfound hc0 k hk)
        exact ⟨h1, h2, rfl⟩
    simp only [ingestEntry, hP, hL, hm, Option.bind_eq_bind, Option.some_bind,
      Option.pure_def, localInterface] at h
    by_cases hmt : m.matched = false
    · simp only [hmt, if_true] at h
      split_ifs at h with h16 hlink
      · cases h
        exact T0
      · simp only [Option.some_bind, Option.some.injEq, Prod.mk.injEq] at h
        obtain ⟨rfl, -⟩ := h
        exact Tset _ _ T0 (Or.inl hmt)
      · simp at h
    · have hfound : m.matched = true := by
        cases hx : m.matched
        · exact absurd hx hmt
        · rfl
      by_cases hc0 : m.entry.Cost = 0
      · simp only [hmt, hc0, if_true, if_false] at h
        cases h
        exact T0
      · have hS : ∀ y, stopDeath node m = some y →
            (mapOfUint32 y.RoutingTable ∧ tableGet y.RoutingTable K = some e ∧
              y.Aggregate = node.Aggregate) :=
          fun y hy => Tcell y (stopDeath_frame node m y hy) hfound hc0
        have hR : ∀ y, resetDeath node m = some y →
            (mapOfUint32 y.RoutingTable ∧ tableGet y.RoutingTable K = some e ∧
              y.Aggregate = node.Aggregate) :=
          fun y hy => Tcell y (resetDeath_frame node m y hy) hfound hc0
        have hor : m.matched = false ∨ m.entry.Cost ≠ 0 := Or.inr hc0
        simp only [hfound, hc0, Bool.true_eq_false, Bool.false_eq_true, if_false, if_true,
          ne_eq, not_false_eq_true, true_and, decide_eq_true_eq] at h
        by_cases c1 : (ripEntry.Cost + 1) % 4294967296 < m.entry.Cost <;>
          by_cases c2 : (ripEntry.Cost + 1) % 4294967296 > m.entry.Cost <;>
          by_cases hlink : linkID < node.LocalInterfaces.length <;>
          by_cases c3 : some linkID = m.entry.Interface
        all_goals simp only [c1, c2, hlink, if_true, if_false, Option.none_bind,
          Option.some_bind, reduceCtorEq] at h
        all_goals first
          | simp only [if_pos c3] at h
          | simp only [if_neg c3] at h
          | skip
        all_goals rcases hsd : stopDeath node m with _ | y <;>
          rcases hrd : resetDeath node m with _ | z
        all_goals try simp only [hsd, hrd, Option.none_bind, Option.some_bind, reduceCtorEq] at h
        all_goals try split_ifs at h
        all_goals try simp only [Option.none_bind, Option.some_bind, reduceCtorEq] at h
        all_goals
          cases h
          first
            | exact T0
            | exact Tset _ _ T0 hor
            | exact Tdel _ T0 hor
            | exact Tset _ _ (hS _ hsd) hor
            | exact Tdel _ (hS _ hsd) hor
            | exact hR _ hrd

theorem ingest_local (linkID : Nat) (K : Route) (e : Entry)
    (hK : K.Mask = 0xFFFFFFFF) (hcost : e.Cost = 0) (hif : e.Interface ≠ none) :
    ∀ (es : List RIPEntry) (st st1 : Node × List RIPEntry),
      (∀ x ∈ es, isIPv4 x.Addr ∧ isIPv4 x.Mask) →
      mapOfUint32 st.1.RoutingTable → tableGet st.1.RoutingTable K = some e →
      ingest linkID st es = some st1 →
      mapOfUint32 st1.1.RoutingTable ∧ tableGet st1.1.RoutingTable K = some e ∧
        st1.1.Aggregate = st.1.Aggregate := by
  intro es
  induction es with
  | nil =>
    intro st st1 _ hwf hget h
    simp only [ingest, Option.some.injEq] at h
    subst h
    exact ⟨hwf, hget, rfl⟩
  | cons x rest ih =>
    intro st st1 hv4 hwf hget h
    obtain ⟨node, diff⟩ := st
    simp only [ingest, Option.bind_eq_bind] at h
    cases hx : ingestEntry linkID (node, diff) x with
    | none => simp [hx] at h
    | some st2 =>
      obtain ⟨node2, diff2⟩ := st2
      simp only [hx, Option.some_bind] at h
      obtain ⟨h1, h2, h3⟩ := ingestEntry_local linkID node diff x K e node2 diff2 hwf hK hget
        hcost hif (hv4 x (by simp)).1 (hv4 x (by simp)).2 hx
      obtain ⟨g1, g2, g3⟩ := ih (node2, diff2) st1 (fun y hy => hv4 y (by simp [hy])) h1 h2 h
      exact ⟨g1, g2, g3.trans h3⟩

theorem DeserializeRIPEntries_isIPv4 (data : List Nat) :
    ∀ (n i : Nat) (es : List RIPEntry), DeserializeRIPEntries data i n = some (.ok es) →
      ∀ x ∈ es, isIPv4 x.Addr ∧ isIPv4 x.Mask := by
  intro n
  induction n with
  | zero =>
    intro i es h
    simp only [DeserializeRIPEntries, Option.some.injEq, Except.ok.injEq] at h
    subst h
    simp
  | succ n ih =>
    intro i es h
    simp only [DeserializeRIPEntries, Option.bind_eq_bind] at h
    cases h1 : slice data (4 + i * 12) (4 + (i + 1) * 12) with
    | none => simp [h1] at h
    | some buf =>
      cases h2 : slice buf 0 12 with
      | none => simp [h1, h2] at h
      | some buf12 =>
        cases h3 : DeserializeRIPEntry buf12 with
        | none => simp [h1, h2, h3] at h
        | some r =>
          cases r with
          | error err => simp [h1, h2, h3] at h
          | ok entry =>
            cases h4 : DeserializeRIPEntries data (i + 1) n with
            | none => simp [h1, h2, h3, h4] at h
            | some r2 =>
              cases r2 with
              | error err => simp [h1, h2, h3, h4] at h
              | ok rest =>
                simp only [h1, h2, h3, h4, Option.some_bind, Option.pure_def, Option.some.injEq,
                  Except.ok.injEq] at h
                subst h
                have hent : isIPv4 entry.Addr ∧ isIPv4 entry.Mask := by
                  unfold DeserializeRIPEntry at h3
                  by_cases hlen : buf12.length < 12
                  · rw [if_pos hlen] at h3
                    simp at h3
                  rw [if_neg hlen] at h3
                  simp only [Option.bind_eq_bind, Option.pure_def] at h3
                  cases s1 : slice buf12 0 4 with
                  | none => simp [s1] at h3
                  | some c =>
                    cases s2 : slice buf12 4 8 with
                    | none => simp [s1, s2] at h3
                    | some a =>
                      cases s3 : slice buf12 8 12 with
                      | none => simp [s1, s2, s3] at h3
                      | some mm =>
                        simp only [s1, s2, s3, Option.some_bind, Option.some.injEq,
                          Except.ok.injEq] at h3
                        subst h3
                        exact ⟨isIPv4_Int2IP _, isIPv4_Int2IP _⟩
                intro x hx
                rcases List.mem_cons.mp hx with rfl | hx
                · exact hent
                · exact ih (i + 1) rest h4 x hx

end LocalFrame

section Capacity

open ip util

theorem sliceCap_nil (s : List Nat) (lo hi : Nat) : sliceCap s [] lo hi = slice s lo hi := by
  simp [sliceCap, slice]

theorem sliceCap_some (s spare : List Nat) (lo hi : Nat) (h1 : lo ≤ hi)
    (h2 : hi ≤ s.length + spare.length) :
    ∃ r, sliceCap s spare lo hi = some r ∧ r.length = hi - lo := by
  refine ⟨_, by rw [sliceCap, if_pos ⟨h1, h2⟩], ?_⟩
  simp only [List.length_take, List.length_drop, List.length_append]
  omega

theorem DeserializeRIPEntriesCap_nil (data : List Nat) :
    ∀ (n i : Nat), DeserializeRIPEntriesCap data [] i n = DeserializeRIPEntries data i n := by
  intro n
  induction n with
  | zero =>
    intro i
    rfl
  | succ n ih =>
    intro i
    simp only [DeserializeRIPEntriesCap, DeserializeRIPEntries, sliceCap_nil, ih]

theorem DeserializeRIPDataCap_nil (data : List Nat) :
    DeserializeRIPDataCap data [] = DeserializeRIPData data := by
  simp only [DeserializeRIPDataCap, DeserializeRIPData, sliceCap_nil,
    DeserializeRIPEntriesCap_nil]

theorem RIPHandlerCap_nil (node : Node) (packet : IPPacket) (linkID : Nat) :
    RIPHandlerCap node packet [] linkID = RIPHandler node packet linkID := by
  simp only [RIPHandlerCap, RIPHandler, DeserializeRIPDataCap_nil]

theorem DeserializeRIPEntry_ok (buf : List Nat) (h : buf.length = 12) :
    ∃ e, DeserializeRIPEntry buf = some (.ok e) := by
  unfold DeserializeRIPEntry
  rw [if_neg (by omega)]
  refine ⟨⟨Ntohl (buf.take 4), Int2IP (Ntohl ((buf.drop 4).take 4)),
    Int2IP (Ntohl ((buf.drop 8).take 4))⟩, ?_⟩
  simp [slice, h]

theorem DeserializeRIPEntry_isIPv4 (buf12 : List Nat) (entry : RIPEntry)
    (h3 : DeserializeRIPEntry buf12 = some (.ok entry)) :
    isIPv4 entry.Addr ∧ isIPv4 entry.Mask := by
  unfold DeserializeRIPEntry at h3
  by_cases hlen : buf12.length < 12
  · rw [if_pos hlen] at h3
    simp at h3
  rw [if_neg hlen] at h3
  simp only [Option.bind_eq_bind, Option.pure_def] at h3
  cases s1 : slice buf12 0 4 with
  | none => simp [s1] at h3
  | some c =>
    cases s2 : slice buf12 4 8 with
    | none => simp [s1, s2] at h3
    | some a =>
      cases s3 : slice buf12 8 12 with
      | none => simp [s1, s2, s3] at h3
      | some mm =>
        simp only [s1, s2, s3, Option.some_bind, Option.some.injEq,
          Except.ok.injEq] at h3
        subst h3
        exact ⟨isIPv4_Int2IP _, isIPv4_Int2IP _⟩

theorem DeserializeRIPEntriesCap_ok (data spare : List Nat) :
    ∀ (n i : Nat), 4 + (i + n) * 12 ≤ data.length + spare.length →
      ∃ es, DeserializeRIPEntriesCap data spare i n = some (.ok es) ∧ es.length = n := by
  intro n
  induction n with
  | zero =>
    intro i _
    exact ⟨[], rfl, rfl⟩
  | succ n ih =>
    intro i hcap
    obtain ⟨buf, hb1, hb2⟩ := sliceCap_some data spare (4 + i * 12) (4 + (i + 1) * 12)
      (by omega) (by omega)
    have hb3 : buf.length = 12 := by omega
    have hs : slice buf 0 12 = some buf := by
      rw [slice, if_pos ⟨Nat.zero_le _, by omega⟩]
      simp only [List.drop_zero, Nat.sub_zero, Option.some.injEq]
      exact List.take_of_length_le (by omega)
    obtain ⟨e, he⟩ := DeserializeRIPEntry_ok buf hb3
    obtain ⟨es, hes, hl⟩ := ih (i + 1) (by omega)
    refine ⟨e :: es, ?_, by simp [hl]⟩
    simp only [DeserializeRIPEntriesCap, hb1, hs, he, hes, Option.bind_eq_bind,
      Option.some_bind, Option.pure_def]

theorem DeserializeRIPDataCap_returns (data spare : List Nat)
    (hcap : 772 ≤ data.length + spare.length) :
    ∃ r, DeserializeRIPDataCap data spare = some r := by
  obtain ⟨c, hc, -⟩ := sliceCap_some data spare 0 2 (by omega) (by omega)
  obtain ⟨n, hn, -⟩ := sliceCap_some data spare 2 4 (by omega) (by omega)
  simp only [DeserializeRIPDataCap, hc, hn, Option.bind_eq_bind, Option.some_bind,
    Option.pure_def, MAX_RIP_ENTRIES]
  by_cases hmany : Ntohs n > 64
  · rw [if_pos hmany]
    exact ⟨_, rfl⟩
  · rw [if_neg hmany]
    obtain ⟨es, hes, -⟩ := DeserializeRIPEntriesCap_ok data spare (Ntohs n) 0 (by omega)
    rw [hes]
    exact ⟨_, rfl⟩

theorem DeserializeRIPEntriesCap_isIPv4 (data spare : List Nat) :
    ∀ (n i : Nat) (es : List RIPEntry),
      DeserializeRIPEntriesCap data spare i n = some (.ok es) →
      ∀ x ∈ es, isIPv4 x.Addr ∧ isIPv4 x.Mask := by
  intro n
  induction n with
  | zero =>
    intro i es h
    simp only [DeserializeRIPEntriesCap, Option.some.injEq, Except.ok.injEq] at h
    subst h
    simp
  | succ n ih =>
    intro i es h
    simp only [DeserializeRIPEntriesCap, Option.bind_eq_bind] at h
    cases h1 : sliceCap data spare (4 + i * 12) (4 + (i + 1) * 12) with
    | none => simp [h1] at h
    | some buf =>
      cases h2 : slice buf 0 12 with
      | none => simp [h1, h2] at h
      | some buf12 =>
        cases h3 : DeserializeRIPEntry buf12 with
        | none => simp [h1, h2, h3] at h
        | some r =>
          cases r with
          | error err => simp [h1, h2, h3] at h
          | ok entry =>
            cases h4 : DeserializeRIPEntriesCap data spare (i + 1) n with
            | none => simp [h1, h2, h3, h4] at h
            | some r2 =>
              cases r2 with
              | error err => simp [h1, h2, h3, h4] at h
              | ok rest =>
                simp only [h1, h2, h3, h4, Option.some_bind, Option.pure_def, Option.some.injEq,
                  Except.ok.injEq] at h
                subst h
                intro x hx
                rcases List.mem_cons.mp hx with rfl | hx
                · exact DeserializeRIPEntry_isIPv4 buf12 _ h3
                · exact ih (i + 1) rest h4 x hx

theorem DeserializeRIPDataCap_isIPv4 (data spare : List Nat) (ripData : RIPData)
    (hd : DeserializeRIPDataCap data spare = some (.ok ripData)) :
    ∀ x ∈ ripData.Entries, isIPv4 x.Addr ∧ isIPv4 x.Mask := by
  unfold DeserializeRIPDataCap at hd
  simp only [Option.bind_eq_bind, Option.pure_def] at hd
  cases s1 : sliceCap data spare 0 2 with
  | none => simp [s1] at hd
  | some c =>
    cases s2 : sliceCap data spare 2 4 with
    | none => simp [s1, s2] at hd
    | some nn =>
      simp only [s1, s2, Option.some_bind] at hd
      split_ifs at hd
      · simp at hd
      · cases s3 : DeserializeRIPEntriesCap data spare 0 (Ntohs nn) with
        | none => simp [s3] at hd
        | some r3 =>
          cases r3 with
          | error msg => simp [s3] at hd
          | ok es =>
            simp only [s3, Option.some_bind, Option.some.injEq, Except.ok.injEq] at hd
            subst hd
            exact DeserializeRIPEntriesCap_isIPv4 _ _ _ _ _ s3

end Capacity

/-- C26: with aggregation disabled, for every routing table (a map with uint32 keys) in
which every cost-0 entry has mask 255.255.255.255 and an outbound interface, every
receiving interface and every payload, of any length and with any bytes `spare` behind it
in the receive buffer, whenever `RIPHandler` returns, every cost-0 entry that was in the
table is still in the table under the same key, unchanged (same interface, cost 0 and
timer).  Reading the payload does not fault when payload and spare bytes together are at
least 4 + 12 * 64 bytes, as they are in the 65536-byte buffer of `handleUDPListen`: the
records that a short payload announces are then read from the bytes behind it.  With no
spare bytes the handler is `RIPHandler` on a payload whose capacity is its length. -/
theorem RIPHandler_keeps_local_routes (node : ip.Node) (packet : ip.IPPacket)
    (spare : List Nat) (linkID : Nat)
    (hagg : node.Aggregate = false) (hmap : mapOfUint32 node.RoutingTable)
    (hlocal : ∀ k e, ip.tableGet node.RoutingTable k = some e → e.Cost = 0 →
      k.Mask = 0xFFFFFFFF ∧ e.Interface ≠ none) :
    (772 ≤ packet.Data.length + spare.length →
      ∃ r, ip.DeserializeRIPDataCap packet.Data spare = some r) ∧
    ip.RIPHandlerCap node packet [] linkID = ip.RIPHandler node packet linkID ∧
    ∀ node1 out err, ip.RIPHandlerCap node packet spare linkID = some (node1, out, err) →
      ∀ k e, ip.tableGet node.RoutingTable k = some e → e.Cost = 0 →
        ip.tableGet node1.RoutingTable k = some e := by
  refine ⟨DeserializeRIPDataCap_returns packet.Data spare, RIPHandlerCap_nil node packet linkID,
    ?_⟩
  intro node1 out err hret k e hget hcost
  obtain ⟨hK, hif⟩ := hlocal k e hget hcost
  unfold ip.RIPHandlerCap at hret
  cases hd : ip.DeserializeRIPDataCap packet.Data spare with
  | none => simp [hd] at hret
  | some r =>
    cases r with
    | error msg =>
      simp only [hd, Option.some.injEq, Prod.mk.injEq] at hret
      rw [← hret.1]
      exact hget
    | ok ripData =>
      simp only [hd] at hret
      by_cases c1 : ripData.Command = 1
      · rw [if_pos c1] at hret
        simp only [Option.bind_eq_bind, Option.pure_def, Option.bind_eq_some, Option.some.injEq,
          Prod.mk.injEq] at hret
        obtain ⟨_, _, _, _, _, _, _, _, hn, -⟩ := hret
        rw [← hn]
        exact hget
      · by_cases c2 : ripData.Command = 2
        · have hv4 := DeserializeRIPDataCap_isIPv4 packet.Data spare ripData hd
          rw [if_neg c1, if_pos c2] at hret
          simp only [Option.bind_eq_bind, Option.pure_def] at hret
          cases hi : ip.ingest linkID (node, []) ripData.Entries with
          | none => simp [hi] at hret
          | some st =>
            obtain ⟨g1, g2, g3⟩ := ingest_local linkID k e hK hcost hif ripData.Entries
              (node, []) st hv4 hmap hget hi
            have hagg1 : st.1.Aggregate = false := by
              rw [g3]
              exact hagg
            simp only [hi, Option.some_bind, hagg1, Bool.false_eq_true, if_false] at hret
            split_ifs at hret
            · simp only [Option.bind_eq_some, Option.some.injEq, Prod.mk.injEq] at hret
              obtain ⟨_, _, hn, -⟩ := hret
              rw [← hn]
              exact g2
            · simp only [Option.some.injEq, Prod.mk.injEq] at hret
              rw [← hret.1]
              exact g2
        · rw [if_neg c1, if_neg c2] at hret
          simp only [Option.some.injEq, Prod.mk.injEq] at hret
          rw [← hret.1]
          exact hget

/-- Witness for C26: a response received on interface 0 carries only its 4-byte header and
announces one entry; the record is read from the 12 zero bytes behind the payload and
installs 0.0.0.0/0 with cost 1, and the local entry 10.0.0.1/32 stays. -/
theorem RIPHandler_keeps_local_routes_witness :
    ip.RIPHandlerCap
        ⟨[⟨5001, [10, 0, 0, 1], [10, 0, 0, 2], true⟩,
            ⟨5002, [10, 0, 1, 1], [10, 0, 1, 2], true⟩],
          [(⟨0x0A000001, 0xFFFFFFFF⟩, ⟨some 0, 0, none⟩),
            (⟨0x0A000101, 0xFFFFFFFF⟩, ⟨some 1, 0, none⟩)], false⟩
        ⟨⟨4, 5, 0, 24, 0, 0, 16, 200, 0, [10, 0, 0, 2], [10, 0, 0, 1], []⟩, [0, 2, 0, 1]⟩
        [0, 0, 0, 0, 0, 0, 0, 0, 0, 0, 0, 0] 0 =
      some (⟨[⟨5001, [10, 0, 0, 1], [10, 0, 0, 2], true⟩,
            ⟨5002, [10, 0, 1, 1], [10, 0, 1, 2], true⟩],
          [(⟨0x0A000001, 0xFFFFFFFF⟩, ⟨some 0, 0, none⟩),
            (⟨0x0A000101, 0xFFFFFFFF⟩, ⟨some 1, 0, none⟩),
            (⟨0, 0⟩, ⟨some 0, 1, some ⟨⟨0, 0⟩, true⟩⟩)], false⟩,
        [(0, [69, 0, 0, 36, 0, 0, 0, 0, 16, 200, 150, 16, 10, 0, 0, 1, 10, 0, 0, 2,
            0, 2, 0, 1, 0, 0, 0, 16, 0, 0, 0, 0, 0, 0, 0, 0]),
          (1, [69, 0, 0, 36, 0, 0, 0, 0, 16, 200, 148, 16, 10, 0, 1, 1, 10, 0, 1, 2,
            0, 2, 0, 1, 0, 0, 0, 1, 0, 0, 0, 0, 0, 0, 0, 0])], false) ∧
      ip.tableGet
        [(⟨0x0A000001, 0xFFFFFFFF⟩, ⟨some 0, 0, none⟩),
          (⟨0x0A000101, 0xFFFFFFFF⟩, ⟨some 1, 0, none⟩),
          (⟨0, 0⟩, ⟨some 0, 1, some ⟨⟨0, 0⟩, true⟩⟩)]
        ⟨0x0A000001, 0xFFFFFFFF⟩ = some ⟨some 0, 0, none⟩ :=
  ⟨by decide,
    (RIPHandler_keeps_local_routes
      ⟨[⟨5001, [10, 0, 0, 1], [10, 0, 0, 2], true⟩, ⟨5002, [10, 0, 1, 1], [10, 0, 1, 2], true⟩],
        [(⟨0x0A000001, 0xFFFFFFFF⟩, ⟨some 0, 0, none⟩),
          (⟨0x0A000101, 0xFFFFFFFF⟩, ⟨some 1, 0, none⟩)], false⟩
      ⟨⟨4, 5, 0, 24, 0, 0, 16, 200, 0, [10, 0, 0, 2], [10, 0, 0, 1], []⟩, [0, 2, 0, 1]⟩
      [0, 0, 0, 0, 0, 0, 0, 0, 0, 0, 0, 0] 0 (by decide) (by decide)
      (by
        intro k e h hc
        simp only [ip.tableGet] at h
        split_ifs at h with h1 h2
        · cases h
          subst h1
          exact ⟨rfl, by decide⟩
        · cases h
          subst h2
          exact ⟨rfl, by decide⟩)).2.2
      ⟨[⟨5001, [10, 0, 0, 1], [10, 0, 0, 2], true⟩, ⟨5002, [10, 0, 1, 1], [10, 0, 1, 2], true⟩],
        [(⟨0x0A000001, 0xFFFFFFFF⟩, ⟨some 0, 0, none⟩),
          (⟨0x0A000101, 0xFFFFFFFF⟩, ⟨some 1, 0, none⟩),
          (⟨0, 0⟩, ⟨some 0, 1, some ⟨⟨0, 0⟩, true⟩⟩)], false⟩
      [(0, [69, 0, 0, 36, 0, 0, 0, 0, 16, 200, 150, 16, 10, 0, 0, 1, 10, 0, 0, 2,
          0, 2, 0, 1, 0, 0, 0, 16, 0, 0, 0, 0, 0, 0, 0, 0]),
        (1, [69, 0, 0, 36, 0, 0, 0, 0, 16, 200, 148, 16, 10, 0, 1, 1, 10, 0, 1, 2,
          0, 2, 0, 1, 0, 0, 0, 1, 0, 0, 0, 0, 0, 0, 0, 0])]
      false (by decide) ⟨0x0A000001, 0xFFFFFFFF⟩ ⟨some 0, 0, none⟩ (by decide) rfl⟩

section BitFlip

open ip util

theorem flipBit_append (hs data : List Nat) (i : Nat) (h : i / 8 < hs.length) :
    flipBit (hs ++ data) i = flipBit hs i ++ data := by
  unfold flipBit
  rw [List.getD_append _ _ _ _ h, List.set_append_left _ _ h]

theorem beWords_set_sum : ∀ (l : List Nat) (j v : Nat), j < l.length → l.length % 2 = 0 →
    (beWords (l.set j v)).sum + l.getD j 0 * (if j % 2 = 0 then 256 else 1) =
      (beWords l).sum + v * (if j % 2 = 0 then 256 else 1) := by
  intro l
  induction l using beWords.induct with
  | case1 b0 b1 rest ih =>
    intro j v hj hlen
    match j with
    | 0 =>
      simp only [List.set_cons_zero, beWords, List.sum_cons, List.getD_cons_zero]
      simp only [Nat.zero_mod, if_true]
      omega
    | 1 =>
      simp only [List.set_cons_succ, List.set_cons_zero, beWords, List.sum_cons,
        List.getD_cons_succ, List.getD_cons_zero]
      simp only [Nat.one_mod, one_ne_zero, if_false]
      omega
    | n + 2 =>
      simp only [List.length_cons] at hj hlen
      have h1 := ih n v (by omega) (by omega)
      have h2 : (n + 2) % 2 = n % 2 := by omega
      simp only [List.set_cons_succ, beWords, List.sum_cons, List.getD_cons_succ, h2]
      omega
  | case2 data h =>
    intro j v hj hlen
    match data, h, hj, hlen with
    | [], _, hj, _ => simp at hj
    | [b], _, _, hlen => simp at hlen
    | b0 :: b1 :: rest, h, _, _ => exact absurd rfl (h b0 b1 rest)

set_option maxRecDepth 100000 in
theorem xor_bit_byte : ∀ b < 256, ∀ t < 8,
    (b ^^^ 2 ^ t) < 256 ∧ ((b ^^^ 2 ^ t) = b + 2 ^ t ∨ b = (b ^^^ 2 ^ t) + 2 ^ t) := by
  decide

theorem checksum_zero_sum (hs : List Nat) (hb : isBytes hs) (hlen : hs.length % 2 = 0) :
    ∃ c, util.IPChecksum hs = some c ∧ (c = 0 → (beWords hs).sum % 65535 = 0) := by
  obtain ⟨h1, h2, -⟩ := foldl_IPChecksumStep (beWords hs) 0 (by omega) (beWords_le hs hb)
  refine ⟨(beWords hs).foldl util.IPChecksumStep 0 ^^^ 0xFFFF, ?_, ?_⟩
  · simp [util.IPChecksum, IPChecksumLoop_even hs 0 hlen]
  · rw [not16_eq _ (by omega)]
    intro h0
    simp only [Nat.zero_add] at h2
    rw [← h2]
    have : List.foldl IPChecksumStep 0 (beWords hs) = 65535 := by omega
    rw [this]

theorem flipBit_header (hs : List Nat) (i : Nat) (hb : isBytes hs) (hi : i / 8 < hs.length)
    (hlen : hs.length % 2 = 0) :
    (flipBit hs i).length = hs.length ∧ isBytes (flipBit hs i) ∧
      ∃ e, 1 ≤ e ∧ e ≤ 32768 ∧
        ((beWords (flipBit hs i)).sum = (beWords hs).sum + e ∨
          (beWords (flipBit hs i)).sum + e = (beWords hs).sum) := by
  have hbj : hs.getD (i / 8) 0 < 256 := by
    rw [List.getD_eq_getElem _ _ hi]
    exact hb _ (List.getElem_mem _)
  have ht : 7 - i % 8 < 8 := by omega
  obtain ⟨x1, x2⟩ := xor_bit_byte _ hbj _ ht
  have hsum := beWords_set_sum hs (i / 8) (hs.getD (i / 8) 0 ^^^ 2 ^ (7 - i % 8)) hi hlen
  have hpow : 1 ≤ 2 ^ (7 - i % 8) ∧ 2 ^ (7 - i % 8) ≤ 128 := by
    constructor
    · exact Nat.one_le_two_pow
    · have : (2 : Nat) ^ (7 - i % 8) ≤ 2 ^ 7 := Nat.pow_le_pow_right (by decide) (by omega)
      simpa using this
  unfold flipBit
  refine ⟨List.length_set _ _ _, ?_, ?_⟩
  · intro b hbm
    rcases List.mem_or_eq_of_mem_set hbm with h | h
    · exact hb b h
    · rw [h]
      exact x1
  · generalize hs.getD (i / 8) 0 ^^^ 2 ^ (7 - i % 8) = v at x1 x2 hsum ⊢
    generalize 2 ^ (7 - i % 8) = e at x2 hpow
    generalize (beWords (hs.set (i / 8) v)).sum = S1 at hsum ⊢
    generalize (beWords hs).sum = S0 at hsum ⊢
    generalize hs.getD (i / 8) 0 = b at hbj x2 hsum
    by_cases hpar : i / 8 % 2 = 0
    · rw [if_pos hpar] at hsum
      refine ⟨e * 256, by omega, by omega, ?_⟩
      omega
    · rw [if_neg hpar] at hsum
      refine ⟨e, by omega, by omega, ?_⟩
      omega

theorem firstByte_id (b : Nat) (h : b < 256) :
    (((b >>> 4) <<< 4) % 256 + (b &&& 0xF)) % 256 = b := by
  have h1 : b &&& (2 ^ 4 - 1) = b % 2 ^ 4 := Nat.and_pow_two_sub_one_eq_mod b 4
  have h2 : (2 : Nat) ^ 4 - 1 = 0xF := by decide
  rw [h2] at h1
  rw [h1, Nat.shiftRight_eq_div_pow, Nat.shiftLeft_eq]
  have h3 : (2 : Nat) ^ 4 = 16 := by decide
  rw [h3]
  omega

theorem Deserialize_header (hs data : List Nat) (hlen : hs.length = 20) (hb : isBytes hs)
    (h5 : hs.getD 0 0 &&& 0xF = 5) :
    ∃ q, ip.Deserialize (hs ++ data) = some q ∧ ip.IPChecksum q = util.IPChecksum hs := by
  obtain ⟨b0, b1, b2, b3, b4, b5, b6, b7, b8, b9, b10, b11, b12, b13, b14, b15, b16, b17,
    b18, b19, rest, rfl⟩ := bytes20 hs (by omega)
  have hrest : rest = [] := by
    simp only [List.length_cons] at hlen
    exact List.length_eq_zero.mp (by omega)
  subst hrest
  have c0 : b0 < 256 := hb b0 (by simp)
  have c2 : b2 < 256 := hb b2 (by simp)
  have c3 : b3 < 256 := hb b3 (by simp)
  have c4 : b4 < 256 := hb b4 (by simp)
  have c5 : b5 < 256 := hb b5 (by simp)
  have c6 : b6 < 256 := hb b6 (by simp)
  have c7 : b7 < 256 := hb b7 (by simp)
  have c10 : b10 < 256 := hb b10 (by simp)
  have c11 : b11 < 256 := hb b11 (by simp)
  have c12 : b12 < 256 := hb b12 (by simp)
  have c13 : b13 < 256 := hb b13 (by simp)
  have c14 : b14 < 256 := hb b14 (by simp)
  have c15 : b15 < 256 := hb b15 (by simp)
  have c16 : b16 < 256 := hb b16 (by simp)
  have c17 : b17 < 256 := hb b17 (by simp)
  have c18 : b18 < 256 := hb b18 (by simp)
  have c19 : b19 < 256 := hb b19 (by simp)
  simp only [List.getD_cons_zero] at h5
  refine ⟨_, rfl, ?_⟩
  rw [ip.IPChecksum, Serialize_eq _ _ _ (IP2int_Int2IP _) (IP2int_Int2IP _)]
  simp only [firstByte_id b0 c0, Ntohs, Ntohl, Option.bind_eq_bind, Option.some_bind]
  have e2 : (b2 * 256 + b3) / 256 % 256 = b2 := by omega
  have e3 : (b2 * 256 + b3) % 256 = b3 := by omega
  have e4 : (b4 * 256 + b5) / 256 % 256 = b4 := by omega
  have e5 : (b4 * 256 + b5) % 256 = b5 := by omega
  have e6 : (b6 * 256 + b7) / 256 % 256 = b6 := by omega
  have e7 : (b6 * 256 + b7) % 256 = b7 := by omega
  have e10 : (b10 * 256 + b11) / 256 % 256 = b10 := by omega
  have e11 : (b10 * 256 + b11) % 256 = b11 := by omega
  have e12 : (b12 * 16777216 + b13 * 65536 + b14 * 256 + b15) % 4294967296 / 16777216 % 256
      = b12 := by omega
  have e13 : (b12 * 16777216 + b13 * 65536 + b14 * 256 + b15) % 4294967296 / 65536 % 256
      = b13 := by omega
  have e14 : (b12 * 16777216 + b13 * 65536 + b14 * 256 + b15) % 4294967296 / 256 % 256
      = b14 := by omega
  have e15 : (b12 * 16777216 + b13 * 65536 + b14 * 256 + b15) % 4294967296 % 256
      = b15 := by omega
  have e16 : (b16 * 16777216 + b17 * 65536 + b18 * 256 + b19) % 4294967296 / 16777216 % 256
      = b16 := by omega
  have e17 : (b16 * 16777216 + b17 * 65536 + b18 * 256 + b19) % 4294967296 / 65536 % 256
      = b17 := by omega
  have e18 : (b16 * 16777216 + b17 * 65536 + b18 * 256 + b19) % 4294967296 / 256 % 256
      = b18 := by omega
  have e19 : (b16 * 16777216 + b17 * 65536 + b18 * 256 + b19) % 4294967296 % 256
      = b19 := by omega
  simp only [e2, e3, e4, e5, e6, e7, e10, e11, e12, e13, e14, e15, e16, e17, e18, e19, h5]
  simp [slice]

theorem flipBit_firstByte (hs : List Nat) (i : Nat) (h0 : hs.getD 0 0 = 69)
    (hlen : 0 < hs.length) (hi : i < 4 ∨ 8 ≤ i) :
    (flipBit hs i).getD 0 0 &&& 0xF = 5 := by
  unfold flipBit
  match hs, hlen, h0 with
  | b :: rest, _, h0 =>
    simp only [List.getD_cons_zero] at h0
    subst h0
    rcases hi with hi | hi
    · have h8 : i / 8 = 0 := by omega
      rw [h8]
      simp only [List.getD_cons_zero, List.set_cons_zero]
      interval_cases i <;> decide
    · obtain ⟨j, hj⟩ : ∃ j, i / 8 = j + 1 := ⟨i / 8 - 1, by omega⟩
      rw [hj]
      simp only [List.set_cons_succ, List.getD_cons_zero]
      decide

end BitFlip

/-- C30, the code at the failing input: the packet built by `NewIPPacket` for protocol 17,
four bytes of payload, TTL 16, source 10.0.0.2 and destination 254.255.0.0.  Flipping bit 7
of its serialization (the lowest bit of the header-length field) gives a datagram whose
deserialized header length is 4; `IPChecksum` then covers 16 bytes only and
`VerifyIPChecksum` accepts the datagram. -/
theorem header_length_bit_flip_passes_checksum :
    (ip.NewIPPacket 17 [1, 2, 3, 4] 16 [10, 0, 0, 2] [254, 255, 0, 0]).bind ip.Serialize =
      some [69, 0, 0, 24, 0, 0, 0, 0, 16, 17, 161, 212, 10, 0, 0, 2, 254, 255, 0, 0,
        1, 2, 3, 4] ∧
    flipBit [69, 0, 0, 24, 0, 0, 0, 0, 16, 17, 161, 212, 10, 0, 0, 2, 254, 255, 0, 0,
        1, 2, 3, 4] 7 =
      [68, 0, 0, 24, 0, 0, 0, 0, 16, 17, 161, 212, 10, 0, 0, 2, 254, 255, 0, 0, 1, 2, 3, 4] ∧
    (ip.Deserialize
        [68, 0, 0, 24, 0, 0, 0, 0, 16, 17, 161, 212, 10, 0, 0, 2, 254, 255, 0, 0,
          1, 2, 3, 4]).map (fun q => q.Header.HeaderLength) = some 4 ∧
    (ip.Deserialize
        [68, 0, 0, 24, 0, 0, 0, 0, 16, 17, 161, 212, 10, 0, 0, 2, 254, 255, 0, 0,
          1, 2, 3, 4]).bind ip.VerifyIPChecksum = some true := by
  decide

/-- C30, amended: for every packet built by `NewIPPacket` (protocol and TTL bytes, IPv4
addresses) and every bit position `i` among the first 160 bits of its serialization other
than the four bits of the header-length field (bits 4 to 7), the datagram with bit `i`
flipped deserializes to a packet on which `VerifyIPChecksum` returns false. -/
theorem flipped_header_bit_fails_checksum (proto ttl : Nat) (data src dst : List Nat)
    (i : Nat) (hproto : proto < 256) (httl : ttl < 256) (hsrc : isIPv4 src)
    (hdst : isIPv4 dst) (hi : i < 160) (hfield : i < 4 ∨ 8 ≤ i) :
    ∃ p buf q, ip.NewIPPacket proto data ttl src dst = some p ∧ ip.Serialize p = some buf ∧
      ip.Deserialize (flipBit buf i) = some q ∧ ip.VerifyIPChecksum q = some false := by
  obtain ⟨p, hp, hc, f1, f2, f3, f4, f5, f6, f7, f8, f9, f10, f11, f12, f13⟩ :=
    NewIPPacket_checksum_zero proto ttl data src dst hproto httl hsrc hdst
  obtain ⟨s, hs, hs32⟩ := IP2int_of_isIPv4 _ hsrc
  obtain ⟨d, hd, hd32⟩ := IP2int_of_isIPv4 _ hdst
  have hser := Serialize_eq p s d (by rw [f10]; exact hs) (by rw [f11]; exact hd)
  rw [f1, f2, f3, f5, f6, f7, f8, f13] at hser
  -- the 20 header bytes
  obtain ⟨hdr, hhdr⟩ : ∃ hdr : List Nat, hdr =
      [69, 0, p.Header.TotalLength / 256 % 256, p.Header.TotalLength % 256, 0, 0, 0, 0,
        ttl, proto, p.Header.Checksum / 256 % 256, p.Header.Checksum % 256,
        s / 16777216 % 256, s / 65536 % 256, s / 256 % 256, s % 256,
        d / 16777216 % 256, d / 65536 % 256, d / 256 % 256, d % 256] := ⟨_, rfl⟩
  have hbuf : ip.Serialize p = some (hdr ++ data) := by
    rw [hser, hhdr]
    rfl
  have hlen : hdr.length = 20 := by rw [hhdr]; rfl
  have hbytes : isBytes hdr := by
    rw [hhdr]
    intro b hbm
    simp only [List.mem_cons, List.mem_singleton, List.not_mem_nil, or_false] at hbm
    rcases hbm with h | h | h | h | h | h | h | h | h | h | h | h | h | h | h | h | h | h |
      h | h <;> subst h <;> omega
  have h69 : hdr.getD 0 0 = 69 := by rw [hhdr]; rfl
  -- the checksum of the packet is the checksum of its header bytes
  obtain ⟨q0, -, hq0⟩ := Deserialize_header hdr data hlen hbytes (by rw [h69]; decide)
  obtain ⟨c0, hc0, hz0⟩ := checksum_zero_sum hdr hbytes (by rw [hlen])
  have hpc : ip.IPChecksum p = util.IPChecksum hdr := by
    rw [ip.IPChecksum, hbuf, f2]
    simp only [Option.bind_eq_bind, Option.some_bind]
    have hsl : slice (hdr ++ data) 0 (5 * 4 % 256) = some hdr := by
      unfold slice
      rw [if_pos (by simp [hlen])]
      simp [hlen, List.take_append_of_le_length]
    rw [hsl, Option.some_bind]
  have hsum0 : (beWords hdr).sum % 65535 = 0 := by
    apply hz0
    rw [hpc, hc0] at hc
    simp only [Option.some.injEq] at hc
    exact hc
  -- the flipped datagram
  have hi8 : i / 8 < hdr.length := by rw [hlen]; omega
  obtain ⟨g1, g2, e, e1, e2, e3⟩ := flipBit_header hdr i hbytes hi8 (by rw [hlen])
  obtain ⟨q, hq, hqc⟩ := Deserialize_header (flipBit hdr i) data (by rw [g1, hlen]) g2
    (flipBit_firstByte hdr i h69 (by rw [hlen]; decide) hfield)
  obtain ⟨c1, hc1, hz1⟩ := checksum_zero_sum (flipBit hdr i) g2 (by rw [g1, hlen])
  refine ⟨p, hdr ++ data, q, hp, hbuf, ?_, ?_⟩
  · rw [flipBit_append hdr data i hi8]
    exact hq
  · rw [ip.VerifyIPChecksum, hqc, hc1, Option.map_some']
    have hne : c1 ≠ 0 := by
      intro h0
      have := hz1 h0
      omega
    simp [hne]

/-- Witness for C30 (amended): the packet of the failing input with the lowest bit of the
TTL byte flipped (bit 71). -/
theorem flipped_header_bit_fails_checksum_witness :
    ∃ p buf q, ip.NewIPPacket 17 [1, 2, 3, 4] 16 [10, 0, 0, 2] [254, 255, 0, 0] = some p ∧
      ip.Serialize p = some buf ∧
      ip.Deserialize (flipBit buf 71) = some q ∧ ip.VerifyIPChecksum q = some false :=
  flipped_header_bit_fails_checksum 17 16 [1, 2, 3, 4] [10, 0, 0, 2] [254, 255, 0, 0] 71
    (by decide) (by decide) (by decide) (by decide) (by decide) (by decide)

section Aggregation

open ip util

theorem contiguous_form (m : Nat) (hc : contiguousMask m) (h1 : 1 ≤ popcount m) :
    ∃ k, k ≤ 31 ∧ m = 2 ^ 32 - 2 ^ k ∧ popcount m = 32 - k := by
  have h32 := popcount_le m
  unfold contiguousMask at hc
  exact ⟨32 - popcount m, by omega, hc, by omega⟩

set_option maxRecDepth 100000 in
theorem mask_facts : ∀ k ≤ 31,
    ((2 ^ 32 - 2 ^ k) <<< 1) % 4294967296 = 2 ^ 32 - 2 ^ (k + 1) ∧
    (((2 ^ 32 - 2 ^ k) ^^^ 0xFFFFFFFF) + 1) % 4294967296 = 2 ^ k ∧
    popcount (2 ^ 32 - 2 ^ k) = 32 - k ∧ 2 ^ 32 - 2 ^ k < 4294967296 ∧
    contiguousMask (2 ^ 32 - 2 ^ k) := by
  decide

theorem mask_testBit (k i : Nat) (hk : k ≤ 32) :
    (2 ^ 32 - 2 ^ k).testBit i = decide (k ≤ i ∧ i < 32) := by
  have h : 2 ^ 32 - 2 ^ k = 2 ^ k * (2 ^ (32 - k) - 1) := by
    rw [Nat.mul_sub, ← pow_add, mul_one]
    congr 2
    omega
  rw [h, Nat.testBit_mul_pow_two, Nat.testBit_two_pow_sub_one]
  by_cases h1 : k ≤ i
  · by_cases h2 : i < 32
    · have h3 : i - k < 32 - k := by omega
      simp [h1, h2, h3]
    · have h3 : ¬ i - k < 32 - k := by omega
      simp [h1, h2, h3]
  · simp [h1]

theorem and_mask_eq_iff (x y k : Nat) (hk : k ≤ 32) :
    x &&& (2 ^ 32 - 2 ^ k) = y &&& (2 ^ 32 - 2 ^ k) ↔
      ∀ i, k ≤ i → i < 32 → x.testBit i = y.testBit i := by
  constructor
  · intro h i h1 h2
    have h3 := congrArg (fun z => z.testBit i) h
    simp only [Nat.testBit_and, mask_testBit _ _ hk] at h3
    simpa [h1, h2] using h3
  · intro h
    apply Nat.eq_of_testBit_eq
    intro i
    rw [Nat.testBit_and, Nat.testBit_and, mask_testBit _ _ hk]
    by_cases hc : k ≤ i ∧ i < 32
    · simp [hc, h i hc.1 hc.2]
    · simp [hc]

theorem parent_covers_iff (A a k : Nat) (hk : k ≤ 31) :
    a &&& (2 ^ 32 - 2 ^ (k + 1)) = A &&& (2 ^ 32 - 2 ^ (k + 1)) ↔
      (a &&& (2 ^ 32 - 2 ^ k) = A &&& (2 ^ 32 - 2 ^ k) ∨
        a &&& (2 ^ 32 - 2 ^ k) = (A ^^^ 2 ^ k) &&& (2 ^ 32 - 2 ^ k)) := by
  rw [and_mask_eq_iff _ _ _ (by omega), and_mask_eq_iff _ _ _ (by omega),
    and_mask_eq_iff _ _ _ (by omega)]
  constructor
  · intro h
    by_cases hb : a.testBit k = A.testBit k
    · left
      intro i h1 h2
      by_cases hik : i = k
      · rw [hik]
        exact hb
      · exact h i (by omega) h2
    · right
      intro i h1 h2
      rw [Nat.testBit_xor, Nat.testBit_two_pow]
      by_cases hik : i = k
      · subst hik
        cases h3 : a.testBit i <;> cases h4 : A.testBit i <;> simp_all
      · have hki : ¬ k = i := fun h => hik h.symm
        simp only [hki, decide_False, Bool.xor_false]
        exact h i (by omega) h2
  · rintro (h | h) i h1 h2
    · exact h i (by omega) h2
    · have h3 := h i (by omega) h2
      rw [Nat.testBit_xor, Nat.testBit_two_pow] at h3
      have hki : ¬ k = i := by omega
      simpa [hki] using h3

theorem xor_pow_ne (x k : Nat) : x ^^^ 2 ^ k ≠ x := by
  intro h
  have h1 := congrArg (fun z => z.testBit k) h
  simp only [Nat.testBit_xor, Nat.testBit_two_pow] at h1
  cases h2 : x.testBit k <;> simp [h2] at h1

end Aggregation

section Merge

open ip util

theorem RIPEntryToRoute_fields (entry : RIPEntry) (A : Route)
    (h : RIPEntryToRoute entry = some A) :
    IP2int entry.Addr = some A.Addr ∧ IP2int entry.Mask = some A.Mask := by
  unfold RIPEntryToRoute at h
  cases h1 : IP2int entry.Addr with
  | none => simp [h1] at h
  | some a =>
    cases h2 : IP2int entry.Mask with
    | none => simp [h1, h2] at h
    | some m =>
      simp only [h1, h2, Option.bind_eq_bind, Option.some_bind, Option.pure_def,
        Option.some.injEq] at h
      subst h
      exact ⟨rfl, rfl⟩

theorem merged_tableGet (t : List (Route × Entry)) (A S P x : Route) (newEntry : Entry) :
    tableGet (tableDelete (tableDelete (tableSet t P newEntry) S) A) x =
      if x = A then none else if x = S then none else if x = P then some newEntry
      else tableGet t x := by
  rw [tableGet_tableDelete, tableGet_tableDelete, tableGet_tableSet]

theorem aggregateEntry_merge (node : Node) (entry : RIPEntry) (A : Route) (cur sib : Entry)
    (hA : RIPEntryToRoute entry = some A)
    (hcur : tableGet node.RoutingTable A = some cur)
    (hsib : tableGet node.RoutingTable (getSibling A) = some sib)
    (hsame : sib.Cost = cur.Cost ∧ sib.Interface = cur.Interface)
    (hpar : tableGet node.RoutingTable (parentRoute A) = none) :
    aggregateEntry node entry =
      some ({ node with
          RoutingTable :=
            tableDelete (tableDelete
              (tableSet node.RoutingTable (parentRoute A)
                ⟨cur.Interface, cur.Cost, some ⟨parentRoute A, true⟩⟩)
              (getSibling A)) A },
        some (EntryToRIPEntry (parentRoute A)
          ⟨cur.Interface, cur.Cost, some ⟨parentRoute A, true⟩⟩)) := by
  obtain ⟨h1, h2⟩ := RIPEntryToRoute_fields entry A hA
  have hpar2 : tableGet node.RoutingTable
      ⟨A.Addr &&& ((A.Mask <<< 1) % 4294967296), (A.Mask <<< 1) % 4294967296⟩ = none := hpar
  simp only [aggregateEntry, hA, hcur, hsib, hsame, h1, h2, hpar2, and_self, if_true,
    Option.bind_eq_bind, Option.some_bind, Option.pure_def, parentRoute]

theorem aggregateEntry_idle (node : Node) (entry : RIPEntry) (P : Route) (cur : Entry)
    (hP : RIPEntryToRoute entry = some P)
    (hcur : tableGet node.RoutingTable P = some cur)
    (hsib : ∀ ps, tableGet node.RoutingTable (getSibling P) = some ps →
      ¬ (ps.Cost = cur.Cost ∧ ps.Interface = cur.Interface)) :
    aggregateEntry node entry = some (node, none) := by
  cases hs : tableGet node.RoutingTable (getSibling P) with
  | none =>
    simp only [aggregateEntry, hP, hcur, hs, Option.bind_eq_bind, Option.some_bind,
      Option.pure_def]
  | some ps =>
    have hne := hsib ps hs
    simp only [aggregateEntry, hP, hcur, hs, hne, if_false, Option.bind_eq_bind,
      Option.some_bind, Option.pure_def]

theorem merged_mem (t : List (Route × Entry)) (A S P : Route) (newEntry : Entry)
    (hpar : tableGet t P = none) (re : Route × Entry) :
    re ∈ tableDelete (tableDelete (tableSet t P newEntry) S) A ↔
      (re ∈ t ∨ re = (P, newEntry)) ∧ re.1 ≠ S ∧ re.1 ≠ A := by
  have hset : tableSet t P newEntry = t ++ [(P, newEntry)] := by
    unfold tableSet
    rw [hpar]
    rfl
  rw [hset]
  unfold tableDelete
  simp only [List.mem_filter, List.mem_append, List.mem_singleton, decide_eq_true_eq, ne_eq,
    and_assoc]

theorem matchRoute_best (node : Node) (addr : List Nat) (a : Nat) (ha : IP2int addr = some a)
    (hmask : ∀ re ∈ node.RoutingTable, contiguousMask re.1.Mask ∧ 1 ≤ popcount re.1.Mask)
    (hif : ∀ re ∈ node.RoutingTable, re.2.Interface ≠ none) :
    ∃ m, matchRoute node addr 32 = some m ∧
      ((m.matched = false ∧ m.entry = zeroEntry ∧
          ∀ re ∈ node.RoutingTable, ¬ covers re.1 a) ∨
        (m.matched = true ∧ ∃ re ∈ node.RoutingTable, m.entry = re.2 ∧ covers re.1 a ∧
          ∀ re1 ∈ node.RoutingTable, covers re1.1 a →
            popcount re1.1.Mask ≤ popcount re.1.Mask)) := by
  have hML : ∀ re ∈ node.RoutingTable,
      MaskLen (Int2IP re.1.Mask) = some (popcount re.1.Mask : Int) :=
    fun re hre => MaskLen_Int2IP_contiguous _ (hmask re hre).1 (hmask re hre).2
  obtain ⟨r, hr, -, hsel, hmax⟩ :=
    matchRouteLoop_spec addr a 32 ha node.RoutingTable hML (none, zeroEntry, 0)
  refine ⟨⟨r.1, r.2.1, decide (r.2.1 ≠ zeroEntry), r.2.2⟩, by simp [matchRoute, hr], ?_⟩
  rcases hsel with rfl | ⟨re, hre, rfl, hcov, -, -⟩
  · left
    refine ⟨by simp, rfl, ?_⟩
    intro re hre hcov
    have h1 := hmax re hre hcov (by have := popcount_le re.1.Mask; omega)
    have h2 := (hmask re hre).2
    simp only at h1
    omega
  · right
    refine ⟨?_, re, hre, rfl, hcov, ?_⟩
    · simp only [ne_eq, decide_eq_true_eq]
      intro hz
      apply hif re hre
      rw [hz]
      rfl
    · intro re1 hre1 hcov1
      have h1 := hmax re1 hre1 hcov1 (by have := popcount_le re1.1.Mask; omega)
      simp only at h1
      omega

theorem cover_unique (k1 k2 : Route) (a : Nat)
    (c1 : contiguousMask k1.Mask) (c2 : contiguousMask k2.Mask)
    (n1 : k1.Addr &&& k1.Mask = k1.Addr) (n2 : k2.Addr &&& k2.Mask = k2.Addr)
    (h1 : covers k1 a) (h2 : covers k2 a) (hp : popcount k1.Mask = popcount k2.Mask) :
    k1 = k2 := by
  unfold contiguousMask at c1 c2
  have hm : k1.Mask = k2.Mask := by
    rw [c1, c2, hp]
  unfold covers at h1 h2
  have haddr : k1.Addr = k2.Addr := by
    rw [← n1, ← n2, ← h1, ← h2, hm]
  cases k1
  cases k2
  simp only at hm haddr
  rw [hm, haddr]

end Merge

/-- C22, the code at two failing inputs.  First: 10.0.0.0/24 and its sibling 10.0.1.0/24
have the same (interface 1, cost 2) and the parent 10.0.0.0/23 is in the table with
(interface 0, cost 1); `AggregateRoutes` leaves the table as it is, both siblings still
keys.  Second: 64.0.0.0/2 and its sibling 0.0.0.0/2 have the same (interface 0, cost 1) as
128.0.0.0/1; the merge into 0.0.0.0/1 is followed by a merge into the prefix of length 0,
which `matchRoute` never returns: 10.0.0.1 was matched before the call and is not after. -/
theorem AggregateRoutes_siblings_kept_or_route_lost :
    (ip.AggregateRoutes
      ⟨[], [(⟨0x0A000000, 0xFFFFFF00⟩, ⟨some 1, 2, some ⟨⟨0x0A000000, 0xFFFFFF00⟩, true⟩⟩),
          (⟨0x0A000100, 0xFFFFFF00⟩, ⟨some 1, 2, some ⟨⟨0x0A000100, 0xFFFFFF00⟩, true⟩⟩),
          (⟨0x0A000000, 0xFFFFFE00⟩, ⟨some 0, 1, some ⟨⟨0x0A000000, 0xFFFFFE00⟩, true⟩⟩)],
        true⟩
      [⟨2, [10, 0, 0, 0], [255, 255, 255, 0]⟩]).map (fun r => r.1.RoutingTable.map Prod.fst) =
      some [⟨0x0A000000, 0xFFFFFF00⟩, ⟨0x0A000100, 0xFFFFFF00⟩, ⟨0x0A000000, 0xFFFFFE00⟩] ∧
    (ip.AggregateRoutes
      ⟨[], [(⟨0x40000000, 0xC0000000⟩, ⟨some 0, 1, some ⟨⟨0x40000000, 0xC0000000⟩, true⟩⟩),
          (⟨0x00000000, 0xC0000000⟩, ⟨some 0, 1, some ⟨⟨0x00000000, 0xC0000000⟩, true⟩⟩),
          (⟨0x80000000, 0x80000000⟩, ⟨some 0, 1, some ⟨⟨0x80000000, 0x80000000⟩, true⟩⟩)],
        true⟩
      [⟨1, [64, 0, 0, 0], [192, 0, 0, 0]⟩]).map (fun r => r.1.RoutingTable) =
      some [(⟨0, 0⟩, ⟨some 0, 1, some ⟨⟨0, 0⟩, true⟩⟩)] ∧
    (ip.matchRoute
      ⟨[], [(⟨0x40000000, 0xC0000000⟩, ⟨some 0, 1, some ⟨⟨0x40000000, 0xC0000000⟩, true⟩⟩),
          (⟨0x00000000, 0xC0000000⟩, ⟨some 0, 1, some ⟨⟨0x00000000, 0xC0000000⟩, true⟩⟩),
          (⟨0x80000000, 0x80000000⟩, ⟨some 0, 1, some ⟨⟨0x80000000, 0x80000000⟩, true⟩⟩)],
        true⟩ [10, 0, 0, 1] 32).map (fun m => (m.matched, m.entry.Interface, m.entry.Cost)) =
      some (true, some 0, 1) ∧
    (ip.matchRoute ⟨[], [((⟨0, 0⟩ : ip.Route), ⟨some 0, 1, some ⟨⟨0, 0⟩, true⟩⟩)], true⟩
      [10, 0, 0, 1] 32).map (fun m => (m.matched, m.entry.Interface, m.entry.Cost)) =
      some (false, none, 0) := by
  decide

/-- C22, amended: for every routing table (a map with uint32 keys) with contiguous-ones
masks, normalised keys and entries that carry an interface, and a diff made of one entry
(A, M) of prefix length at least 2 such that (A, M) and its sibling are in the table with
the same (interface, cost), the parent prefix is not in the table and the sibling of the
parent prefix is not in the table with that (interface, cost): `AggregateRoutes` returns,
afterwards neither the route nor its sibling is a key, the parent prefix maps to that
(interface, cost), every other key is as before, the returned diff is the parent entry,
and for every address `matchRoute` with maxLen 32 gives the same found flag, interface and
cost as before the call. -/
theorem AggregateRoutes_merges_siblings (node : ip.Node) (entry : ip.RIPEntry) (A : ip.Route)
    (cur sib : ip.Entry)
    (hmap : mapOfUint32 node.RoutingTable)
    (hmask : ∀ re ∈ node.RoutingTable, contiguousMask re.1.Mask ∧ 1 ≤ popcount re.1.Mask)
    (hnorm : ∀ re ∈ node.RoutingTable, re.1.Addr &&& re.1.Mask = re.1.Addr)
    (hif : ∀ re ∈ node.RoutingTable, re.2.Interface ≠ none)
    (hA : ip.RIPEntryToRoute entry = some A) (hlen : 2 ≤ popcount A.Mask)
    (hcur : ip.tableGet node.RoutingTable A = some cur)
    (hsib : ip.tableGet node.RoutingTable (ip.getSibling A) = some sib)
    (hsame : sib.Cost = cur.Cost ∧ sib.Interface = cur.Interface)
    (hpar : ip.tableGet node.RoutingTable (parentRoute A) = none)
    (hpsib : ∀ ps, ip.tableGet node.RoutingTable (ip.getSibling (parentRoute A)) = some ps →
      ¬ (ps.Cost = cur.Cost ∧ ps.Interface = cur.Interface)) :
    ∃ node1 diff, ip.AggregateRoutes node [entry] = some (node1, diff) ∧
      ip.tableGet node1.RoutingTable A = none ∧
      ip.tableGet node1.RoutingTable (ip.getSibling A) = none ∧
      ifCost node1.RoutingTable (parentRoute A) = some (cur.Interface, cur.Cost) ∧
      (∀ x, x ≠ A → x ≠ ip.getSibling A → x ≠ parentRoute A →
        ip.tableGet node1.RoutingTable x = ip.tableGet node.RoutingTable x) ∧
      diff = [ip.EntryToRIPEntry (parentRoute A)
        ⟨cur.Interface, cur.Cost, some ⟨parentRoute A, true⟩⟩] ∧
      ∀ addr a, util.IP2int addr = some a →
        ∃ m m1, ip.matchRoute node addr 32 = some m ∧
          ip.matchRoute node1 addr 32 = some m1 ∧
          m1.matched = m.matched ∧ m1.entry.Interface = m.entry.Interface ∧
          m1.entry.Cost = m.entry.Cost := by
  have hAmem := mem_of_tableGet _ _ _ hcur
  have hSmem := mem_of_tableGet _ _ _ hsib
  obtain ⟨k, hk31, hM, hpc⟩ := contiguous_form A.Mask (hmask _ hAmem).1 (hmask _ hAmem).2
  have hk : k ≤ 30 := by omega
  obtain ⟨mf1, mf2, mf3, -, -⟩ := mask_facts k hk31
  obtain ⟨-, pf2, pf3, pf4, pf5⟩ := mask_facts (k + 1) (by omega)
  have hAn : A.Addr &&& A.Mask = A.Addr := hnorm _ hAmem
  -- the parent and the sibling
  have hPm : (parentRoute A).Mask = 2 ^ 32 - 2 ^ (k + 1) := by
    unfold parentRoute
    simp only
    rw [hM, mf1]
  have hPa : (parentRoute A).Addr = A.Addr &&& (2 ^ 32 - 2 ^ (k + 1)) := by
    unfold parentRoute
    simp only
    rw [hM, mf1]
  have hPn : (parentRoute A).Addr &&& (parentRoute A).Mask = (parentRoute A).Addr := by
    rw [hPa, hPm, Nat.and_assoc, Nat.and_self]
  have hSm : (ip.getSibling A).Mask = 2 ^ 32 - 2 ^ k := by
    unfold ip.getSibling
    simp only
    exact hM
  have hSa : (ip.getSibling A).Addr = A.Addr ^^^ 2 ^ k := by
    unfold ip.getSibling
    simp only
    rw [hAn, hM, mf2]
  have hmne : (2 : Nat) ^ 32 - 2 ^ (k + 1) ≠ 2 ^ 32 - 2 ^ k := by
    intro h
    rw [h] at pf3
    omega
  have hPA : parentRoute A ≠ A := by
    intro h
    rw [h, hM] at hPm
    exact hmne hPm.symm
  have hPS : parentRoute A ≠ ip.getSibling A := by
    intro h
    rw [h, hSm] at hPm
    exact hmne hPm.symm
  have hSA : ip.getSibling A ≠ A := by
    intro h
    rw [h] at hSa
    exact xor_pow_ne _ _ hSa.symm
  have hGa : (ip.getSibling (parentRoute A)).Addr = (parentRoute A).Addr ^^^ 2 ^ (k + 1) := by
    unfold ip.getSibling
    simp only
    rw [hPn, hPm, pf2]
  have hGP : ip.getSibling (parentRoute A) ≠ parentRoute A := by
    intro h
    rw [h] at hGa
    exact xor_pow_ne _ _ hGa.symm
  have hGA : ip.getSibling (parentRoute A) ≠ A := by
    intro h
    have h1 : (ip.getSibling (parentRoute A)).Mask = (parentRoute A).Mask := rfl
    rw [h, hM, hPm] at h1
    exact hmne h1.symm
  have hGS : ip.getSibling (parentRoute A) ≠ ip.getSibling A := by
    intro h
    have h1 : (ip.getSibling (parentRoute A)).Mask = (parentRoute A).Mask := rfl
    rw [h, hSm, hPm] at h1
    exact hmne h1.symm
  -- the table after the merge
  have g3 := merged_tableGet node.RoutingTable A (ip.getSibling A) (parentRoute A)
  have g3A : ∀ ne, ip.tableGet (ip.tableDelete (ip.tableDelete
      (ip.tableSet node.RoutingTable (parentRoute A) ne) (ip.getSibling A)) A) A = none := by
    intro ne
    rw [g3, if_pos rfl]
  have g3S : ∀ ne, ip.tableGet (ip.tableDelete (ip.tableDelete
      (ip.tableSet node.RoutingTable (parentRoute A) ne) (ip.getSibling A)) A)
      (ip.getSibling A) = none := by
    intro ne
    rw [g3, if_neg hSA, if_pos rfl]
  have g3P : ∀ ne, ip.tableGet (ip.tableDelete (ip.tableDelete
      (ip.tableSet node.RoutingTable (parentRoute A) ne) (ip.getSibling A)) A)
      (parentRoute A) = some ne := by
    intro ne
    rw [g3, if_neg hPA, if_neg hPS, if_pos rfl]
  have g3x : ∀ ne x, x ≠ A → x ≠ ip.getSibling A → x ≠ parentRoute A →
      ip.tableGet (ip.tableDelete (ip.tableDelete
        (ip.tableSet node.RoutingTable (parentRoute A) ne) (ip.getSibling A)) A) x =
        ip.tableGet node.RoutingTable x := by
    intro ne x h1 h2 h3
    rw [g3, if_neg h1, if_neg h2, if_neg h3]
  -- the run of the loop
  have hPb : (parentRoute A).Addr < 4294967296 ∧ (parentRoute A).Mask < 4294967296 := by
    rw [hPa, hPm]
    exact ⟨lt_of_le_of_lt Nat.and_le_right pf4, pf4⟩
  have E1 := aggregateEntry_merge node entry A cur sib hA hcur hsib hsame hpar
  have E2 := aggregateEntry_idle
    { node with
      RoutingTable :=
        ip.tableDelete (ip.tableDelete
          (ip.tableSet node.RoutingTable (parentRoute A)
            ⟨cur.Interface, cur.Cost, some ⟨parentRoute A, true⟩⟩)
          (ip.getSibling A)) A }
    (ip.EntryToRIPEntry (parentRoute A) ⟨cur.Interface, cur.Cost, some ⟨parentRoute A, true⟩⟩)
    (parentRoute A) ⟨cur.Interface, cur.Cost, some ⟨parentRoute A, true⟩⟩
    (RIPEntryToRoute_EntryToRIPEntry _ _ hPb.1 hPb.2) (g3P _) (by
      intro ps hps
      rw [g3x _ _ hGA hGS hGP] at hps
      exact hpsib ps hps)
  obtain ⟨l, hl⟩ : ∃ l, node.RoutingTable.length = l + 1 := by
    cases ht : node.RoutingTable with
    | nil =>
      rw [ht] at hAmem
      simp at hAmem
    | cons hd tl => exact ⟨tl.length, rfl⟩
  have hrun : ip.AggregateRoutes node [entry] =
      some ({ node with
          RoutingTable :=
            ip.tableDelete (ip.tableDelete
              (ip.tableSet node.RoutingTable (parentRoute A)
                ⟨cur.Interface, cur.Cost, some ⟨parentRoute A, true⟩⟩)
              (ip.getSibling A)) A },
        [ip.EntryToRIPEntry (parentRoute A)
          ⟨cur.Interface, cur.Cost, some ⟨parentRoute A, true⟩⟩]) := by
    unfold ip.AggregateRoutes
    rw [if_neg (by simp)]
    have hf : [entry].length + node.RoutingTable.length + 1 = l + 1 + 1 + 1 := by
      rw [hl]
      simp only [List.length_singleton]
      omega
    rw [hf]
    simp only [ip.aggregateLoop, E1, E2, List.nil_append, List.singleton_append,
      Option.bind_eq_bind, Option.some_bind, ip.stillRouted, hA,
      RIPEntryToRoute_EntryToRIPEntry _ _ hPb.1 hPb.2, g3A, g3P, Option.isSome_none,
      Option.isSome_some, Bool.false_eq_true, if_false, if_true, Option.pure_def]
  refine ⟨_, _, hrun, g3A _, g3S _, ?_, g3x _, rfl, ?_⟩
  · unfold ifCost
    rw [g3P]
    rfl
  · intro addr a ha
    -- what covers an address before and after
    have hcP : covers (parentRoute A) a ↔ covers A a ∨ covers (ip.getSibling A) a := by
      unfold covers
      rw [hPm, hPa, hSm, hSa, hM, Nat.and_assoc, Nat.and_self]
      exact parent_covers_iff A.Addr a k hk31
    have hmem3 := merged_mem node.RoutingTable A (ip.getSibling A) (parentRoute A)
      ⟨cur.Interface, cur.Cost, some ⟨parentRoute A, true⟩⟩ hpar
    have hPmem := (hmem3 (parentRoute A, ⟨cur.Interface, cur.Cost,
      some ⟨parentRoute A, true⟩⟩)).mpr ⟨Or.inr rfl, hPS, hPA⟩
    have hpcA : popcount A.Mask = 32 - k := hpc
    have hpcS : popcount (ip.getSibling A).Mask = 32 - k := by rw [hSm, mf3]
    have hpcP : popcount (parentRoute A).Mask = 32 - (k + 1) := by rw [hPm, pf3]
    have hmask3 : ∀ re ∈ ip.tableDelete (ip.tableDelete
        (ip.tableSet node.RoutingTable (parentRoute A)
          ⟨cur.Interface, cur.Cost, some ⟨parentRoute A, true⟩⟩) (ip.getSibling A)) A,
        contiguousMask re.1.Mask ∧ 1 ≤ popcount re.1.Mask := by
      intro re hre
      rcases ((hmem3 re).mp hre).1 with h | h
      · exact hmask re h
      · rw [h]
        simp only
        rw [hPm]
        exact ⟨pf5, by rw [pf3]; omega⟩
    have hif3 : ∀ re ∈ ip.tableDelete (ip.tableDelete
        (ip.tableSet node.RoutingTable (parentRoute A)
          ⟨cur.Interface, cur.Cost, some ⟨parentRoute A, true⟩⟩) (ip.getSibling A)) A,
        re.2.Interface ≠ none := by
      intro re hre
      rcases ((hmem3 re).mp hre).1 with h | h
      · exact hif re h
      · rw [h]
        exact hif (A, cur) hAmem
    obtain ⟨m, hm, hmc⟩ := matchRoute_best node addr a ha hmask hif
    obtain ⟨m1, hm1, hmc1⟩ := matchRoute_best
      { node with
        RoutingTable :=
          ip.tableDelete (ip.tableDelete
            (ip.tableSet node.RoutingTable (parentRoute A)
              ⟨cur.Interface, cur.Cost, some ⟨parentRoute A, true⟩⟩)
            (ip.getSibling A)) A } addr a ha hmask3 hif3
    refine ⟨m, m1, hm, hm1, ?_⟩
    rcases hmc with ⟨hf, he, hno⟩ | ⟨hf, re, hre, he, hcov, hbest⟩
    · -- nothing covered the address
      rcases hmc1 with ⟨hf1, he1, -⟩ | ⟨-, re1, hre1, -, hcov1, -⟩
      · rw [hf, hf1, he, he1]
        exact ⟨rfl, rfl, rfl⟩
      · exfalso
        rcases ((hmem3 re1).mp hre1).1 with h | h
        · exact hno re1 h hcov1
        · rw [h] at hcov1
          rcases hcP.mp hcov1 with h2 | h2
          · exact hno _ hAmem h2
          · exact hno _ hSmem h2
    · rcases hmc1 with ⟨-, -, hno1⟩ | ⟨hf1, re1, hre1, he1, hcov1, hbest1⟩
      · exfalso
        by_cases hAS : re.1 = A ∨ re.1 = ip.getSibling A
        · have hcovP : covers (parentRoute A) a := by
            rcases hAS with h | h
            · exact hcP.mpr (Or.inl (h ▸ hcov))
            · exact hcP.mpr (Or.inr (h ▸ hcov))
          exact hno1 _ hPmem hcovP
        · have h3 : re ∈ ip.tableDelete (ip.tableDelete
              (ip.tableSet node.RoutingTable (parentRoute A)
                ⟨cur.Interface, cur.Cost, some ⟨parentRoute A, true⟩⟩)
              (ip.getSibling A)) A :=
            (hmem3 re).mpr ⟨Or.inl hre, fun h => hAS (Or.inr h), fun h => hAS (Or.inl h)⟩
          exact hno1 re h3 hcov
      · rw [hf, hf1, he, he1]
        refine ⟨rfl, ?_⟩
        have hget := tableGet_of_mem _ hmap.1 re hre
        by_cases hAS : re.1 = A ∨ re.1 = ip.getSibling A
        · -- the best match was one of the two siblings
          have hcur2 : re.2.Interface = cur.Interface ∧ re.2.Cost = cur.Cost := by
            rcases hAS with h | h
            · rw [h, hcur] at hget
              simp only [Option.some.injEq] at hget
              rw [← hget]
              exact ⟨rfl, rfl⟩
            · rw [h, hsib] at hget
              simp only [Option.some.injEq] at hget
              rw [← hget]
              exact ⟨hsame.2, hsame.1⟩
          have hpcre : popcount re.1.Mask = 32 - k := by
            rcases hAS with h | h
            · rw [h]
              exact hpcA
            · rw [h]
              exact hpcS
          have hcovP : covers (parentRoute A) a := by
            rcases hAS with h | h
            · exact hcP.mpr (Or.inl (h ▸ hcov))
            · exact hcP.mpr (Or.inr (h ▸ hcov))
          obtain ⟨hor, hneS, hneA⟩ := (hmem3 re1).mp hre1
          rcases hor with h | h
          · exfalso
            have h1 := hbest re1 h hcov1
            have h2 := hbest1 _ hPmem hcovP
            simp only at h2
            rw [hpcP] at h2
            rw [hpcre] at h1
            by_cases heq : popcount re1.1.Mask = 32 - k
            · have := cover_unique re1.1 re.1 a (hmask re1 h).1 (hmask re hre).1
                (hnorm re1 h) (hnorm re hre) hcov1 hcov (by rw [heq, hpcre])
              rcases hAS with h3 | h3
              · exact hneA (this.trans h3)
              · exact hneS (this.trans h3)
            · have heq2 : popcount re1.1.Mask = popcount (parentRoute A).Mask := by
                rw [hpcP]
                omega
              have := cover_unique re1.1 (parentRoute A) a (hmask re1 h).1
                (by rw [hPm]; exact pf5) (hnorm re1 h) hPn hcov1 hcovP heq2
              have hg := tableGet_of_mem _ hmap.1 re1 h
              rw [this, hpar] at hg
              cases hg
          · rw [h]
            exact ⟨hcur2.1.symm, hcur2.2.symm⟩
        · -- the best match was another entry, which is still there
          have h3 : re ∈ ip.tableDelete (ip.tableDelete
              (ip.tableSet node.RoutingTable (parentRoute A)
                ⟨cur.Interface, cur.Cost, some ⟨parentRoute A, true⟩⟩)
              (ip.getSibling A)) A :=
            (hmem3 re).mpr ⟨Or.inl hre, fun h => hAS (Or.inr h), fun h => hAS (Or.inl h)⟩
          have h2 := hbest1 re h3 hcov
          obtain ⟨hor, -, -⟩ := (hmem3 re1).mp hre1
          rcases hor with h | h
          · have h1 := hbest re1 h hcov1
            have := cover_unique re1.1 re.1 a (hmask re1 h).1 (hmask re hre).1
              (hnorm re1 h) (hnorm re hre) hcov1 hcov (by omega)
            have hg := tableGet_of_mem _ hmap.1 re1 h
            rw [this, hget] at hg
            simp only [Option.some.injEq] at hg
            rw [hg]
            exact ⟨rfl, rfl⟩
          · exfalso
            rw [h] at h2 hcov1
            simp only at h2 hcov1
            rw [hpcP] at h2
            rcases hcP.mp hcov1 with h4 | h4
            · have := hbest _ hAmem h4
              simp only at this
              rw [hpcA] at this
              omega
            · have := hbest _ hSmem h4
              simp only at this
              rw [hpcS] at this
              omega

/-- Witness for C22 (amended): 10.0.0.0/24 and 10.0.1.0/24 through interface 1 with cost 2,
next to the local route 10.2.0.1/32. -/
theorem AggregateRoutes_merges_siblings_witness :
    ∃ node1 diff, ip.AggregateRoutes
        ⟨[], [(⟨0x0A000000, 0xFFFFFF00⟩, ⟨some 1, 2, some ⟨⟨0x0A000000, 0xFFFFFF00⟩, true⟩⟩),
            (⟨0x0A000100, 0xFFFFFF00⟩, ⟨some 1, 2, some ⟨⟨0x0A000100, 0xFFFFFF00⟩, true⟩⟩),
            (⟨0x0A020001, 0xFFFFFFFF⟩, ⟨some 0, 0, none⟩)], true⟩
        [⟨2, [10, 0, 0, 0], [255, 255, 255, 0]⟩] = some (node1, diff) ∧
      ip.tableGet node1.RoutingTable ⟨0x0A000000, 0xFFFFFF00⟩ = none ∧
      ip.tableGet node1.RoutingTable (ip.getSibling ⟨0x0A000000, 0xFFFFFF00⟩) = none ∧
      ifCost node1.RoutingTable (parentRoute ⟨0x0A000000, 0xFFFFFF00⟩) = some (some 1, 2) := by
  obtain ⟨node1, diff, h1, h2, h3, h4, -⟩ := AggregateRoutes_merges_siblings
    ⟨[], [(⟨0x0A000000, 0xFFFFFF00⟩, ⟨some 1, 2, some ⟨⟨0x0A000000, 0xFFFFFF00⟩, true⟩⟩),
        (⟨0x0A000100, 0xFFFFFF00⟩, ⟨some 1, 2, some ⟨⟨0x0A000100, 0xFFFFFF00⟩, true⟩⟩),
        (⟨0x0A020001, 0xFFFFFFFF⟩, ⟨some 0, 0, none⟩)], true⟩
    ⟨2, [10, 0, 0, 0], [255, 255, 255, 0]⟩ ⟨0x0A000000, 0xFFFFFF00⟩
    ⟨some 1, 2, some ⟨⟨0x0A000000, 0xFFFFFF00⟩, true⟩⟩
    ⟨some 1, 2, some ⟨⟨0x0A000100, 0xFFFFFF00⟩, true⟩⟩
    (by decide) (by decide) (by decide) (by decide) (by decide) (by decide) (by decide)
    (by decide) ⟨rfl, rfl⟩ (by decide) (by
      intro ps h
      have hn : ip.tableGet
          [(⟨0x0A000000, 0xFFFFFF00⟩, ⟨some 1, 2, some ⟨⟨0x0A000000, 0xFFFFFF00⟩, true⟩⟩),
            (⟨0x0A000100, 0xFFFFFF00⟩, ⟨some 1, 2, some ⟨⟨0x0A000100, 0xFFFFFF00⟩, true⟩⟩),
            ((⟨0x0A020001, 0xFFFFFFFF⟩ : ip.Route), (⟨some 0, 0, none⟩ : ip.Entry))]
          (ip.getSibling (parentRoute ⟨0x0A000000, 0xFFFFFF00⟩)) = none := by decide
      rw [hn] at h
      cases h)
  exact ⟨node1, diff, h1, h2, h3, h4⟩


section Sockets

open tcp

theorem createSocketLoop_some (d : Driver) :
    ∀ (l : List ConnID) (start sk : Nat), createSocketLoop d l start = some sk →
      start ≤ sk ∧ sk - start < l.length ∧
      (∃ cid, l[sk - start]? = some cid ∧ found d.connTable cid = false ∧
        found d.listTable cid = false) ∧
      ∀ j, j < sk - start → ∀ cid, l[j]? = some cid →
        ¬ (found d.connTable cid = false ∧ found d.listTable cid = false) := by
  intro l
  induction l with
  | nil =>
    intro start sk h
    simp [createSocketLoop] at h
  | cons c rest ih =>
    intro start sk h
    unfold createSocketLoop at h
    by_cases h1 : found d.connTable c = true
    · rw [if_pos h1] at h
      obtain ⟨g1, g2, ⟨cid, g3, g4⟩, g5⟩ := ih (start + 1) sk h
      have hs : sk - start = (sk - (start + 1)) + 1 := by omega
      refine ⟨by omega, by simp only [List.length_cons]; omega, ⟨cid, ?_, g4⟩, ?_⟩
      · rw [hs, List.getElem?_cons_succ]
        exact g3
      · intro j hj cid1 hc
        cases j with
        | zero =>
          simp only [List.getElem?_cons_zero, Option.some.injEq] at hc
          subst hc
          simp [h1]
        | succ j =>
          simp only [List.getElem?_cons_succ] at hc
          exact g5 j (by omega) cid1 hc
    · rw [if_neg h1] at h
      by_cases h2 : found d.listTable c = true
      · rw [if_pos h2] at h
        obtain ⟨g1, g2, ⟨cid, g3, g4⟩, g5⟩ := ih (start + 1) sk h
        have hs : sk - start = (sk - (start + 1)) + 1 := by omega
        refine ⟨by omega, by simp only [List.length_cons]; omega, ⟨cid, ?_, g4⟩, ?_⟩
        · rw [hs, List.getElem?_cons_succ]
          exact g3
        · intro j hj cid1 hc
          cases j with
          | zero =>
            simp only [List.getElem?_cons_zero, Option.some.injEq] at hc
            subst hc
            simp [h2]
          | succ j =>
            simp only [List.getElem?_cons_succ] at hc
            exact g5 j (by omega) cid1 hc
      · rw [if_neg h2] at h
        simp only [Option.some.injEq] at h
        subst h
        refine ⟨le_refl _, by simp, ⟨c, by simp, by simpa using h1, by simpa using h2⟩, ?_⟩
        intro j hj
        omega

theorem createSocketLoop_none (d : Driver) :
    ∀ (l : List ConnID) (start : Nat), createSocketLoop d l start = none →
      ∀ (j : Nat) (cid : ConnID), l[j]? = some cid →
        ¬ (found d.connTable cid = false ∧ found d.listTable cid = false) := by
  intro l
  induction l with
  | nil =>
    intro start _ j cid hc
    simp at hc
  | cons c rest ih =>
    intro start h j cid hc
    unfold createSocketLoop at h
    by_cases h1 : found d.connTable c = true
    · rw [if_pos h1] at h
      cases j with
      | zero =>
        simp only [List.getElem?_cons_zero, Option.some.injEq] at hc
        subst hc
        simp [h1]
      | succ j =>
        simp only [List.getElem?_cons_succ] at hc
        exact ih (start + 1) h j cid hc
    · rw [if_neg h1] at h
      by_cases h2 : found d.listTable c = true
      · rw [if_pos h2] at h
        cases j with
        | zero =>
          simp only [List.getElem?_cons_zero, Option.some.injEq] at hc
          subst hc
          simp [h2]
        | succ j =>
          simp only [List.getElem?_cons_succ] at hc
          exact ih (start + 1) h j cid hc
      · rw [if_neg h2] at h
        cases h

end Sockets

/-- C31: for every driver state and connection identity, `createSocket` returns the
smallest index whose slot is free (the identity stored there is bound neither in the
connection table nor in the listener table), or the length of the socket table when no
slot is free; the table keeps its length in the first case and is one longer in the second;
afterwards the slot returned holds the identity, every other slot is as before, and the
other fields of the driver are unchanged. -/
theorem createSocket_lowest_free_slot (d : tcp.Driver) (id : tcp.ConnID) :
    (((tcp.createSocket d id).2 < d.socketTable.length ∧
        freeSlot d (tcp.createSocket d id).2 ∧
        (tcp.createSocket d id).1.socketTable.length = d.socketTable.length) ∨
      ((tcp.createSocket d id).2 = d.socketTable.length ∧
        (tcp.createSocket d id).1.socketTable.length = d.socketTable.length + 1)) ∧
    (∀ j, j < (tcp.createSocket d id).2 → ¬ freeSlot d j) ∧
    (tcp.createSocket d id).1.socketTable[(tcp.createSocket d id).2]? = some id ∧
    (∀ j, j ≠ (tcp.createSocket d id).2 →
      (tcp.createSocket d id).1.socketTable[j]? = d.socketTable[j]?) ∧
    (tcp.createSocket d id).1.connTable = d.connTable ∧
    (tcp.createSocket d id).1.listTable = d.listTable ∧
    (tcp.createSocket d id).1.nextPort = d.nextPort := by
  cases h : tcp.createSocketLoop d d.socketTable 0 with
  | none =>
    have hn := createSocketLoop_none d d.socketTable 0 h
    have hcs : tcp.createSocket d id =
        ({ d with socketTable := d.socketTable ++ [id] }, d.socketTable.length) := by
      unfold tcp.createSocket
      rw [h]
    rw [hcs]
    refine ⟨Or.inr ⟨rfl, by simp⟩, ?_, by simp, ?_, rfl, rfl, rfl⟩
    · rintro j - ⟨cid, hc, hf⟩
      exact hn j cid hc hf
    · intro j hj
      by_cases hlt : j < d.socketTable.length
      · rw [List.getElem?_append_left hlt]
      · have h1 : (d.socketTable ++ [id])[j]? = none := by
          apply List.getElem?_eq_none
          simp only [List.length_append, List.length_singleton]
          omega
        have h2 : d.socketTable[j]? = none := List.getElem?_eq_none (by omega)
        rw [h1, h2]
  | some sk =>
    obtain ⟨-, g2, g3, g4⟩ := createSocketLoop_some d d.socketTable 0 sk h
    simp only [Nat.sub_zero] at g2 g3 g4
    have hcs : tcp.createSocket d id =
        ({ d with socketTable := d.socketTable.set sk id }, sk) := by
      unfold tcp.createSocket
      rw [h]
    rw [hcs]
    refine ⟨Or.inl ⟨g2, g3, by simp⟩, ?_, ?_, ?_, rfl, rfl, rfl⟩
    · rintro j hj ⟨cid, hc, hf⟩
      exact g4 j hj cid hc hf
    · simp [List.getElem?_set, g2]
    · intro j hj
      have hne : ¬ sk = j := fun h => hj h.symm
      simp [List.getElem?_set, hne]

/-- C32, the code at the failing input: handlers are registered for the protocols 0, 1, 6
and 200; a datagram with a valid header checksum, protocol 17 and destination 10.0.0.1, an
address of the node, arrives on the enabled interface 0.  The receive loop reaches the call
`node.Handlers[17](node, packet, interfNum)`, the map read gives a nil func, and the call
faults: the iteration has no result. -/
theorem unregistered_protocol_call_faults :
    (ip.Deserialize
        [69, 0, 0, 24, 0, 0, 0, 0, 16, 17, 150, 211, 10, 0, 0, 2, 10, 0, 0, 1,
          1, 2, 3, 4]).bind ip.VerifyIPChecksum = some true ∧
    ip.handleUDPListen
        ⟨[⟨5001, [10, 0, 0, 1], [10, 0, 0, 2], true⟩],
          [(⟨0x0A000001, 0xFFFFFFFF⟩, ⟨some 0, 0, none⟩)], false⟩
        [69, 0, 0, 24, 0, 0, 0, 0, 16, 17, 150, 211, 10, 0, 0, 2, 10, 0, 0, 1, 1, 2, 3, 4]
        5001 =
      some (ip.Receipt.handled 17
        ⟨⟨4, 5, 0, 24, 0, 0, 16, 17, 38611, [10, 0, 0, 2], [10, 0, 0, 1], []⟩, [1, 2, 3, 4]⟩
        0) ∧
    ip.callHandler [0, 1, 6, 200] 17 = none ∧
    ip.receiveDatagram
        ⟨[⟨5001, [10, 0, 0, 1], [10, 0, 0, 2], true⟩],
          [(⟨0x0A000001, 0xFFFFFFFF⟩, ⟨some 0, 0, none⟩)], false⟩
        [0, 1, 6, 200]
        [69, 0, 0, 24, 0, 0, 0, 0, 16, 17, 150, 211, 10, 0, 0, 2, 10, 0, 0, 1, 1, 2, 3, 4]
        5001 = none := by
  decide

/-- C33, the code at the failing input: the buffer `NewCircBuff(16, 0)` holds the
out-of-order records (8, 1) and (12, 1) and the segment (4, two bytes) is pushed.  It is
accepted, and the record (4, 2) goes before (8, 1) through the nested append, whose inner
call writes it over the record (8, 1) in the shared backing array: the list is
(4, 2), (4, 2), (12, 1), one record longer, with (8, 1) no longer in it. -/
theorem PushData_insert_overwrites_next_fragment :
    tcp.PushData
        ⟨16, [0, 0, 0, 0, 0, 0, 0, 0, 9, 0, 0, 0, 7, 0, 0, 0], 0, 0, [⟨8, 1⟩, ⟨12, 1⟩],
          false, 0, false⟩ 4 [1, 2] =
      some (⟨16, [0, 0, 0, 0, 1, 2, 0, 0, 9, 0, 0, 0, 7, 0, 0, 0], 0, 0,
        [⟨4, 2⟩, ⟨4, 2⟩, ⟨12, 1⟩], false, 0, false⟩, true, false) ∧
    tcp.insertLoop ⟨4, 2⟩ [] [⟨8, 1⟩, ⟨12, 1⟩] ≠ [⟨4, 2⟩, ⟨8, 1⟩, ⟨12, 1⟩] ∧
    (⟨8, 1⟩ : tcp.fragment) ∉ tcp.insertLoop ⟨4, 2⟩ [] [⟨8, 1⟩, ⟨12, 1⟩] := by
  decide

/-- C34, the code at the failing input: `remoteAckNum` is 0, `seqNum` is 100, and a
segment arrives with ack number 500 and window 7.  500 is not in the modular interval
(0, 100], but the test starts with `currAckNum == 0` and the segment's ack number and
window are stored. -/
theorem ack_advance_unconditional_at_zero :
    ¬ ackInWindow 0 500 100 ∧
    (tcp.trackAcks
        ⟨[10, 0, 0, 1], 1024, [10, 0, 0, 2], 80, .S_ESTABLISHED, false, [], 100, 32768, 0,
          0, none, true, true, []⟩
        ⟨80, [10, 0, 0, 2], 1024, [10, 0, 0, 1], 5001, 500, 5, 16, 7, 0, 0, [], []⟩).1 =
      ⟨[10, 0, 0, 1], 1024, [10, 0, 0, 2], 80, .S_ESTABLISHED, false, [], 100, 7, 500,
        0, none, true, true, []⟩ := by
  decide

/-- C36, the code at the failing input: the table holds the local route 10.0.0.1/32 and
the learned route 10.0.1.0/24 (interface 0, cost 5); a RIP response arrives on interface 0
with the one entry (cost 1, address 10.0.1.5, mask 255.255.255.0).  `RIPEntryToRoute` keeps
the address as it is, the entry matches 10.0.1.0/24 and is cheaper, and the new route is
stored under the key (10.0.1.5, /24): afterwards two keys denote the prefix 10.0.1.0/24. -/
theorem RIPHandler_second_key_for_prefix :
    onePerPrefix
      [(⟨0x0A000001, 0xFFFFFFFF⟩, ⟨some 0, 0, none⟩),
        (⟨0x0A000100, 0xFFFFFF00⟩, ⟨some 0, 5, some ⟨⟨0x0A000100, 0xFFFFFF00⟩, true⟩⟩)] ∧
    (ip.RIPHandler
        ⟨[⟨5001, [10, 0, 0, 1], [10, 0, 0, 2], true⟩],
          [(⟨0x0A000001, 0xFFFFFFFF⟩, ⟨some 0, 0, none⟩),
            (⟨0x0A000100, 0xFFFFFF00⟩, ⟨some 0, 5, some ⟨⟨0x0A000100, 0xFFFFFF00⟩, true⟩⟩)],
          false⟩
        ⟨⟨4, 5, 0, 36, 0, 0, 16, 200, 0, [10, 0, 0, 2], [10, 0, 0, 1], []⟩,
          [0, 2, 0, 1, 0, 0, 0, 1, 10, 0, 1, 5, 255, 255, 255, 0]⟩ 0).map
        (fun r => (r.1.RoutingTable, r.2.2)) =
      some ([(⟨0x0A000001, 0xFFFFFFFF⟩, ⟨some 0, 0, none⟩),
          (⟨0x0A000100, 0xFFFFFF00⟩, ⟨some 0, 5, some ⟨⟨0x0A000100, 0xFFFFFF00⟩, false⟩⟩),
          (⟨0x0A000105, 0xFFFFFF00⟩, ⟨some 0, 2, some ⟨⟨0x0A000105, 0xFFFFFF00⟩, true⟩⟩)],
        false) ∧
    ¬ onePerPrefix
      [(⟨0x0A000001, 0xFFFFFFFF⟩, ⟨some 0, 0, none⟩),
        (⟨0x0A000100, 0xFFFFFF00⟩, ⟨some 0, 5, some ⟨⟨0x0A000100, 0xFFFFFF00⟩, false⟩⟩),
        (⟨0x0A000105, 0xFFFFFF00⟩, ⟨some 0, 2, some ⟨⟨0x0A000105, 0xFFFFFF00⟩, true⟩⟩)] := by
  decide

set_option maxRecDepth 1000000 in
/-- C37, the code at the failing input: a response with the 65 entries
(cost 1, 10.0.k.0, 255.255.255.0), k = 0..64.  `SerializeRIPData` writes the count 65 and
then 64 records, 4 + 12 * 64 = 772 bytes, and `DeserializeRIPData` answers its own output
with the error for too many entries. -/
theorem SerializeRIPData_count_exceeds_records :
    (ip.SerializeRIPData
        ⟨2, (List.range 65).map (fun k => ⟨1, [10, 0, k, 0], [255, 255, 255, 0]⟩)⟩).map
        (fun b => (b.length, b.take 4)) = some (772, [0, 2, 0, 65]) ∧
    ((ip.SerializeRIPData
        ⟨2, (List.range 65).map (fun k => ⟨1, [10, 0, k, 0], [255, 255, 255, 0]⟩)⟩).bind
        ip.DeserializeRIPData).map
        (fun r => match r with
          | .error _ => true
          | .ok _ => false) = some true := by
  decide

/-- C40, the code at the failing input: a datagram of 20 bytes whose first byte is 0x4f,
header length 15.  It is deserialized, and `IPChecksum` then takes the first 60 bytes of
the 20 bytes that `Serialize` returns: the slice expression is out of range and faults,
also with the 12 bytes of spare capacity that `append` leaves behind a 20-byte buffer, and
so does the iteration of the receive loop. -/
theorem header_length_15_slice_out_of_range :
    (ip.Deserialize
        [0x4F, 0, 0, 20, 0, 0, 0, 0, 16, 17, 0, 0, 10, 0, 0, 2, 10, 0, 0, 1]).map
        (fun q => (q.Header.HeaderLength, (ip.Serialize q).map List.length)) =
      some (15, some 20) ∧
    (ip.Deserialize
        [0x4F, 0, 0, 20, 0, 0, 0, 0, 16, 17, 0, 0, 10, 0, 0, 2, 10, 0, 0, 1]).map
        ip.VerifyIPChecksum = some none ∧
    (ip.Deserialize
        [0x4F, 0, 0, 20, 0, 0, 0, 0, 16, 17, 0, 0, 10, 0, 0, 2, 10, 0, 0, 1]).map
        (fun q => ip.IPChecksumSpare q (List.replicate 12 0)) = some none ∧
    ip.handleUDPListen
        ⟨[⟨5001, [10, 0, 0, 1], [10, 0, 0, 2], true⟩],
          [(⟨0x0A000001, 0xFFFFFFFF⟩, ⟨some 0, 0, none⟩)], false⟩
        [0x4F, 0, 0, 20, 0, 0, 0, 0, 16, 17, 0, 0, 10, 0, 0, 2, 10, 0, 0, 1] 5001 = none := by
  decide

section AckWindow

open tcp

theorem ackAdvance_iff_window (currAck ack sendSeq : Nat) (hc : currAck < 4294967296)
    (ha : ack < 4294967296) (hs : sendSeq < 4294967296) (h0 : currAck ≠ 0) :
    (currAck = 0 ∨ (currAck < ack ∧ ack ≤ sendSeq) ∨
      (sendSeq < currAck ∧ ¬ (sendSeq < ack ∧ ack ≤ currAck))) ↔
      ackInWindow currAck ack sendSeq := by
  unfold ackInWindow sub32
  constructor
  · rintro (h | h | h)
    · exact absurd h h0
    · omega
    · omega
  · intro h
    by_cases h1 : currAck < ack ∧ ack ≤ sendSeq
    · exact Or.inr (Or.inl h1)
    · right
      right
      omega

end AckWindow

/-- C38: one wake of the retransmit worker on a sent buffer that starts with records that
are all acked, followed by an unacked record `u` and the records `rest`, leaves the buffer
`rest` followed by `u` with its `retried` count incremented (uint32), and hands exactly the
segment of `u` to the network; on the acked records alone it leaves the buffer empty and
sends nothing; and every unacked record of the buffer other than `u` is still in it. -/
theorem retransmitWake_rotates_first_unacked (acked rest : List tcp.Retransmitter)
    (u : tcp.Retransmitter) (hacked : ∀ a ∈ acked, a.acked = true) (hu : u.acked = false) :
    tcp.retransmitWake (acked ++ u :: rest) =
      (rest ++ [{ u with retried := tcp.add32 u.retried 1 }], [tcp.Effect.send u.pkt]) ∧
    tcp.retransmitWake acked = ([], []) ∧
    ∀ rt ∈ acked ++ u :: rest, rt.acked = false →
      rt = u ∨ rt ∈ (tcp.retransmitWake (acked ++ u :: rest)).1 := by
  have h1 : tcp.retransmitWake (acked ++ u :: rest) =
      (rest ++ [{ u with retried := tcp.add32 u.retried 1 }], [tcp.Effect.send u.pkt]) := by
    induction acked with
    | nil => simp [tcp.retransmitWake, hu]
    | cons a tl ih =>
      have ha : a.acked = true := hacked a (by simp)
      simp only [List.cons_append, tcp.retransmitWake, ha, Bool.true_eq_false, if_false]
      exact ih (fun x hx => hacked x (by simp [hx]))
  have h2 : tcp.retransmitWake acked = ([], []) := by
    clear h1
    induction acked with
    | nil => rfl
    | cons a tl ih =>
      have ha : a.acked = true := hacked a (by simp)
      simp only [tcp.retransmitWake, ha, Bool.true_eq_false, if_false]
      exact ih (fun x hx => hacked x (by simp [hx]))
  refine ⟨h1, h2, ?_⟩
  intro rt hrt hna
  rw [h1]
  rcases List.mem_append.mp hrt with h | h
  · have := hacked rt h
    rw [this] at hna
    cases hna
  · rcases List.mem_cons.mp h with h | h
    · exact Or.inl h
    · exact Or.inr (List.mem_append_left _ h)

/-- Witness for C38: an acked record, an unacked record at 1010 and an unacked record at
1020. -/
theorem retransmitWake_rotates_first_unacked_witness :
    tcp.retransmitWake
        [⟨⟨1024, [10, 0, 0, 1], 80, [10, 0, 0, 2], 1000, 0, 5, 16, 0, 0, 0, [], [1]⟩,
            1000, 1, 0, true⟩,
          ⟨⟨1024, [10, 0, 0, 1], 80, [10, 0, 0, 2], 1010, 0, 5, 16, 0, 0, 0, [], [2]⟩,
            1010, 1, 0, false⟩,
          ⟨⟨1024, [10, 0, 0, 1], 80, [10, 0, 0, 2], 1020, 0, 5, 16, 0, 0, 0, [], [3]⟩,
            1020, 1, 0, false⟩] =
      ([⟨⟨1024, [10, 0, 0, 1], 80, [10, 0, 0, 2], 1020, 0, 5, 16, 0, 0, 0, [], [3]⟩,
            1020, 1, 0, false⟩,
          ⟨⟨1024, [10, 0, 0, 1], 80, [10, 0, 0, 2], 1010, 0, 5, 16, 0, 0, 0, [], [2]⟩,
            1010, 1, 1, false⟩],
        [tcp.Effect.send
          ⟨1024, [10, 0, 0, 1], 80, [10, 0, 0, 2], 1010, 0, 5, 16, 0, 0, 0, [], [2]⟩]) :=
  (retransmitWake_rotates_first_unacked
    [⟨⟨1024, [10, 0, 0, 1], 80, [10, 0, 0, 2], 1000, 0, 5, 16, 0, 0, 0, [], [1]⟩,
      1000, 1, 0, true⟩]
    [⟨⟨1024, [10, 0, 0, 1], 80, [10, 0, 0, 2], 1020, 0, 5, 16, 0, 0, 0, [], [3]⟩,
      1020, 1, 0, false⟩]
    ⟨⟨1024, [10, 0, 0, 1], 80, [10, 0, 0, 2], 1010, 0, 5, 16, 0, 0, 0, [], [2]⟩,
      1010, 1, 0, false⟩
    (by decide) rfl).1

/-- C39, the code at the failing input: a segment of 10 bytes at sequence number 1000 is
sent at 1700000000 s after the Unix epoch and its record is made by `initiateRto`, which
does not set `sent`; the segment is acknowledged 5 ms later with ack number 1010, never
retransmitted.  The sample given to `AddPoint` is `time.Since` of the zero time, the
largest `Duration` (9223372036854775807 ns, about 292 years), whatever the time of the
acknowledgement, and not the 5000000 ns that passed. -/
theorem first_ack_sample_is_since_zero_time :
    (1700000000005000000 : Int) - 1700000000000000000 = 5000000 ∧
    tcp.ackSamples
        [tcp.newSentRecord
          ⟨1024, [10, 0, 0, 1], 80, [10, 0, 0, 2], 1000, 0, 5, 16, 0, 0, 0, [],
            [0, 1, 2, 3, 4, 5, 6, 7, 8, 9]⟩]
        1010 1700000000005000000 =
      ([⟨1000, 10, 0, tcp.zeroTime, true⟩], [9223372036854775807]) ∧
    ∀ t1 : Nat,
      (tcp.ackSamples
        [tcp.newSentRecord
          ⟨1024, [10, 0, 0, 1], 80, [10, 0, 0, 2], 1000, 0, 5, 16, 0, 0, 0, [],
            [0, 1, 2, 3, 4, 5, 6, 7, 8, 9]⟩]
        1010 (t1 : Int)).2 = [9223372036854775807] := by
  refine ⟨by decide, by decide, ?_⟩
  intro t1
  have h : tcp.timeSub (t1 : Int) tcp.zeroTime = 9223372036854775807 := by
    unfold tcp.timeSub tcp.zeroTime
    rw [if_pos (by omega)]
  have h2 : tcp.add32 1000 10 ≤ 1010 := by decide
  simp only [tcp.ackSamples, tcp.newSentRecord, List.length_cons, List.length_nil, h]
  simp [h2]

/-- C35, the code at two inputs with the siblings 10.0.0.0/24 and 10.0.1.0/24 and the
parent 10.0.0.0/23 all on interface 1.  With the siblings at cost 3 and the parent at
cost 2, the parent is replaced by an entry of cost 3 and the siblings are deleted, although
the siblings' cost is neither lower than nor equal to the parent's.  With all three at cost
2 nothing is changed. -/
theorem AggregateRoutes_replaces_cheaper_parent :
    (ip.AggregateRoutes
      ⟨[], [(⟨0x0A000000, 0xFFFFFF00⟩, ⟨some 1, 3, some ⟨⟨0x0A000000, 0xFFFFFF00⟩, true⟩⟩),
          (⟨0x0A000100, 0xFFFFFF00⟩, ⟨some 1, 3, some ⟨⟨0x0A000100, 0xFFFFFF00⟩, true⟩⟩),
          (⟨0x0A000000, 0xFFFFFE00⟩, ⟨some 1, 2, some ⟨⟨0x0A000000, 0xFFFFFE00⟩, true⟩⟩)],
        true⟩
      [⟨3, [10, 0, 0, 0], [255, 255, 255, 0]⟩]).map (fun r => r.1.RoutingTable) =
      some [(⟨0x0A000000, 0xFFFFFE00⟩,
        ⟨some 1, 3, some ⟨⟨0x0A000000, 0xFFFFFE00⟩, true⟩⟩)] ∧
    (ip.AggregateRoutes
      ⟨[], [(⟨0x0A000000, 0xFFFFFF00⟩, ⟨some 1, 2, some ⟨⟨0x0A000000, 0xFFFFFF00⟩, true⟩⟩),
          (⟨0x0A000100, 0xFFFFFF00⟩, ⟨some 1, 2, some ⟨⟨0x0A000100, 0xFFFFFF00⟩, true⟩⟩),
          (⟨0x0A000000, 0xFFFFFE00⟩, ⟨some 1, 2, some ⟨⟨0x0A000000, 0xFFFFFE00⟩, true⟩⟩)],
        true⟩
      [⟨2, [10, 0, 0, 0], [255, 255, 255, 0]⟩]).map (fun r => r.1.RoutingTable) =
      some [(⟨0x0A000000, 0xFFFFFF00⟩, ⟨some 1, 2, some ⟨⟨0x0A000000, 0xFFFFFF00⟩, true⟩⟩),
        (⟨0x0A000100, 0xFFFFFF00⟩, ⟨some 1, 2, some ⟨⟨0x0A000100, 0xFFFFFF00⟩, true⟩⟩),
        (⟨0x0A000000, 0xFFFFFE00⟩, ⟨some 1, 2, some ⟨⟨0x0A000000, 0xFFFFFE00⟩, true⟩⟩)] := by
  decide

/-- C35, amended: when the route of a diff entry and its sibling are in the table with the
same (interface, cost) and the parent prefix has an entry (with its timer), one pass of the
loop of `AggregateRoutes` replaces the parent entry by one with the siblings' interface
and cost and deletes the siblings exactly when the cost of the diff entry is strictly
lower than the parent's cost, or strictly greater with the siblings on the parent's
interface; in every other case, equal cost included, the table is left as it is and
nothing is queued. -/
theorem aggregateEntry_parent_rule (node : ip.Node) (entry : ip.RIPEntry) (A : ip.Route)
    (cur sib par : ip.Entry)
    (hA : ip.RIPEntryToRoute entry = some A)
    (hcur : ip.tableGet node.RoutingTable A = some cur)
    (hsib : ip.tableGet node.RoutingTable (ip.getSibling A) = some sib)
    (hsame : sib.Cost = cur.Cost ∧ sib.Interface = cur.Interface)
    (hpar : ip.tableGet node.RoutingTable (parentRoute A) = some par)
    (htimer : par.Death ≠ none) :
    ip.aggregateEntry node entry =
      if entry.Cost < par.Cost ∨ (entry.Cost > par.Cost ∧ cur.Interface = par.Interface) then
        some ({ node with
            RoutingTable :=
              ip.tableDelete (ip.tableDelete
                (ip.tableSet node.RoutingTable (parentRoute A)
                  ⟨cur.Interface, cur.Cost, some ⟨parentRoute A, true⟩⟩)
                (ip.getSibling A)) A },
          some (ip.EntryToRIPEntry (parentRoute A)
            ⟨cur.Interface, cur.Cost, some ⟨parentRoute A, true⟩⟩))
      else some (node, none) := by
  obtain ⟨h1, h2⟩ := RIPEntryToRoute_fields entry A hA
  have hpar2 : ip.tableGet node.RoutingTable
      ⟨A.Addr &&& ((A.Mask <<< 1) % 4294967296), (A.Mask <<< 1) % 4294967296⟩ = some par := hpar
  obtain ⟨timer, ht⟩ : ∃ timer, par.Death = some timer := by
    cases hd : par.Death with
    | none => exact absurd hd htimer
    | some timer => exact ⟨timer, rfl⟩
  by_cases hc : entry.Cost < par.Cost ∨ (entry.Cost > par.Cost ∧ cur.Interface = par.Interface)
  · rw [if_pos hc]
    simp only [ip.aggregateEntry, hA, hcur, hsib, hsame, h1, h2, hpar2, and_self, if_true,
      Option.bind_eq_bind, Option.some_bind, Option.pure_def, parentRoute, ip.replacesParent,
      if_pos hc, ht, Option.map_some']
  · rw [if_neg hc]
    simp only [ip.aggregateEntry, hA, hcur, hsib, hsame, h1, h2, hpar2, and_self, if_true,
      Option.bind_eq_bind, Option.some_bind, Option.pure_def, ip.replacesParent,
      if_neg hc, Bool.false_eq_true, if_false]

/-- Witness for C35 (amended): the siblings at cost 1 and the parent at cost 2 on another
interface; the parent is replaced. -/
theorem aggregateEntry_parent_rule_witness :
    ip.aggregateEntry
        ⟨[], [(⟨0x0A000000, 0xFFFFFF00⟩, ⟨some 1, 1, some ⟨⟨0x0A000000, 0xFFFFFF00⟩, true⟩⟩),
            (⟨0x0A000100, 0xFFFFFF00⟩, ⟨some 1, 1, some ⟨⟨0x0A000100, 0xFFFFFF00⟩, true⟩⟩),
            (⟨0x0A000000, 0xFFFFFE00⟩, ⟨some 0, 2, some ⟨⟨0x0A000000, 0xFFFFFE00⟩, true⟩⟩)],
          true⟩
        ⟨1, [10, 0, 0, 0], [255, 255, 255, 0]⟩ =
      some (⟨[], [(⟨0x0A000000, 0xFFFFFE00⟩,
            ⟨some 1, 1, some ⟨⟨0x0A000000, 0xFFFFFE00⟩, true⟩⟩)], true⟩,
        some ⟨1, [10, 0, 0, 0], [255, 255, 254, 0]⟩) :=
  (aggregateEntry_parent_rule
    ⟨[], [(⟨0x0A000000, 0xFFFFFF00⟩, ⟨some 1, 1, some ⟨⟨0x0A000000, 0xFFFFFF00⟩, true⟩⟩),
        (⟨0x0A000100, 0xFFFFFF00⟩, ⟨some 1, 1, some ⟨⟨0x0A000100, 0xFFFFFF00⟩, true⟩⟩),
        (⟨0x0A000000, 0xFFFFFE00⟩, ⟨some 0, 2, some ⟨⟨0x0A000000, 0xFFFFFE00⟩, true⟩⟩)],
      true⟩
    ⟨1, [10, 0, 0, 0], [255, 255, 255, 0]⟩ ⟨0x0A000000, 0xFFFFFF00⟩
    ⟨some 1, 1, some ⟨⟨0x0A000000, 0xFFFFFF00⟩, true⟩⟩
    ⟨some 1, 1, some ⟨⟨0x0A000100, 0xFFFFFF00⟩, true⟩⟩
    ⟨some 0, 2, some ⟨⟨0x0A000000, 0xFFFFFE00⟩, true⟩⟩
    (by decide) (by decide) (by decide) ⟨rfl, rfl⟩ (by decide) (by decide)).trans (by decide)

end Netstack
